import Mathlib

/-!
WeaR Lang stage-0 bootstrap compiler

A shallow embedding of `src/archive/stage0_bootstrap/wear_bootstrap.cpp`:
the scanner (`Lexer`) and the fused parser/emitter (`CodeGenerator`), followed
by statements about them.

Conventions of the embedding.

* A `std::string` source is a `List Char` (one `Char` per byte); `std::isdigit`,
  `std::isalpha` and `std::isalnum` are the ASCII classifications of the C
  locale.  Token lexemes and emitted code are `String`s.
* The pair `(source, pos)` of the `Lexer` is kept as the unread suffix
  `source[pos..]`; `pos++` is `List.tail`.  In the same way the pair
  `(tokens, pos)` of the `CodeGenerator` is kept as the unread suffix of the
  token vector together with `tokens.back()`, which `current()` returns past the
  end.
* The counters `line` and `column` of the scanner are `int`s: integers kept in
  the 32-bit range, every increment reduced by `toInt32`.  This is the
  two's-complement wrap-around the compiled program shows; the language
  standard leaves the overflow of an `int` undefined.  The counters
  `indentLevel` and `parenDepth` of the translator are integers that are not
  reduced: they follow the code for nestings below 2^31.
* `varTypes` is a function from names to optional kinds, `declaredFunctions` a
  list without duplicates.
* `std::exit(1)` after a diagnostic is the outcome `Result.exit line column
  message`.  The recursive translator functions take a fuel argument that
  bounds the depth of calls and the number of loop iterations; running out of
  it is the separate outcome `Result.diverge`.  An outcome other than
  `Result.diverge` is the same for every larger fuel (section "Fuel
  monotonicity").
* The loops of the scanner consume at least one character per iteration, so
  they are bounded by the length of the unread suffix; the bound is never what
  ends them (section "Lemmas on the scanner").
-/

namespace WeaR

/-! ## Tokens -/

inductive TokenType where
  | VAR | CETAK | SELAMA | JIKA | LAINNYA | FUNGSI | KEMBALIKAN
  | BACA_FILE | TULIS_FILE | SAMA | PANJANG | CHAR_AT
  | IS_QUOTE | QUOTE_CHAR | IS_NEWLINE | NEWLINE_CHAR
  | INTEGER | STRING | IDENTIFIER
  | PLUS | MINUS | STAR | SLASH | EQUAL | LESS | GREATER
  | LESS_EQUAL | GREATER_EQUAL | EQUAL_EQUAL | NOT_EQUAL
  | LPAREN | RPAREN | LBRACE | RBRACE | LBRACKET | RBRACKET
  | SEMICOLON | COMMA | NEWLINE
  | END_OF_FILE | UNKNOWN
  deriving DecidableEq, Repr

structure Token where
  type : TokenType
  value : String
  line : Int
  column : Int
  deriving DecidableEq, Repr

/-! ## Characters with a special role -/

/-- The character `\0`, which `current()` also returns past the end. -/
def NUL : Char := Char.ofNat 0
/-- The line feed character. -/
def LF : Char := Char.ofNat 10
/-- The horizontal tab character. -/
def TAB : Char := Char.ofNat 9
/-- The carriage return character. -/
def CR : Char := Char.ofNat 13
/-- The double quote character. -/
def DQUOTE : Char := Char.ofNat 34
/-- The backslash character. -/
def BACKSLASH : Char := Char.ofNat 92

/-! ## Machine integers -/

/-- The value of the conversion `(int)` applied to a mathematical integer, for
the 32-bit two's-complement `int` of the C compilers the program is built
with: the value is reduced modulo 2^32 into the range from -2^31 to 2^31 - 1.
An increment `n++` of an `int` counter is `toInt32 (n + 1)`. -/
def toInt32 (n : Int) : Int :=
  (n + 2 ^ 31) % 2 ^ 32 - 2 ^ 31

/-! ## Lexer -/

structure Lexer where
  rest : List Char
  line : Int
  column : Int
  deriving DecidableEq, Repr

/-- The keyword table filled by the constructor of `Lexer`. -/
def keywordTable : List (String × TokenType) :=
  [ ("var", .VAR), ("cetak", .CETAK), ("selama", .SELAMA), ("jika", .JIKA),
    ("lainnya", .LAINNYA), ("fungsi", .FUNGSI), ("kembalikan", .KEMBALIKAN),
    ("baca_file", .BACA_FILE), ("tulis_file", .TULIS_FILE),
    ("print", .CETAK), ("while", .SELAMA), ("if", .JIKA), ("else", .LAINNYA),
    ("function", .FUNGSI), ("return", .KEMBALIKAN), ("read_file", .BACA_FILE),
    ("write_file", .TULIS_FILE), ("sama", .SAMA), ("panjang", .PANJANG),
    ("char_at", .CHAR_AT), ("is_quote", .IS_QUOTE), ("quote_char", .QUOTE_CHAR),
    ("is_newline", .IS_NEWLINE), ("newline_char", .NEWLINE_CHAR),
    ("streq", .SAMA), ("strlen", .PANJANG) ]

/-- The lookup `keywords.find(value)`. -/
def keywords (value : String) : Option TokenType :=
  keywordTable.lookup value

namespace Lexer

def current (lx : Lexer) : Char :=
  match lx.rest with
  | [] => NUL
  | c :: _ => c

def peek (lx : Lexer) : Char :=
  match lx.rest with
  | _ :: c :: _ => c
  | _ => NUL

/-- The function `advance()`: `line++; column = 1;` at a newline character,
`column++` at every other one, on the `int` counters, then `pos++`. -/
def advance (lx : Lexer) : Lexer :=
  if lx.current = LF then
    { rest := lx.rest.tail, line := toInt32 (lx.line + 1), column := 1 }
  else
    { rest := lx.rest.tail, line := lx.line, column := toInt32 (lx.column + 1) }

def skipWhitespaceLoop : Nat → Lexer → Lexer
  | 0, lx => lx
  | n + 1, lx =>
    if lx.current = ' ' ∨ lx.current = TAB ∨ lx.current = CR then
      skipWhitespaceLoop n lx.advance
    else lx

def skipWhitespace (lx : Lexer) : Lexer :=
  skipWhitespaceLoop lx.rest.length lx

def skipLineCommentLoop : Nat → Lexer → Lexer
  | 0, lx => lx
  | n + 1, lx =>
    if lx.current ≠ LF ∧ lx.current ≠ NUL then
      skipLineCommentLoop n lx.advance
    else lx

def skipLineComment (lx : Lexer) : Lexer :=
  skipLineCommentLoop lx.rest.length lx

def scanStringLoop : Nat → Lexer → String → Lexer × String
  | 0, lx, value => (lx, value)
  | n + 1, lx, value =>
    if lx.current ≠ DQUOTE ∧ lx.current ≠ NUL then
      if lx.current = BACKSLASH ∧ lx.peek = DQUOTE then
        scanStringLoop n lx.advance (value.push DQUOTE)
      else if lx.current = BACKSLASH ∧ lx.peek = 'n' then
        scanStringLoop n lx.advance.advance (value ++ "\\n")
      else
        scanStringLoop n lx.advance (value.push lx.current)
    else (lx, value)

def scanString (lx : Lexer) : Token × Lexer :=
  let startLine := lx.line
  let startCol := lx.column
  let lx1 := lx.advance
  let r := scanStringLoop lx1.rest.length lx1 ""
  let lx2 := if r.1.current = DQUOTE then r.1.advance else r.1
  (⟨.STRING, r.2, startLine, startCol⟩, lx2)

def scanNumberLoop : Nat → Lexer → String → Lexer × String
  | 0, lx, value => (lx, value)
  | n + 1, lx, value =>
    if lx.current.isDigit then
      scanNumberLoop n lx.advance (value.push lx.current)
    else (lx, value)

def scanNumber (lx : Lexer) : Token × Lexer :=
  let r := scanNumberLoop lx.rest.length lx ""
  (⟨.INTEGER, r.2, lx.line, lx.column⟩, r.1)

def scanIdentifierLoop : Nat → Lexer → String → Lexer × String
  | 0, lx, value => (lx, value)
  | n + 1, lx, value =>
    if lx.current.isAlphanum ∨ lx.current = '_' then
      scanIdentifierLoop n lx.advance (value.push lx.current)
    else (lx, value)

def scanIdentifier (lx : Lexer) : Token × Lexer :=
  let r := scanIdentifierLoop lx.rest.length lx ""
  match keywords r.2 with
  | some t => (⟨t, r.2, lx.line, lx.column⟩, r.1)
  | none => (⟨.IDENTIFIER, r.2, lx.line, lx.column⟩, r.1)

/-- A one-character operator or delimiter: push the token, then `advance()`. -/
def single (lx : Lexer) (t : TokenType) (s : String) : Token × Lexer :=
  (⟨t, s, lx.line, lx.column⟩, lx.advance)

/-- The operators `=`, `<`, `>`, `!`: `advance()`, then one character of
lookahead decides between the two-character token and the short one. -/
def double (lx : Lexer) (two : TokenType) (s2 : String) (one : TokenType) (s1 : String) :
    Token × Lexer :=
  let lx1 := lx.advance
  if lx1.current = '=' then (⟨two, s2, lx.line, lx.column⟩, lx1.advance)
  else (⟨one, s1, lx.line, lx.column⟩, lx1)

/-- The `switch (current())` of `tokenize`. -/
def scanOperator (lx : Lexer) : Token × Lexer :=
  let c := lx.current
  if c = '+' then single lx .PLUS "+"
  else if c = '-' then single lx .MINUS "-"
  else if c = '*' then single lx .STAR "*"
  else if c = '/' then single lx .SLASH "/"
  else if c = '=' then double lx .EQUAL_EQUAL "==" .EQUAL "="
  else if c = '<' then double lx .LESS_EQUAL "<=" .LESS "<"
  else if c = '>' then double lx .GREATER_EQUAL ">=" .GREATER ">"
  else if c = '!' then double lx .NOT_EQUAL "!=" .UNKNOWN "!"
  else if c = '(' then single lx .LPAREN "("
  else if c = ')' then single lx .RPAREN ")"
  else if c = Char.ofNat 123 then single lx .LBRACE "\x7b"
  else if c = Char.ofNat 125 then single lx .RBRACE "\x7d"
  else if c = '[' then single lx .LBRACKET "["
  else if c = ']' then single lx .RBRACKET "]"
  else if c = ';' then single lx .SEMICOLON ";"
  else if c = ',' then single lx .COMMA ","
  else single lx .UNKNOWN (String.singleton c)

/-- The main loop of `tokenize`; it returns the tokens pushed so far and the
scanner state at loop exit. -/
def tokenizeLoop : Nat → Lexer → List Token → List Token × Lexer
  | 0, lx, tokens => (tokens, lx)
  | n + 1, lx, tokens =>
    if lx.rest = [] then (tokens, lx)
    else
      let lx := lx.skipWhitespace
      if lx.current = NUL then (tokens, lx)
      else if lx.current = LF then
        tokenizeLoop n lx.advance (tokens ++ [⟨.NEWLINE, "\\n", lx.line, lx.column⟩])
      else if lx.current = '/' ∧ lx.peek = '/' then
        tokenizeLoop n lx.skipLineComment tokens
      else if lx.current = DQUOTE then
        tokenizeLoop n lx.scanString.2 (tokens ++ [lx.scanString.1])
      else if lx.current.isDigit then
        tokenizeLoop n lx.scanNumber.2 (tokens ++ [lx.scanNumber.1])
      else if lx.current.isAlpha ∨ lx.current = '_' then
        tokenizeLoop n lx.scanIdentifier.2 (tokens ++ [lx.scanIdentifier.1])
      else
        tokenizeLoop n lx.scanOperator.2 (tokens ++ [lx.scanOperator.1])

end Lexer

/-- The constructor `Lexer(src)` followed by `tokenize()`. -/
def tokenize (source : List Char) : List Token :=
  let r := Lexer.tokenizeLoop source.length ⟨source, 1, 1⟩ []
  r.1 ++ [⟨.END_OF_FILE, "", r.2.line, r.2.column⟩]


/-! ## Expression results -/

inductive ExprType where
  | INT | STRING | UNKNOWN
  deriving DecidableEq, Repr

structure ExprResult where
  code : String
  type : ExprType
  deriving DecidableEq, Repr

/-- One entry of the `parts` vector of `generateTypedExpression`. -/
abbrev Part := String × ExprType

/-! ## Outcomes -/

/-- The outcome of a translator function: a value, the diagnostic printed
before `std::exit(1)`, or no outcome within the given fuel. -/
inductive Result (α : Type) where
  | ok : α → Result α
  | exit : Int → Int → String → Result α
  | diverge : Result α
  deriving Repr, DecidableEq

namespace Result

def bind {α β : Type} (r : Result α) (f : α → Result β) : Result β :=
  match r with
  | .ok a => f a
  | .exit l c m => .exit l c m
  | .diverge => .diverge

def map {α β : Type} (f : α → β) (r : Result α) : Result β :=
  r.bind fun a => .ok (f a)

/-- The translation stopped with a syntax error. -/
def isExit {α : Type} : Result α → Bool
  | .exit _ _ _ => true
  | _ => false

/-- The translation returned. -/
def isOk {α : Type} : Result α → Bool
  | .ok _ => true
  | _ => false

end Result

/-! ## Code generator state -/

/-- The stream `currentOutput` points to. -/
inductive Output where
  | main | functions
  deriving DecidableEq, Repr

structure CodeGenerator where
  rest : List Token
  last : Token
  functionsOutput : String
  mainOutput : String
  currentOutput : Output
  indentLevel : Int
  inFunction : Bool
  declaredFunctions : List String
  varTypes : String → Option ExprType

namespace CodeGenerator

/-- The constructor `CodeGenerator(toks)`; `tokens.back()` of an empty vector
is undefined, the end-of-file token stands in for it. -/
def init (tokens : List Token) : CodeGenerator :=
  { rest := tokens
    last := tokens.getLast?.getD ⟨.END_OF_FILE, "", 1, 1⟩
    functionsOutput := ""
    mainOutput := ""
    currentOutput := .main
    indentLevel := 1
    inFunction := false
    declaredFunctions := []
    varTypes := fun _ => none }

def current (g : CodeGenerator) : Token :=
  match g.rest with
  | [] => g.last
  | t :: _ => t

def advance (g : CodeGenerator) : CodeGenerator :=
  { g with rest := g.rest.tail }

def check (g : CodeGenerator) (t : TokenType) : Bool :=
  g.current.type = t

/-- The function `match(type)`: the flag it returns and the state it leaves. -/
def matchToken (g : CodeGenerator) (t : TokenType) : Bool × CodeGenerator :=
  if g.check t then (true, g.advance) else (false, g)

def expect (g : CodeGenerator) (t : TokenType) (message : String) : Result CodeGenerator :=
  if (g.matchToken t).1 then .ok (g.matchToken t).2
  else .exit g.current.line g.current.column message

def indent (g : CodeGenerator) : String :=
  String.mk (List.replicate (g.indentLevel * 4).toNat ' ')

def emit (g : CodeGenerator) (code : String) : CodeGenerator :=
  match g.currentOutput with
  | .main => { g with mainOutput := g.mainOutput ++ code }
  | .functions => { g with functionsOutput := g.functionsOutput ++ code }

def emitLine (g : CodeGenerator) (code : String) : CodeGenerator :=
  g.emit (g.indent ++ code ++ "\n")

def isStringVar (g : CodeGenerator) (name : String) : Bool :=
  g.varTypes name = some .STRING

/-- The assignment `varTypes[name] = t`. -/
def setVarType (g : CodeGenerator) (name : String) (t : ExprType) : CodeGenerator :=
  { g with varTypes := fun k => if k = name then some t else g.varTypes k }

end CodeGenerator

/-! ## Expressions -/

/-- One step of the fold of `buildStringConcat`, on `(result, prevType)`. -/
def concatStep (acc : String × ExprType) (operand : Part) : String × ExprType :=
  let result := acc.1
  let prevType := acc.2
  let op := operand.1
  let opType := operand.2
  let result1 :=
    if prevType = .STRING ∧ opType = .STRING then
      "__wear_concat(" ++ result ++ ", " ++ op ++ ")"
    else if prevType = .STRING ∧ opType = .INT then
      "__wear_concat_str_int(" ++ result ++ ", " ++ op ++ ")"
    else if prevType = .INT ∧ opType = .STRING then
      "__wear_concat_int_str(" ++ result ++ ", " ++ op ++ ")"
    else
      "(" ++ result ++ " + " ++ op ++ ")"
  let prevType1 :=
    if prevType = .STRING ∨ opType = .STRING then ExprType.STRING else prevType
  (result1, prevType1)

def buildStringConcat (parts : List Part) : ExprResult :=
  let operands := parts.filter fun p => p.1 ≠ "+" ∧ p.1 ≠ " "
  match operands with
  | [] => ⟨"\"\"", .STRING⟩
  | [p] => ⟨p.1, p.2⟩
  | p :: ps => ⟨(ps.foldl concatStep (p.1, p.2)).1, .STRING⟩

/-- The tail of `generateTypedExpression`, after the scan loop has filled
`parts`. -/
def finishTypedExpression (parts : List Part) : ExprResult :=
  let hasString := parts.any fun p => p.2 = .STRING
  let hasPlus := parts.any fun p => p.1 = "+"
  if hasString ∧ hasPlus ∧ parts.length ≥ 3 then
    buildStringConcat parts
  else
    ⟨parts.foldl (fun result p => result ++ p.1) "",
     if parts.any (fun p => p.2 = .STRING) then .STRING else .INT⟩

/-- The stop conditions tested while `parenDepth == 0`. -/
def isStopToken (t : TokenType) : Bool :=
  t = .RPAREN ∨ t = .LBRACE ∨ t = .RBRACE ∨ t = .COMMA ∨ t = .SEMICOLON ∨ t = .NEWLINE

open CodeGenerator in
mutual

def generateTypedExpression : Nat → CodeGenerator → Result (ExprResult × CodeGenerator)
  | 0, _ => .diverge
  | fuel + 1, g =>
    (exprLoop fuel g [] 0).bind fun r => .ok (finishTypedExpression r.1, r.2)

/-- The scan loop of `generateTypedExpression`. -/
def exprLoop : Nat → CodeGenerator → List Part → Int → Result (List Part × CodeGenerator)
  | 0, _, _, _ => .diverge
  | fuel + 1, g, parts, parenDepth =>
    if g.check .END_OF_FILE then .ok (parts, g)
    else
      let tok := g.current
      if parenDepth = 0 ∧ isStopToken tok.type then .ok (parts, g)
      else
        match tok.type with
        | .STRING =>
          exprLoop fuel g.advance (parts ++ [("\"" ++ tok.value ++ "\"", .STRING)]) parenDepth
        | .INTEGER =>
          exprLoop fuel g.advance (parts ++ [(tok.value, .INT)]) parenDepth
        | .BACA_FILE =>
          (g.advance.expect .LPAREN "Expected '(' after 'baca_file'").bind fun g1 =>
          (generateTypedExpression fuel g1).bind fun arg =>
          (arg.2.expect .RPAREN "Expected ')'").bind fun g2 =>
          exprLoop fuel g2
            (parts ++ [("__wear_read_file(" ++ arg.1.code ++ ")", .STRING)]) parenDepth
        | .SAMA =>
          (g.advance.expect .LPAREN "Expected '(' after 'sama'").bind fun g1 =>
          (generateTypedExpression fuel g1).bind fun arg1 =>
          (arg1.2.expect .COMMA "Expected ',' between arguments").bind fun g2 =>
          (generateTypedExpression fuel g2).bind fun arg2 =>
          (arg2.2.expect .RPAREN "Expected ')'").bind fun g3 =>
          exprLoop fuel g3
            (parts ++ [("__wear_streq(" ++ arg1.1.code ++ ", " ++ arg2.1.code ++ ")", .INT)])
            parenDepth
        | .PANJANG =>
          (g.advance.expect .LPAREN "Expected '(' after 'panjang'").bind fun g1 =>
          (generateTypedExpression fuel g1).bind fun arg =>
          (arg.2.expect .RPAREN "Expected ')'").bind fun g2 =>
          exprLoop fuel g2
            (parts ++ [("__wear_strlen(" ++ arg.1.code ++ ")", .INT)]) parenDepth
        | .CHAR_AT =>
          (g.advance.expect .LPAREN "Expected '(' after 'char_at'").bind fun g1 =>
          (generateTypedExpression fuel g1).bind fun str =>
          (str.2.expect .COMMA "Expected ',' between arguments").bind fun g2 =>
          (generateTypedExpression fuel g2).bind fun idx =>
          (idx.2.expect .RPAREN "Expected ')'").bind fun g3 =>
          exprLoop fuel g3
            (parts ++ [("__wear_char_at(" ++ str.1.code ++ ", " ++ idx.1.code ++ ")", .STRING)])
            parenDepth
        | .IS_QUOTE =>
          (g.advance.expect .LPAREN "Expected '(' after 'is_quote'").bind fun g1 =>
          (generateTypedExpression fuel g1).bind fun arg =>
          (arg.2.expect .RPAREN "Expected ')'").bind fun g2 =>
          exprLoop fuel g2
            (parts ++ [("__wear_is_quote(" ++ arg.1.code ++ ")", .INT)]) parenDepth
        | .QUOTE_CHAR =>
          (g.advance.expect .LPAREN "Expected '(' after 'quote_char'").bind fun g1 =>
          (g1.expect .RPAREN "Expected ')'").bind fun g2 =>
          exprLoop fuel g2 (parts ++ [("__wear_quote_char()", .STRING)]) parenDepth
        | .IS_NEWLINE =>
          (g.advance.expect .LPAREN "Expected '(' after 'is_newline'").bind fun g1 =>
          (generateTypedExpression fuel g1).bind fun arg =>
          (arg.2.expect .RPAREN "Expected ')'").bind fun g2 =>
          exprLoop fuel g2
            (parts ++ [("__wear_is_newline(" ++ arg.1.code ++ ")", .INT)]) parenDepth
        | .NEWLINE_CHAR =>
          (g.advance.expect .LPAREN "Expected '(' after 'newline_char'").bind fun g1 =>
          (g1.expect .RPAREN "Expected ')'").bind fun g2 =>
          exprLoop fuel g2 (parts ++ [("__wear_newline_char()", .STRING)]) parenDepth
        | .IDENTIFIER =>
          let name := tok.value
          let g1 := g.advance
          if g1.check .LPAREN then
            (g1.expect .LPAREN "Expected '('").bind fun g2 =>
            (callArguments fuel g2 (name ++ "(") true).bind fun call =>
            (call.2.expect .RPAREN "Expected ')'").bind fun g3 =>
            exprLoop fuel g3 (parts ++ [(call.1 ++ ")", .INT)]) parenDepth
          else
            exprLoop fuel g1
              (parts ++ [(name, if g1.isStringVar name then .STRING else .INT)]) parenDepth
        | .PLUS => exprLoop fuel g.advance (parts ++ [("+", .UNKNOWN)]) parenDepth
        | .MINUS => exprLoop fuel g.advance (parts ++ [("-", .UNKNOWN)]) parenDepth
        | .STAR => exprLoop fuel g.advance (parts ++ [("*", .UNKNOWN)]) parenDepth
        | .SLASH => exprLoop fuel g.advance (parts ++ [("/", .UNKNOWN)]) parenDepth
        | .LESS => exprLoop fuel g.advance (parts ++ [("<", .UNKNOWN)]) parenDepth
        | .GREATER => exprLoop fuel g.advance (parts ++ [(">", .UNKNOWN)]) parenDepth
        | .LESS_EQUAL => exprLoop fuel g.advance (parts ++ [("<=", .UNKNOWN)]) parenDepth
        | .GREATER_EQUAL => exprLoop fuel g.advance (parts ++ [(">=", .UNKNOWN)]) parenDepth
        | .EQUAL_EQUAL => exprLoop fuel g.advance (parts ++ [("==", .UNKNOWN)]) parenDepth
        | .NOT_EQUAL => exprLoop fuel g.advance (parts ++ [("!=", .UNKNOWN)]) parenDepth
        | .LPAREN => exprLoop fuel g.advance (parts ++ [("(", .UNKNOWN)]) (parenDepth + 1)
        | .RPAREN => exprLoop fuel g.advance (parts ++ [(")", .UNKNOWN)]) (parenDepth - 1)
        | _ => .ok (parts, g)

/-- The argument loop of a call, `while (!check(RPAREN) && !check(END_OF_FILE))`,
on the text of `call` built so far and the flag `first`. -/
def callArguments : Nat → CodeGenerator → String → Bool → Result (String × CodeGenerator)
  | 0, _, _, _ => .diverge
  | fuel + 1, g, call, first =>
    if !g.check .RPAREN && !g.check .END_OF_FILE then
      (if !first then
        (g.expect .COMMA "Expected ','").bind fun g1 => .ok (call ++ ", ", g1)
       else .ok (call, g)).bind fun c =>
      (generateTypedExpression fuel c.2).bind fun arg =>
      callArguments fuel arg.2 (c.1 ++ arg.1.code) false
    else .ok (call, g)

end

/-- The condition translator: the code of the typed expression. -/
def generateExpression (fuel : Nat) (g : CodeGenerator) : Result (String × CodeGenerator) :=
  (generateTypedExpression fuel g).bind fun r => .ok (r.1.code, r.2)


/-! ## Statements -/

open CodeGenerator in
def generatePrint (fuel : Nat) (g : CodeGenerator) : Result CodeGenerator :=
  (generateTypedExpression fuel g.advance).bind fun expr =>
  if expr.1.type = .STRING then
    .ok (expr.2.emitLine ("__wear_print_str(" ++ expr.1.code ++ ");"))
  else
    .ok (expr.2.emitLine ("__wear_print_int(" ++ expr.1.code ++ ");"))

open CodeGenerator in
def generateVarDecl (fuel : Nat) (g : CodeGenerator) : Result CodeGenerator :=
  let g1 := g.advance
  let varName := g1.current.value
  let g2 := g1.advance
  (g2.expect .EQUAL "Expected '=' after variable name").bind fun g3 =>
  if g3.check .STRING then
    let value := g3.current.value
    let g4 := g3.advance
    .ok ((g4.emitLine ("char* " ++ varName ++ " = \"" ++ value ++ "\";")).setVarType
      varName .STRING)
  else if g3.check .BACA_FILE then
    (g3.advance.expect .LPAREN "Expected '(' after 'baca_file'").bind fun g4 =>
    (generateTypedExpression fuel g4).bind fun arg =>
    (arg.2.expect .RPAREN "Expected ')'").bind fun g5 =>
    .ok ((g5.emitLine ("char* " ++ varName ++ " = __wear_read_file(" ++ arg.1.code ++ ");")).setVarType
      varName .STRING)
  else
    (generateTypedExpression fuel g3).bind fun expr =>
    if expr.1.type = .STRING then
      .ok ((expr.2.emitLine ("char* " ++ varName ++ " = " ++ expr.1.code ++ ";")).setVarType
        varName .STRING)
    else
      .ok ((expr.2.emitLine ("int " ++ varName ++ " = " ++ expr.1.code ++ ";")).setVarType
        varName .INT)

open CodeGenerator in
def generateReturn (fuel : Nat) (g : CodeGenerator) : Result CodeGenerator :=
  (generateExpression fuel g.advance).bind fun expr =>
  .ok (expr.2.emitLine ("return " ++ expr.1 ++ ";"))

open CodeGenerator in
def generateWriteFile (fuel : Nat) (g : CodeGenerator) : Result CodeGenerator :=
  (g.advance.expect .LPAREN "Expected '(' after 'tulis_file'").bind fun g1 =>
  (generateTypedExpression fuel g1).bind fun filename =>
  (filename.2.expect .COMMA "Expected ',' between arguments").bind fun g2 =>
  (generateTypedExpression fuel g2).bind fun content =>
  (content.2.expect .RPAREN "Expected ')'").bind fun g3 =>
  .ok (g3.emitLine ("__wear_write_file(" ++ filename.1.code ++ ", " ++ content.1.code ++ ");"))

/-- The loop `while (check(NEWLINE)) advance();` that opens `generateStatement`. -/
def skipNewlines : Nat → CodeGenerator → Result CodeGenerator
  | 0, _ => .diverge
  | fuel + 1, g =>
    if g.check .NEWLINE then skipNewlines fuel g.advance else .ok g

/-- The parameter loop of `generateFunctionDecl`. -/
def parameterLoop : Nat → CodeGenerator → List String → Result (List String × CodeGenerator)
  | 0, _, _ => .diverge
  | fuel + 1, g, params =>
    if !g.check .RPAREN && !g.check .END_OF_FILE then
      (if !params.isEmpty then g.expect .COMMA "Expected ',' between parameters"
       else .ok g).bind fun g1 =>
      if g1.check .IDENTIFIER then
        parameterLoop fuel g1.advance (params ++ [g1.current.value])
      else
        parameterLoop fuel g1 params
    else .ok (params, g)

/-- The signature text `int name(char* p1, char* p2, ...) {` built in `funcSig`. -/
def functionSignature (funcName : String) (params : List String) : String :=
  "int " ++ funcName ++ "(" ++ ", ".intercalate (params.map fun p => "char* " ++ p) ++ ") \x7b"

/-- The insertion `declaredFunctions.insert(funcName)` into the set. -/
def insertDeclared (funcName : String) (declared : List String) : List String :=
  if funcName ∈ declared then declared else funcName :: declared

open CodeGenerator in
mutual

def generateStatement : Nat → CodeGenerator → Result CodeGenerator
  | 0, _ => .diverge
  | fuel + 1, g0 =>
    (skipNewlines fuel g0).bind fun g =>
    if g.check .RBRACE ∨ g.check .END_OF_FILE then .ok g
    else
      match g.current.type with
      | .VAR => generateVarDecl fuel g
      | .CETAK => generatePrint fuel g
      | .SELAMA => generateWhile fuel g
      | .JIKA => generateIf fuel g
      | .FUNGSI => generateFunctionDecl fuel g
      | .KEMBALIKAN => generateReturn fuel g
      | .TULIS_FILE => generateWriteFile fuel g
      | .BACA_FILE =>
        (g.advance.expect .LPAREN "Expected '('").bind fun g1 =>
        (generateTypedExpression fuel g1).bind fun arg =>
        (arg.2.expect .RPAREN "Expected ')'").bind fun g2 =>
        .ok (g2.emitLine ("__wear_read_file(" ++ arg.1.code ++ ");"))
      | .IDENTIFIER =>
        let name := g.current.value
        let g1 := g.advance
        if (g1.matchToken .EQUAL).1 then
          (generateTypedExpression fuel (g1.matchToken .EQUAL).2).bind fun expr =>
          .ok (expr.2.emitLine (name ++ " = " ++ expr.1.code ++ ";"))
        else if (g1.matchToken .LPAREN).1 then
          (callArguments fuel (g1.matchToken .LPAREN).2 (name ++ "(") true).bind fun call =>
          (call.2.expect .RPAREN "Expected ')'").bind fun g2 =>
          .ok (g2.emitLine (call.1 ++ ")" ++ ";"))
        else .ok g1
      | _ => .ok g.advance

/-- The block loop `while (!check(RBRACE) && !check(END_OF_FILE)) generateStatement();`. -/
def blockLoop : Nat → CodeGenerator → Result CodeGenerator
  | 0, _ => .diverge
  | fuel + 1, g =>
    if !g.check .RBRACE && !g.check .END_OF_FILE then
      (generateStatement fuel g).bind fun g1 => blockLoop fuel g1
    else .ok g

def generateWhile : Nat → CodeGenerator → Result CodeGenerator
  | 0, _ => .diverge
  | fuel + 1, g =>
    (g.advance.expect .LPAREN "Expected '(' after 'selama'").bind fun g1 =>
    (generateExpression fuel g1).bind fun condition =>
    (condition.2.expect .RPAREN "Expected ')' after condition").bind fun g2 =>
    let g3 := g2.emitLine ("while (" ++ condition.1 ++ ") \x7b")
    (g3.expect .LBRACE "Expected '\x7b' to start while body").bind fun g4 =>
    let g5 := { g4 with indentLevel := g4.indentLevel + 1 }
    (blockLoop fuel g5).bind fun g6 =>
    let g7 := { g6 with indentLevel := g6.indentLevel - 1 }
    (g7.expect .RBRACE "Expected '\x7d' to end while body").bind fun g8 =>
    .ok (g8.emitLine "\x7d")

def generateIf : Nat → CodeGenerator → Result CodeGenerator
  | 0, _ => .diverge
  | fuel + 1, g =>
    (g.advance.expect .LPAREN "Expected '(' after 'jika'").bind fun g1 =>
    (generateExpression fuel g1).bind fun condition =>
    (condition.2.expect .RPAREN "Expected ')' after condition").bind fun g2 =>
    let g3 := g2.emitLine ("if (" ++ condition.1 ++ ") \x7b")
    (g3.expect .LBRACE "Expected '\x7b' to start if body").bind fun g4 =>
    let g5 := { g4 with indentLevel := g4.indentLevel + 1 }
    (blockLoop fuel g5).bind fun g6 =>
    let g7 := { g6 with indentLevel := g6.indentLevel - 1 }
    (g7.expect .RBRACE "Expected '\x7d' to end if body").bind fun g8 =>
    let g9 := g8.emitLine "\x7d"
    if g9.check .LAINNYA then
      let g10 := g9.advance
      if g10.check .JIKA then
        generateIf fuel (g10.emit (g10.indent ++ "else "))
      else
        let g11 := g10.emitLine "else \x7b"
        (g11.expect .LBRACE "Expected '\x7b' after 'lainnya'").bind fun g12 =>
        let g13 := { g12 with indentLevel := g12.indentLevel + 1 }
        (blockLoop fuel g13).bind fun g14 =>
        let g15 := { g14 with indentLevel := g14.indentLevel - 1 }
        (g15.expect .RBRACE "Expected '\x7d' to end else body").bind fun g16 =>
        .ok (g16.emitLine "\x7d")
    else .ok g9

def generateFunctionDecl : Nat → CodeGenerator → Result CodeGenerator
  | 0, _ => .diverge
  | fuel + 1, g =>
    let g1 := g.advance
    let funcName := g1.current.value
    let g2 := g1.advance
    let g3 := { g2 with declaredFunctions := insertDeclared funcName g2.declaredFunctions }
    (g3.expect .LPAREN "Expected '(' after function name").bind fun g4 =>
    (parameterLoop fuel g4 []).bind fun params =>
    (params.2.expect .RPAREN "Expected ')' after parameters").bind fun g5 =>
    let funcSig := functionSignature funcName params.1
    let prevOutput := g5.currentOutput
    let prevIndent := g5.indentLevel
    let g6 := { g5 with
      currentOutput := .functions
      indentLevel := 1
      inFunction := true
      functionsOutput := g5.functionsOutput ++ funcSig ++ "\n" }
    (g6.expect .LBRACE "Expected '\x7b' to start function body").bind fun g7 =>
    (blockLoop fuel g7).bind fun g8 =>
    (g8.expect .RBRACE "Expected '\x7d' to end function body").bind fun g9 =>
    .ok { g9 with
      functionsOutput := g9.functionsOutput ++ "\x7d\n\n"
      inFunction := false
      indentLevel := prevIndent
      currentOutput := prevOutput }

end

/-! ## Output assembly -/

/-- The rule of sixty `=` characters that frames the comments of the runtime
library. -/
def runtimeRule : String :=
  String.mk (List.replicate 60 '=')

/-- The text of `WEAR_RUNTIME`, the runtime library injected verbatim into
every output document, one source line per entry. -/
def WEAR_RUNTIME : String :=
  String.join [
    "\n",
    "/* " ++ runtimeRule ++ "\n",
    " * WeaR Lang Runtime Library\n",
    " * " ++ runtimeRule ++ " */\n",
    "\n",
    "#include <stdio.h>\n",
    "#include <stdlib.h>\n",
    "#include <string.h>\n",
    "\n",
    "/* String concatenation helper */\n",
    "char* __wear_concat(const char* a, const char* b) \x7b\n",
    "    size_t len_a = strlen(a);\n",
    "    size_t len_b = strlen(b);\n",
    "    char* result = (char*)malloc(len_a + len_b + 1);\n",
    "    if (result == NULL) \x7b\n",
    "        fprintf(stderr, \"Error: Memory allocation failed\\n\");\n",
    "        exit(1);\n",
    "    \x7d\n",
    "    strcpy(result, a);\n",
    "    strcat(result, b);\n",
    "    return result;\n",
    "\x7d\n",
    "\n",
    "/* Integer to string helper */\n",
    "char* __wear_int_to_str(int value) \x7b\n",
    "    char* buffer = (char*)malloc(32);\n",
    "    if (buffer == NULL) \x7b\n",
    "        fprintf(stderr, \"Error: Memory allocation failed\\n\");\n",
    "        exit(1);\n",
    "    \x7d\n",
    "    sprintf(buffer, \"%d\", value);\n",
    "    return buffer;\n",
    "\x7d\n",
    "\n",
    "/* String + int concatenation */\n",
    "char* __wear_concat_str_int(const char* s, int n) \x7b\n",
    "    char* num_str = __wear_int_to_str(n);\n",
    "    char* result = __wear_concat(s, num_str);\n",
    "    free(num_str);\n",
    "    return result;\n",
    "\x7d\n",
    "\n",
    "/* Int + string concatenation */\n",
    "char* __wear_concat_int_str(int n, const char* s) \x7b\n",
    "    char* num_str = __wear_int_to_str(n);\n",
    "    char* result = __wear_concat(num_str, s);\n",
    "    free(num_str);\n",
    "    return result;\n",
    "\x7d\n",
    "\n",
    "/* Read file contents */\n",
    "char* __wear_read_file(const char* filename) \x7b\n",
    "    FILE* file = fopen(filename, \"rb\");\n",
    "    if (file == NULL) \x7b\n",
    "        fprintf(stderr, \"Error: Cannot open file '%s'\\n\", filename);\n",
    "        return (char*)malloc(1);  /* Return empty string */\n",
    "    \x7d\n",
    "    \n",
    "    fseek(file, 0, SEEK_END);\n",
    "    long length = ftell(file);\n",
    "    fseek(file, 0, SEEK_SET);\n",
    "    \n",
    "    char* content = (char*)malloc(length + 1);\n",
    "    if (content == NULL) \x7b\n",
    "        fprintf(stderr, \"Error: Memory allocation failed\\n\");\n",
    "        fclose(file);\n",
    "        exit(1);\n",
    "    \x7d\n",
    "    \n",
    "    fread(content, 1, length, file);\n",
    "    content[length] = '\\0';\n",
    "    fclose(file);\n",
    "    \n",
    "    return content;\n",
    "\x7d\n",
    "\n",
    "/* Write file contents */\n",
    "void __wear_write_file(const char* filename, const char* content) \x7b\n",
    "    FILE* file = fopen(filename, \"wb\");\n",
    "    if (file == NULL) \x7b\n",
    "        fprintf(stderr, \"Error: Cannot write to file '%s'\\n\", filename);\n",
    "        return;\n",
    "    \x7d\n",
    "    \n",
    "    fwrite(content, 1, strlen(content), file);\n",
    "    fclose(file);\n",
    "\x7d\n",
    "\n",
    "/* Print string */\n",
    "void __wear_print_str(const char* s) \x7b\n",
    "    printf(\"%s\\n\", s);\n",
    "\x7d\n",
    "\n",
    "/* Print integer */\n",
    "void __wear_print_int(int n) \x7b\n",
    "    printf(\"%d\\n\", n);\n",
    "\x7d\n",
    "\n",
    "/* String comparison (returns 1 if equal, 0 otherwise) */\n",
    "int __wear_streq(const char* a, const char* b) \x7b\n",
    "    return strcmp(a, b) == 0 ? 1 : 0;\n",
    "\x7d\n",
    "\n",
    "/* String length */\n",
    "int __wear_strlen(const char* s) \x7b\n",
    "    return (int)strlen(s);\n",
    "\x7d\n",
    "\n",
    "/* Character at index (returns 1-char string) */\n",
    "char* __wear_char_at(const char* s, int index) \x7b\n",
    "    char* result = (char*)malloc(2);\n",
    "    if (result == NULL) \x7b\n",
    "        fprintf(stderr, \"Error: Memory allocation failed\\n\");\n",
    "        exit(1);\n",
    "    \x7d\n",
    "    if (index >= 0 && index < (int)strlen(s)) \x7b\n",
    "        result[0] = s[index];\n",
    "        result[1] = '\\0';\n",
    "    \x7d else \x7b\n",
    "        result[0] = '\\0';\n",
    "    \x7d\n",
    "    return result;\n",
    "\x7d\n",
    "\n",
    "/* Check if character is a quote (returns 1 if quote, 0 otherwise) */\n",
    "int __wear_is_quote(const char* s) \x7b\n",
    "    if (s == NULL || s[0] == '\\0') return 0;\n",
    "    return s[0] == '\"' ? 1 : 0;\n",
    "\x7d\n",
    "\n",
    "/* Get quote character as a string */\n",
    "char* __wear_quote_char() \x7b\n",
    "    char* result = (char*)malloc(2);\n",
    "    result[0] = '\"';\n",
    "    result[1] = '\\0';\n",
    "    return result;\n",
    "\x7d\n",
    "\n",
    "/* Get newline character as a string */\n",
    "char* __wear_newline_char() \x7b\n",
    "    char* result = (char*)malloc(2);\n",
    "    result[0] = '\\n';\n",
    "    result[1] = '\\0';\n",
    "    return result;\n",
    "\x7d\n",
    "\n",
    "/* Check if character is a newline (returns 1 if newline, 0 otherwise) */\n",
    "int __wear_is_newline(const char* s) \x7b\n",
    "    if (s == NULL || s[0] == '\\0') return 0;\n",
    "    return (s[0] == '\\n' || s[0] == '\\r') ? 1 : 0;\n",
    "\x7d\n",
    "\n",
    "/* " ++ runtimeRule ++ " */\n",
    "\n" ]

/-- The top-level loop of `generate`, `while (!check(END_OF_FILE)) generateStatement();`. -/
def topLevelLoop : Nat → CodeGenerator → Result CodeGenerator
  | 0, _ => .diverge
  | fuel + 1, g =>
    if !g.check .END_OF_FILE then
      (generateStatement fuel g).bind fun g1 => topLevelLoop fuel g1
    else .ok g

/-- The assembly of `finalOutput` from the two buffers. -/
def assemble (g : CodeGenerator) : String :=
  "/* Generated by WeaR Lang Stage-0 Compiler */\n"
    ++ WEAR_RUNTIME
    ++ (if !g.functionsOutput.isEmpty then
          "// User-defined functions\n" ++ g.functionsOutput
        else "")
    ++ "int main(int argc, char* argv[]) \x7b\n"
    ++ g.mainOutput
    ++ "\n    return 0;\n"
    ++ "\x7d\n"

def generate (fuel : Nat) (tokens : List Token) : Result String :=
  (topLevelLoop fuel (CodeGenerator.init tokens)).bind fun g => .ok (assemble g)

/-- The pipeline of `main`: tokenize the source text, then run the statement
loop of `generate`; the final generator state is kept for inspection. -/
def translate (fuel : Nat) (source : String) : Result CodeGenerator :=
  topLevelLoop fuel (CodeGenerator.init (tokenize source.data))

/-- The pipeline of `main`: the output document of a source text. -/
def compile (fuel : Nat) (source : String) : Result String :=
  generate fuel (tokenize source.data)


/-! ## Auxiliary definitions for the statements below -/

/-- The token kinds at which the scan loop of `generateTypedExpression` stops
when it is outside parentheses: end of file, the six stop kinds, and every
kind the loop has no branch for. -/
def endsExpression (t : TokenType) : Bool :=
  t = .END_OF_FILE ∨ isStopToken t ∨ t = .VAR ∨ t = .CETAK ∨ t = .SELAMA ∨ t = .JIKA
    ∨ t = .LAINNYA ∨ t = .FUNGSI ∨ t = .KEMBALIKAN ∨ t = .TULIS_FILE ∨ t = .EQUAL
    ∨ t = .LBRACKET ∨ t = .RBRACKET ∨ t = .UNKNOWN

/-- The generator state with the token position moved to the suffix `rest`. -/
def CodeGenerator.atTokens (g : CodeGenerator) (rest : List Token) : CodeGenerator :=
  { g with rest := rest }

/-- An operand token of a `+` chain: a text literal, an integer literal or a
variable reference.  The lexeme of an integer or identifier token is never the
text `+` nor a blank. -/
def isChainOperand (t : Token) : Bool :=
  t.type = .STRING ∨ ((t.type = .INTEGER ∨ t.type = .IDENTIFIER) ∧ t.value ≠ "+" ∧ t.value ≠ " ")

/-- The fragment and kind of an operand token: a text literal is quoted and
Text, an integer literal is Integer, a variable reference has the kind the Type
Table gives it, Integer when it has none. -/
def operandPart (g : CodeGenerator) (t : Token) : Part :=
  if t.type = .STRING then ("\"" ++ t.value ++ "\"", .STRING)
  else if t.type = .INTEGER then (t.value, .INT)
  else (t.value, if g.varTypes t.value = some .STRING then .STRING else .INT)

/-- The fold step of a concatenation chain as the specification words it: the
call is chosen by the pair of kinds, and the running kind becomes Text as soon
as either side is Text. -/
def specChainStep (acc : String × ExprType) (operand : Part) : String × ExprType :=
  match acc.2, operand.2 with
  | .STRING, .STRING => ("__wear_concat(" ++ acc.1 ++ ", " ++ operand.1 ++ ")", .STRING)
  | .STRING, .INT => ("__wear_concat_str_int(" ++ acc.1 ++ ", " ++ operand.1 ++ ")", .STRING)
  | .INT, .STRING => ("__wear_concat_int_str(" ++ acc.1 ++ ", " ++ operand.1 ++ ")", .STRING)
  | .INT, .INT => ("(" ++ acc.1 ++ " + " ++ operand.1 ++ ")", .INT)
  | _, _ => acc

/-- The tokens `+ op₁ + op₂ ...` that follow the first operand of a chain. -/
def chainTail : List (Token × Token) → List Token
  | [] => []
  | p :: ps => p.1 :: p.2 :: chainTail ps

/-- The parts pushed for the tokens `+ op₁ + op₂ ...`. -/
def chainParts (g : CodeGenerator) : List (Token × Token) → List Part
  | [] => []
  | p :: ps => ("+", .UNKNOWN) :: operandPart g p.2 :: chainParts g ps

/-- The line and column after reading the character `c` at position `p`, as
`advance()` updates them. -/
def advancePos (p : Int × Int) (c : Char) : Int × Int :=
  if c = LF then (toInt32 (p.1 + 1), 1) else (p.1, toInt32 (p.2 + 1))

/-- The line and column reached from `p` after reading the characters `chunk`. -/
def positionFrom (p : Int × Int) (chunk : List Char) : Int × Int :=
  chunk.foldl advancePos p

/-- The line and column of the character that follows the prefix `pre` of a
source text. -/
def positionAfter (pre : List Char) : Int × Int :=
  positionFrom (1, 1) pre

/-- The scanner state `lx1` is the state `lx` after reading the characters
`chunk`. -/
def Lexer.Reads (lx lx1 : Lexer) (chunk : List Char) : Prop :=
  lx.rest = chunk ++ lx1.rest ∧ (lx1.line, lx1.column) = positionFrom (lx.line, lx.column) chunk

/-- A character that may continue an identifier: `std::isalnum` or underscore. -/
def isIdentifierChar (c : Char) : Bool :=
  c.isAlphanum || c = '_'

/-- The sixteen keyword kinds. -/
def isKeywordKind (t : TokenType) : Bool :=
  t = .VAR ∨ t = .CETAK ∨ t = .SELAMA ∨ t = .JIKA ∨ t = .LAINNYA ∨ t = .FUNGSI
    ∨ t = .KEMBALIKAN ∨ t = .BACA_FILE ∨ t = .TULIS_FILE ∨ t = .SAMA ∨ t = .PANJANG
    ∨ t = .CHAR_AT ∨ t = .IS_QUOTE ∨ t = .QUOTE_CHAR ∨ t = .IS_NEWLINE ∨ t = .NEWLINE_CHAR

/-- The outcomes of the operator switch of `tokenize`: one token pushed through
`single` or through `double`, of a kind that is neither a keyword kind nor
identifier, integer or end of file. -/
def IsOperatorScan (lx : Lexer) (r : Token × Lexer) : Prop :=
  (∃ t s, r = Lexer.single lx t s
      ∧ isKeywordKind t = false ∧ t ≠ .IDENTIFIER ∧ t ≠ .INTEGER ∧ t ≠ .END_OF_FILE)
  ∨ (∃ two s2 one s1, r = Lexer.double lx two s2 one s1
      ∧ isKeywordKind two = false ∧ two ≠ .IDENTIFIER ∧ two ≠ .INTEGER ∧ two ≠ .END_OF_FILE
      ∧ isKeywordKind one = false ∧ one ≠ .IDENTIFIER ∧ one ≠ .INTEGER
      ∧ one ≠ .END_OF_FILE)

/-- The scanner state `lx` is a position of the source text: the characters
before it are `consumed`, and its line and column are those of that position. -/
def Lexer.At (source : List Char) (lx : Lexer) : Prop :=
  ∃ consumed, source = consumed ++ lx.rest ∧ positionAfter consumed = (lx.line, lx.column)

/-- The shape of the lexeme of a token of the source text, by kind: an
identifier is a non-empty run of letters, digits and underscores that starts
with a letter or underscore and is no keyword spelling; a keyword token carries a
spelling the keyword table maps to its kind; an integer is a non-empty run of
digits that stands in the source at the token's position and is followed by no
further digit. -/
def LexemeShape (source : List Char) (t : Token) : Prop :=
  (t.type = .IDENTIFIER →
      (∃ c cs, t.value.data = c :: cs ∧ (c.isAlpha = true ∨ c = '_')
        ∧ ∀ d ∈ c :: cs, d.isAlpha = true ∨ d.isDigit = true ∨ d = '_')
      ∧ keywords t.value = none)
  ∧ (isKeywordKind t.type = true → keywords t.value = some t.type)
  ∧ (t.type = .INTEGER →
      t.value.data ≠ [] ∧ (∀ d ∈ t.value.data, d.isDigit = true)
      ∧ ∃ pre post, source = pre ++ t.value.data ++ post
          ∧ positionAfter pre = (t.line, t.column)
          ∧ ∀ c, post.head? = some c → c.isDigit = false)

/-- The buffers of `g` are those of `g0` with text appended. -/
def Extends (g0 g : CodeGenerator) : Prop :=
  (∃ f, g.functionsOutput = g0.functionsOutput ++ f)
    ∧ (∃ m, g.mainOutput = g0.mainOutput ++ m)

/-- The concatenation of a list of fragments, in order. -/
def concatAll : List String → String
  | [] => ""
  | s :: ss => s ++ concatAll ss

/-- The runs of the top-level loop of `generate`: started in `g`, the loop
translates one statement after the other and stops in `g1` at end of file;
`frags` lists, in source order, the text each statement appended to the
function buffer and to the top-level statement buffer. -/
inductive TopLevelRun : CodeGenerator → List (String × String) → CodeGenerator → Prop where
  | done (g : CodeGenerator) (h : g.check .END_OF_FILE = true) : TopLevelRun g [] g
  | step (fuel : Nat) (g g1 g2 : CodeGenerator) (f m : String) (frags : List (String × String))
      (h : g.check .END_OF_FILE = false)
      (hs : generateStatement fuel g = .ok g1)
      (hf : g1.functionsOutput = g.functionsOutput ++ f)
      (hm : g1.mainOutput = g.mainOutput ++ m)
      (hr : TopLevelRun g1 frags g2) : TopLevelRun g ((f, m) :: frags) g2

/-- The outcome `r` is `Result.diverge` or equal to `r'`. -/
def Result.le {α : Type} (r r' : Result α) : Prop := r ≠ .diverge → r = r'

/-- Every value the outcome `r` returns satisfies `P`. -/
def Result.Holds {α : Type} (r : Result α) (P : α → Prop) : Prop :=
  ∀ a, r = .ok a → P a

/-- A property of generator states that does not depend on the token position. -/
def MoveStable (P : CodeGenerator → Prop) : Prop :=
  ∀ (g : CodeGenerator) (rest : List Token), P g → P (g.atTokens rest)

/-- A property of generator states that survives moving the token position one
token forward. -/
def AdvanceStable (P : CodeGenerator → Prop) : Prop :=
  ∀ g : CodeGenerator, P g → P g.advance

/-- The closure conditions of a relation between the generator state before
and after a piece of translation: it is reflexive and transitive, and it holds
across each state change the statement handlers make: moving to the next token,
appending to the current buffer, the write `varTypes[name] = t` that ends a
declaration whose keyword `var` was the current token of `g`, whose name is the
token behind it and whose `=` is the token behind that, a block run one or more
indent levels deeper, the insertion into `declaredFunctions`, and a function
declaration whose keyword `fungsi` was the current token of `g0`, with the body
run with the emission target, indent level and flag of `generateFunctionDecl`
and restored afterwards. -/
structure StatementRelation (R : CodeGenerator → CodeGenerator → Prop) : Prop where
  rel_refl : ∀ g, R g g
  rel_trans : ∀ a b c, R a b → R b c → R a c
  rel_advance : ∀ g, R g g.advance
  rel_emit : ∀ g code, R g (g.emit code)
  rel_setVar : ∀ g g1 t, g.current.type = .VAR → g.advance.advance.current.type = .EQUAL →
    R g.advance.advance g1 → R g (g1.setVarType g.advance.current.value t)
  rel_block : ∀ (g g1 : CodeGenerator) (k : Int),
    R { g with indentLevel := g.indentLevel + k } g1 →
    R g { g1 with indentLevel := g1.indentLevel - k }
  rel_declare : ∀ (g : CodeGenerator) (declared : List String),
    R g { g with declaredFunctions := declared }
  rel_function : ∀ (g0 g g1 : CodeGenerator) (signature closing : String),
    g0.current.type = .FUNGSI → R g0.advance g →
    R { g with
        currentOutput := .functions
        indentLevel := 1
        inFunction := true
        functionsOutput := g.functionsOutput ++ signature ++ "\n" } g1 →
    R g0 { g1 with
        functionsOutput := g1.functionsOutput ++ closing
        inFunction := false
        indentLevel := g.indentLevel
        currentOutput := g.currentOutput }

/-- The builtins of one argument as the specification lists them: the trigger
token, the opening text of the runtime call, and the kind of the result. -/
def specUnaryBuiltins : List (TokenType × String × ExprType) :=
  [(.BACA_FILE, "__wear_read_file(", .STRING), (.PANJANG, "__wear_strlen(", .INT),
   (.IS_QUOTE, "__wear_is_quote(", .INT), (.IS_NEWLINE, "__wear_is_newline(", .INT)]

/-- The builtins of two arguments as the specification lists them. -/
def specBinaryBuiltins : List (TokenType × String × ExprType) :=
  [(.CHAR_AT, "__wear_char_at(", .STRING), (.SAMA, "__wear_streq(", .INT)]

/-- The builtins without argument as the specification lists them, with the
whole text of the runtime call. -/
def specNullaryBuiltins : List (TokenType × String × ExprType) :=
  [(.QUOTE_CHAR, "__wear_quote_char()", .STRING),
   (.NEWLINE_CHAR, "__wear_newline_char()", .STRING)]

/-- The text `a1, ..., an` of an argument list. -/
def joinArguments : List String → String
  | [] => ""
  | [a] => a
  | a :: b :: rest => a ++ ", " ++ joinArguments (b :: rest)

/-- A non-empty comma-separated argument list in front of `)`: started in `g`,
each argument is translated by `generateTypedExpression`, which stops at the
comma after the argument or, for the last one, at the close parenthesis, where
`g1` stands; `codes` lists the code of the arguments in order. -/
inductive ArgumentsRun (fuel : Nat) : CodeGenerator → List String → CodeGenerator → Prop where
  | single (g g1 : CodeGenerator) (a : ExprResult)
      (h : generateTypedExpression fuel g = .ok (a, g1))
      (hclose : g1.current.type = .RPAREN) : ArgumentsRun fuel g [a.code] g1
  | cons (g g1 g2 : CodeGenerator) (a : ExprResult) (codes : List String)
      (h : generateTypedExpression fuel g = .ok (a, g1))
      (hcomma : g1.current.type = .COMMA)
      (hr : ArgumentsRun fuel g1.advance codes g2) : ArgumentsRun fuel g (a.code :: codes) g2

/-- A well-formed argument list in front of `)`: empty, the current token being
the close parenthesis, or a non-empty run of arguments. -/
def WellFormedArguments (fuel : Nat) (g : CodeGenerator) (codes : List String)
    (g1 : CodeGenerator) : Prop :=
  (codes = [] ∧ g1 = g ∧ g.current.type = .RPAREN)
    ∨ (g.current.type ≠ .RPAREN ∧ g.current.type ≠ .END_OF_FILE ∧ ArgumentsRun fuel g codes g1)

/-- Whether a token sequence holds the keyword `var` directly followed by a
token whose lexeme is `name`: the two tokens `generateVarDecl` reads when it
declares `name`. -/
def declares (name : String) : List Token → Bool
  | t1 :: t2 :: ts => (t1.type = .VAR ∧ t2.value = name) || declares name (t2 :: ts)
  | _ => false

/-- From `g` to `g1` the kind recorded for `name` is kept unless a declaration
of `name` was read: the closing token is the same, the tokens still to be read
in `g1` are those of `g` behind the tokens `consumed`, and when the closing
token is the end-of-file token and `consumed` holds no keyword `var` directly
followed by `name`, the kind recorded for `name` is the same. -/
def KindKept (name : String) (g g1 : CodeGenerator) : Prop :=
  g1.last = g.last ∧ ∃ consumed, g.rest = consumed ++ g1.rest
    ∧ (g.last.type = .END_OF_FILE → declares name consumed = false →
        g1.varTypes name = g.varTypes name)

/-- From `g` to `g1` nothing is written to the function buffer unless the
keyword `fungsi` was read: the closing token is the same, the tokens still to
be read in `g1` are those of `g` behind the tokens `consumed`, and when the
closing token is the end-of-file token, the emission target of `g` is the
top-level statement buffer and `consumed` holds no token of kind FUNGSI, the
emission target of `g1` is the top-level statement buffer and the function
buffer is unchanged. -/
def FunctionsKept (g g1 : CodeGenerator) : Prop :=
  g1.last = g.last ∧ ∃ consumed, g.rest = consumed ++ g1.rest
    ∧ (g.last.type = .END_OF_FILE → g.currentOutput = .main →
        (∀ t ∈ consumed, t.type ≠ .FUNGSI) →
        g1.currentOutput = .main ∧ g1.functionsOutput = g.functionsOutput)

/-- The layout the specification gives the output document for the function
buffer `functions` and the top-level statement buffer `main`: the header
comment line, the runtime preamble, the function buffer, the first line of
`main`, the statement buffer, `return 0;` and the closing brace. -/
def specDocument (functions main : String) : String :=
  "/* Generated by WeaR Lang Stage-0 Compiler */\n"
    ++ WEAR_RUNTIME
    ++ functions
    ++ "int main(int argc, char* argv[]) \x7b\n"
    ++ main
    ++ "\n    return 0;\n"
    ++ "\x7d\n"

/-- No integer or identifier token that `g` still has to read has the lexeme
that is a single blank. -/
def NoBlankLexeme (g : CodeGenerator) : Prop :=
  ∀ t ∈ g.rest ++ [g.last], (t.type = .INTEGER ∨ t.type = .IDENTIFIER) → t.value ≠ " "

/-- The state in which `generateFunctionDecl` enters a function body: the
emission target is the function buffer, the indent level is 1, the flag
`inFunction` is set, and the signature line has been written to the function
buffer. -/
def functionEntry (g : CodeGenerator) (signature : String) : CodeGenerator :=
  { g with
    currentOutput := .functions
    indentLevel := 1
    inFunction := true
    functionsOutput := g.functionsOutput ++ signature ++ "\n" }

/-- The state in which `generateFunctionDecl` returns: the closing brace and a
blank line are written to the function buffer, the flag is cleared, and the
indent level and emission target saved before the body are restored. -/
def functionExit (g : CodeGenerator) (prevOutput : Output) (prevIndent : Int) :
    CodeGenerator :=
  { g with
    functionsOutput := g.functionsOutput ++ "\x7d\n\n"
    inFunction := false
    indentLevel := prevIndent
    currentOutput := prevOutput }

/-- The buffer `currentOutput` points to. -/
def CodeGenerator.currentBuffer (g : CodeGenerator) : String :=
  match g.currentOutput with
  | .main => g.mainOutput
  | .functions => g.functionsOutput

/-- From `g` to `g1` the emission target and the indent level are the same. -/
def KeepsLayout (g g1 : CodeGenerator) : Prop :=
  g1.currentOutput = g.currentOutput ∧ g1.indentLevel = g.indentLevel

/-- From `g` to `g1`, when the emission target of `g` is the function buffer,
it still is in `g1` and the top-level statement buffer is untouched. -/
def KeepsMain (g g1 : CodeGenerator) : Prop :=
  g.currentOutput = .functions →
    g1.currentOutput = .functions ∧ g1.mainOutput = g.mainOutput

/-- The tokens `, p2, p3 ...` that follow the first parameter of a parameter
list. -/
def isParameterTail : List Token → Bool
  | [] => true
  | c :: p :: rest => c.type = .COMMA && p.type = .IDENTIFIER && isParameterTail rest
  | _ => false

/-- A well-formed parameter list `p1, ..., pn`: empty, or identifiers separated
by commas. -/
def isParameterList : List Token → Bool
  | [] => true
  | p :: tail => p.type = .IDENTIFIER && isParameterTail tail

/-- The names of a parameter list: the lexemes of its identifier tokens. -/
def parameterNames (ps : List Token) : List String :=
  (ps.filter fun t => t.type = .IDENTIFIER).map fun t => t.value

/-- The state in which the statements of a block are translated: `g` stands at
the open brace, the brace is consumed and the indent level is raised by one. -/
def blockEntry (g : CodeGenerator) : CodeGenerator :=
  { g.advance with indentLevel := g.advance.indentLevel + 1 }

/-- The state behind a block: `g` stands at the close brace, the indent level
is lowered by one and the brace is consumed. -/
def blockExit (g : CodeGenerator) : CodeGenerator :=
  CodeGenerator.advance { g with indentLevel := g.indentLevel - 1 }

/-- The state after `declaredFunctions.insert(funcName)`. -/
def declareFunction (g : CodeGenerator) (funcName : String) : CodeGenerator :=
  { g with declaredFunctions := insertDeclared funcName g.declaredFunctions }

/-- One emitted line: the indentation, the code and a newline, as `emitLine`
writes it. -/
def indentedLine (ind code : String) : String :=
  ind ++ code ++ "\n"

/-- A conditional chain `jika (c0) { B0 } lainnya jika (c1) { B1 } ... lainnya
jika (cn) { Bn } lainnya { E }` that starts at the keyword `jika` in state `g`,
with `n` else-if links, together with the nested text expected for it at the
indentation `ind`.  Each condition is translated by `generateTypedExpression`
and is followed by `)` and `{`; each body is a run of the block loop that stops
at `}`, and `B` (for the final else branch `E`) is the text that run appended
to the current buffer; behind the close brace stands `lainnya`, followed by
`jika` and the rest of the chain, or by `{` and the final else branch. -/
inductive IfChain (fuel : Nat) (ind : String) : Nat → CodeGenerator → String → Prop where
  | last (g g2 g6 g14 : CodeGenerator) (c : ExprResult) (B E : String)
      (hlp : g.advance.current.type = .LPAREN)
      (hc : generateTypedExpression fuel g.advance.advance = .ok (c, g2))
      (hrp : g2.current.type = .RPAREN)
      (hlb : g2.advance.current.type = .LBRACE)
      (hbody : blockLoop fuel
          (blockEntry (g2.advance.emitLine ("if (" ++ c.code ++ ") \x7b"))) = .ok g6)
      (hB : g6.currentBuffer
          = (blockEntry (g2.advance.emitLine ("if (" ++ c.code ++ ") \x7b"))).currentBuffer ++ B)
      (hclose : g6.current.type = .RBRACE)
      (helse : (blockExit g6).current.type = .LAINNYA)
      (hlb2 : (blockExit g6).advance.current.type = .LBRACE)
      (hbody2 : blockLoop fuel
          (blockEntry ((((blockExit g6).emitLine "\x7d").advance).emitLine "else \x7b"))
            = .ok g14)
      (hE : g14.currentBuffer
          = (blockEntry ((((blockExit g6).emitLine "\x7d").advance).emitLine
              "else \x7b")).currentBuffer ++ E)
      (hclose2 : g14.current.type = .RBRACE) :
      IfChain fuel ind 0 g
        (indentedLine ind ("if (" ++ c.code ++ ") \x7b") ++ B ++ indentedLine ind "\x7d"
          ++ indentedLine ind "else \x7b" ++ E ++ indentedLine ind "\x7d")
  | more (n : Nat) (g g2 g6 : CodeGenerator) (c : ExprResult) (B text : String)
      (hlp : g.advance.current.type = .LPAREN)
      (hc : generateTypedExpression fuel g.advance.advance = .ok (c, g2))
      (hrp : g2.current.type = .RPAREN)
      (hlb : g2.advance.current.type = .LBRACE)
      (hbody : blockLoop fuel
          (blockEntry (g2.advance.emitLine ("if (" ++ c.code ++ ") \x7b"))) = .ok g6)
      (hB : g6.currentBuffer
          = (blockEntry (g2.advance.emitLine ("if (" ++ c.code ++ ") \x7b"))).currentBuffer ++ B)
      (hclose : g6.current.type = .RBRACE)
      (helse : (blockExit g6).current.type = .LAINNYA)
      (hjika : (blockExit g6).advance.current.type = .JIKA)
      (hr : IfChain fuel ind n
          ((((blockExit g6).emitLine "\x7d").advance).emit
            ((((blockExit g6).emitLine "\x7d").advance).indent ++ "else ")) text) :
      IfChain fuel ind (n + 1) g
        (indentedLine ind ("if (" ++ c.code ++ ") \x7b") ++ B ++ indentedLine ind "\x7d"
          ++ (ind ++ "else ") ++ text)

/-- The tokens of the source line
`jika (a) { cetak 1 } lainnya jika (b) { cetak 2 } lainnya { cetak 3 }`. -/
def conditionalChainExample : List Token :=
  [⟨.JIKA, "jika", 1, 1⟩, ⟨.LPAREN, "(", 1, 6⟩, ⟨.IDENTIFIER, "a", 1, 7⟩,
   ⟨.RPAREN, ")", 1, 8⟩, ⟨.LBRACE, "\x7b", 1, 10⟩, ⟨.CETAK, "cetak", 1, 12⟩,
   ⟨.INTEGER, "1", 1, 18⟩, ⟨.RBRACE, "\x7d", 1, 20⟩, ⟨.LAINNYA, "lainnya", 1, 22⟩,
   ⟨.JIKA, "jika", 1, 30⟩, ⟨.LPAREN, "(", 1, 35⟩, ⟨.IDENTIFIER, "b", 1, 36⟩,
   ⟨.RPAREN, ")", 1, 37⟩, ⟨.LBRACE, "\x7b", 1, 39⟩, ⟨.CETAK, "cetak", 1, 41⟩,
   ⟨.INTEGER, "2", 1, 47⟩, ⟨.RBRACE, "\x7d", 1, 49⟩, ⟨.LAINNYA, "lainnya", 1, 51⟩,
   ⟨.LBRACE, "\x7b", 1, 59⟩, ⟨.CETAK, "cetak", 1, 61⟩, ⟨.INTEGER, "3", 1, 67⟩,
   ⟨.RBRACE, "\x7d", 1, 69⟩, ⟨.END_OF_FILE, "", 1, 70⟩]

/-- The token kinds the statement dispatch has a row for, as the specification
lists them: the declaration, print, loop, conditional, function, return,
file-write and file-read keywords, and identifiers. -/
def specDispatchKind (t : TokenType) : Bool :=
  t = .VAR ∨ t = .CETAK ∨ t = .SELAMA ∨ t = .JIKA ∨ t = .FUNGSI ∨ t = .KEMBALIKAN
    ∨ t = .TULIS_FILE ∨ t = .BACA_FILE ∨ t = .IDENTIFIER

/-- The list of operands `buildStringConcat` folds: the parts whose fragment is
neither `+` nor a single blank. -/
def concatOperands (parts : List Part) : List Part :=
  parts.filter fun p => p.1 ≠ "+" ∧ p.1 ≠ " "

/-- The three conditions under which `generateTypedExpression` builds a
concatenation chain, as the specification lists them: a Text part, a `+`
fragment, three or more parts. -/
def specTakesConcatPath (parts : List Part) : Prop :=
  (∃ p ∈ parts, p.2 = ExprType.STRING) ∧ (∃ p ∈ parts, p.1 = "+") ∧ 3 ≤ parts.length

/-- The kind the specification gives an expression outside the concatenation
path: Text if any part has kind Text, Integer otherwise. -/
def specPlainKind (parts : List Part) : ExprType :=
  if ∃ p ∈ parts, p.2 = ExprType.STRING then .STRING else .INT

/-- The token sequence `tokenize` produces when its main loop starts in the
scanner state `lx`: the tokens pushed from there on, then the end-of-file token
at the position of loop exit. -/
def tokenizeFrom (lx : Lexer) : List Token :=
  let r := Lexer.tokenizeLoop lx.rest.length lx []
  r.1 ++ [⟨.END_OF_FILE, "", r.2.line, r.2.column⟩]

/-- The comparison operators as the specification lists them: the first
character, the kind and lexeme of the two-character operator it forms with a
following `=`, and the kind and lexeme of the character on its own. -/
def specComparisonOperators : List (Char × (TokenType × String) × (TokenType × String)) :=
  [ ('=', (.EQUAL_EQUAL, "=="), (.EQUAL, "=")),
    ('<', (.LESS_EQUAL, "<="), (.LESS, "<")),
    ('>', (.GREATER_EQUAL, ">="), (.GREATER, ">")),
    ('!', (.NOT_EQUAL, "!="), (.UNKNOWN, "!")) ]

/-- The characters the specification calls unrecognized: not a space, tab,
carriage return, newline, double quote, decimal digit, letter, underscore or one
of the operator and delimiter characters. -/
def specUnrecognized (c : Char) : Bool :=
  c ≠ ' ' ∧ c ≠ TAB ∧ c ≠ CR ∧ c ≠ LF ∧ c ≠ DQUOTE ∧ c.isDigit = false ∧ c.isAlpha = false
    ∧ c ≠ '_'
    ∧ c ∉ ['+', '-', '*', '/', '=', '<', '>', '!', '(', ')', Char.ofNat 123, Char.ofNat 125,
        '[', ']', ';', ',']

/-- The line the specification gives the character that follows the prefix
`pre` of a source text: 1 plus the number of newline characters in `pre`. -/
def specLine (pre : List Char) : Nat :=
  1 + pre.count LF

/-- The column the specification gives the character that follows the prefix
`pre`: 1 plus the number of characters of `pre` behind its last newline, or
behind the start of the text when `pre` holds no newline. -/
def specColumn (pre : List Char) : Nat :=
  1 + (pre.reverse.takeWhile fun c => c ≠ LF).length

/-- The text `post` begins with the first character of the token `t`: the
opening quote of a text literal, the newline character of a NEWLINE token, and
for every other kind the lexeme itself. -/
def tokenStartsAt (t : Token) (post : List Char) : Prop :=
  if t.type = .STRING then post.head? = some DQUOTE
  else if t.type = .NEWLINE then post.head? = some LF
  else t.value.data ≠ [] ∧ ∃ more, post = t.value.data ++ more

/-- The position `p` is before the position `q` in lexicographic order of line
and column. -/
def positionLt (p q : Int × Int) : Prop :=
  p.1 < q.1 ∨ (p.1 = q.1 ∧ p.2 < q.2)

/-- The token `a` stands before the token `b`. -/
def positionBefore (a b : Token) : Prop :=
  positionLt (a.line, a.column) (b.line, b.column)

/-- The token `t` stands at a place of the source text, `source = pre ++ post`
with `post` beginning with its first character, and carries the line and column
`advance()` has counted behind `pre`. -/
def Located (source : List Char) (t : Token) : Prop :=
  ∃ pre post, source = pre ++ post ∧ tokenStartsAt t post
    ∧ positionAfter pre = (t.line, t.column)

/-- The counters of the scanner state `lx` are positive, and reading all of the
unread text cannot take them past the largest `int`, 2^31 - 1. -/
def Lexer.InRange (lx : Lexer) : Prop :=
  1 ≤ lx.line ∧ 1 ≤ lx.column ∧ lx.line + lx.rest.length < 2147483648
    ∧ lx.column + lx.rest.length < 2147483648

/-- The token `t` was pushed with the scanner in state `lx`: it carries the line
and column of `lx`, and the unread text of `lx` begins with its first
character. -/
def PushedAt (lx : Lexer) (t : Token) : Prop :=
  t.line = lx.line ∧ t.column = lx.column ∧ tokenStartsAt t lx.rest

/-- The pair returned by a scan function holds a token pushed at `lx`. -/
def PushedBy (lx : Lexer) (r : Token × Lexer) : Prop :=
  PushedAt lx r.1


/-! ### The runtime library -/

/-- The text a buffer of the C runtime holds: the characters in front of its
first NUL. -/
def cText (buffer : List Char) : List Char :=
  buffer.takeWhile fun c => c ≠ NUL

/-- The runtime function `__wear_char_at(s, index)` on the text `s`, whose
`strlen` is the length of the list; `mallocOk` tells whether `malloc(2)`
returns a block.  When it does not, the function prints the message given here
and ends the process with `exit(1)`. -/
def __wear_char_at (mallocOk : Bool) (s : List Char) (index : Int) : Except String (List Char) :=
  if mallocOk = false then .error "Error: Memory allocation failed\n"
  else if index ≥ 0 ∧ index < toInt32 (s.length : Int) then
    .ok (cText [s.getD index.toNat NUL, NUL])
  else
    .ok (cText [NUL])

/-- The spellings the keyword table maps to the kind `t`, in the order of the
table. -/
def spellings (t : TokenType) : List String :=
  (keywordTable.filter fun p => p.2 = t).map Prod.fst

/-- The sixteen keyword kinds as the specification lists them. -/
def specKeywordKinds : List TokenType :=
  [.VAR, .CETAK, .SELAMA, .JIKA, .LAINNYA, .FUNGSI, .KEMBALIKAN, .BACA_FILE, .TULIS_FILE,
   .SAMA, .PANJANG, .CHAR_AT, .IS_QUOTE, .QUOTE_CHAR, .IS_NEWLINE, .NEWLINE_CHAR]

/-- The change of `parenDepth` that goes with a part pushed by the scan loop of
`generateTypedExpression`: the fragment `(` of kind Unknown is pushed together
with `parenDepth++`, the fragment `)` of kind Unknown with `parenDepth--`, and
every other part leaves the depth as it is. -/
def parenDelta (p : Part) : Int :=
  if p.2 = .UNKNOWN then (if p.1 = "(" then 1 else if p.1 = ")" then -1 else 0) else 0

/-- The sum of the depth changes of a list of parts. -/
def parenBalance (parts : List Part) : Int :=
  (parts.map parenDelta).sum

/-- The result `r` of the scan loop entered with the parts `parts` at depth
`d`: parts were appended only, and after each of them the depth, `d` plus the
changes so far, was not negative. -/
def DepthKept (parts : List Part) (d : Int) (r : List Part × CodeGenerator) : Prop :=
  ∃ added, r.1 = parts ++ added ∧ ∀ k, 0 ≤ d + parenBalance (added.take k)

/-- From `g` to `g1` the token position has not moved backwards: the tokens
still to be read in `g1` are a suffix of those of `g`. -/
def MovesForward (g g1 : CodeGenerator) : Prop :=
  ∃ consumed, g.rest = consumed ++ g1.rest

/-- The scanner state `lx` with the characters `tail` appended to its unread
text. -/
def Lexer.withTail (lx : Lexer) (tail : List Char) : Lexer :=
  ⟨lx.rest ++ tail, lx.line, lx.column⟩

/-- The result of a scan function, with the characters `tail` appended to the
unread text of the state it leaves. -/
def scanWithTail (tail : List Char) (r : Token × Lexer) : Token × Lexer :=
  (r.1, r.2.withTail tail)

/-! ## Stepping lemmas for the expression scan loop -/

section Stepping

open CodeGenerator

attribute [local simp] Result.bind Result.map

@[simp] theorem CodeGenerator.advance_rest (g : CodeGenerator) :
    g.advance.rest = g.rest.tail := rfl

@[simp] theorem CodeGenerator.advance_varTypes (g : CodeGenerator) :
    g.advance.varTypes = g.varTypes := rfl

@[simp] theorem CodeGenerator.advance_last (g : CodeGenerator) :
    g.advance.last = g.last := rfl

theorem exprLoop_stop (fuel : Nat) (g : CodeGenerator) (parts : List Part)
    (h : endsExpression g.current.type = true) :
    exprLoop (fuel + 1) g parts 0 = .ok (parts, g) := by
  cases ht : g.current.type <;>
    simp [endsExpression, isStopToken, ht] at h <;>
    simp [exprLoop, check, isStopToken, ht]

theorem exprLoop_string (fuel : Nat) (g : CodeGenerator) (parts : List Part) (d : Int)
    (h : g.current.type = .STRING) :
    exprLoop (fuel + 1) g parts d
      = exprLoop fuel g.advance (parts ++ [("\"" ++ g.current.value ++ "\"", .STRING)]) d := by
  rw [exprLoop]
  simp [check, isStopToken, h]

theorem exprLoop_integer (fuel : Nat) (g : CodeGenerator) (parts : List Part) (d : Int)
    (h : g.current.type = .INTEGER) :
    exprLoop (fuel + 1) g parts d
      = exprLoop fuel g.advance (parts ++ [(g.current.value, .INT)]) d := by
  rw [exprLoop]
  simp [check, isStopToken, h]

theorem exprLoop_variable (fuel : Nat) (g : CodeGenerator) (parts : List Part) (d : Int)
    (h : g.current.type = .IDENTIFIER) (hnext : g.advance.current.type ≠ .LPAREN) :
    exprLoop (fuel + 1) g parts d
      = exprLoop fuel g.advance
          (parts ++ [(g.current.value,
            if g.varTypes g.current.value = some .STRING then .STRING else .INT)]) d := by
  rw [exprLoop]
  simp [check, isStopToken, h, hnext, isStringVar]

theorem exprLoop_plus (fuel : Nat) (g : CodeGenerator) (parts : List Part) (d : Int)
    (h : g.current.type = .PLUS) :
    exprLoop (fuel + 1) g parts d
      = exprLoop fuel g.advance (parts ++ [("+", .UNKNOWN)]) d := by
  rw [exprLoop]
  simp [check, isStopToken, h]

end Stepping


/-! ## Token sequences of the example programs -/

section Examples

theorem tokenize_var_x_text_plus_int :
    tokenize "var x = \"a\" + 1".data =
      [⟨.VAR, "var", 1, 1⟩, ⟨.IDENTIFIER, "x", 1, 5⟩, ⟨.EQUAL, "=", 1, 7⟩,
       ⟨.STRING, "a", 1, 9⟩, ⟨.PLUS, "+", 1, 13⟩, ⟨.INTEGER, "1", 1, 15⟩,
       ⟨.END_OF_FILE, "", 1, 16⟩] := by decide

theorem tokenize_jika_missing_paren :
    tokenize "jika (x > 0 \x7b cetak x \x7d".data =
      [⟨.JIKA, "jika", 1, 1⟩, ⟨.LPAREN, "(", 1, 6⟩, ⟨.IDENTIFIER, "x", 1, 7⟩,
       ⟨.GREATER, ">", 1, 9⟩, ⟨.INTEGER, "0", 1, 11⟩, ⟨.LBRACE, "\x7b", 1, 13⟩,
       ⟨.CETAK, "cetak", 1, 15⟩, ⟨.IDENTIFIER, "x", 1, 21⟩, ⟨.RBRACE, "\x7d", 1, 23⟩,
       ⟨.END_OF_FILE, "", 1, 24⟩] := by decide

theorem tokenize_stray_brace :
    tokenize "\x7d".data = [⟨.RBRACE, "\x7d", 1, 1⟩, ⟨.END_OF_FILE, "", 1, 2⟩] := by decide

theorem tokenize_fungsi_literal_parameter :
    tokenize "fungsi f(1) \x7b \x7d".data =
      [⟨.FUNGSI, "fungsi", 1, 1⟩, ⟨.IDENTIFIER, "f", 1, 8⟩, ⟨.LPAREN, "(", 1, 9⟩,
       ⟨.INTEGER, "1", 1, 10⟩, ⟨.RPAREN, ")", 1, 11⟩, ⟨.LBRACE, "\x7b", 1, 13⟩,
       ⟨.RBRACE, "\x7d", 1, 15⟩, ⟨.END_OF_FILE, "", 1, 16⟩] := by decide

theorem tokenize_var_cetak :
    tokenize "var cetak = 1".data =
      [⟨.VAR, "var", 1, 1⟩, ⟨.CETAK, "cetak", 1, 5⟩, ⟨.EQUAL, "=", 1, 11⟩,
       ⟨.INTEGER, "1", 1, 13⟩, ⟨.END_OF_FILE, "", 1, 14⟩] := by decide

theorem tokenize_var_print :
    tokenize "var print = 1".data =
      [⟨.VAR, "var", 1, 1⟩, ⟨.CETAK, "print", 1, 5⟩, ⟨.EQUAL, "=", 1, 11⟩,
       ⟨.INTEGER, "1", 1, 13⟩, ⟨.END_OF_FILE, "", 1, 14⟩] := by decide

end Examples

/-! ## Non-termination lemmas -/

section Divergence

open CodeGenerator

attribute [local simp] Result.bind Result.map

/-- At a close brace `generateStatement` returns without consuming it. -/
theorem generateStatement_at_rbrace (fuel : Nat) (g : CodeGenerator)
    (h : g.current.type = .RBRACE) :
    generateStatement (fuel + 2) g = .ok g := by
  rw [generateStatement]
  simp [skipNewlines, check, h]

/-- The top-level loop never leaves a state whose current token is a close brace. -/
theorem topLevelLoop_at_rbrace (fuel : Nat) (g : CodeGenerator)
    (h : g.current.type = .RBRACE) :
    topLevelLoop fuel g = .diverge := by
  induction fuel with
  | zero => rfl
  | succ n ih =>
    rw [topLevelLoop]
    simp only [check, h]
    rcases n with _ | _ | m
    · simp [generateStatement]
    · simp [generateStatement, skipNewlines]
    · rw [generateStatement_at_rbrace m g h]
      simpa using ih

/-- The parameter loop never leaves a state whose current token is neither an
identifier nor `)` nor end of file while no parameter has been read. -/
theorem parameterLoop_stuck (fuel : Nat) (g : CodeGenerator)
    (h1 : g.current.type ≠ .RPAREN) (h2 : g.current.type ≠ .END_OF_FILE)
    (h3 : g.current.type ≠ .IDENTIFIER) :
    parameterLoop fuel g [] = .diverge := by
  induction fuel with
  | zero => rfl
  | succ n ih =>
    rw [parameterLoop]
    simp [check, h1, h2, h3, ih]

end Divergence


/-! ## Fuel monotonicity

An outcome other than `Result.diverge` does not depend on the fuel: more fuel
gives the same outcome. -/

section FuelMonotone

open CodeGenerator

theorem Result.le_refl {α : Type} (r : Result α) : r.le r := fun _ => rfl

theorem Result.diverge_le {α : Type} (r : Result α) : Result.le .diverge r :=
  fun h => absurd rfl h

theorem Result.le_trans {α : Type} {a b c : Result α} (h1 : a.le b) (h2 : b.le c) :
    a.le c := by
  intro hne
  have hab := h1 hne
  subst hab
  exact h2 hne

theorem Result.bind_le {α β : Type} {r r' : Result α} {f f' : α → Result β}
    (h : r.le r') (hf : ∀ a, (f a).le (f' a)) : (r.bind f).le (r'.bind f') := by
  intro hne
  cases r with
  | ok a =>
    have := h (by simp)
    subst this
    exact hf a hne
  | exit l c m =>
    have := h (by simp)
    subst this
    rfl
  | diverge => exact absurd rfl hne

theorem Result.ite_le {α : Type} {c : Prop} [Decidable c] {a a' b b' : Result α}
    (h1 : a.le a') (h2 : b.le b') : (if c then a else b).le (if c then a' else b') := by
  split <;> assumption

theorem Result.le_of_step {α : Type} (f : Nat → Result α)
    (h : ∀ n, (f n).le (f (n + 1))) (n k : Nat) : (f n).le (f (n + k)) := by
  induction k with
  | zero => exact Result.le_refl _
  | succ k ih => exact Result.le_trans ih (h (n + k))

theorem Result.map_le {α β : Type} {r r' : Result α} (f : α → β) (h : r.le r') :
    (r.map f).le (r'.map f) :=
  Result.bind_le h (fun _ => Result.le_refl _)

theorem Result.eq_of_le {α : Type} {r r' v : Result α} (h : r.le r') (hv : r = v)
    (hne : v ≠ .diverge) : r' = v := by
  subst hv
  exact (h hne).symm

theorem Result.le_of_le {α : Type} (f : Nat → Result α)
    (h : ∀ n, (f n).le (f (n + 1))) {n m : Nat} (hnm : n ≤ m) : (f n).le (f m) := by
  obtain ⟨k, rfl⟩ := Nat.exists_eq_add_of_le hnm
  exact Result.le_of_step f h n k

theorem expression_fuel_step (n : Nat) :
    (∀ g, (generateTypedExpression n g).le (generateTypedExpression (n + 1) g))
    ∧ (∀ g parts d, (exprLoop n g parts d).le (exprLoop (n + 1) g parts d))
    ∧ (∀ g call first,
        (callArguments n g call first).le (callArguments (n + 1) g call first)) := by
  induction n with
  | zero =>
    exact ⟨fun _ => Result.diverge_le _, fun _ _ _ => Result.diverge_le _,
      fun _ _ _ => Result.diverge_le _⟩
  | succ n ih =>
    obtain ⟨ih1, ih2, ih3⟩ := ih
    refine ⟨?_, ?_, ?_⟩
    · intro g
      rw [generateTypedExpression.eq_2, generateTypedExpression.eq_2]
      exact Result.bind_le (ih2 _ _ _) (fun _ => Result.le_refl _)
    · intro g parts d
      rw [exprLoop.eq_2, exprLoop.eq_2]
      apply Result.ite_le (Result.le_refl _)
      apply Result.ite_le (Result.le_refl _)
      split <;>
        repeat' first
          | with_reducible exact Result.le_refl _
          | with_reducible exact ih1 _
          | with_reducible exact ih2 _ _ _
          | with_reducible exact ih3 _ _ _
          | with_reducible apply Result.ite_le
          | with_reducible apply Result.bind_le
          | intro _
    · intro g call first
      rw [callArguments.eq_2, callArguments.eq_2]
      repeat' first
        | with_reducible exact Result.le_refl _
        | with_reducible exact ih1 _
        | with_reducible exact ih2 _ _ _
        | with_reducible exact ih3 _ _ _
        | with_reducible apply Result.ite_le
        | with_reducible apply Result.bind_le
        | intro _

theorem generateTypedExpression_fuel_step (n : Nat) (g : CodeGenerator) :
    (generateTypedExpression n g).le (generateTypedExpression (n + 1) g) :=
  (expression_fuel_step n).1 g

theorem callArguments_fuel_step (n : Nat) (g : CodeGenerator) (call : String) (first : Bool) :
    (callArguments n g call first).le (callArguments (n + 1) g call first) :=
  (expression_fuel_step n).2.2 g call first

theorem generateExpression_fuel_step (n : Nat) (g : CodeGenerator) :
    (generateExpression n g).le (generateExpression (n + 1) g) := by
  unfold generateExpression
  exact Result.bind_le (generateTypedExpression_fuel_step n g) (fun _ => Result.le_refl _)

theorem skipNewlines_fuel_step (n : Nat) :
    ∀ g, (skipNewlines n g).le (skipNewlines (n + 1) g) := by
  induction n with
  | zero => exact fun _ => Result.diverge_le _
  | succ n ih =>
    intro g
    rw [skipNewlines.eq_2, skipNewlines.eq_2]
    exact Result.ite_le (ih _) (Result.le_refl _)

theorem parameterLoop_fuel_step (n : Nat) :
    ∀ g params, (parameterLoop n g params).le (parameterLoop (n + 1) g params) := by
  induction n with
  | zero => exact fun _ _ => Result.diverge_le _
  | succ n ih =>
    intro g params
    rw [parameterLoop.eq_2, parameterLoop.eq_2]
    repeat' first
      | with_reducible exact Result.le_refl _
      | with_reducible exact ih _ _
      | with_reducible apply Result.ite_le
      | with_reducible apply Result.bind_le
      | intro _

theorem generatePrint_fuel_step (n : Nat) (g : CodeGenerator) :
    (generatePrint n g).le (generatePrint (n + 1) g) := by
  unfold generatePrint
  exact Result.bind_le (generateTypedExpression_fuel_step n _) (fun _ => Result.le_refl _)

theorem generateVarDecl_fuel_step (n : Nat) (g : CodeGenerator) :
    (generateVarDecl n g).le (generateVarDecl (n + 1) g) := by
  unfold generateVarDecl
  repeat' first
    | with_reducible exact Result.le_refl _
    | with_reducible exact generateTypedExpression_fuel_step n _
    | with_reducible apply Result.ite_le
    | with_reducible apply Result.bind_le
    | intro _

theorem generateReturn_fuel_step (n : Nat) (g : CodeGenerator) :
    (generateReturn n g).le (generateReturn (n + 1) g) := by
  unfold generateReturn
  exact Result.bind_le (generateExpression_fuel_step n _) (fun _ => Result.le_refl _)

theorem generateWriteFile_fuel_step (n : Nat) (g : CodeGenerator) :
    (generateWriteFile n g).le (generateWriteFile (n + 1) g) := by
  unfold generateWriteFile
  repeat' first
    | with_reducible exact Result.le_refl _
    | with_reducible exact generateTypedExpression_fuel_step n _
    | with_reducible apply Result.ite_le
    | with_reducible apply Result.bind_le
    | intro _

theorem statement_fuel_step (n : Nat) :
    (∀ g, (generateStatement n g).le (generateStatement (n + 1) g))
    ∧ (∀ g, (blockLoop n g).le (blockLoop (n + 1) g))
    ∧ (∀ g, (generateWhile n g).le (generateWhile (n + 1) g))
    ∧ (∀ g, (generateIf n g).le (generateIf (n + 1) g))
    ∧ (∀ g, (generateFunctionDecl n g).le (generateFunctionDecl (n + 1) g)) := by
  induction n with
  | zero =>
    exact ⟨fun _ => Result.diverge_le _, fun _ => Result.diverge_le _,
      fun _ => Result.diverge_le _, fun _ => Result.diverge_le _, fun _ => Result.diverge_le _⟩
  | succ n ih =>
    obtain ⟨ih1, ih2, ih3, ih4, ih5⟩ := ih
    refine ⟨?_, ?_, ?_, ?_, ?_⟩
    · intro g
      rw [generateStatement.eq_2, generateStatement.eq_2]
      apply Result.bind_le (skipNewlines_fuel_step n g)
      intro g1
      apply Result.ite_le (Result.le_refl _)
      split <;>
        repeat' first
          | with_reducible exact Result.le_refl _
          | with_reducible exact ih3 _
          | with_reducible exact ih4 _
          | with_reducible exact ih5 _
          | with_reducible exact generateVarDecl_fuel_step n _
          | with_reducible exact generatePrint_fuel_step n _
          | with_reducible exact generateReturn_fuel_step n _
          | with_reducible exact generateWriteFile_fuel_step n _
          | with_reducible exact generateTypedExpression_fuel_step n _
          | with_reducible exact callArguments_fuel_step n _ _ _
          | with_reducible apply Result.ite_le
          | with_reducible apply Result.bind_le
          | intro _
    · intro g
      rw [blockLoop.eq_2, blockLoop.eq_2]
      repeat' first
        | with_reducible exact Result.le_refl _
        | with_reducible exact ih1 _
        | with_reducible exact ih2 _
        | with_reducible apply Result.ite_le
        | with_reducible apply Result.bind_le
        | intro _
    · intro g
      rw [generateWhile.eq_2, generateWhile.eq_2]
      repeat' first
        | with_reducible exact Result.le_refl _
        | with_reducible exact ih2 _
        | with_reducible exact generateExpression_fuel_step n _
        | with_reducible apply Result.ite_le
        | with_reducible apply Result.bind_le
        | intro _
    · intro g
      rw [generateIf.eq_2, generateIf.eq_2]
      repeat' first
        | with_reducible exact Result.le_refl _
        | with_reducible exact ih2 _
        | with_reducible exact ih4 _
        | with_reducible exact generateExpression_fuel_step n _
        | with_reducible apply Result.ite_le
        | with_reducible apply Result.bind_le
        | intro _
    · intro g
      rw [generateFunctionDecl.eq_2, generateFunctionDecl.eq_2]
      repeat' first
        | with_reducible exact Result.le_refl _
        | with_reducible exact ih2 _
        | with_reducible exact parameterLoop_fuel_step n _ _
        | with_reducible apply Result.ite_le
        | with_reducible apply Result.bind_le
        | intro _

theorem generateStatement_fuel_step (n : Nat) (g : CodeGenerator) :
    (generateStatement n g).le (generateStatement (n + 1) g) :=
  (statement_fuel_step n).1 g

theorem topLevelLoop_fuel_step (n : Nat) :
    ∀ g, (topLevelLoop n g).le (topLevelLoop (n + 1) g) := by
  induction n with
  | zero => exact fun _ => Result.diverge_le _
  | succ n ih =>
    intro g
    rw [topLevelLoop.eq_2, topLevelLoop.eq_2]
    apply Result.ite_le _ (Result.le_refl _)
    exact Result.bind_le (generateStatement_fuel_step n g) (fun _ => ih _)

theorem generate_fuel_step (tokens : List Token) (n : Nat) :
    (generate n tokens).le (generate (n + 1) tokens) := by
  unfold generate
  exact Result.bind_le (topLevelLoop_fuel_step n _) (fun _ => Result.le_refl _)

theorem translate_fuel_le (source : String) {n m : Nat} (h : n ≤ m) :
    (translate n source).le (translate m source) :=
  Result.le_of_le (fun n => translate n source) (fun n => topLevelLoop_fuel_step n _) h

theorem compile_fuel_le (source : String) {n m : Nat} (h : n ≤ m) :
    (compile n source).le (compile m source) :=
  Result.le_of_le (fun n => compile n source) (fun n => generate_fuel_step _ n) h

/-- An outcome of `generateTypedExpression` is kept by every larger fuel. -/
theorem generateTypedExpression_fuel_mono {n : Nat} {g : CodeGenerator}
    {r : Result (ExprResult × CodeGenerator)} (h : generateTypedExpression n g = r)
    (hr : r ≠ .diverge) (k : Nat) : generateTypedExpression (n + k) g = r := by
  subst h
  exact (Result.le_of_step (fun n => generateTypedExpression n g)
    (fun n => generateTypedExpression_fuel_step n g) n k hr).symm

/-- An outcome of the top-level loop is kept by every larger fuel. -/
theorem topLevelLoop_fuel_mono {n : Nat} {g : CodeGenerator}
    {r : Result CodeGenerator} (h : topLevelLoop n g = r)
    (hr : r ≠ .diverge) (k : Nat) : topLevelLoop (n + k) g = r := by
  subst h
  exact (Result.le_of_step (fun n => topLevelLoop n g)
    (fun n => topLevelLoop_fuel_step n g) n k hr).symm

/-- An outcome of `generate` is kept by every larger fuel. -/
theorem generate_fuel_mono {n : Nat} {tokens : List Token}
    {r : Result String} (h : generate n tokens = r)
    (hr : r ≠ .diverge) (k : Nat) : generate (n + k) tokens = r := by
  subst h
  exact (Result.le_of_step (fun n => generate n tokens)
    (fun n => generate_fuel_step tokens n) n k hr).symm

end FuelMonotone


/-! ## Lemmas on the output assembly -/

section Assembly

attribute [local simp] Result.bind Result.map

theorem Result.exists_of_map_eq_ok {α β : Type} {r : Result α} {f : α → β} {v : β}
    (h : r.map f = .ok v) : ∃ a, r = .ok a ∧ f a = v := by
  cases r with
  | ok a => exact ⟨a, rfl, by simpa using h⟩
  | exit l c m => simp at h
  | diverge => simp at h

theorem compile_eq_of_translate (fuel : Nat) (source : String) (g : CodeGenerator)
    (h : translate fuel source = .ok g) : compile fuel source = .ok (assemble g) := by
  unfold translate at h
  unfold compile generate
  rw [h]
  rfl

theorem String.append_left_cancel {a b c : String} (h : a ++ b = a ++ c) : b = c := by
  have hd := congrArg String.data h
  rw [String.data_append, String.data_append] at hd
  exact String.ext (List.append_cancel_left hd)

theorem String.append_right_cancel {a b c : String} (h : b ++ a = c ++ a) : b = c := by
  have hd := congrArg String.data h
  rw [String.data_append, String.data_append] at hd
  exact String.ext (List.append_cancel_right hd)

theorem assemble_ne_of_main_ne (g1 g2 : CodeGenerator)
    (hf : g1.functionsOutput = g2.functionsOutput) (hm : g1.mainOutput ≠ g2.mainOutput) :
    assemble g1 ≠ assemble g2 := by
  intro h
  apply hm
  unfold assemble at h
  rw [hf] at h
  exact String.append_left_cancel (String.append_right_cancel (String.append_right_cancel h))

end Assembly

/-! ## Lemmas on concatenation chains -/

section Chains

open CodeGenerator

attribute [local simp] Result.bind Result.map

theorem operandPart_kind (g : CodeGenerator) (t : Token) :
    (operandPart g t).2 = .STRING ∨ (operandPart g t).2 = .INT := by
  unfold operandPart
  split
  · exact Or.inl rfl
  · split
    · exact Or.inr rfl
    · split
      · exact Or.inl rfl
      · exact Or.inr rfl

theorem quoted_ne_plus (v : String) : "\"" ++ v ++ "\"" ≠ "+" := by
  intro h
  have hd := congrArg String.data h
  simp at hd

theorem quoted_ne_blank (v : String) : "\"" ++ v ++ "\"" ≠ " " := by
  intro h
  have hd := congrArg String.data h
  simp at hd

theorem operandPart_fragment (g : CodeGenerator) (t : Token) (h : isChainOperand t = true) :
    (operandPart g t).1 ≠ "+" ∧ (operandPart g t).1 ≠ " " := by
  unfold operandPart
  by_cases hs : t.type = .STRING
  · simp only [hs, if_true]
    exact ⟨quoted_ne_plus _, quoted_ne_blank _⟩
  · have hv : t.value ≠ "+" ∧ t.value ≠ " " := by
      simp [isChainOperand, hs] at h
      exact h.2
    by_cases hi : t.type = .INTEGER
    · simpa [hs, hi] using hv
    · simpa [hs, hi] using hv

/-- One iteration of the scan loop on an operand token that is not a call. -/
theorem exprLoop_operand (fuel : Nat) (g : CodeGenerator) (t : Token) (rest : List Token)
    (parts : List Part) (d : Int) (h : isChainOperand t = true)
    (hnext : (g.atTokens rest).current.type ≠ .LPAREN) :
    exprLoop (fuel + 1) (g.atTokens (t :: rest)) parts d
      = exprLoop fuel (g.atTokens rest) (parts ++ [operandPart g t]) d := by
  by_cases hs : t.type = .STRING
  · rw [exprLoop_string _ _ _ _ (by simpa [current, atTokens] using hs)]
    simp [operandPart, hs, current, atTokens, advance]
  · by_cases hi : t.type = .INTEGER
    · rw [exprLoop_integer _ _ _ _ (by simpa [current, atTokens] using hi)]
      simp [operandPart, hi, current, atTokens, advance]
    · have hid : t.type = .IDENTIFIER := by
        simp [isChainOperand, hs, hi] at h
        exact h.1
      rw [exprLoop_variable _ _ _ _ (by simpa [current, atTokens] using hid)
        (by simpa [current, atTokens, advance] using hnext)]
      simp [operandPart, hid, current, atTokens, advance]

theorem endsExpression_ne_lparen {t : TokenType} (h : endsExpression t = true) :
    t ≠ .LPAREN := by
  intro he
  simp [endsExpression, isStopToken, he] at h

/-- The scan loop on the tokens `+ op₁ + op₂ ... stop`. -/
theorem exprLoop_chainTail (g : CodeGenerator) (stop : Token) (more : List Token)
    (hstop : endsExpression stop.type = true) :
    ∀ (others : List (Token × Token)) (parts : List Part) (fuel : Nat),
      (∀ p ∈ others, p.1.type = .PLUS ∧ isChainOperand p.2 = true) →
      exprLoop (fuel + 2 * others.length + 1) (g.atTokens (chainTail others ++ stop :: more))
          parts 0
        = .ok (parts ++ chainParts g others, g.atTokens (stop :: more)) := by
  intro others
  induction others with
  | nil =>
    intro parts fuel _
    simpa [chainTail, chainParts] using
      exprLoop_stop fuel (g.atTokens (stop :: more)) parts (by simpa [current, atTokens] using hstop)
  | cons p ps ih =>
    intro parts fuel hall
    have hp := hall p (List.mem_cons_self _ _)
    have hps : ∀ q ∈ ps, q.1.type = .PLUS ∧ isChainOperand q.2 = true :=
      fun q hq => hall q (List.mem_cons_of_mem _ hq)
    have hfuel : fuel + 2 * (p :: ps).length + 1 = (fuel + 2 * ps.length + 1) + 1 + 1 := by
      simp only [List.length_cons]; omega
    have hnext : (g.atTokens (chainTail ps ++ stop :: more)).current.type ≠ .LPAREN := by
      cases ps with
      | nil => simpa [chainTail, current, atTokens] using endsExpression_ne_lparen hstop
      | cons q qs =>
        have hq := (hps q (List.mem_cons_self _ _)).1
        simp [chainTail, current, atTokens, hq]
    rw [hfuel]
    have e1 : g.atTokens (chainTail (p :: ps) ++ stop :: more)
        = g.atTokens (p.1 :: p.2 :: (chainTail ps ++ stop :: more)) := rfl
    rw [e1, exprLoop_plus _ _ _ _ (by simpa [current, atTokens] using hp.1)]
    have e2 : (g.atTokens (p.1 :: p.2 :: (chainTail ps ++ stop :: more))).advance
        = g.atTokens (p.2 :: (chainTail ps ++ stop :: more)) := rfl
    rw [e2, exprLoop_operand _ _ _ _ _ _ hp.2 hnext, ih _ _ hps]
    simp [chainParts]

theorem chainParts_filter (g : CodeGenerator) :
    ∀ (others : List (Token × Token)),
      (∀ p ∈ others, p.1.type = .PLUS ∧ isChainOperand p.2 = true) →
      (chainParts g others).filter (fun p => p.1 ≠ "+" ∧ p.1 ≠ " ")
        = others.map (fun p => operandPart g p.2) := by
  intro others
  induction others with
  | nil => intro _; rfl
  | cons p ps ih =>
    intro hall
    have hp := hall p (List.mem_cons_self _ _)
    have hps : ∀ q ∈ ps, q.1.type = .PLUS ∧ isChainOperand q.2 = true :=
      fun q hq => hall q (List.mem_cons_of_mem _ hq)
    have hfrag := operandPart_fragment g p.2 hp.2
    simpa [chainParts, List.filter, hfrag.1, hfrag.2] using ih hps

theorem chainParts_length (g : CodeGenerator) (others : List (Token × Token)) :
    (chainParts g others).length = 2 * others.length := by
  induction others with
  | nil => rfl
  | cons p ps ih => simp only [chainParts, List.length_cons, ih]; omega

theorem chainParts_any_text (g : CodeGenerator) (others : List (Token × Token)) :
    (chainParts g others).any (fun p => decide (p.2 = ExprType.STRING))
      = others.any (fun p => decide ((operandPart g p.2).2 = ExprType.STRING)) := by
  induction others with
  | nil => rfl
  | cons p ps ih => simp [chainParts, ih]

theorem chainParts_any_plus (g : CodeGenerator) (others : List (Token × Token))
    (h : others ≠ []) :
    (chainParts g others).any (fun p => decide (p.1 = "+")) = true := by
  cases others with
  | nil => exact absurd rfl h
  | cons p ps => simp [chainParts]

/-- On kinds Integer and Text the fold step of `buildStringConcat` is the
step of the specification. -/
theorem concatStep_eq_spec (acc : String × ExprType) (operand : Part)
    (h1 : acc.2 = .STRING ∨ acc.2 = .INT) (h2 : operand.2 = .STRING ∨ operand.2 = .INT) :
    concatStep acc operand = specChainStep acc operand := by
  obtain ⟨r, k⟩ := acc
  obtain ⟨o, ok⟩ := operand
  rcases h1 with h1 | h1 <;> rcases h2 with h2 | h2 <;>
    simp only at h1 h2 <;> subst h1 <;> subst h2 <;> simp [concatStep, specChainStep]

theorem specChainStep_kind (acc : String × ExprType) (operand : Part)
    (h1 : acc.2 = .STRING ∨ acc.2 = .INT) (h2 : operand.2 = .STRING ∨ operand.2 = .INT) :
    (specChainStep acc operand).2 = .STRING ∨ (specChainStep acc operand).2 = .INT := by
  obtain ⟨r, k⟩ := acc
  obtain ⟨o, ok⟩ := operand
  rcases h1 with h1 | h1 <;> rcases h2 with h2 | h2 <;>
    simp only at h1 h2 <;> subst h1 <;> subst h2 <;> simp [specChainStep]

theorem foldl_concatStep_eq_spec (g : CodeGenerator) :
    ∀ (others : List (Token × Token)) (acc : String × ExprType),
      (acc.2 = .STRING ∨ acc.2 = .INT) →
      (others.map (fun p => operandPart g p.2)).foldl concatStep acc
        = others.foldl (fun a p => specChainStep a (operandPart g p.2)) acc := by
  intro others
  induction others with
  | nil => intro acc _; rfl
  | cons p ps ih =>
    intro acc hacc
    simp only [List.map_cons, List.foldl_cons]
    rw [concatStep_eq_spec acc _ hacc (operandPart_kind g p.2)]
    exact ih _ (specChainStep_kind acc _ hacc (operandPart_kind g p.2))

end Chains

/-! ## Lemmas on the scanner -/

section Scanner

open Lexer

theorem Lexer.current_cons (c : Char) (cs : List Char) (l k : Int) :
    (Lexer.mk (c :: cs) l k).current = c := rfl

theorem Lexer.current_nil (l k : Int) : (Lexer.mk [] l k).current = NUL := rfl

theorem Lexer.rest_of_current_ne_nul (lx : Lexer) (h : lx.current ≠ NUL) :
    lx.rest = lx.current :: lx.rest.tail := by
  obtain ⟨rest, l, k⟩ := lx
  cases rest with
  | nil => exact absurd rfl h
  | cons c cs => rfl

theorem Lexer.advance_cons (c : Char) (cs : List Char) (l k : Int) :
    (Lexer.mk (c :: cs) l k).advance
      = ⟨cs, (advancePos (l, k) c).1, (advancePos (l, k) c).2⟩ := by
  unfold Lexer.advance advancePos
  simp only [Lexer.current_cons, List.tail_cons]
  split <;> rfl

theorem positionFrom_append (p : Int × Int) (a b : List Char) :
    positionFrom p (a ++ b) = positionFrom (positionFrom p a) b := by
  simp [positionFrom, List.foldl_append]

theorem Lexer.Reads.reads_refl (lx : Lexer) : lx.Reads lx [] := ⟨rfl, rfl⟩

theorem Lexer.Reads.reads_trans {a b c : Lexer} {x y : List Char}
    (h1 : a.Reads b x) (h2 : b.Reads c y) : a.Reads c (x ++ y) := by
  refine ⟨?_, ?_⟩
  · rw [h1.1, h2.1, List.append_assoc]
  · rw [positionFrom_append, ← h1.2, h2.2]

theorem Lexer.Reads.reads_advance (lx : Lexer) (h : lx.current ≠ NUL) :
    lx.Reads lx.advance [lx.current] := by
  obtain ⟨rest, l, k⟩ := lx
  cases rest with
  | nil => exact absurd rfl h
  | cons c cs =>
    rw [Lexer.advance_cons]
    exact ⟨rfl, rfl⟩

theorem Lexer.Reads.length {a b : Lexer} {x : List Char} (h : a.Reads b x) :
    a.rest.length = x.length + b.rest.length := by
  rw [h.1, List.length_append]

/-! ### Whitespace and comments -/

theorem skipWhitespaceLoop_reads (n : Nat) :
    ∀ lx : Lexer, ∃ chunk, lx.Reads (skipWhitespaceLoop n lx) chunk := by
  induction n with
  | zero => exact fun lx => ⟨[], Lexer.Reads.reads_refl lx⟩
  | succ n ih =>
    intro lx
    rw [skipWhitespaceLoop]
    split
    · rename_i h
      have hne : lx.current ≠ NUL := by
        rcases h with h | h | h <;> rw [h] <;> decide
      obtain ⟨chunk, hc⟩ := ih lx.advance
      exact ⟨_, (Lexer.Reads.reads_advance lx hne).reads_trans hc⟩
    · exact ⟨[], Lexer.Reads.reads_refl lx⟩

theorem skipWhitespace_reads (lx : Lexer) : ∃ chunk, lx.Reads lx.skipWhitespace chunk :=
  skipWhitespaceLoop_reads _ lx

theorem skipLineCommentLoop_reads (n : Nat) :
    ∀ lx : Lexer, ∃ chunk, lx.Reads (skipLineCommentLoop n lx) chunk := by
  induction n with
  | zero => exact fun lx => ⟨[], Lexer.Reads.reads_refl lx⟩
  | succ n ih =>
    intro lx
    rw [skipLineCommentLoop]
    split
    · rename_i h
      obtain ⟨chunk, hc⟩ := ih lx.advance
      exact ⟨_, (Lexer.Reads.reads_advance lx h.2).reads_trans hc⟩
    · exact ⟨[], Lexer.Reads.reads_refl lx⟩

/-- A comment that starts at `/` reads at least that character. -/
theorem skipLineComment_reads (lx : Lexer) (h : lx.current = '/') :
    ∃ chunk, chunk ≠ [] ∧ lx.Reads lx.skipLineComment chunk := by
  have hne : lx.current ≠ NUL := by rw [h]; decide
  have hlf : lx.current ≠ LF := by rw [h]; decide
  have hrest := Lexer.rest_of_current_ne_nul lx hne
  have hlen := congrArg List.length hrest
  simp only [List.length_cons] at hlen
  unfold skipLineComment
  rw [hlen, skipLineCommentLoop]
  simp only [hlf, hne, ne_eq, not_false_eq_true, and_self, if_true]
  obtain ⟨chunk, hc⟩ := skipLineCommentLoop_reads lx.rest.tail.length lx.advance
  exact ⟨_, by simp, (Lexer.Reads.reads_advance lx hne).reads_trans hc⟩

/-! ### Text literals -/

theorem scanStringLoop_reads (n : Nat) :
    ∀ (lx : Lexer) (value : String), ∃ chunk, lx.Reads (scanStringLoop n lx value).1 chunk := by
  induction n with
  | zero => exact fun lx _ => ⟨[], Lexer.Reads.reads_refl lx⟩
  | succ n ih =>
    intro lx value
    rw [scanStringLoop]
    split
    · rename_i h
      have h1 := Lexer.Reads.reads_advance lx h.2
      split
      · obtain ⟨chunk, hc⟩ := ih lx.advance (value.push DQUOTE)
        exact ⟨_, h1.reads_trans hc⟩
      · split
        · rename_i hn
          have h2 : lx.advance.current ≠ NUL := by
            obtain ⟨rest, l, k⟩ := lx
            match rest, hn with
            | _ :: d :: ds, hn =>
              rw [Lexer.advance_cons]
              have hd : d = 'n' := hn.2
              rw [Lexer.current_cons, hd]
              decide
            | [_], hn => exact ((by decide : NUL ≠ 'n') hn.2).elim
            | [], hn => exact ((by decide : NUL ≠ 'n') hn.2).elim
          obtain ⟨chunk, hc⟩ := ih lx.advance.advance (value ++ "\\n")
          exact ⟨_, (h1.reads_trans (Lexer.Reads.reads_advance _ h2)).reads_trans hc⟩
        · obtain ⟨chunk, hc⟩ := ih lx.advance (value.push lx.current)
          exact ⟨_, h1.reads_trans hc⟩
    · exact ⟨[], Lexer.Reads.reads_refl lx⟩

theorem scanString_reads (lx : Lexer) (h : lx.current = DQUOTE) :
    ∃ chunk, chunk ≠ [] ∧ lx.Reads lx.scanString.2 chunk := by
  have hne : lx.current ≠ NUL := by rw [h]; decide
  have h1 := Lexer.Reads.reads_advance lx hne
  obtain ⟨chunk, hc⟩ := scanStringLoop_reads lx.advance.rest.length lx.advance ""
  unfold scanString
  simp only
  split
  · rename_i hq
    have hq2 : (scanStringLoop lx.advance.rest.length lx.advance "").1.current ≠ NUL := by
      rw [hq]; decide
    exact ⟨_, by simp, (h1.reads_trans hc).reads_trans (Lexer.Reads.reads_advance _ hq2)⟩
  · exact ⟨_, by simp, h1.reads_trans hc⟩

theorem scanString_type (lx : Lexer) : lx.scanString.1.type = .STRING := rfl

/-! ### Numbers and identifiers -/

theorem String.push_append_mk (value : String) (c : Char) (cs : List Char) :
    value.push c ++ String.mk cs = value ++ String.mk (c :: cs) := by
  apply String.ext
  simp

theorem String.append_mk_nil (value : String) : value ++ String.mk [] = value := by
  apply String.ext
  simp

theorem toInt32_eq (n : Int) :
    toInt32 n = (n + 2147483648) % 4294967296 - 2147483648 := by
  unfold toInt32
  norm_num

/-- A value in the range of `int` is its own conversion. -/
theorem toInt32_of_range {n : Int} (h1 : -2147483648 ≤ n) (h2 : n < 2147483648) :
    toInt32 n = n := by
  rw [toInt32_eq]
  omega

/-- Two increments in a row, and in general a sum, may be converted once. -/
theorem toInt32_add (a b : Int) : toInt32 (toInt32 a + b) = toInt32 (a + b) := by
  rw [toInt32_eq, toInt32_eq, toInt32_eq]
  omega

theorem advancePos_of_ne_lf (p : Int × Int) (c : Char) (h : c ≠ LF) :
    advancePos p c = (p.1, toInt32 (p.2 + 1)) := by
  simp [advancePos, h]

theorem isDigit_ne_lf {c : Char} (h : c.isDigit = true) : c ≠ LF := by
  intro he
  rw [he] at h
  exact absurd h (by decide)

theorem isIdentifierChar_ne_lf {c : Char} (h : isIdentifierChar c = true) : c ≠ LF := by
  intro he
  rw [he] at h
  exact absurd h (by decide)

theorem positionFrom_cons (p : Int × Int) (c : Char) (cs : List Char) :
    positionFrom p (c :: cs) = positionFrom (advancePos p c) cs := rfl

/-- Reading characters none of which is a newline: the line is kept, and the
column counter is incremented once per character. -/
theorem positionFrom_of_no_lf (p : Int × Int) (chunk : List Char)
    (h : ∀ c ∈ chunk, c ≠ LF) (hne : chunk ≠ []) :
    positionFrom p chunk = (p.1, toInt32 (p.2 + chunk.length)) := by
  induction chunk generalizing p with
  | nil => exact absurd rfl hne
  | cons c cs ih =>
    have hc := h c (List.mem_cons_self _ _)
    have hcs : ∀ d ∈ cs, d ≠ LF := fun d hd => h d (List.mem_cons_of_mem _ hd)
    rw [positionFrom_cons, advancePos_of_ne_lf p c hc]
    cases cs with
    | nil => rfl
    | cons d ds =>
      rw [ih _ hcs (by simp), toInt32_add]
      simp only [List.length_cons, Nat.cast_add, Nat.cast_one]
      congr 2
      omega

theorem scanNumberLoop_eq (n : Nat) :
    ∀ (rest : List Char) (l k : Int) (value : String), rest.length ≤ n →
      scanNumberLoop n ⟨rest, l, k⟩ value
        = (⟨rest.dropWhile Char.isDigit,
            (positionFrom (l, k) (rest.takeWhile Char.isDigit)).1,
            (positionFrom (l, k) (rest.takeWhile Char.isDigit)).2⟩,
           value ++ String.mk (rest.takeWhile Char.isDigit)) := by
  induction n with
  | zero =>
    intro rest l k value h
    have hr : rest = [] := List.length_eq_zero.mp (Nat.le_zero.mp h)
    subst hr
    simp [scanNumberLoop, String.append_mk_nil, positionFrom]
  | succ n ih =>
    intro rest l k value h
    rw [scanNumberLoop]
    cases rest with
    | nil =>
      simp [Lexer.current_nil, String.append_mk_nil, show NUL.isDigit = false by decide,
        positionFrom]
    | cons c cs =>
      rw [Lexer.current_cons]
      by_cases hc : c.isDigit = true
      · have hlen : cs.length ≤ n := by simpa using h
        rw [if_pos hc, Lexer.advance_cons, ih cs _ _ _ hlen, String.push_append_mk]
        simp only [List.dropWhile_cons_of_pos hc, List.takeWhile_cons_of_pos hc,
          positionFrom_cons]
      · rw [if_neg hc]
        simp [List.dropWhile_cons_of_neg hc, List.takeWhile_cons_of_neg hc,
          String.append_mk_nil, positionFrom]

theorem scanIdentifierLoop_eq (n : Nat) :
    ∀ (rest : List Char) (l k : Int) (value : String), rest.length ≤ n →
      scanIdentifierLoop n ⟨rest, l, k⟩ value
        = (⟨rest.dropWhile isIdentifierChar,
            (positionFrom (l, k) (rest.takeWhile isIdentifierChar)).1,
            (positionFrom (l, k) (rest.takeWhile isIdentifierChar)).2⟩,
           value ++ String.mk (rest.takeWhile isIdentifierChar)) := by
  induction n with
  | zero =>
    intro rest l k value h
    have hr : rest = [] := List.length_eq_zero.mp (Nat.le_zero.mp h)
    subst hr
    simp [scanIdentifierLoop, String.append_mk_nil, positionFrom]
  | succ n ih =>
    intro rest l k value h
    rw [scanIdentifierLoop]
    cases rest with
    | nil =>
      have hn : ¬ (NUL.isAlphanum = true ∨ NUL = '_') := by decide
      simp [Lexer.current_nil, String.append_mk_nil, hn, positionFrom]
    | cons c cs =>
      rw [Lexer.current_cons]
      by_cases hc : isIdentifierChar c = true
      · have hc1 : c.isAlphanum = true ∨ c = '_' := by
          simpa [isIdentifierChar] using hc
        have hlen : cs.length ≤ n := by simpa using h
        rw [if_pos hc1, Lexer.advance_cons, ih cs _ _ _ hlen, String.push_append_mk]
        simp only [List.dropWhile_cons_of_pos hc, List.takeWhile_cons_of_pos hc,
          positionFrom_cons]
      · have hc1 : ¬ (c.isAlphanum = true ∨ c = '_') := by
          simpa [isIdentifierChar] using hc
        rw [if_neg hc1]
        simp [List.dropWhile_cons_of_neg hc, List.takeWhile_cons_of_neg hc,
          String.append_mk_nil, positionFrom]

theorem String.empty_append_mk (cs : List Char) : "" ++ String.mk cs = String.mk cs := by
  apply String.ext
  simp

/-- The integer token: its lexeme is the longest run of digits at the current
position, and the scanner is left right after it. -/
theorem scanNumber_eq (rest : List Char) (l k : Int) :
    Lexer.scanNumber ⟨rest, l, k⟩
      = (⟨.INTEGER, String.mk (rest.takeWhile Char.isDigit), l, k⟩,
         ⟨rest.dropWhile Char.isDigit,
          (positionFrom (l, k) (rest.takeWhile Char.isDigit)).1,
          (positionFrom (l, k) (rest.takeWhile Char.isDigit)).2⟩) := by
  unfold Lexer.scanNumber
  simp only [scanNumberLoop_eq rest.length rest l k "" (Nat.le_refl _), String.empty_append_mk]

/-- The identifier or keyword token: its lexeme is the longest run of
identifier characters at the current position, its kind is the keyword kind of
the lexeme when the table has one, and the scanner is left right after it. -/
theorem scanIdentifier_eq (rest : List Char) (l k : Int) :
    Lexer.scanIdentifier ⟨rest, l, k⟩
      = (⟨(keywords (String.mk (rest.takeWhile isIdentifierChar))).getD .IDENTIFIER,
          String.mk (rest.takeWhile isIdentifierChar), l, k⟩,
         ⟨rest.dropWhile isIdentifierChar,
          (positionFrom (l, k) (rest.takeWhile isIdentifierChar)).1,
          (positionFrom (l, k) (rest.takeWhile isIdentifierChar)).2⟩) := by
  unfold Lexer.scanIdentifier
  simp only [scanIdentifierLoop_eq rest.length rest l k "" (Nat.le_refl _),
    String.empty_append_mk]
  cases keywords (String.mk (rest.takeWhile isIdentifierChar)) <;> rfl

theorem reads_takeWhile (p : Char → Bool) (rest : List Char) (l k : Int) :
    (Lexer.mk rest l k).Reads
      ⟨rest.dropWhile p, (positionFrom (l, k) (rest.takeWhile p)).1,
        (positionFrom (l, k) (rest.takeWhile p)).2⟩
      (rest.takeWhile p) :=
  ⟨(List.takeWhile_append_dropWhile p rest).symm, rfl⟩

theorem scanNumber_reads (lx : Lexer) :
    lx.Reads lx.scanNumber.2 lx.scanNumber.1.value.data := by
  obtain ⟨rest, l, k⟩ := lx
  rw [scanNumber_eq]
  exact reads_takeWhile Char.isDigit rest l k

theorem scanIdentifier_reads (lx : Lexer) :
    lx.Reads lx.scanIdentifier.2 lx.scanIdentifier.1.value.data := by
  obtain ⟨rest, l, k⟩ := lx
  rw [scanIdentifier_eq]
  exact reads_takeWhile isIdentifierChar rest l k

/-! ### Operators and delimiters -/

theorem single_reads (lx : Lexer) (t : TokenType) (s : String) (h : lx.current ≠ NUL) :
    ∃ chunk, chunk ≠ [] ∧ lx.Reads (Lexer.single lx t s).2 chunk :=
  ⟨[lx.current], by simp, Lexer.Reads.reads_advance lx h⟩

theorem double_reads (lx : Lexer) (two : TokenType) (s2 : String) (one : TokenType)
    (s1 : String) (h : lx.current ≠ NUL) :
    ∃ chunk, chunk ≠ [] ∧ lx.Reads (Lexer.double lx two s2 one s1).2 chunk := by
  unfold Lexer.double
  simp only
  split
  · rename_i he
    have h2 : lx.advance.current ≠ NUL := by rw [he]; decide
    exact ⟨_, by simp, (Lexer.Reads.reads_advance lx h).reads_trans (Lexer.Reads.reads_advance _ h2)⟩
  · exact ⟨[lx.current], by simp, Lexer.Reads.reads_advance lx h⟩

theorem ite_cases {α : Type} (P : α → Prop) {c : Prop} [Decidable c] {a b : α}
    (ha : P a) (hb : P b) : P (if c then a else b) := by
  split <;> assumption

/-- The switch pushes one token through `single` or through `double`. -/
theorem scanOperator_cases (lx : Lexer) : IsOperatorScan lx lx.scanOperator := by
  unfold Lexer.scanOperator
  repeat' first
    | exact Or.inl ⟨_, _, rfl, by decide, by decide, by decide, by decide⟩
    | exact Or.inr ⟨_, _, _, _, rfl, by decide, by decide, by decide, by decide, by decide,
        by decide, by decide, by decide⟩
    | refine ite_cases (IsOperatorScan lx) ?_ ?_

theorem scanOperator_reads (lx : Lexer) (h : lx.current ≠ NUL) :
    ∃ chunk, chunk ≠ [] ∧ lx.Reads lx.scanOperator.2 chunk := by
  rcases scanOperator_cases lx with ⟨t, s, he, _⟩ | ⟨two, s2, one, s1, he, _⟩
  · rw [he]; exact single_reads lx t s h
  · rw [he]; exact double_reads lx two s2 one s1 h

/-- The kinds the operator switch can produce. -/
theorem scanOperator_type (lx : Lexer) :
    isKeywordKind lx.scanOperator.1.type = false
      ∧ lx.scanOperator.1.type ≠ .IDENTIFIER
      ∧ lx.scanOperator.1.type ≠ .INTEGER
      ∧ lx.scanOperator.1.type ≠ .END_OF_FILE := by
  rcases scanOperator_cases lx with ⟨t, s, he, h1, h2, h3, h4⟩
    | ⟨two, s2, one, s1, he, h1, h2, h3, h4, h5, h6, h7, h8⟩
  · rw [he]; exact ⟨h1, h2, h3, h4⟩
  · rw [he]
    unfold Lexer.double
    simp only
    split
    · exact ⟨h1, h2, h3, h4⟩
    · exact ⟨h5, h6, h7, h8⟩


/-! ### The main loop -/

theorem Lexer.At.start (source : List Char) : Lexer.At source ⟨source, 1, 1⟩ :=
  ⟨[], rfl, rfl⟩

theorem Lexer.At.reads {source : List Char} {lx lx1 : Lexer} {chunk : List Char}
    (h : Lexer.At source lx) (hr : lx.Reads lx1 chunk) : Lexer.At source lx1 := by
  obtain ⟨consumed, hs, hp⟩ := h
  refine ⟨consumed ++ chunk, ?_, ?_⟩
  · rw [hs, hr.1, List.append_assoc]
  · unfold positionAfter at *
    rw [positionFrom_append, hp, hr.2]

theorem keywordTable_kinds :
    ∀ p ∈ keywordTable, isKeywordKind p.2 = true := by decide

theorem mem_of_lookup_eq_some {α β : Type} [BEq α] [LawfulBEq α] {l : List (α × β)}
    {a : α} {b : β} (h : l.lookup a = some b) : (a, b) ∈ l := by
  induction l with
  | nil => simp at h
  | cons p ps ih =>
    obtain ⟨k, v⟩ := p
    rw [List.lookup_cons] at h
    by_cases hk : (a == k) = true
    · rw [hk] at h
      have hv : v = b := by simpa using h
      have hak : a = k := by simpa using hk
      rw [hak, hv]
      exact List.mem_cons_self _ _
    · have hk2 : (a == k) = false := by simpa using hk
      rw [hk2] at h
      exact List.mem_cons_of_mem _ (ih h)

theorem keywords_kind {v : String} {t : TokenType} (h : keywords v = some t) :
    isKeywordKind t = true :=
  keywordTable_kinds (v, t) (mem_of_lookup_eq_some h)

/-- A token whose kind is neither a keyword kind nor identifier nor integer
has nothing to satisfy. -/
theorem LexemeShape.of_other (source : List Char) (t : Token)
    (h1 : isKeywordKind t.type = false) (h2 : t.type ≠ .IDENTIFIER) (h3 : t.type ≠ .INTEGER) :
    LexemeShape source t :=
  ⟨fun h => absurd h h2, fun h => by rw [h1] at h; exact absurd h (by decide),
    fun h => absurd h h3⟩

theorem LexemeShape.scanNumber (source : List Char) (lx : Lexer) (hat : Lexer.At source lx)
    (hd : lx.current.isDigit = true) : LexemeShape source lx.scanNumber.1 := by
  obtain ⟨rest, l, k⟩ := lx
  obtain ⟨consumed, hs, hp⟩ := hat
  rw [scanNumber_eq]
  refine ⟨fun h => by simp at h, fun h => by simp [isKeywordKind] at h, fun _ => ?_⟩
  cases rest with
  | nil => exact ((by decide : ¬ NUL.isDigit = true) hd).elim
  | cons c cs =>
    have hc : c.isDigit = true := hd
    refine ⟨?_, ?_, consumed, (c :: cs).dropWhile Char.isDigit, ?_, hp, ?_⟩
    · simp [List.takeWhile_cons_of_pos hc]
    · exact fun d hd => List.mem_takeWhile_imp hd
    · rw [List.append_assoc, List.takeWhile_append_dropWhile]
      exact hs
    · intro d hd
      have := List.head?_dropWhile_not Char.isDigit (c :: cs)
      rw [hd] at this
      simpa using this

theorem isIdentifierChar_cases {c : Char} (h : isIdentifierChar c = true) :
    c.isAlpha = true ∨ c.isDigit = true ∨ c = '_' := by
  simp only [isIdentifierChar, Char.isAlphanum, Bool.or_eq_true, decide_eq_true_eq] at h
  rcases h with (h | h) | h
  · exact Or.inl h
  · exact Or.inr (Or.inl h)
  · exact Or.inr (Or.inr h)

theorem LexemeShape.scanIdentifier (source : List Char) (lx : Lexer)
    (hd : lx.current.isAlpha = true ∨ lx.current = '_') :
    LexemeShape source lx.scanIdentifier.1 := by
  obtain ⟨rest, l, k⟩ := lx
  rw [scanIdentifier_eq]
  cases rest with
  | nil =>
    exfalso
    rcases hd with h | h
    · exact (by decide : ¬ NUL.isAlpha = true) h
    · exact (by decide : ¬ NUL = '_') h
  | cons c cs =>
    have hc : c.isAlpha = true ∨ c = '_' := hd
    have hic : isIdentifierChar c = true := by
      simp only [isIdentifierChar, Char.isAlphanum, Bool.or_eq_true, decide_eq_true_eq]
      rcases hc with h | h
      · exact Or.inl (Or.inl h)
      · exact Or.inr h
    cases hk : keywords (String.mk ((c :: cs).takeWhile isIdentifierChar)) with
    | none =>
      refine ⟨fun _ => ⟨⟨c, cs.takeWhile isIdentifierChar, ?_, hc, ?_⟩, hk⟩,
        fun h => by simp [isKeywordKind] at h, fun h => by simp at h⟩
      · simp [List.takeWhile_cons_of_pos hic]
      · intro d hd
        rw [← List.takeWhile_cons_of_pos hic] at hd
        exact isIdentifierChar_cases (List.mem_takeWhile_imp hd)
    | some t =>
      have hkind := keywords_kind hk
      refine ⟨fun h => ?_, fun _ => hk, fun h => ?_⟩
      · have h1 : t = .IDENTIFIER := h
        rw [h1] at hkind
        exact absurd hkind (by decide)
      · have h1 : t = .INTEGER := h
        rw [h1] at hkind
        exact absurd hkind (by decide)

theorem scanIdentifier_type_ne_eof (lx : Lexer) :
    lx.scanIdentifier.1.type ≠ .END_OF_FILE := by
  obtain ⟨rest, l, k⟩ := lx
  rw [scanIdentifier_eq]
  cases hk : keywords (String.mk (rest.takeWhile isIdentifierChar)) with
  | none => exact fun h => by simp at h
  | some t =>
    have hkind := keywords_kind hk
    intro h
    have h1 : t = .END_OF_FILE := h
    rw [h1] at hkind
    exact absurd hkind (by decide)

/-- Every token the main loop pushes has the shape of its kind and is not an
end-of-file token. -/
theorem tokenizeLoop_shape (source : List Char) (n : Nat) :
    ∀ (lx : Lexer) (tokens : List Token), Lexer.At source lx →
      (∀ t ∈ tokens, LexemeShape source t ∧ t.type ≠ .END_OF_FILE) →
      ∀ t ∈ (tokenizeLoop n lx tokens).1, LexemeShape source t ∧ t.type ≠ .END_OF_FILE := by
  induction n with
  | zero => exact fun lx tokens _ h => h
  | succ n ih =>
    intro lx tokens hat hacc
    rw [tokenizeLoop]
    by_cases h0 : lx.rest = []
    · simpa only [if_pos h0] using hacc
    simp only [if_neg h0]
    obtain ⟨chunk, hws⟩ := skipWhitespace_reads lx
    have hat1 := hat.reads hws
    generalize lx.skipWhitespace = lx1 at hat1
    have hpush : ∀ (t : Token), LexemeShape source t → t.type ≠ .END_OF_FILE →
        ∀ u ∈ tokens ++ [t], LexemeShape source u ∧ u.type ≠ .END_OF_FILE := by
      intro t h1 h2 u hu
      rcases List.mem_append.mp hu with hu | hu
      · exact hacc u hu
      · rw [List.mem_singleton.mp hu]; exact ⟨h1, h2⟩
    by_cases h1 : lx1.current = NUL
    · simpa only [if_pos h1] using hacc
    simp only [if_neg h1]
    by_cases h2 : lx1.current = LF
    · simp only [if_pos h2]
      exact ih _ _ (hat1.reads (Lexer.Reads.reads_advance lx1 h1))
        (hpush _ (LexemeShape.of_other _ _ rfl (by simp) (by simp)) (by simp))
    simp only [if_neg h2]
    by_cases h3 : lx1.current = '/' ∧ lx1.peek = '/'
    · simp only [if_pos h3]
      obtain ⟨c, _, hc⟩ := skipLineComment_reads lx1 h3.1
      exact ih _ _ (hat1.reads hc) hacc
    simp only [if_neg h3]
    by_cases h4 : lx1.current = DQUOTE
    · simp only [if_pos h4]
      obtain ⟨c, _, hc⟩ := scanString_reads lx1 h4
      have hty := scanString_type lx1
      exact ih _ _ (hat1.reads hc)
        (hpush _ (LexemeShape.of_other _ _ (by rw [hty]; rfl) (by rw [hty]; simp)
          (by rw [hty]; simp)) (by rw [hty]; simp))
    simp only [if_neg h4]
    by_cases h5 : lx1.current.isDigit = true
    · simp only [if_pos h5]
      refine ih _ _ (hat1.reads (scanNumber_reads lx1))
        (hpush _ (LexemeShape.scanNumber source lx1 hat1 h5) ?_)
      obtain ⟨rest, l, k⟩ := lx1
      rw [scanNumber_eq]
      simp
    simp only [if_neg h5]
    by_cases h6 : lx1.current.isAlpha = true ∨ lx1.current = '_'
    · simp only [if_pos h6]
      exact ih _ _ (hat1.reads (scanIdentifier_reads lx1))
        (hpush _ (LexemeShape.scanIdentifier source lx1 h6) (scanIdentifier_type_ne_eof lx1))
    simp only [if_neg h6]
    obtain ⟨c, _, hc⟩ := scanOperator_reads lx1 h1
    have hty := scanOperator_type lx1
    exact ih _ _ (hat1.reads hc)
      (hpush _ (LexemeShape.of_other _ _ hty.1 hty.2.1 hty.2.2.1) hty.2.2.2)


/-! ### Progress and adequacy of the length bound -/

theorem Lexer.Reads.lt {a b : Lexer} {x : List Char} (h : a.Reads b x) (hx : x ≠ []) :
    b.rest.length < a.rest.length := by
  have := h.length
  have : 0 < x.length := List.length_pos.mpr hx
  omega

theorem Lexer.Reads.le {a b : Lexer} {x : List Char} (h : a.Reads b x) :
    b.rest.length ≤ a.rest.length := by
  have := h.length
  omega

theorem scanNumber_progress (lx : Lexer) (hd : lx.current.isDigit = true) :
    lx.scanNumber.2.rest.length < lx.rest.length := by
  refine (scanNumber_reads lx).lt ?_
  obtain ⟨rest, l, k⟩ := lx
  rw [scanNumber_eq]
  cases rest with
  | nil => exact ((by decide : ¬ NUL.isDigit = true) hd).elim
  | cons c cs =>
    have hc : c.isDigit = true := hd
    simp [List.takeWhile_cons_of_pos hc]

theorem scanIdentifier_progress (lx : Lexer)
    (hd : lx.current.isAlpha = true ∨ lx.current = '_') :
    lx.scanIdentifier.2.rest.length < lx.rest.length := by
  refine (scanIdentifier_reads lx).lt ?_
  obtain ⟨rest, l, k⟩ := lx
  rw [scanIdentifier_eq]
  cases rest with
  | nil =>
    exfalso
    rcases hd with h | h
    · exact (by decide : ¬ NUL.isAlpha = true) h
    · exact (by decide : ¬ NUL = '_') h
  | cons c cs =>
    have hc : c.isAlpha = true ∨ c = '_' := hd
    have hic : isIdentifierChar c = true := by
      simp only [isIdentifierChar, Char.isAlphanum, Bool.or_eq_true, decide_eq_true_eq]
      rcases hc with h | h
      · exact Or.inl (Or.inl h)
      · exact Or.inr h
    simp [List.takeWhile_cons_of_pos hic]

/-- The length of the unread suffix bounds the iterations of the main loop:
more fuel than that changes nothing. -/
theorem tokenizeLoop_fuel_succ (n : Nat) :
    ∀ (lx : Lexer) (tokens : List Token), lx.rest.length ≤ n →
      tokenizeLoop (n + 1) lx tokens = tokenizeLoop n lx tokens := by
  induction n with
  | zero =>
    intro lx tokens h
    have h0 : lx.rest = [] := List.length_eq_zero.mp (Nat.le_zero.mp h)
    simp only [tokenizeLoop, h0, if_true]
  | succ n ih =>
    intro lx tokens h
    rw [tokenizeLoop.eq_2 lx tokens (n + 1), tokenizeLoop.eq_2 lx tokens n]
    by_cases h0 : lx.rest = []
    · simp only [if_pos h0]
    simp only [if_neg h0]
    obtain ⟨chunk, hws⟩ := skipWhitespace_reads lx
    have hle := hws.le
    generalize lx.skipWhitespace = lx1 at hle
    have hb : ∀ lx2 : Lexer, lx2.rest.length < lx1.rest.length → lx2.rest.length ≤ n :=
      fun lx2 h2 => by omega
    by_cases h1 : lx1.current = NUL
    · simp only [if_pos h1]
    simp only [if_neg h1]
    by_cases h2 : lx1.current = LF
    · simp only [if_pos h2]
      exact ih _ _ (hb _ ((Lexer.Reads.reads_advance lx1 h1).lt (by simp)))
    simp only [if_neg h2]
    by_cases h3 : lx1.current = '/' ∧ lx1.peek = '/'
    · simp only [if_pos h3]
      obtain ⟨c, hne, hc⟩ := skipLineComment_reads lx1 h3.1
      exact ih _ _ (hb _ (hc.lt hne))
    simp only [if_neg h3]
    by_cases h4 : lx1.current = DQUOTE
    · simp only [if_pos h4]
      obtain ⟨c, hne, hc⟩ := scanString_reads lx1 h4
      exact ih _ _ (hb _ (hc.lt hne))
    simp only [if_neg h4]
    by_cases h5 : lx1.current.isDigit = true
    · simp only [if_pos h5]
      exact ih _ _ (hb _ (scanNumber_progress lx1 h5))
    simp only [if_neg h5]
    by_cases h6 : lx1.current.isAlpha = true ∨ lx1.current = '_'
    · simp only [if_pos h6]
      exact ih _ _ (hb _ (scanIdentifier_progress lx1 h6))
    simp only [if_neg h6]
    obtain ⟨c, hne, hc⟩ := scanOperator_reads lx1 h1
    exact ih _ _ (hb _ (hc.lt hne))

theorem tokenizeLoop_fuel_add (lx : Lexer) (tokens : List Token) (k : Nat) :
    tokenizeLoop (lx.rest.length + k) lx tokens = tokenizeLoop lx.rest.length lx tokens := by
  induction k with
  | zero => rfl
  | succ k ih =>
    rw [← Nat.add_assoc, tokenizeLoop_fuel_succ _ lx tokens (Nat.le_add_right _ _), ih]

/-! ### The inner loops end by their own condition

The inner loops are bounded by the length of the unread suffix; the bound is
never what ends them. -/

theorem Lexer.advance_rest_length (lx : Lexer) {n : Nat} (h : lx.rest.length ≤ n + 1) :
    lx.advance.rest.length ≤ n := by
  have : lx.advance.rest = lx.rest.tail := by
    unfold Lexer.advance
    split <;> rfl
  rw [this, List.length_tail]
  omega

theorem Lexer.current_of_length_zero (lx : Lexer) (h : lx.rest.length ≤ 0) :
    lx.current = NUL := by
  obtain ⟨rest, l, k⟩ := lx
  have hr : rest = [] := List.length_eq_zero.mp (Nat.le_zero.mp h)
  subst hr
  rfl

theorem skipWhitespaceLoop_exit (n : Nat) :
    ∀ lx : Lexer, lx.rest.length ≤ n →
      ¬ ((skipWhitespaceLoop n lx).current = ' ' ∨ (skipWhitespaceLoop n lx).current = TAB
          ∨ (skipWhitespaceLoop n lx).current = CR) := by
  induction n with
  | zero =>
    intro lx h
    rw [skipWhitespaceLoop, Lexer.current_of_length_zero lx h]
    decide
  | succ n ih =>
    intro lx h
    rw [skipWhitespaceLoop]
    split
    · exact ih _ (Lexer.advance_rest_length lx h)
    · assumption

theorem skipWhitespace_exit (lx : Lexer) :
    ¬ (lx.skipWhitespace.current = ' ' ∨ lx.skipWhitespace.current = TAB
        ∨ lx.skipWhitespace.current = CR) :=
  skipWhitespaceLoop_exit _ lx (Nat.le_refl _)

theorem skipLineCommentLoop_exit (n : Nat) :
    ∀ lx : Lexer, lx.rest.length ≤ n →
      (skipLineCommentLoop n lx).current = LF ∨ (skipLineCommentLoop n lx).current = NUL := by
  induction n with
  | zero =>
    intro lx h
    rw [skipLineCommentLoop]
    exact Or.inr (Lexer.current_of_length_zero lx h)
  | succ n ih =>
    intro lx h
    rw [skipLineCommentLoop]
    split
    · exact ih _ (Lexer.advance_rest_length lx h)
    · rename_i hc
      by_cases h1 : lx.current = LF
      · exact Or.inl h1
      · by_cases h2 : lx.current = NUL
        · exact Or.inr h2
        · exact absurd ⟨h1, h2⟩ hc

theorem skipLineComment_exit (lx : Lexer) :
    lx.skipLineComment.current = LF ∨ lx.skipLineComment.current = NUL :=
  skipLineCommentLoop_exit _ lx (Nat.le_refl _)

theorem scanStringLoop_exit (n : Nat) :
    ∀ (lx : Lexer) (value : String), lx.rest.length ≤ n →
      (scanStringLoop n lx value).1.current = DQUOTE
        ∨ (scanStringLoop n lx value).1.current = NUL := by
  induction n with
  | zero =>
    intro lx value h
    rw [scanStringLoop]
    exact Or.inr (Lexer.current_of_length_zero lx h)
  | succ n ih =>
    intro lx value h
    have h1 := Lexer.advance_rest_length lx h
    rw [scanStringLoop]
    split
    · split
      · exact ih _ _ h1
      · split
        · refine ih _ _ ?_
          have h2 : lx.advance.advance.rest.length ≤ lx.advance.rest.length := by
            have e : lx.advance.advance.rest = lx.advance.rest.tail := by
              unfold Lexer.advance
              split <;> split <;> rfl
            rw [e, List.length_tail]
            omega
          omega
        · exact ih _ _ h1
    · rename_i hc
      by_cases h3 : lx.current = DQUOTE
      · exact Or.inl h3
      · by_cases h4 : lx.current = NUL
        · exact Or.inr h4
        · exact absurd ⟨h3, h4⟩ hc

/-- With an escaped quote in a text literal the scanner ends the literal at the
quote: after the characters `p`, free of quotes, backslashes and NUL, the
escape `\"` adds a quote to the value and the loop stops in front of the quote
character. -/
theorem scanStringLoop_escaped_quote (p : List Char)
    (hp : ∀ c ∈ p, c ≠ DQUOTE ∧ c ≠ BACKSLASH ∧ c ≠ NUL) :
    ∀ (n : Nat) (l k : Int) (rest : List Char) (value : String), p.length + 1 ≤ n →
      ∃ l1 k1, scanStringLoop n ⟨p ++ BACKSLASH :: DQUOTE :: rest, l, k⟩ value
        = (⟨DQUOTE :: rest, l1, k1⟩, value ++ String.mk (p ++ [DQUOTE])) := by
  induction p with
  | nil =>
    intro n l k rest value hn
    obtain ⟨m, rfl⟩ : ∃ m, n = m + 1 := ⟨n - 1, by omega⟩
    refine ⟨(advancePos (l, k) BACKSLASH).1, (advancePos (l, k) BACKSLASH).2, ?_⟩
    rw [scanStringLoop]
    have hcur : (Lexer.mk ([] ++ BACKSLASH :: DQUOTE :: rest) l k).current = BACKSLASH := rfl
    have hpeek : (Lexer.mk ([] ++ BACKSLASH :: DQUOTE :: rest) l k).peek = DQUOTE := rfl
    have h1 : BACKSLASH ≠ DQUOTE ∧ BACKSLASH ≠ NUL := by decide
    simp only [hcur, hpeek, h1, ne_eq, not_false_eq_true, and_self, if_true]
    have hadv : (Lexer.mk ([] ++ BACKSLASH :: DQUOTE :: rest) l k).advance
        = ⟨DQUOTE :: rest, (advancePos (l, k) BACKSLASH).1, (advancePos (l, k) BACKSLASH).2⟩ :=
      Lexer.advance_cons _ _ _ _
    rw [hadv]
    cases m with
    | zero =>
      rw [scanStringLoop]
      congr 1
    | succ m =>
      rw [scanStringLoop]
      simp only [Lexer.current_cons, ne_eq, not_true_eq_false, false_and, if_false]
      congr 1
  | cons c cs ih =>
    intro n l k rest value hn
    obtain ⟨m, rfl⟩ : ∃ m, n = m + 1 := ⟨n - 1, by omega⟩
    have hc := hp c (List.mem_cons_self _ _)
    have hcs : ∀ d ∈ cs, d ≠ DQUOTE ∧ d ≠ BACKSLASH ∧ d ≠ NUL :=
      fun d hd => hp d (List.mem_cons_of_mem _ hd)
    rw [scanStringLoop]
    have hcur : (Lexer.mk (c :: cs ++ BACKSLASH :: DQUOTE :: rest) l k).current = c := rfl
    simp only [hcur, hc.1, hc.2.1, hc.2.2, ne_eq, not_false_eq_true, and_self, if_true,
      false_and, if_false]
    have hadv : (Lexer.mk (c :: cs ++ BACKSLASH :: DQUOTE :: rest) l k).advance
        = ⟨cs ++ BACKSLASH :: DQUOTE :: rest, (advancePos (l, k) c).1,
            (advancePos (l, k) c).2⟩ :=
      Lexer.advance_cons _ _ _ _
    rw [hadv]
    obtain ⟨l1, k1, h1⟩ := ih hcs m _ _ rest (value.push c) (by simpa using hn)
    refine ⟨l1, k1, ?_⟩
    rw [h1]
    congr 1
    apply String.ext
    simp

end Scanner

/-! ## What a successful call leaves behind -/

section Frames

open CodeGenerator

theorem Result.Holds.ok {α : Type} {P : α → Prop} {a : α} (h : P a) :
    (Result.ok a).Holds P := by
  intro b hb
  cases hb
  exact h

theorem Result.Holds.bind {α β : Type} {r : Result α} {f : α → Result β} {Q : α → Prop}
    {P : β → Prop} (h : r.Holds Q) (hf : ∀ a, Q a → (f a).Holds P) : (r.bind f).Holds P := by
  intro b hb
  cases r with
  | ok a => exact hf a (h a rfl) b hb
  | exit l c m => simp [Result.bind] at hb
  | diverge => simp [Result.bind] at hb

theorem Result.Holds.ite {α : Type} {c : Prop} [Decidable c] {a b : Result α} {P : α → Prop}
    (h1 : a.Holds P) (h2 : b.Holds P) : (if c then a else b).Holds P := by
  split <;> assumption

theorem Result.Holds.diverge {α : Type} {P : α → Prop} :
    (Result.diverge : Result α).Holds P := by
  intro b hb
  cases hb

theorem MoveStable.stable_advance {P : CodeGenerator → Prop} (hP : MoveStable P)
    {g : CodeGenerator} (h : P g) : P g.advance :=
  hP g g.rest.tail h

theorem MoveStable.expect {P : CodeGenerator → Prop} (hP : MoveStable P)
    {g : CodeGenerator} (t : TokenType) (message : String) (h : P g) :
    (g.expect t message).Holds P := by
  unfold CodeGenerator.expect CodeGenerator.matchToken
  split
  · simp only [↓reduceIte]
    exact Result.Holds.ok (hP.stable_advance h)
  · intro b hb
    simp at hb

theorem MoveStable.bind_expect {β : Type} {P : CodeGenerator → Prop} (hP : MoveStable P)
    {g : CodeGenerator} {t : TokenType} {message : String} {f : CodeGenerator → Result β}
    {Q : β → Prop} (h : P g) (hf : ∀ g1, P g1 → (f g1).Holds Q) :
    ((g.expect t message).bind f).Holds Q :=
  Result.Holds.bind (hP.expect t message h) hf

/-- The expression translator changes nothing but the token position. -/
theorem expression_preserves (P : CodeGenerator → Prop) (hP : MoveStable P) (n : Nat) :
    (∀ g, P g → (generateTypedExpression n g).Holds (fun r => P r.2))
    ∧ (∀ g parts d, P g → (exprLoop n g parts d).Holds (fun r => P r.2))
    ∧ (∀ g call first, P g → (callArguments n g call first).Holds (fun r => P r.2)) := by
  induction n with
  | zero =>
    exact ⟨fun _ _ => Result.Holds.diverge, fun _ _ _ _ => Result.Holds.diverge,
      fun _ _ _ _ => Result.Holds.diverge⟩
  | succ n ih =>
    obtain ⟨ih1, ih2, ih3⟩ := ih
    refine ⟨?_, ?_, ?_⟩
    · intro g h
      rw [generateTypedExpression.eq_2]
      exact Result.Holds.bind (ih2 _ _ _ h) (fun a ha => Result.Holds.ok ha)
    · intro g parts d h
      rw [exprLoop.eq_2]
      refine Result.Holds.ite (Result.Holds.ok h) ?_
      refine Result.Holds.ite (Result.Holds.ok h) ?_
      split <;>
        repeat' first
          | assumption
          | with_reducible exact Result.Holds.ok (by assumption)
          | with_reducible exact ih2 _ _ _ (by assumption)
          | with_reducible exact ih2 _ _ _ (hP.stable_advance (by assumption))
          | with_reducible refine hP.bind_expect ?_ ?_
          | with_reducible refine Result.Holds.bind (ih1 _ ?_) ?_
          | with_reducible refine Result.Holds.bind (ih3 _ _ _ ?_) ?_
          | with_reducible refine Result.Holds.ite ?_ ?_
          | with_reducible exact hP.stable_advance (by assumption)
          | intro _ _
    · intro g call first h
      rw [callArguments.eq_2]
      refine Result.Holds.ite ?_ (Result.Holds.ok h)
      refine Result.Holds.bind (Q := fun c => P c.2) ?_ ?_
      · refine Result.Holds.ite ?_ (Result.Holds.ok h)
        exact hP.bind_expect h (fun g1 h1 => Result.Holds.ok h1)
      · intro c hc
        exact Result.Holds.bind (ih1 _ hc) (fun a ha => ih3 _ _ _ ha)

theorem generateTypedExpression_preserves {P : CodeGenerator → Prop} (hP : MoveStable P)
    (n : Nat) {g : CodeGenerator} (h : P g) :
    (generateTypedExpression n g).Holds (fun r => P r.2) :=
  (expression_preserves P hP n).1 g h

theorem callArguments_preserves {P : CodeGenerator → Prop} (hP : MoveStable P)
    (n : Nat) {g : CodeGenerator} (call : String) (first : Bool) (h : P g) :
    (callArguments n g call first).Holds (fun r => P r.2) :=
  (expression_preserves P hP n).2.2 g call first h

theorem generateExpression_preserves {P : CodeGenerator → Prop} (hP : MoveStable P)
    (n : Nat) {g : CodeGenerator} (h : P g) :
    (generateExpression n g).Holds (fun r => P r.2) := by
  unfold generateExpression
  exact Result.Holds.bind (generateTypedExpression_preserves hP n h)
    (fun a ha => Result.Holds.ok ha)

end Frames

/-! ## The buffers are append-only -/

section AppendOnly

open CodeGenerator

theorem String.append_assoc3 (a b c : String) : a ++ b ++ c = a ++ (b ++ c) := by
  apply String.ext
  simp

theorem String.append_empty_right (a : String) : a ++ "" = a := by
  apply String.ext
  simp

theorem String.empty_append_left (a : String) : "" ++ a = a := by
  apply String.ext
  simp

theorem Extends.extends_refl (g : CodeGenerator) : Extends g g :=
  ⟨⟨"", (String.append_empty_right _).symm⟩, ⟨"", (String.append_empty_right _).symm⟩⟩

theorem Extends.of_eq {g0 g g1 : CodeGenerator} (h : Extends g0 g) (f m : String)
    (hf : g1.functionsOutput = g.functionsOutput ++ f)
    (hm : g1.mainOutput = g.mainOutput ++ m) : Extends g0 g1 := by
  obtain ⟨⟨f0, hf0⟩, ⟨m0, hm0⟩⟩ := h
  exact ⟨⟨f0 ++ f, by rw [hf, hf0, String.append_assoc3]⟩,
    ⟨m0 ++ m, by rw [hm, hm0, String.append_assoc3]⟩⟩

theorem Extends.of_same {g0 g g1 : CodeGenerator} (h : Extends g0 g)
    (hf : g1.functionsOutput = g.functionsOutput)
    (hm : g1.mainOutput = g.mainOutput) : Extends g0 g1 :=
  h.of_eq "" "" (by rw [hf, String.append_empty_right]) (by rw [hm, String.append_empty_right])

theorem Extends.extends_trans {g0 g1 g2 : CodeGenerator} (h1 : Extends g0 g1) (h2 : Extends g1 g2) :
    Extends g0 g2 := by
  obtain ⟨⟨f, hf⟩, ⟨m, hm⟩⟩ := h2
  exact h1.of_eq f m hf hm

theorem Extends.moveStable (g0 : CodeGenerator) : MoveStable (Extends g0) :=
  fun _ _ h => h.of_same rfl rfl

theorem Extends.emit {g0 g : CodeGenerator} (code : String) (h : Extends g0 g) :
    Extends g0 (g.emit code) := by
  unfold CodeGenerator.emit
  split
  · exact h.of_eq "" code (by simp [String.append_empty_right]) rfl
  · exact h.of_eq code "" rfl (by simp [String.append_empty_right])

theorem Extends.emitLine {g0 g : CodeGenerator} (code : String) (h : Extends g0 g) :
    Extends g0 (g.emitLine code) :=
  h.emit _

theorem Extends.setVarType {g0 g : CodeGenerator} (name : String) (t : ExprType)
    (h : Extends g0 g) : Extends g0 (g.setVarType name t) :=
  h.of_same rfl rfl

theorem Extends.extends_advance {g0 g : CodeGenerator} (h : Extends g0 g) : Extends g0 g.advance :=
  h.of_same rfl rfl

theorem skipNewlines_extends (g0 : CodeGenerator) (n : Nat) :
    ∀ g, Extends g0 g → (skipNewlines n g).Holds (Extends g0) := by
  induction n with
  | zero => exact fun _ _ => Result.Holds.diverge
  | succ n ih =>
    intro g h
    rw [skipNewlines.eq_2]
    exact Result.Holds.ite (ih _ h.extends_advance) (Result.Holds.ok h)

theorem parameterLoop_extends (g0 : CodeGenerator) (n : Nat) :
    ∀ g params, Extends g0 g → (parameterLoop n g params).Holds (fun r => Extends g0 r.2) := by
  induction n with
  | zero => exact fun _ _ _ => Result.Holds.diverge
  | succ n ih =>
    intro g params h
    rw [parameterLoop.eq_2]
    refine Result.Holds.ite ?_ (Result.Holds.ok h)
    refine Result.Holds.bind (Q := Extends g0) ?_ ?_
    · exact Result.Holds.ite ((Extends.moveStable g0).expect _ _ h) (Result.Holds.ok h)
    · intro g1 h1
      exact Result.Holds.ite (ih _ _ h1.extends_advance) (ih _ _ h1)

theorem generatePrint_extends (g0 : CodeGenerator) (n : Nat) (g : CodeGenerator)
    (h : Extends g0 g) : (generatePrint n g).Holds (Extends g0) := by
  unfold generatePrint
  refine Result.Holds.bind (generateTypedExpression_preserves (Extends.moveStable g0) n h.extends_advance)
    (fun a ha => ?_)
  exact Result.Holds.ite (Result.Holds.ok (Extends.emitLine _ ha))
    (Result.Holds.ok (Extends.emitLine _ ha))

theorem generateVarDecl_extends (g0 : CodeGenerator) (n : Nat) (g : CodeGenerator)
    (h : Extends g0 g) : (generateVarDecl n g).Holds (Extends g0) := by
  have hP := Extends.moveStable g0
  unfold generateVarDecl
  refine hP.bind_expect h.extends_advance.extends_advance (fun g3 h3 => ?_)
  refine Result.Holds.ite (Result.Holds.ok ((h3.extends_advance.emitLine _).setVarType _ _)) ?_
  refine Result.Holds.ite ?_ ?_
  · refine hP.bind_expect h3.extends_advance (fun g4 h4 => ?_)
    refine Result.Holds.bind (generateTypedExpression_preserves hP n h4) (fun arg harg => ?_)
    refine hP.bind_expect harg (fun g5 h5 => ?_)
    exact Result.Holds.ok ((h5.emitLine _).setVarType _ _)
  · refine Result.Holds.bind (generateTypedExpression_preserves hP n h3) (fun e he => ?_)
    exact Result.Holds.ite (Result.Holds.ok ((Extends.emitLine _ he).setVarType _ _))
      (Result.Holds.ok ((Extends.emitLine _ he).setVarType _ _))

theorem generateReturn_extends (g0 : CodeGenerator) (n : Nat) (g : CodeGenerator)
    (h : Extends g0 g) : (generateReturn n g).Holds (Extends g0) := by
  unfold generateReturn
  exact Result.Holds.bind (generateExpression_preserves (Extends.moveStable g0) n h.extends_advance)
    (fun a ha => Result.Holds.ok (Extends.emitLine _ ha))

theorem generateWriteFile_extends (g0 : CodeGenerator) (n : Nat) (g : CodeGenerator)
    (h : Extends g0 g) : (generateWriteFile n g).Holds (Extends g0) := by
  have hP := Extends.moveStable g0
  unfold generateWriteFile
  refine hP.bind_expect h.extends_advance (fun g1 h1 => ?_)
  refine Result.Holds.bind (generateTypedExpression_preserves hP n h1) (fun a ha => ?_)
  refine hP.bind_expect ha (fun g2 h2 => ?_)
  refine Result.Holds.bind (generateTypedExpression_preserves hP n h2) (fun b hb => ?_)
  refine hP.bind_expect hb (fun g3 h3 => ?_)
  exact Result.Holds.ok (h3.emitLine _)

theorem Extends.matchToken {g0 g : CodeGenerator} (t : TokenType) (h : Extends g0 g) :
    Extends g0 (g.matchToken t).2 := by
  unfold CodeGenerator.matchToken
  split
  · exact h.extends_advance
  · exact h

/-- A block of statements between braces: shared by the loop, the conditional
and its else branch. -/
theorem block_extends (g0 : CodeGenerator) (n : Nat)
    (ihB : ∀ g, Extends g0 g → (blockLoop n g).Holds (Extends g0))
    (g : CodeGenerator) (h : Extends g0 g) (open_ close : String) (k : Int)
    (f : CodeGenerator → Result CodeGenerator)
    (hf : ∀ g1, Extends g0 g1 → (f g1).Holds (Extends g0)) :
    ((g.expect .LBRACE open_).bind fun g4 =>
      (blockLoop n { g4 with indentLevel := g4.indentLevel + k }).bind fun g6 =>
        (CodeGenerator.expect { g6 with indentLevel := g6.indentLevel - k } .RBRACE close).bind
          f).Holds (Extends g0) := by
  have hP := Extends.moveStable g0
  refine hP.bind_expect h (fun g4 h4 => ?_)
  refine Result.Holds.bind (ihB _ (h4.of_same rfl rfl)) (fun g6 h6 => ?_)
  exact hP.bind_expect (h6.of_same rfl rfl) hf

/-- Every statement only appends to the two buffers. -/
theorem statement_extends (g0 : CodeGenerator) (n : Nat) :
    (∀ g, Extends g0 g → (generateStatement n g).Holds (Extends g0))
    ∧ (∀ g, Extends g0 g → (blockLoop n g).Holds (Extends g0))
    ∧ (∀ g, Extends g0 g → (generateWhile n g).Holds (Extends g0))
    ∧ (∀ g, Extends g0 g → (generateIf n g).Holds (Extends g0))
    ∧ (∀ g, Extends g0 g → (generateFunctionDecl n g).Holds (Extends g0)) := by
  have hP := Extends.moveStable g0
  induction n with
  | zero =>
    exact ⟨fun _ _ => Result.Holds.diverge, fun _ _ => Result.Holds.diverge,
      fun _ _ => Result.Holds.diverge, fun _ _ => Result.Holds.diverge,
      fun _ _ => Result.Holds.diverge⟩
  | succ n ih =>
    obtain ⟨ihS, ihB, ihW, ihI, ihF⟩ := ih
    refine ⟨?_, ?_, ?_, ?_, ?_⟩
    · intro g h
      rw [generateStatement.eq_2]
      refine Result.Holds.bind (skipNewlines_extends g0 n g h) (fun g1 h1 => ?_)
      refine Result.Holds.ite (Result.Holds.ok h1) ?_
      split
      · exact generateVarDecl_extends g0 n g1 h1
      · exact generatePrint_extends g0 n g1 h1
      · exact ihW g1 h1
      · exact ihI g1 h1
      · exact ihF g1 h1
      · exact generateReturn_extends g0 n g1 h1
      · exact generateWriteFile_extends g0 n g1 h1
      · refine hP.bind_expect h1.extends_advance (fun g2 h2 => ?_)
        refine Result.Holds.bind (generateTypedExpression_preserves hP n h2) (fun a ha => ?_)
        refine hP.bind_expect ha (fun g3 h3 => ?_)
        exact Result.Holds.ok (h3.emitLine _)
      · refine Result.Holds.ite ?_ (Result.Holds.ite ?_ (Result.Holds.ok h1.extends_advance))
        · refine Result.Holds.bind
            (generateTypedExpression_preserves hP n (h1.extends_advance.matchToken _)) (fun a ha => ?_)
          exact Result.Holds.ok (Extends.emitLine _ ha)
        · refine Result.Holds.bind
            (callArguments_preserves hP n _ _ (h1.extends_advance.matchToken _)) (fun a ha => ?_)
          refine hP.bind_expect ha (fun g3 h3 => ?_)
          exact Result.Holds.ok (h3.emitLine _)
      · exact Result.Holds.ok h1.extends_advance
    · intro g h
      rw [blockLoop.eq_2]
      refine Result.Holds.ite ?_ (Result.Holds.ok h)
      exact Result.Holds.bind (ihS g h) (fun g1 h1 => ihB g1 h1)
    · intro g h
      rw [generateWhile.eq_2]
      refine hP.bind_expect h.extends_advance (fun g1 h1 => ?_)
      refine Result.Holds.bind (generateExpression_preserves hP n h1) (fun c hc => ?_)
      refine hP.bind_expect hc (fun g2 h2 => ?_)
      exact block_extends g0 n ihB _ (h2.emitLine _) _ _ 1 _
        (fun g8 h8 => Result.Holds.ok (h8.emitLine _))
    · intro g h
      rw [generateIf.eq_2]
      refine hP.bind_expect h.extends_advance (fun g1 h1 => ?_)
      refine Result.Holds.bind (generateExpression_preserves hP n h1) (fun c hc => ?_)
      refine hP.bind_expect hc (fun g2 h2 => ?_)
      refine block_extends g0 n ihB _ (h2.emitLine _) _ _ 1 _ (fun g8 h8 => ?_)
      refine Result.Holds.ite ?_ (Result.Holds.ok (h8.emitLine _))
      refine Result.Holds.ite ?_ ?_
      · exact ihI _ (Extends.emit _ (h8.emitLine _).extends_advance)
      · exact block_extends g0 n ihB _ (Extends.emitLine _ (h8.emitLine _).extends_advance) _ _ 1 _
          (fun g16 h16 => Result.Holds.ok (h16.emitLine _))
    · intro g h
      rw [generateFunctionDecl.eq_2]
      refine hP.bind_expect (h.extends_advance.extends_advance.of_same rfl rfl) (fun g4 h4 => ?_)
      refine Result.Holds.bind (parameterLoop_extends g0 n _ _ h4) (fun ps hps => ?_)
      refine hP.bind_expect hps (fun g5 h5 => ?_)
      refine hP.bind_expect (h5.of_eq (functionSignature _ ps.1 ++ "\n") ""
        (String.append_assoc3 _ _ _) (String.append_empty_right _).symm) (fun g7 h7 => ?_)
      refine Result.Holds.bind (ihB _ h7) (fun g8 h8 => ?_)
      refine hP.bind_expect h8 (fun g9 h9 => ?_)
      exact Result.Holds.ok (h9.of_eq "\x7d\n\n" "" rfl (String.append_empty_right _).symm)

theorem generateStatement_extends {n : Nat} {g g1 : CodeGenerator}
    (h : generateStatement n g = .ok g1) : Extends g g1 :=
  (statement_extends g n).1 g (Extends.extends_refl g) g1 h

/-- A successful run of the top-level loop is a sequence of statements whose
fragments make up the two buffers. -/
theorem topLevelLoop_run (n : Nat) :
    ∀ (g g1 : CodeGenerator), topLevelLoop n g = .ok g1 →
      ∃ frags, TopLevelRun g frags g1
        ∧ g1.functionsOutput = g.functionsOutput ++ concatAll (frags.map Prod.fst)
        ∧ g1.mainOutput = g.mainOutput ++ concatAll (frags.map Prod.snd) := by
  induction n with
  | zero => intro g g1 h; simp [topLevelLoop] at h
  | succ n ih =>
    intro g g1 h
    rw [topLevelLoop.eq_2] at h
    by_cases hc : g.check .END_OF_FILE = true
    · simp only [hc, Bool.not_true, Bool.false_eq_true, if_false] at h
      cases h
      exact ⟨[], TopLevelRun.done g hc, by simp [concatAll, String.append_empty_right],
        by simp [concatAll, String.append_empty_right]⟩
    · have hc2 : g.check .END_OF_FILE = false := by simpa using hc
      simp only [hc2, Bool.not_false, if_true] at h
      cases hs : generateStatement n g with
      | ok g2 =>
        rw [hs] at h
        obtain ⟨⟨f, hf⟩, ⟨m, hm⟩⟩ := generateStatement_extends hs
        obtain ⟨frags, hrun, hF, hM⟩ := ih g2 g1 h
        refine ⟨(f, m) :: frags, TopLevelRun.step n g g2 g1 f m frags hc2 hs hf hm hrun, ?_, ?_⟩
        · rw [hF, hf, String.append_assoc3]; rfl
        · rw [hM, hm, String.append_assoc3]; rfl
      | exit l c m => rw [hs] at h; simp [Result.bind] at h
      | diverge => rw [hs] at h; simp [Result.bind] at h

theorem Result.exists_of_isOk {α : Type} {r : Result α} (h : r.isOk = true) :
    ∃ a, r = .ok a := by
  cases r with
  | ok a => exact ⟨a, rfl⟩
  | exit l c m => simp [Result.isOk] at h
  | diverge => simp [Result.isOk] at h


end AppendOnly

/-! ## Relations kept by every statement -/

section Relations

open CodeGenerator

theorem AdvanceStable.of_moveStable {P : CodeGenerator → Prop} (hP : MoveStable P) :
    AdvanceStable P :=
  fun g h => hP g g.rest.tail h

theorem AdvanceStable.step {P : CodeGenerator → Prop} (hP : AdvanceStable P)
    {g : CodeGenerator} (h : P g) : P g.advance :=
  hP g h

theorem AdvanceStable.stable_expect {P : CodeGenerator → Prop} (hP : AdvanceStable P)
    {g : CodeGenerator} (t : TokenType) (message : String) (h : P g) :
    (g.expect t message).Holds P := by
  unfold CodeGenerator.expect CodeGenerator.matchToken
  split
  · simp only [↓reduceIte]
    exact Result.Holds.ok (hP _ h)
  · intro b hb
    simp at hb

/-- A successful `expect` returns the state moved one token forward. -/
theorem expect_holds_advance (g : CodeGenerator) (t : TokenType) (message : String) :
    (g.expect t message).Holds (fun g1 => g1 = g.advance) := by
  unfold CodeGenerator.expect CodeGenerator.matchToken
  split
  · simp only [↓reduceIte]
    exact Result.Holds.ok rfl
  · intro b hb
    simp at hb

/-- A successful `expect` has found the expected kind at the current token. -/
theorem expect_holds_checked (g : CodeGenerator) (t : TokenType) (message : String) :
    (g.expect t message).Holds (fun g1 => g1 = g.advance ∧ g.current.type = t) := by
  unfold CodeGenerator.expect CodeGenerator.matchToken
  by_cases hc : g.check t = true
  · simp only [hc, ↓reduceIte]
    exact Result.Holds.ok ⟨rfl, by simpa [check] using hc⟩
  · intro b hb
    simp [hc] at hb

theorem AdvanceStable.stable_bind_expect {β : Type} {P : CodeGenerator → Prop}
    (hP : AdvanceStable P)
    {g : CodeGenerator} {t : TokenType} {message : String} {f : CodeGenerator → Result β}
    {Q : β → Prop} (h : P g) (hf : ∀ g1, P g1 → (f g1).Holds Q) :
    ((g.expect t message).bind f).Holds Q :=
  Result.Holds.bind (hP.stable_expect t message h) hf

theorem AdvanceStable.stable_matchToken {P : CodeGenerator → Prop} (hP : AdvanceStable P)
    {g : CodeGenerator} (t : TokenType) (h : P g) : P (g.matchToken t).2 := by
  unfold CodeGenerator.matchToken
  split
  · exact hP _ h
  · exact h

/-- The expression translator changes the state only by moving to the next
token. -/
theorem expression_advances (P : CodeGenerator → Prop) (hP : AdvanceStable P) (n : Nat) :
    (∀ g, P g → (generateTypedExpression n g).Holds (fun r => P r.2))
    ∧ (∀ g parts d, P g → (exprLoop n g parts d).Holds (fun r => P r.2))
    ∧ (∀ g call first, P g → (callArguments n g call first).Holds (fun r => P r.2)) := by
  induction n with
  | zero =>
    exact ⟨fun _ _ => Result.Holds.diverge, fun _ _ _ _ => Result.Holds.diverge,
      fun _ _ _ _ => Result.Holds.diverge⟩
  | succ n ih =>
    obtain ⟨ih1, ih2, ih3⟩ := ih
    refine ⟨?_, ?_, ?_⟩
    · intro g h
      rw [generateTypedExpression.eq_2]
      exact Result.Holds.bind (ih2 _ _ _ h) (fun a ha => Result.Holds.ok ha)
    · intro g parts d h
      rw [exprLoop.eq_2]
      refine Result.Holds.ite (Result.Holds.ok h) ?_
      refine Result.Holds.ite (Result.Holds.ok h) ?_
      split <;>
        repeat' first
          | assumption
          | with_reducible exact Result.Holds.ok (by assumption)
          | with_reducible exact ih2 _ _ _ (by assumption)
          | with_reducible exact ih2 _ _ _ (hP.step (by assumption))
          | with_reducible refine hP.stable_bind_expect ?_ ?_
          | with_reducible refine Result.Holds.bind (ih1 _ ?_) ?_
          | with_reducible refine Result.Holds.bind (ih3 _ _ _ ?_) ?_
          | with_reducible refine Result.Holds.ite ?_ ?_
          | with_reducible exact hP.step (by assumption)
          | intro _ _
    · intro g call first h
      rw [callArguments.eq_2]
      refine Result.Holds.ite ?_ (Result.Holds.ok h)
      refine Result.Holds.bind (Q := fun c => P c.2) ?_ ?_
      · refine Result.Holds.ite ?_ (Result.Holds.ok h)
        exact hP.stable_bind_expect h (fun g1 h1 => Result.Holds.ok h1)
      · intro c hc
        exact Result.Holds.bind (ih1 _ hc) (fun a ha => ih3 _ _ _ ha)

theorem generateTypedExpression_advances {P : CodeGenerator → Prop} (hP : AdvanceStable P)
    (n : Nat) {g : CodeGenerator} (h : P g) :
    (generateTypedExpression n g).Holds (fun r => P r.2) :=
  (expression_advances P hP n).1 g h

theorem callArguments_advances {P : CodeGenerator → Prop} (hP : AdvanceStable P)
    (n : Nat) {g : CodeGenerator} (call : String) (first : Bool) (h : P g) :
    (callArguments n g call first).Holds (fun r => P r.2) :=
  (expression_advances P hP n).2.2 g call first h

theorem generateExpression_advances {P : CodeGenerator → Prop} (hP : AdvanceStable P)
    (n : Nat) {g : CodeGenerator} (h : P g) :
    (generateExpression n g).Holds (fun r => P r.2) := by
  unfold generateExpression
  exact Result.Holds.bind (generateTypedExpression_advances hP n h)
    (fun a ha => Result.Holds.ok ha)

theorem StatementRelation.advanceStable {R : CodeGenerator → CodeGenerator → Prop}
    (hR : StatementRelation R) (g0 : CodeGenerator) : AdvanceStable (R g0) :=
  fun g h => hR.rel_trans _ _ _ h (hR.rel_advance g)

theorem StatementRelation.then_emit {R : CodeGenerator → CodeGenerator → Prop}
    (hR : StatementRelation R) {g0 g : CodeGenerator} (code : String) (h : R g0 g) :
    R g0 (g.emit code) :=
  hR.rel_trans _ _ _ h (hR.rel_emit g code)

theorem StatementRelation.then_emitLine {R : CodeGenerator → CodeGenerator → Prop}
    (hR : StatementRelation R) {g0 g : CodeGenerator} (code : String) (h : R g0 g) :
    R g0 (g.emitLine code) :=
  hR.then_emit _ h

theorem StatementRelation.then_advance {R : CodeGenerator → CodeGenerator → Prop}
    (hR : StatementRelation R) {g0 g : CodeGenerator} (h : R g0 g) :
    R g0 g.advance :=
  hR.rel_trans _ _ _ h (hR.rel_advance g)

theorem Result.Holds.mono {α : Type} {r : Result α} {P Q : α → Prop} (h : r.Holds P)
    (hPQ : ∀ a, P a → Q a) : r.Holds Q :=
  fun a ha => hPQ a (h a ha)

theorem skipNewlines_related {R : CodeGenerator → CodeGenerator → Prop}
    (hR : StatementRelation R) (g0 : CodeGenerator) (n : Nat) :
    ∀ g, R g0 g → (skipNewlines n g).Holds (R g0) := by
  induction n with
  | zero => exact fun _ _ => Result.Holds.diverge
  | succ n ih =>
    intro g h
    rw [skipNewlines.eq_2]
    exact Result.Holds.ite (ih _ (hR.then_advance h)) (Result.Holds.ok h)

theorem parameterLoop_related {R : CodeGenerator → CodeGenerator → Prop}
    (hR : StatementRelation R) (g0 : CodeGenerator) (n : Nat) :
    ∀ g params, R g0 g → (parameterLoop n g params).Holds (fun r => R g0 r.2) := by
  induction n with
  | zero => exact fun _ _ _ => Result.Holds.diverge
  | succ n ih =>
    intro g params h
    rw [parameterLoop.eq_2]
    refine Result.Holds.ite ?_ (Result.Holds.ok h)
    refine Result.Holds.bind (Q := R g0) ?_ ?_
    · exact Result.Holds.ite ((hR.advanceStable g0).stable_expect _ _ h) (Result.Holds.ok h)
    · intro g1 h1
      exact Result.Holds.ite (ih _ _ (hR.then_advance h1)) (ih _ _ h1)

theorem generatePrint_related {R : CodeGenerator → CodeGenerator → Prop}
    (hR : StatementRelation R) (g0 : CodeGenerator) (n : Nat) (g : CodeGenerator)
    (h : R g0 g) : (generatePrint n g).Holds (R g0) := by
  unfold generatePrint
  refine Result.Holds.bind
    (generateTypedExpression_advances (hR.advanceStable g0) n (hR.then_advance h))
    (fun a ha => ?_)
  exact Result.Holds.ite (Result.Holds.ok (hR.then_emitLine _ ha))
    (Result.Holds.ok (hR.then_emitLine _ ha))

theorem generateReturn_related {R : CodeGenerator → CodeGenerator → Prop}
    (hR : StatementRelation R) (g0 : CodeGenerator) (n : Nat) (g : CodeGenerator)
    (h : R g0 g) : (generateReturn n g).Holds (R g0) := by
  unfold generateReturn
  exact Result.Holds.bind
    (generateExpression_advances (hR.advanceStable g0) n (hR.then_advance h))
    (fun a ha => Result.Holds.ok (hR.then_emitLine _ ha))

theorem generateWriteFile_related {R : CodeGenerator → CodeGenerator → Prop}
    (hR : StatementRelation R) (g0 : CodeGenerator) (n : Nat) (g : CodeGenerator)
    (h : R g0 g) : (generateWriteFile n g).Holds (R g0) := by
  have hP := hR.advanceStable g0
  unfold generateWriteFile
  refine hP.stable_bind_expect (hR.then_advance h) (fun g1 h1 => ?_)
  refine Result.Holds.bind (generateTypedExpression_advances hP n h1) (fun a ha => ?_)
  refine hP.stable_bind_expect ha (fun g2 h2 => ?_)
  refine Result.Holds.bind (generateTypedExpression_advances hP n h2) (fun b hb => ?_)
  refine hP.stable_bind_expect hb (fun g3 h3 => ?_)
  exact Result.Holds.ok (hR.then_emitLine _ h3)

/-- The declaration handler, entered at the keyword `var`. -/
theorem generateVarDecl_related {R : CodeGenerator → CodeGenerator → Prop}
    (hR : StatementRelation R) (n : Nat) (g : CodeGenerator)
    (hvar : g.current.type = .VAR) : (generateVarDecl n g).Holds (R g) := by
  have hP := hR.advanceStable g.advance.advance
  unfold generateVarDecl
  refine Result.Holds.bind (expect_holds_checked _ _ _) (fun g3 hg3 => ?_)
  obtain ⟨rfl, heq⟩ := hg3
  have h3 : R g.advance.advance g.advance.advance.advance := hR.rel_advance _
  refine Result.Holds.ite
    (Result.Holds.ok (hR.rel_setVar _ _ _ hvar heq
      (hR.then_emitLine _ (hR.then_advance h3)))) ?_
  refine Result.Holds.ite ?_ ?_
  · refine hP.stable_bind_expect (hR.then_advance h3) (fun g4 h4 => ?_)
    refine Result.Holds.bind (generateTypedExpression_advances hP n h4) (fun arg harg => ?_)
    refine hP.stable_bind_expect harg (fun g5 h5 => ?_)
    exact Result.Holds.ok (hR.rel_setVar _ _ _ hvar heq (hR.then_emitLine _ h5))
  · refine Result.Holds.bind (generateTypedExpression_advances hP n h3) (fun e he => ?_)
    exact Result.Holds.ite
      (Result.Holds.ok (hR.rel_setVar _ _ _ hvar heq (hR.then_emitLine _ he)))
      (Result.Holds.ok (hR.rel_setVar _ _ _ hvar heq (hR.then_emitLine _ he)))

/-- A block of statements between braces, run `k` indent levels deeper. -/
theorem block_related {R : CodeGenerator → CodeGenerator → Prop}
    (hR : StatementRelation R) (g0 : CodeGenerator) (n : Nat)
    (ihB : ∀ g, (blockLoop n g).Holds (R g))
    (g : CodeGenerator) (h : R g0 g) (opening closing : String) (k : Int)
    (f : CodeGenerator → Result CodeGenerator)
    (hf : ∀ g1, R g0 g1 → (f g1).Holds (R g0)) :
    ((g.expect .LBRACE opening).bind fun g4 =>
      (blockLoop n { g4 with indentLevel := g4.indentLevel + k }).bind fun g6 =>
        (CodeGenerator.expect { g6 with indentLevel := g6.indentLevel - k } .RBRACE closing).bind
          f).Holds (R g0) := by
  have hP := hR.advanceStable g0
  refine hP.stable_bind_expect h (fun g4 h4 => ?_)
  refine Result.Holds.bind (ihB _) (fun g6 h6 => ?_)
  exact hP.stable_bind_expect (hR.rel_trans _ _ _ h4 (hR.rel_block _ _ _ h6)) hf

/-- Every statement handler relates the state it is entered in to the state it
returns. -/
theorem statement_related {R : CodeGenerator → CodeGenerator → Prop}
    (hR : StatementRelation R) (n : Nat) :
    (∀ g, (generateStatement n g).Holds (R g))
    ∧ (∀ g, (blockLoop n g).Holds (R g))
    ∧ (∀ g, (generateWhile n g).Holds (R g))
    ∧ (∀ g, (generateIf n g).Holds (R g))
    ∧ (∀ g, g.current.type = .FUNGSI → (generateFunctionDecl n g).Holds (R g)) := by
  induction n with
  | zero =>
    exact ⟨fun _ => Result.Holds.diverge, fun _ => Result.Holds.diverge,
      fun _ => Result.Holds.diverge, fun _ => Result.Holds.diverge,
      fun _ _ => Result.Holds.diverge⟩
  | succ n ih =>
    obtain ⟨ihS, ihB, ihW, ihI, ihF⟩ := ih
    have after : ∀ {g0 g : CodeGenerator} {r : Result CodeGenerator}, R g0 g →
        r.Holds (R g) → r.Holds (R g0) :=
      fun h hr => hr.mono (fun a ha => hR.rel_trans _ _ _ h ha)
    refine ⟨?_, ?_, ?_, ?_, ?_⟩
    · intro g
      have hP := hR.advanceStable g
      rw [generateStatement.eq_2]
      refine Result.Holds.bind (skipNewlines_related hR g n g (hR.rel_refl g)) (fun g1 h1 => ?_)
      refine Result.Holds.ite (Result.Holds.ok h1) ?_
      split
      · exact after h1 (generateVarDecl_related hR n g1 (by assumption))
      · exact generatePrint_related hR g n g1 h1
      · exact after h1 (ihW g1)
      · exact after h1 (ihI g1)
      · exact after h1 (ihF g1 (by assumption))
      · exact generateReturn_related hR g n g1 h1
      · exact generateWriteFile_related hR g n g1 h1
      · refine hP.stable_bind_expect (hR.then_advance h1) (fun g2 h2 => ?_)
        refine Result.Holds.bind (generateTypedExpression_advances hP n h2) (fun a ha => ?_)
        refine hP.stable_bind_expect ha (fun g3 h3 => ?_)
        exact Result.Holds.ok (hR.then_emitLine _ h3)
      · refine Result.Holds.ite ?_
          (Result.Holds.ite ?_ (Result.Holds.ok (hR.then_advance h1)))
        · refine Result.Holds.bind
            (generateTypedExpression_advances hP n
              (hP.stable_matchToken _ (hR.then_advance h1))) (fun a ha => ?_)
          exact Result.Holds.ok (hR.then_emitLine _ ha)
        · refine Result.Holds.bind
            (callArguments_advances hP n _ _
              (hP.stable_matchToken _ (hR.then_advance h1))) (fun a ha => ?_)
          refine hP.stable_bind_expect ha (fun g3 h3 => ?_)
          exact Result.Holds.ok (hR.then_emitLine _ h3)
      · exact Result.Holds.ok (hR.then_advance h1)
    · intro g
      rw [blockLoop.eq_2]
      refine Result.Holds.ite ?_ (Result.Holds.ok (hR.rel_refl g))
      exact Result.Holds.bind (ihS g) (fun g1 h1 => after h1 (ihB g1))
    · intro g
      have hP := hR.advanceStable g
      rw [generateWhile.eq_2]
      refine hP.stable_bind_expect (hR.then_advance (hR.rel_refl g)) (fun g1 h1 => ?_)
      refine Result.Holds.bind (generateExpression_advances hP n h1) (fun c hc => ?_)
      refine hP.stable_bind_expect hc (fun g2 h2 => ?_)
      exact block_related hR g n ihB _ (hR.then_emitLine _ h2) _ _ 1 _
        (fun g8 h8 => Result.Holds.ok (hR.then_emitLine _ h8))
    · intro g
      have hP := hR.advanceStable g
      rw [generateIf.eq_2]
      refine hP.stable_bind_expect (hR.then_advance (hR.rel_refl g)) (fun g1 h1 => ?_)
      refine Result.Holds.bind (generateExpression_advances hP n h1) (fun c hc => ?_)
      refine hP.stable_bind_expect hc (fun g2 h2 => ?_)
      refine block_related hR g n ihB _ (hR.then_emitLine _ h2) _ _ 1 _ (fun g8 h8 => ?_)
      refine Result.Holds.ite ?_ (Result.Holds.ok (hR.then_emitLine _ h8))
      refine Result.Holds.ite ?_ ?_
      · exact after (hR.then_emit _ (hR.then_advance (hR.then_emitLine _ h8))) (ihI _)
      · exact block_related hR g n ihB _
          (hR.then_emitLine _ (hR.then_advance (hR.then_emitLine _ h8))) _ _ 1 _
          (fun g16 h16 => Result.Holds.ok (hR.then_emitLine _ h16))
    · intro g hfun
      have hP := hR.advanceStable g.advance
      rw [generateFunctionDecl.eq_2]
      refine hP.stable_bind_expect
        (hR.rel_trans _ _ _ (hR.then_advance (hR.rel_refl g.advance))
          (hR.rel_declare _ _)) (fun g4 h4 => ?_)
      refine Result.Holds.bind (parameterLoop_related hR g.advance n _ _ h4) (fun ps hps => ?_)
      refine hP.stable_bind_expect hps (fun g5 h5 => ?_)
      refine Result.Holds.bind (expect_holds_advance _ _ _) (fun g7 h7 => ?_)
      refine Result.Holds.bind (ihB _) (fun g8 h8 => ?_)
      refine Result.Holds.bind (expect_holds_advance _ _ _) (fun g9 h9 => ?_)
      subst h7 h9
      exact Result.Holds.ok (hR.rel_function _ _ _ _ _ hfun h5
        (hR.then_advance (hR.rel_trans _ _ _ (hR.rel_advance _) h8)))

theorem generateStatement_related {R : CodeGenerator → CodeGenerator → Prop}
    (hR : StatementRelation R) {n : Nat} {g g1 : CodeGenerator}
    (h : generateStatement n g = .ok g1) : R g g1 :=
  (statement_related hR n).1 g g1 h

theorem blockLoop_related {R : CodeGenerator → CodeGenerator → Prop}
    (hR : StatementRelation R) {n : Nat} {g g1 : CodeGenerator}
    (h : blockLoop n g = .ok g1) : R g g1 :=
  (statement_related hR n).2.1 g g1 h

theorem generateIf_related {R : CodeGenerator → CodeGenerator → Prop}
    (hR : StatementRelation R) {n : Nat} {g g1 : CodeGenerator}
    (h : generateIf n g = .ok g1) : R g g1 :=
  (statement_related hR n).2.2.2.1 g g1 h

theorem topLevelLoop_related {R : CodeGenerator → CodeGenerator → Prop}
    (hR : StatementRelation R) (n : Nat) :
    ∀ g, (topLevelLoop n g).Holds (R g) := by
  induction n with
  | zero => exact fun _ => Result.Holds.diverge
  | succ n ih =>
    intro g
    rw [topLevelLoop.eq_2]
    refine Result.Holds.ite ?_ (Result.Holds.ok (hR.rel_refl g))
    exact Result.Holds.bind ((statement_related hR n).1 g)
      (fun g1 h1 => (ih g1).mono (fun a ha => hR.rel_trans _ _ _ h1 ha))

end Relations

/-! ## The parts collected by the scan loop -/

section Parts

open CodeGenerator

attribute [local simp] Result.bind Result.map

theorem Result.Holds.trivial {α : Type} (r : Result α) : r.Holds (fun _ => True) :=
  fun _ _ => True.intro

theorem List.append_step {α : Type} {xs ys : List α} {x : α}
    (h : ∃ t, ys = (xs ++ [x]) ++ t) : ∃ t, ys = xs ++ t := by
  obtain ⟨t, ht⟩ := h
  exact ⟨x :: t, by simp [ht]⟩

/-- The scan loop only appends to the parts it was entered with. -/
theorem exprLoop_appends (n : Nat) :
    ∀ g parts d, (exprLoop n g parts d).Holds (fun r => ∃ t, r.1 = parts ++ t) := by
  induction n with
  | zero => exact fun _ _ _ => Result.Holds.diverge
  | succ n ih =>
    intro g parts d
    rw [exprLoop.eq_2]
    refine Result.Holds.ite (Result.Holds.ok ⟨[], (List.append_nil _).symm⟩) ?_
    refine Result.Holds.ite (Result.Holds.ok ⟨[], (List.append_nil _).symm⟩) ?_
    split <;>
      repeat' first
        | with_reducible exact Result.Holds.ok ⟨[], (List.append_nil _).symm⟩
        | with_reducible exact (ih _ _ _).mono (fun _ h => List.append_step h)
        | with_reducible refine Result.Holds.bind (Result.Holds.trivial _) ?_
        | with_reducible refine Result.Holds.ite ?_ ?_
        | intro _ _

/-- Entered at a text literal or at `baca_file`, the scan loop returns a part of
kind Text. -/
theorem exprLoop_text_first (n : Nat) (g : CodeGenerator) (parts : List Part) (d : Int)
    (h : g.current.type = .STRING ∨ g.current.type = .BACA_FILE) :
    (exprLoop n g parts d).Holds (fun r => ∃ p ∈ r.1, p.2 = ExprType.STRING) := by
  have key : ∀ (m : Nat) (g1 : CodeGenerator) (code : String),
      (exprLoop m g1 (parts ++ [(code, ExprType.STRING)]) d).Holds
        (fun r => ∃ p ∈ r.1, p.2 = ExprType.STRING) := by
    intro m g1 code
    refine (exprLoop_appends _ g1 _ d).mono (fun r hr => ?_)
    obtain ⟨t, ht⟩ := hr
    exact ⟨(code, .STRING), by simp [ht], rfl⟩
  cases n with
  | zero => exact Result.Holds.diverge
  | succ n =>
    rw [exprLoop.eq_2]
    rcases h with h | h
    · simp only [check, h, isStopToken]
      rw [if_neg (by decide), if_neg (by simp)]
      exact key _ _ _
    · simp only [check, h, isStopToken]
      rw [if_neg (by decide), if_neg (by simp)]
      refine Result.Holds.bind (Result.Holds.trivial _) (fun _ _ => ?_)
      refine Result.Holds.bind (Result.Holds.trivial _) (fun _ _ => ?_)
      refine Result.Holds.bind (Result.Holds.trivial _) (fun _ _ => ?_)
      exact key _ _ _

/-- The result built from parts none of which is of kind Text: the fragments
joined in order, of kind Integer. -/
theorem finishTypedExpression_no_text (parts : List Part)
    (h : ∀ p ∈ parts, p.2 ≠ ExprType.STRING) :
    finishTypedExpression parts = ⟨parts.foldl (fun result p => result ++ p.1) "", .INT⟩ := by
  have hany : parts.any (fun p => decide (p.2 = ExprType.STRING)) = false := by
    rw [List.any_eq_false]
    intro p hp
    simpa using h p hp
  simp [finishTypedExpression, hany]

/-- The expression translator returns the state it was entered in, moved to a
later token position. -/
theorem generateTypedExpression_frame {n : Nat} {g g1 : CodeGenerator} {e : ExprResult}
    (h : generateTypedExpression n g = .ok (e, g1)) : g1 = g.atTokens g1.rest := by
  have hP : MoveStable (fun x : CodeGenerator => x.atTokens [] = g.atTokens []) :=
    fun _ _ hx => hx
  have h1 : g1.atTokens [] = g.atTokens [] :=
    generateTypedExpression_preserves hP n rfl (e, g1) h
  have h2 : (g1.atTokens []).atTokens g1.rest = (g.atTokens []).atTokens g1.rest := by
    rw [h1]
  exact h2

theorem exprLoop_frame {n : Nat} {g g1 : CodeGenerator} {parts parts1 : List Part} {d : Int}
    (h : exprLoop n g parts d = .ok (parts1, g1)) : g1 = g.atTokens g1.rest := by
  have hP : MoveStable (fun x : CodeGenerator => x.atTokens [] = g.atTokens []) :=
    fun _ _ hx => hx
  have h1 : g1.atTokens [] = g.atTokens [] :=
    (expression_preserves _ hP n).2.1 g parts d rfl (parts1, g1) h
  have h2 : (g1.atTokens []).atTokens g1.rest = (g.atTokens []).atTokens g1.rest := by
    rw [h1]
  exact h2

theorem callArguments_frame {n : Nat} {g g1 : CodeGenerator} {call call1 : String}
    {first : Bool}
    (h : callArguments n g call first = .ok (call1, g1)) : g1 = g.atTokens g1.rest := by
  have hP : MoveStable (fun x : CodeGenerator => x.atTokens [] = g.atTokens []) :=
    fun _ _ hx => hx
  have h1 : g1.atTokens [] = g.atTokens [] :=
    callArguments_preserves hP n call first rfl (call1, g1) h
  have h2 : (g1.atTokens []).atTokens g1.rest = (g.atTokens []).atTokens g1.rest := by
    rw [h1]
  exact h2

end Parts

/-! ## Calls in expressions -/

section Calls

open CodeGenerator

attribute [local simp] Result.bind Result.map

theorem Result.ok_of_le {α : Type} {r r' : Result α} {a : α} (h : r.le r')
    (hr : r = .ok a) : r' = .ok a :=
  Result.eq_of_le h hr (by simp)

theorem generateTypedExpression_fuel_le {n m : Nat} (h : n ≤ m) (g : CodeGenerator) :
    (generateTypedExpression n g).le (generateTypedExpression m g) :=
  Result.le_of_le (fun n => generateTypedExpression n g)
    (fun n => generateTypedExpression_fuel_step n g) h

theorem blockLoop_fuel_le {n m : Nat} (h : n ≤ m) (g : CodeGenerator) :
    (blockLoop n g).le (blockLoop m g) :=
  Result.le_of_le (fun n => blockLoop n g) (fun n => (statement_fuel_step n).2.1 g) h

theorem generateIf_fuel_le {n m : Nat} (h : n ≤ m) (g : CodeGenerator) :
    (generateIf n g).le (generateIf m g) :=
  Result.le_of_le (fun n => generateIf n g) (fun n => (statement_fuel_step n).2.2.2.1 g) h

theorem joinArguments_cons (a : String) (codes : List String) (h : codes ≠ []) :
    joinArguments (a :: codes) = a ++ ", " ++ joinArguments codes := by
  cases codes with
  | nil => exact absurd rfl h
  | cons b rest => rfl

theorem ArgumentsRun.ne_nil {fuel : Nat} {g g1 : CodeGenerator} {codes : List String}
    (h : ArgumentsRun fuel g codes g1) : codes ≠ [] := by
  cases h <;> simp

theorem ArgumentsRun.closes {fuel : Nat} {g g1 : CodeGenerator} {codes : List String}
    (h : ArgumentsRun fuel g codes g1) : g1.current.type = .RPAREN := by
  induction h with
  | single g g1 a h hclose => exact hclose
  | cons g g1 g2 a codes h hcomma hr ih => exact ih

/-- The argument loop on the arguments after the first: entered at the comma
in front of them. -/
theorem callArguments_rest {fuel : Nat} {g1 g2 : CodeGenerator} {codes : List String}
    (h : ArgumentsRun fuel g1 codes g2) :
    ∀ (g : CodeGenerator) (call : String), g.current.type = .COMMA → g.advance = g1 →
      callArguments (fuel + codes.length + 1) g call false
        = .ok (call ++ ", " ++ joinArguments codes, g2) := by
  induction h with
  | single g1 g2 a h hclose =>
    intro g call hc hadv
    have h1 : generateTypedExpression (fuel + 1) g1 = .ok (a, g2) :=
      Result.ok_of_le (generateTypedExpression_fuel_le (Nat.le_succ _) _) h
    rw [show fuel + [a.code].length + 1 = (fuel + 1) + 1 from rfl, callArguments.eq_2]
    simp [check, hc, expect, matchToken, hadv, h1, callArguments, hclose, joinArguments]
  | cons g1 g2 g3 a codes h hcomma hr ih =>
    intro g call hc hadv
    have h1 : generateTypedExpression (fuel + codes.length + 1) g1 = .ok (a, g2) :=
      Result.ok_of_le (generateTypedExpression_fuel_le (by omega) _) h
    rw [show fuel + (a.code :: codes).length + 1 = (fuel + codes.length + 1) + 1 from rfl,
      callArguments.eq_2]
    simp [check, hc, expect, matchToken, hadv, h1, ih g2 _ hcomma rfl,
      joinArguments_cons a.code codes hr.ne_nil, String.append_assoc3]

/-- The argument loop of a call on a well-formed argument list: the text of the
call is extended by `a1, ..., an`, and the loop stops at the close
parenthesis. -/
theorem callArguments_wellFormed {fuel : Nat} {g g1 : CodeGenerator} {codes : List String}
    (h : WellFormedArguments fuel g codes g1) (call : String) :
    callArguments (fuel + codes.length + 1) g call true
        = .ok (call ++ joinArguments codes, g1)
      ∧ g1.current.type = .RPAREN := by
  rcases h with ⟨hc, hg, hclose⟩ | ⟨h1, h2, hrun⟩
  · subst hc hg
    refine ⟨?_, hclose⟩
    rw [callArguments.eq_2]
    simp [check, hclose, joinArguments, String.append_empty_right]
  · refine ⟨?_, hrun.closes⟩
    cases hrun with
    | single g g1 a h hclose =>
      have h3 : generateTypedExpression (fuel + 1) g = .ok (a, g1) :=
        Result.ok_of_le (generateTypedExpression_fuel_le (Nat.le_succ _) _) h
      rw [show fuel + [a.code].length + 1 = (fuel + 1) + 1 from rfl, callArguments.eq_2]
      simp [check, h1, h2, h3, callArguments, hclose, joinArguments]
    | cons g g1 g2 a codes h hcomma hr =>
      have h3 : generateTypedExpression (fuel + codes.length + 1) g = .ok (a, g1) :=
        Result.ok_of_le (generateTypedExpression_fuel_le (by omega) _) h
      rw [show fuel + (a.code :: codes).length + 1 = (fuel + codes.length + 1) + 1 from rfl,
        callArguments.eq_2]
      simp [check, h1, h2, h3, callArguments_rest hr g1 _ hcomma rfl,
        joinArguments_cons a.code codes hr.ne_nil, String.append_assoc3]

end Calls

/-! ## The Type Table is written by declarations only -/

section TypeTable

open CodeGenerator

theorem declares_tail (name : String) (t : Token) (ts : List Token)
    (h : declares name (t :: ts) = false) : declares name ts = false := by
  cases ts with
  | nil => rfl
  | cons t2 rest =>
    simp only [declares, Bool.or_eq_false_iff] at h
    exact h.2

end TypeTable

/-! ## Declarations with a literal initialiser -/

section Declarations

open CodeGenerator

attribute [local simp] Result.bind Result.map

end Declarations

/-! ## Function declarations -/

section Functions

open CodeGenerator

attribute [local simp] Result.bind Result.map

theorem Result.bind_eq_ok {α β : Type} {r : Result α} {f : α → Result β} {b : β}
    (h : r.bind f = .ok b) : ∃ a, r = .ok a ∧ f a = .ok b := by
  cases r with
  | ok a => exact ⟨a, rfl, h⟩
  | exit l c m => simp at h
  | diverge => simp at h

theorem expect_eq_ok {g g1 : CodeGenerator} {t : TokenType} {message : String}
    (h : g.expect t message = .ok g1) : g.current.type = t ∧ g1 = g.advance := by
  unfold CodeGenerator.expect CodeGenerator.matchToken at h
  by_cases hc : g.check t = true
  · simp [hc] at h
    exact ⟨by simpa [check] using hc, h.symm⟩
  · simp [hc] at h

theorem expect_of_current {g : CodeGenerator} {t : TokenType} (message : String)
    (h : g.current.type = t) : g.expect t message = .ok g.advance := by
  simp [CodeGenerator.expect, CodeGenerator.matchToken, check, h]

theorem expect_of_ne {g : CodeGenerator} {t : TokenType} (message : String)
    (h : g.current.type ≠ t) :
    g.expect t message = .exit g.current.line g.current.column message := by
  simp [CodeGenerator.expect, CodeGenerator.matchToken, check, h]

/-- The parameter loop changes the state only by moving to the next token. -/
theorem parameterLoop_advances {P : CodeGenerator → Prop} (hP : AdvanceStable P) (n : Nat) :
    ∀ g params, P g → (parameterLoop n g params).Holds (fun r => P r.2) := by
  induction n with
  | zero => exact fun _ _ _ => Result.Holds.diverge
  | succ n ih =>
    intro g params h
    rw [parameterLoop.eq_2]
    refine Result.Holds.ite ?_ (Result.Holds.ok h)
    refine Result.Holds.bind (Q := P) ?_ ?_
    · exact Result.Holds.ite (hP.stable_expect _ _ h) (Result.Holds.ok h)
    · intro g1 h1
      exact Result.Holds.ite (ih _ _ (hP.step h1)) (ih _ _ h1)

theorem parameterLoop_frame {n : Nat} {g g1 : CodeGenerator} {params params1 : List String}
    (h : parameterLoop n g params = .ok (params1, g1)) : g1 = g.atTokens g1.rest := by
  have hP : AdvanceStable (fun x : CodeGenerator => x.atTokens [] = g.atTokens []) :=
    fun _ hx => hx
  have h1 : g1.atTokens [] = g.atTokens [] :=
    parameterLoop_advances hP n g params rfl (params1, g1) h
  have h2 : (g1.atTokens []).atTokens g1.rest = (g.atTokens []).atTokens g1.rest := by
    rw [h1]
  exact h2

/-- The steps of a successful function declaration: the header is read up to
the close parenthesis, the body is run from the entry state behind the open
brace, and the declaration returns the exit state behind the close brace. -/
theorem generateFunctionDecl_ok {fuel : Nat} {g g1 : CodeGenerator}
    (h : generateFunctionDecl (fuel + 1) g = .ok g1) :
    ∃ (params : List String) (rest5 : List Token) (g8 : CodeGenerator),
      parameterLoop fuel
          ({ g.advance.advance with
              declaredFunctions :=
                insertDeclared g.advance.current.value g.declaredFunctions }).advance []
        = .ok (params,
            ({ g with declaredFunctions :=
                insertDeclared g.advance.current.value g.declaredFunctions }).atTokens rest5)
      ∧ blockLoop fuel
          (functionEntry
            (({ g with declaredFunctions :=
                insertDeclared g.advance.current.value g.declaredFunctions }).atTokens
                  rest5.tail)
            (functionSignature g.advance.current.value params)).advance = .ok g8
      ∧ g1 = functionExit g8.advance g.currentOutput g.indentLevel := by
  rw [generateFunctionDecl.eq_2] at h
  obtain ⟨g4, h4, h⟩ := Result.bind_eq_ok h
  obtain ⟨_, rfl⟩ := expect_eq_ok h4
  obtain ⟨ps, hps, h⟩ := Result.bind_eq_ok h
  obtain ⟨g5, h5, h⟩ := Result.bind_eq_ok h
  obtain ⟨_, rfl⟩ := expect_eq_ok h5
  obtain ⟨g7, h7, h⟩ := Result.bind_eq_ok h
  obtain ⟨_, rfl⟩ := expect_eq_ok h7
  obtain ⟨g8, h8, h⟩ := Result.bind_eq_ok h
  obtain ⟨g9, h9, h⟩ := Result.bind_eq_ok h
  obtain ⟨_, rfl⟩ := expect_eq_ok h9
  obtain ⟨params, g5⟩ := ps
  have hframe := parameterLoop_frame hps
  simp only at hframe h h8
  refine ⟨params, g5.rest, g8, ?_, ?_, ?_⟩
  · exact hps.trans (congrArg (fun x => Result.ok (params, x)) hframe)
  · refine Eq.trans ?_ h8
    exact congrArg (fun x : CodeGenerator => blockLoop fuel
      (CodeGenerator.advance { x.advance with
        currentOutput := .functions
        indentLevel := 1
        inFunction := true
        functionsOutput := x.advance.functionsOutput
          ++ functionSignature g.advance.current.value params ++ "\n" })) hframe.symm
  · have hco : g5.currentOutput = g.currentOutput := by
      have h0 := congrArg CodeGenerator.currentOutput hframe
      exact h0
    have hil : g5.indentLevel = g.indentLevel := by
      have h0 := congrArg CodeGenerator.indentLevel hframe
      exact h0
    simp only [Result.ok.injEq] at h
    rw [← h]
    simp only [functionExit, advance, hco, hil]

theorem parameterLoop_fuel_le {n m : Nat} (h : n ≤ m) (g : CodeGenerator)
    (params : List String) :
    (parameterLoop n g params).le (parameterLoop m g params) :=
  Result.le_of_le (fun n => parameterLoop n g params)
    (fun n => parameterLoop_fuel_step n g params) h

/-- Two successful runs on different fuel return the same value. -/
theorem Result.ok_unique {α : Type} {f : Nat → Result α}
    (hstep : ∀ n, (f n).le (f (n + 1))) {n m : Nat} {a b : α}
    (ha : f n = .ok a) (hb : f m = .ok b) : a = b := by
  have h1 : f (max n m) = .ok a :=
    Result.ok_of_le (Result.le_of_le f hstep (Nat.le_max_left n m)) ha
  have h2 : f (max n m) = .ok b :=
    Result.ok_of_le (Result.le_of_le f hstep (Nat.le_max_right n m)) hb
  rw [h1] at h2
  exact Result.ok.inj h2

/-- The parameter loop on the tokens `, p2, p3 ...` after the first parameter. -/
theorem parameterLoop_tail (g : CodeGenerator) (rp : Token) (more : List Token)
    (hrp : rp.type = .RPAREN) :
    ∀ (tail : List Token) (fuel : Nat) (acc : List String),
      isParameterTail tail = true → acc ≠ [] →
      parameterLoop (fuel + tail.length + 1) (g.atTokens (tail ++ rp :: more)) acc
        = .ok (acc ++ parameterNames tail, g.atTokens (rp :: more))
  | [], fuel, acc, _, _ => by
    rw [parameterLoop.eq_2]
    simp [check, current, atTokens, hrp, parameterNames]
  | [_], _, _, h, _ => by simp [isParameterTail] at h
  | c :: p :: rest, fuel, acc, h, hacc => by
    simp only [isParameterTail, Bool.and_eq_true, decide_eq_true_eq] at h
    obtain ⟨⟨hc, hp⟩, hrest⟩ := h
    have hne : acc.isEmpty = false := by
      cases acc with
      | nil => exact absurd rfl hacc
      | cons a as => rfl
    have ih := parameterLoop_tail g rp more hrp rest (fuel + 1) (acc ++ [p.value]) hrest
      (by simp)
    rw [show fuel + (c :: p :: rest).length + 1 = (fuel + 1 + rest.length + 1) + 1 by
      simp only [List.length_cons]; omega, parameterLoop.eq_2]
    simp only [check, current, atTokens, List.cons_append, hc, hne, expect, matchToken, advance,
      List.tail_cons, hp]
    simp only [atTokens] at ih
    simp [ih, parameterNames, hp, hc]

/-- The parameter loop on a well-formed parameter list returns the names of the
parameters in order and stops at the close parenthesis. -/
theorem parameterLoop_wellFormed (g : CodeGenerator) (rp : Token) (more : List Token)
    (hrp : rp.type = .RPAREN) (ps : List Token) (hps : isParameterList ps = true)
    (fuel : Nat) :
    parameterLoop (fuel + ps.length + 1) (g.atTokens (ps ++ rp :: more)) []
      = .ok (parameterNames ps, g.atTokens (rp :: more)) := by
  cases ps with
  | nil =>
    rw [parameterLoop.eq_2]
    simp [check, current, atTokens, hrp, parameterNames]
  | cons p tail =>
    simp only [isParameterList, Bool.and_eq_true, decide_eq_true_eq] at hps
    obtain ⟨hp, htail⟩ := hps
    have ih := parameterLoop_tail g rp more hrp tail fuel [p.value] htail (by simp)
    rw [show fuel + (p :: tail).length + 1 = (fuel + tail.length + 1) + 1 by
      simp only [List.length_cons]; omega, parameterLoop.eq_2]
    simp only [check, current, atTokens, List.cons_append, hp, advance, List.tail_cons]
    simp only [atTokens] at ih
    simp [ih, parameterNames, hp]

theorem keepsLayout_relation : StatementRelation KeepsLayout where
  rel_refl := fun _ => ⟨rfl, rfl⟩
  rel_trans := fun _ _ _ h1 h2 => ⟨h2.1.trans h1.1, h2.2.trans h1.2⟩
  rel_advance := fun _ => ⟨rfl, rfl⟩
  rel_emit := fun g code => by
    unfold CodeGenerator.emit
    split <;> exact ⟨rfl, rfl⟩
  rel_setVar := fun _ _ _ _ _ h => h
  rel_block := fun g g1 k h => by
    obtain ⟨h1, h2⟩ := h
    refine ⟨h1, ?_⟩
    show g1.indentLevel - k = g.indentLevel
    rw [h2]
    show g.indentLevel + k - k = g.indentLevel
    omega
  rel_declare := fun _ _ => ⟨rfl, rfl⟩
  rel_function := fun _ _ _ _ _ _ h _ => h

theorem keepsMain_relation : StatementRelation KeepsMain where
  rel_refl := fun _ h => ⟨h, rfl⟩
  rel_trans := fun _ _ _ h1 h2 h =>
    ⟨(h2 (h1 h).1).1, (h2 (h1 h).1).2.trans (h1 h).2⟩
  rel_advance := fun _ h => ⟨h, rfl⟩
  rel_emit := fun g code h => by
    unfold CodeGenerator.emit
    rw [h]
    exact ⟨rfl, rfl⟩
  rel_setVar := fun _ _ _ _ _ h1 h => h1 h
  rel_block := fun _ _ _ h1 h => h1 h
  rel_declare := fun _ _ h => ⟨h, rfl⟩
  rel_function := fun _ _ _ _ _ _ h0 h1 h => ⟨(h0 h).1, ((h1 rfl).2).trans (h0 h).2⟩

end Functions

/-! ## Blocks -/

section Blocks

open CodeGenerator

attribute [local simp] Result.bind Result.map

@[simp] theorem CodeGenerator.emit_current (g : CodeGenerator) (code : String) :
    (g.emit code).current = g.current := by
  unfold CodeGenerator.emit; split <;> rfl

@[simp] theorem CodeGenerator.emitLine_current (g : CodeGenerator) (code : String) :
    (g.emitLine code).current = g.current :=
  CodeGenerator.emit_current g _

@[simp] theorem CodeGenerator.emit_advance_current (g : CodeGenerator) (code : String) :
    (g.emit code).advance.current = g.advance.current := by
  unfold CodeGenerator.emit; split <;> rfl

@[simp] theorem CodeGenerator.emitLine_advance_current (g : CodeGenerator) (code : String) :
    (g.emitLine code).advance.current = g.advance.current :=
  CodeGenerator.emit_advance_current g _

@[simp] theorem CodeGenerator.emit_rest (g : CodeGenerator) (code : String) :
    (g.emit code).rest = g.rest := by
  unfold CodeGenerator.emit; split <;> rfl

@[simp] theorem CodeGenerator.emitLine_rest (g : CodeGenerator) (code : String) :
    (g.emitLine code).rest = g.rest :=
  CodeGenerator.emit_rest g _

@[simp] theorem CodeGenerator.emit_varTypes (g : CodeGenerator) (code : String) :
    (g.emit code).varTypes = g.varTypes := by
  unfold CodeGenerator.emit; split <;> rfl

@[simp] theorem CodeGenerator.emitLine_varTypes (g : CodeGenerator) (code : String) :
    (g.emitLine code).varTypes = g.varTypes :=
  CodeGenerator.emit_varTypes g _

@[simp] theorem CodeGenerator.emit_indentLevel (g : CodeGenerator) (code : String) :
    (g.emit code).indentLevel = g.indentLevel := by
  unfold CodeGenerator.emit; split <;> rfl

@[simp] theorem CodeGenerator.emitLine_indentLevel (g : CodeGenerator) (code : String) :
    (g.emitLine code).indentLevel = g.indentLevel :=
  CodeGenerator.emit_indentLevel g _

@[simp] theorem CodeGenerator.emit_currentOutput (g : CodeGenerator) (code : String) :
    (g.emit code).currentOutput = g.currentOutput := by
  unfold CodeGenerator.emit; split <;> rfl

@[simp] theorem CodeGenerator.emitLine_currentOutput (g : CodeGenerator) (code : String) :
    (g.emitLine code).currentOutput = g.currentOutput :=
  CodeGenerator.emit_currentOutput g _

/-- The buffer a state emits to, after an emission. -/
theorem CodeGenerator.currentBuffer_emit (g : CodeGenerator) (code : String) :
    (g.emit code).currentBuffer = g.currentBuffer ++ code := by
  unfold CodeGenerator.emit CodeGenerator.currentBuffer
  cases h : g.currentOutput <;> simp [h]

theorem CodeGenerator.currentBuffer_emitLine (g : CodeGenerator) (code : String) :
    (g.emitLine code).currentBuffer = g.currentBuffer ++ (g.indent ++ code ++ "\n") :=
  CodeGenerator.currentBuffer_emit g _

/-- The function declaration handler, written with the entry and exit states
of the body. -/
theorem generateFunctionDecl_eq (fuel : Nat) (g : CodeGenerator) :
    generateFunctionDecl (fuel + 1) g
      = ((declareFunction g.advance.advance g.advance.current.value).expect .LPAREN
          "Expected '(' after function name").bind fun g4 =>
        (parameterLoop fuel g4 []).bind fun params =>
        (params.2.expect .RPAREN "Expected ')' after parameters").bind fun g5 =>
        ((functionEntry g5 (functionSignature g.advance.current.value params.1)).expect .LBRACE
          "Expected '\x7b' to start function body").bind fun g7 =>
        (blockLoop fuel g7).bind fun g8 =>
        (g8.expect .RBRACE "Expected '\x7d' to end function body").bind fun g9 =>
        .ok (functionExit g9 g5.currentOutput g5.indentLevel) := by
  rw [generateFunctionDecl.eq_2]
  rfl

/-- A block whose statements end at end of file: the close brace is reported
missing at the position of the end-of-file token. -/
theorem block_unclosed (fuel : Nat) (g g6 : CodeGenerator) (opening closing : String)
    (f : CodeGenerator → Result CodeGenerator)
    (hopen : g.current.type = .LBRACE)
    (hbody : blockLoop fuel (blockEntry g) = .ok g6)
    (hend : g6.current.type = .END_OF_FILE) :
    ((g.expect .LBRACE opening).bind fun g4 =>
      (blockLoop fuel { g4 with indentLevel := g4.indentLevel + 1 }).bind fun g6 =>
        (CodeGenerator.expect { g6 with indentLevel := g6.indentLevel - 1 } .RBRACE closing).bind
          f) = .exit g6.current.line g6.current.column closing := by
  have hb : blockLoop fuel { g.advance with indentLevel := g.advance.indentLevel + 1 }
      = .ok g6 := hbody
  have hc : (CodeGenerator.current { g6 with indentLevel := g6.indentLevel - 1 }) = g6.current :=
    rfl
  rw [expect_of_current _ hopen]
  simp only [Result.bind, hb]
  rw [expect_of_ne _ (by rw [hc, hend]; decide), hc]

/-- A block that is closed: the translation goes on behind the close brace. -/
theorem block_closed (fuel : Nat) (g g6 : CodeGenerator) (opening closing : String)
    (f : CodeGenerator → Result CodeGenerator)
    (hopen : g.current.type = .LBRACE)
    (hbody : blockLoop fuel (blockEntry g) = .ok g6)
    (hend : g6.current.type = .RBRACE) :
    ((g.expect .LBRACE opening).bind fun g4 =>
      (blockLoop fuel { g4 with indentLevel := g4.indentLevel + 1 }).bind fun g6 =>
        (CodeGenerator.expect { g6 with indentLevel := g6.indentLevel - 1 } .RBRACE closing).bind
          f) = f (blockExit g6) := by
  have hb : blockLoop fuel { g.advance with indentLevel := g.advance.indentLevel + 1 }
      = .ok g6 := hbody
  have hc : (CodeGenerator.current { g6 with indentLevel := g6.indentLevel - 1 }) = g6.current :=
    rfl
  rw [expect_of_current _ hopen]
  simp only [Result.bind, hb]
  rw [expect_of_current _ (by rw [hc, hend])]
  rfl

/-- Entering a block and leaving it at once restores the indent level. -/
theorem blockExit_blockEntry (g : CodeGenerator) :
    blockExit (blockEntry g) = g.advance.advance := by
  cases g
  simp [blockExit, blockEntry, advance]

theorem CodeGenerator.emit_advance (g : CodeGenerator) (code : String) :
    (g.emit code).advance = g.advance.emit code := by
  unfold CodeGenerator.emit
  cases h : g.currentOutput <;> simp [advance, h]

theorem CodeGenerator.emitLine_advance (g : CodeGenerator) (code : String) :
    (g.emitLine code).advance = g.advance.emitLine code :=
  CodeGenerator.emit_advance g _

end Blocks

/-! ## Conditional chains -/

section Conditionals

open CodeGenerator

attribute [local simp] Result.bind Result.map

@[simp] theorem CodeGenerator.advance_currentBuffer (g : CodeGenerator) :
    g.advance.currentBuffer = g.currentBuffer := rfl

@[simp] theorem CodeGenerator.advance_indent (g : CodeGenerator) :
    g.advance.indent = g.indent := rfl

@[simp] theorem CodeGenerator.emit_indent (g : CodeGenerator) (code : String) :
    (g.emit code).indent = g.indent := by
  unfold CodeGenerator.indent
  rw [CodeGenerator.emit_indentLevel]

@[simp] theorem CodeGenerator.emitLine_indent (g : CodeGenerator) (code : String) :
    (g.emitLine code).indent = g.indent :=
  CodeGenerator.emit_indent g _

theorem CodeGenerator.indent_eq_of_level {g g1 : CodeGenerator}
    (h : g1.indentLevel = g.indentLevel) : g1.indent = g.indent := by
  unfold CodeGenerator.indent
  rw [h]

theorem KeepsLayout.keeps_indent {g g1 : CodeGenerator} (h : KeepsLayout g g1) :
    g1.indent = g.indent :=
  CodeGenerator.indent_eq_of_level h.2

theorem KeepsLayout.layout_emit {g g1 : CodeGenerator} (h : KeepsLayout g g1) (code : String) :
    KeepsLayout g (g1.emit code) :=
  ⟨by simpa using h.1, by simpa using h.2⟩

theorem KeepsLayout.layout_emitLine {g g1 : CodeGenerator} (h : KeepsLayout g g1)
    (code : String) : KeepsLayout g (g1.emitLine code) :=
  h.layout_emit _

theorem KeepsLayout.layout_advance {g g1 : CodeGenerator} (h : KeepsLayout g g1) :
    KeepsLayout g g1.advance :=
  h

/-- The state behind a closed block and its closing line: the current buffer
has gained the text of the body and the line `}` at the indentation of the
state in front of the open brace, and the layout is that of this state. -/
theorem block_state {fuel : Nat} {g g6 : CodeGenerator} {B : String}
    (hbody : blockLoop fuel (blockEntry g) = .ok g6)
    (hB : g6.currentBuffer = (blockEntry g).currentBuffer ++ B) :
    ((blockExit g6).emitLine "\x7d").currentBuffer
        = g.currentBuffer ++ B ++ indentedLine g.indent "\x7d"
      ∧ KeepsLayout g ((blockExit g6).emitLine "\x7d") := by
  obtain ⟨hco, hil⟩ := blockLoop_related keepsLayout_relation hbody
  have hlayout : KeepsLayout g (blockExit g6) := by
    refine ⟨hco, ?_⟩
    show g6.indentLevel - 1 = g.indentLevel
    rw [hil]
    show g.indentLevel + 1 - 1 = g.indentLevel
    omega
  refine ⟨?_, hlayout.layout_emitLine _⟩
  rw [CodeGenerator.currentBuffer_emitLine, hlayout.keeps_indent]
  have hbuf : (blockExit g6).currentBuffer = g6.currentBuffer := rfl
  have hentry : (blockEntry g).currentBuffer = g.currentBuffer := rfl
  rw [hbuf, hB, hentry]
  rfl

/-- The state in which the body of a conditional is entered: behind the line
`if (c) {`. -/
theorem condition_state {fuel : Nat} {g g2 : CodeGenerator} {c : ExprResult}
    (hc : generateTypedExpression fuel g.advance.advance = .ok (c, g2)) (code : String) :
    (g2.advance.emitLine code).currentBuffer = g.currentBuffer ++ indentedLine g.indent code
      ∧ KeepsLayout g (g2.advance.emitLine code) := by
  have hframe := generateTypedExpression_frame hc
  have hlayout : KeepsLayout g g2.advance := by
    rw [hframe]
    exact ⟨rfl, rfl⟩
  refine ⟨?_, hlayout.layout_emitLine _⟩
  rw [CodeGenerator.currentBuffer_emitLine, hlayout.keeps_indent]
  have hbuf : g2.advance.currentBuffer = g.currentBuffer := by
    rw [hframe]
    rfl
  rw [hbuf]
  rfl

theorem KeepsLayout.layout_trans {a b c : CodeGenerator} (h1 : KeepsLayout a b)
    (h2 : KeepsLayout b c) : KeepsLayout a c :=
  ⟨h2.1.trans h1.1, h2.2.trans h1.2⟩

/-- A conditional chain is translated without error into the nested text
expected for it. -/
theorem ifChain_translates {fuel : Nat} {ind : String} {n : Nat} {g : CodeGenerator}
    {text : String} (h : IfChain fuel ind n g text) :
    g.indent = ind →
    ∃ g1, generateIf (fuel + n + 1) g = .ok g1
      ∧ g1.currentBuffer = g.currentBuffer ++ text ∧ KeepsLayout g g1 := by
  induction h with
  | last g g2 g6 g14 c B E hlp hc hrp hlb hbody hB hclose helse hlb2 hbody2 hE hclose2 =>
    intro hind
    obtain ⟨hbuf3, hlay3⟩ := condition_state hc ("if (" ++ c.code ++ ") \x7b")
    obtain ⟨hbuf9, hlay9⟩ := block_state hbody hB
    obtain ⟨hbuf16, hlay16⟩ := block_state hbody2 hE
    have hlay9g : KeepsLayout g ((blockExit g6).emitLine "\x7d") := hlay3.layout_trans hlay9
    have hlay11 : KeepsLayout g ((((blockExit g6).emitLine "\x7d").advance).emitLine "else \x7b") :=
      hlay9g.layout_advance.layout_emitLine _
    refine ⟨(blockExit g14).emitLine "\x7d", ?_, ?_, hlay11.layout_trans hlay16⟩
    · rw [generateIf.eq_2, expect_of_current _ hlp]
      simp only [Result.bind, generateExpression, hc]
      rw [expect_of_current _ hrp]
      refine (block_closed fuel _ g6 _ _ _ (by simpa using hlb) hbody hclose).trans ?_
      have hnj : (blockExit g6).advance.current.type ≠ .JIKA := by
        rw [hlb2]; decide
      simp only [check, emitLine_current, emitLine_advance_current, helse, hnj, decide_True,
        decide_False, if_true, Bool.false_eq_true, if_false]
      exact block_closed fuel _ g14 _ _ _ (by simpa using hlb2) hbody2 hclose2
    · rw [hbuf16, CodeGenerator.currentBuffer_emitLine, CodeGenerator.advance_currentBuffer,
        hbuf9, hbuf3, hlay3.keeps_indent, hlay11.keeps_indent,
        CodeGenerator.advance_indent, hlay9g.keeps_indent, hind]
      simp only [indentedLine, String.append_assoc3]
  | more n g g2 g6 c B text hlp hc hrp hlb hbody hB hclose helse hjika hr ih =>
    intro hind
    obtain ⟨hbuf3, hlay3⟩ := condition_state hc ("if (" ++ c.code ++ ") \x7b")
    obtain ⟨hbuf9, hlay9⟩ := block_state hbody hB
    have hlay9g : KeepsLayout g ((blockExit g6).emitLine "\x7d") := hlay3.layout_trans hlay9
    have hlay10 : KeepsLayout g ((((blockExit g6).emitLine "\x7d").advance).emit
        ((((blockExit g6).emitLine "\x7d").advance).indent ++ "else ")) :=
      hlay9g.layout_advance.layout_emit _
    obtain ⟨g1, hg1, hbuf1, hlay1⟩ := ih (hlay10.keeps_indent.trans hind)
    have hc2 : generateTypedExpression (fuel + n + 1) g.advance.advance = .ok (c, g2) :=
      Result.ok_of_le (generateTypedExpression_fuel_le (by omega) _) hc
    have hbody2 : blockLoop (fuel + n + 1)
        (blockEntry (g2.advance.emitLine ("if (" ++ c.code ++ ") \x7b"))) = .ok g6 :=
      Result.ok_of_le (blockLoop_fuel_le (by omega) _) hbody
    refine ⟨g1, ?_, ?_, hlay10.layout_trans hlay1⟩
    · rw [show fuel + (n + 1) + 1 = (fuel + n + 1) + 1 by omega, generateIf.eq_2,
        expect_of_current _ hlp]
      simp only [Result.bind, generateExpression, hc2]
      rw [expect_of_current _ hrp]
      refine (block_closed _ _ g6 _ _ _ (by simpa using hlb) hbody2 hclose).trans ?_
      simp only [check, emitLine_current, emitLine_advance_current, helse, hjika, decide_True,
        if_true]
      exact hg1
    · rw [hbuf1, CodeGenerator.currentBuffer_emit, CodeGenerator.advance_currentBuffer,
        hbuf9, hbuf3, hlay3.keeps_indent, CodeGenerator.advance_indent, hlay9g.keeps_indent,
        hind]
      simp only [indentedLine, String.append_assoc3]

end Conditionals

/-! ## Statements without a handler -/

section Skipping

open CodeGenerator

attribute [local simp] Result.bind Result.map

/-- The loop that skips blank lines, on a run of NEWLINE tokens followed by a
token of another kind. -/
theorem skipNewlines_run (g : CodeGenerator) (tok : Token) (more : List Token)
    (htok : tok.type ≠ .NEWLINE) :
    ∀ (nls : List Token) (fuel : Nat), (∀ t ∈ nls, t.type = .NEWLINE) →
      skipNewlines (fuel + nls.length + 1) (g.atTokens (nls ++ tok :: more))
        = .ok (g.atTokens (tok :: more))
  | [], fuel, _ => by
    rw [skipNewlines]
    simp [check, current, atTokens, htok]
  | t :: ts, fuel, h => by
    have ht : t.type = .NEWLINE := h t (List.mem_cons_self _ _)
    have ih := skipNewlines_run g tok more htok ts fuel
      (fun u hu => h u (List.mem_cons_of_mem _ hu))
    rw [show fuel + (t :: ts).length + 1 = (fuel + ts.length + 1) + 1 from rfl, skipNewlines]
    simp only [check, current, atTokens, List.cons_append, ht, decide_True, if_true, advance,
      List.tail_cons]
    exact ih

theorem finishTypedExpression_fold (parts : List Part) :
    ∀ acc : String, parts.foldl (fun result p => result ++ p.1) acc
      = acc ++ concatAll (parts.map Prod.fst) := by
  induction parts with
  | nil => intro acc; simp [concatAll, String.append_empty_right]
  | cons p ps ih =>
    intro acc
    rw [List.foldl_cons, ih, List.map_cons, concatAll, String.append_assoc3]

end Skipping

/-! ## The main loop of the scanner, one iteration at a time -/

section ScannerSteps

open Lexer

theorem tokenize_eq_tokenizeFrom (source : List Char) :
    tokenize source = tokenizeFrom ⟨source, 1, 1⟩ := rfl

theorem tokenizeFrom_nil (l k : Int) :
    tokenizeFrom ⟨[], l, k⟩ = [⟨.END_OF_FILE, "", l, k⟩] := rfl

theorem skipWhitespace_of_not_blank (lx : Lexer)
    (h : ¬ (lx.current = ' ' ∨ lx.current = TAB ∨ lx.current = CR)) :
    lx.skipWhitespace = lx := by
  unfold skipWhitespace
  cases lx.rest.length with
  | zero => rfl
  | succ n => rw [skipWhitespaceLoop, if_neg h]

theorem skipWhitespace_idem (lx : Lexer) : lx.skipWhitespace.skipWhitespace = lx.skipWhitespace :=
  skipWhitespace_of_not_blank _ (skipWhitespace_exit lx)

/-- The tokens pushed so far are carried through the main loop unchanged. -/
theorem tokenizeLoop_acc (n : Nat) :
    ∀ (lx : Lexer) (tokens : List Token),
      tokenizeLoop n lx tokens
        = (tokens ++ (tokenizeLoop n lx []).1, (tokenizeLoop n lx []).2) := by
  induction n with
  | zero => intro lx tokens; simp [tokenizeLoop]
  | succ n ih =>
    intro lx tokens
    rw [tokenizeLoop.eq_2 lx tokens n, tokenizeLoop.eq_2 lx [] n]
    by_cases h0 : lx.rest = []
    · simp only [if_pos h0, List.append_nil]
    simp only [if_neg h0]
    generalize lx.skipWhitespace = lx1
    have hstep : ∀ (lx2 : Lexer) (t : Token),
        tokenizeLoop n lx2 (tokens ++ [t])
          = (tokens ++ (tokenizeLoop n lx2 ([] ++ [t])).1, (tokenizeLoop n lx2 ([] ++ [t])).2) := by
      intro lx2 t
      rw [ih lx2 (tokens ++ [t]), ih lx2 ([] ++ [t])]
      simp
    by_cases h1 : lx1.current = NUL
    · simp only [if_pos h1, List.append_nil]
    simp only [if_neg h1]
    by_cases h2 : lx1.current = LF
    · simp only [if_pos h2]; exact hstep _ _
    simp only [if_neg h2]
    by_cases h3 : lx1.current = '/' ∧ lx1.peek = '/'
    · simp only [if_pos h3]; exact ih _ _
    simp only [if_neg h3]
    by_cases h4 : lx1.current = DQUOTE
    · simp only [if_pos h4]; exact hstep _ _
    simp only [if_neg h4]
    by_cases h5 : lx1.current.isDigit = true
    · simp only [if_pos h5]; exact hstep _ _
    simp only [if_neg h5]
    by_cases h6 : lx1.current.isAlpha = true ∨ lx1.current = '_'
    · simp only [if_pos h6]; exact hstep _ _
    simp only [if_neg h6]
    exact hstep _ _

/-- When one iteration of the main loop started in `lx` pushes the tokens
`pushed` and continues in `lx2`, with fewer characters left, the tokens from
`lx` on are `pushed` followed by the tokens from `lx2` on. -/
theorem tokenizeFrom_step (lx lx2 : Lexer) (pushed : List Token)
    (h : ∀ (n : Nat) (tokens : List Token),
      tokenizeLoop (n + 1) lx tokens = tokenizeLoop n lx2 (tokens ++ pushed))
    (hlt : lx2.rest.length < lx.rest.length) :
    tokenizeFrom lx = pushed ++ tokenizeFrom lx2 := by
  obtain ⟨k, hk⟩ : ∃ k, lx.rest.length = (lx2.rest.length + k) + 1 :=
    ⟨lx.rest.length - lx2.rest.length - 1, by omega⟩
  unfold tokenizeFrom
  simp only
  rw [hk, h, tokenizeLoop_fuel_add, tokenizeLoop_acc]
  simp

/-- The body of the main loop when the current character is no blank, so that
`skipWhitespace` reads nothing. -/
theorem tokenizeLoop_of_not_blank (n : Nat) (lx : Lexer) (tokens : List Token)
    (h0 : lx.rest ≠ [])
    (hb : ¬ (lx.current = ' ' ∨ lx.current = TAB ∨ lx.current = CR)) :
    tokenizeLoop (n + 1) lx tokens =
      if lx.current = NUL then (tokens, lx)
      else if lx.current = LF then
        tokenizeLoop n lx.advance (tokens ++ [⟨.NEWLINE, "\\n", lx.line, lx.column⟩])
      else if lx.current = '/' ∧ lx.peek = '/' then
        tokenizeLoop n lx.skipLineComment tokens
      else if lx.current = DQUOTE then
        tokenizeLoop n lx.scanString.2 (tokens ++ [lx.scanString.1])
      else if lx.current.isDigit then
        tokenizeLoop n lx.scanNumber.2 (tokens ++ [lx.scanNumber.1])
      else if lx.current.isAlpha ∨ lx.current = '_' then
        tokenizeLoop n lx.scanIdentifier.2 (tokens ++ [lx.scanIdentifier.1])
      else
        tokenizeLoop n lx.scanOperator.2 (tokens ++ [lx.scanOperator.1]) := by
  rw [tokenizeLoop]
  simp only [if_neg h0, skipWhitespace_of_not_blank lx hb]

/-- Blanks in front of the loop position change nothing: the main loop skips
them first. -/
theorem tokenizeFrom_skipWhitespace (lx : Lexer) :
    tokenizeFrom lx = tokenizeFrom lx.skipWhitespace := by
  obtain ⟨chunk, hws⟩ := skipWhitespace_reads lx
  have hle := hws.le
  by_cases h0 : lx.rest = []
  · have : lx.skipWhitespace = lx := by
      unfold skipWhitespace; rw [h0]; rfl
    rw [this]
  obtain ⟨m, hm⟩ : ∃ m, lx.rest.length = m + 1 :=
    ⟨lx.rest.length - 1, by have := List.length_pos.mpr h0; omega⟩
  unfold tokenizeFrom
  simp only
  rw [hm, tokenizeLoop.eq_2 lx [] m]
  simp only [if_neg h0]
  by_cases h1 : lx.skipWhitespace.rest = []
  · have hc : lx.skipWhitespace.current = NUL := by
      unfold Lexer.current; rw [h1]
    simp only [if_pos hc, h1, List.length_nil, tokenizeLoop]
  obtain ⟨k, hk⟩ : ∃ k, m + 1 = lx.skipWhitespace.rest.length + k :=
    ⟨m + 1 - lx.skipWhitespace.rest.length, by omega⟩
  obtain ⟨m1, hm1⟩ : ∃ m1, lx.skipWhitespace.rest.length + k = m1 + 1 := ⟨m, hk.symm⟩
  rw [← tokenizeLoop_fuel_add lx.skipWhitespace [] k, hm1,
    tokenizeLoop.eq_2 lx.skipWhitespace [] m1]
  simp only [if_neg h1, skipWhitespace_idem]
  have hmm : m1 = m := by omega
  rw [hmm]

/-- The characters that reach the operator switch whatever follows them. -/
theorem tokenizeFrom_operator (c : Char) (rest : List Char) (l k : Int)
    (hb : c ≠ ' ' ∧ c ≠ TAB ∧ c ≠ CR) (hnul : c ≠ NUL) (hlf : c ≠ LF) (hsl : c ≠ '/')
    (hq : c ≠ DQUOTE) (hd : c.isDigit = false) (ha : c.isAlpha = false) (hu : c ≠ '_') :
    tokenizeFrom ⟨c :: rest, l, k⟩
      = [(scanOperator ⟨c :: rest, l, k⟩).1] ++ tokenizeFrom (scanOperator ⟨c :: rest, l, k⟩).2 := by
  have hcur : (Lexer.mk (c :: rest) l k).current = c := rfl
  have hne : (Lexer.mk (c :: rest) l k).current ≠ NUL := by rw [hcur]; exact hnul
  refine tokenizeFrom_step _ _ _ (fun n tokens => ?_) ?_
  · rw [tokenizeLoop_of_not_blank n _ tokens (by simp) (by rw [hcur]; tauto)]
    simp only [hcur, hnul, hlf, hsl, hq, hd, ha, hu, if_false, false_and, false_or,
      Bool.false_eq_true]
  · obtain ⟨chunk, hc, hreads⟩ := scanOperator_reads _ hne
    exact hreads.lt hc

theorem double_cons_eq (c : Char) (rest : List Char) (l k : Int) (hc : c ≠ LF)
    (two : TokenType) (s2 : String) (one : TokenType) (s1 : String) :
    double ⟨c :: '=' :: rest, l, k⟩ two s2 one s1
      = (⟨two, s2, l, k⟩, ⟨rest, l, toInt32 (k + 2)⟩) := by
  unfold double
  have h : ('=' : Char) ≠ LF := by decide
  simp only [Lexer.advance_cons, advancePos, if_neg hc, Lexer.current_cons, if_true, if_neg h,
    toInt32_add]
  rw [show k + 1 + 1 = k + 2 by omega]

theorem double_cons_other (c : Char) (rest : List Char) (l k : Int) (hc : c ≠ LF)
    (hrest : rest.head? ≠ some '=')
    (two : TokenType) (s2 : String) (one : TokenType) (s1 : String) :
    double ⟨c :: rest, l, k⟩ two s2 one s1
      = (⟨one, s1, l, k⟩, ⟨rest, l, toInt32 (k + 1)⟩) := by
  unfold double
  simp only [Lexer.advance_cons, advancePos, if_neg hc]
  have h : (Lexer.mk rest l (toInt32 (k + 1))).current ≠ '=' := by
    cases rest with
    | nil => rw [Lexer.current_nil]; decide
    | cons d ds =>
      intro hd
      exact hrest (by rw [← (hd : d = '=')]; rfl)
  rw [if_neg h]

/-- The operator switch at one of the four characters that may form a
two-character operator with `=`. -/
theorem scanOperator_comparison (c : Char) (two one : TokenType) (s2 s1 : String)
    (h : (c, (two, s2), (one, s1)) ∈ specComparisonOperators) (rest : List Char) (l k : Int) :
    scanOperator ⟨c :: rest, l, k⟩ = double ⟨c :: rest, l, k⟩ two s2 one s1 := by
  simp only [specComparisonOperators, List.mem_cons, Prod.mk.injEq, List.mem_singleton,
    List.not_mem_nil, or_false] at h
  rcases h with ⟨rfl, ⟨rfl, rfl⟩, rfl, rfl⟩ | ⟨rfl, ⟨rfl, rfl⟩, rfl, rfl⟩
    | ⟨rfl, ⟨rfl, rfl⟩, rfl, rfl⟩ | ⟨rfl, ⟨rfl, rfl⟩, rfl, rfl⟩ <;>
  · unfold scanOperator
    simp [Lexer.current_cons]

theorem specComparisonOperators_char (c : Char) (two one : TokenType) (s2 s1 : String)
    (h : (c, (two, s2), (one, s1)) ∈ specComparisonOperators) :
    (c ≠ ' ' ∧ c ≠ TAB ∧ c ≠ CR) ∧ c ≠ NUL ∧ c ≠ LF ∧ c ≠ '/' ∧ c ≠ DQUOTE
      ∧ c.isDigit = false ∧ c.isAlpha = false ∧ c ≠ '_' := by
  simp only [specComparisonOperators, List.mem_cons, Prod.mk.injEq, List.mem_singleton,
    List.not_mem_nil, or_false] at h
  rcases h with ⟨rfl, _⟩ | ⟨rfl, _⟩ | ⟨rfl, _⟩ | ⟨rfl, _⟩ <;> decide

/-- The operator switch at a character that is none of its sixteen cases. -/
theorem scanOperator_unrecognized (c : Char) (rest : List Char) (l k : Int)
    (h : c ∉ ['+', '-', '*', '/', '=', '<', '>', '!', '(', ')', Char.ofNat 123, Char.ofNat 125,
        '[', ']', ';', ',']) (hlf : c ≠ LF) :
    scanOperator ⟨c :: rest, l, k⟩
      = (⟨.UNKNOWN, String.singleton c, l, k⟩, ⟨rest, l, toInt32 (k + 1)⟩) := by
  simp only [List.mem_cons, List.mem_singleton, List.not_mem_nil, or_false, not_or] at h
  obtain ⟨h1, h2, h3, h4, h5, h6, h7, h8, h9, h10, h11, h12, h13, h14, h15, h16⟩ := h
  unfold scanOperator
  simp only [Lexer.current_cons, if_neg h1, if_neg h2, if_neg h3, if_neg h4, if_neg h5,
    if_neg h6, if_neg h7, if_neg h8, if_neg h9, if_neg h10, if_neg h11, if_neg h12, if_neg h13,
    if_neg h14, if_neg h15, if_neg h16]
  unfold single
  rw [Lexer.advance_cons]
  simp only [advancePos, if_neg hlf]

/-- The main loop ends by its own exit test, not by its bound. -/
theorem tokenizeLoop_exit (n : Nat) :
    ∀ (lx : Lexer) (tokens : List Token), lx.rest.length ≤ n →
      (tokenizeLoop n lx tokens).2.current = NUL := by
  induction n with
  | zero =>
    intro lx tokens h
    rw [tokenizeLoop]
    exact Lexer.current_of_length_zero lx h
  | succ n ih =>
    intro lx tokens h
    rw [tokenizeLoop]
    by_cases h0 : lx.rest = []
    · simp only [if_pos h0]
      unfold Lexer.current
      rw [h0]
    simp only [if_neg h0]
    obtain ⟨chunk, hws⟩ := skipWhitespace_reads lx
    have hle := hws.le
    generalize lx.skipWhitespace = lx1 at hle
    have hb : ∀ lx2 : Lexer, lx2.rest.length < lx1.rest.length → lx2.rest.length ≤ n :=
      fun lx2 h2 => by omega
    by_cases h1 : lx1.current = NUL
    · simp only [if_pos h1]
      exact h1
    simp only [if_neg h1]
    by_cases h2 : lx1.current = LF
    · simp only [if_pos h2]
      exact ih _ _ (hb _ ((Lexer.Reads.reads_advance lx1 h1).lt (by simp)))
    simp only [if_neg h2]
    by_cases h3 : lx1.current = '/' ∧ lx1.peek = '/'
    · simp only [if_pos h3]
      obtain ⟨c, hne, hc⟩ := skipLineComment_reads lx1 h3.1
      exact ih _ _ (hb _ (hc.lt hne))
    simp only [if_neg h3]
    by_cases h4 : lx1.current = DQUOTE
    · simp only [if_pos h4]
      obtain ⟨c, hne, hc⟩ := scanString_reads lx1 h4
      exact ih _ _ (hb _ (hc.lt hne))
    simp only [if_neg h4]
    by_cases h5 : lx1.current.isDigit = true
    · simp only [if_pos h5]
      exact ih _ _ (hb _ (scanNumber_progress lx1 h5))
    simp only [if_neg h5]
    by_cases h6 : lx1.current.isAlpha = true ∨ lx1.current = '_'
    · simp only [if_pos h6]
      exact ih _ _ (hb _ (scanIdentifier_progress lx1 h6))
    simp only [if_neg h6]
    obtain ⟨c, hne, hc⟩ := scanOperator_reads lx1 h1
    exact ih _ _ (hb _ (hc.lt hne))

/-! ### Line comments -/

theorem skipLineCommentLoop_run (tail : List Char)
    (htail : tail.head? = none ∨ tail.head? = some LF) :
    ∀ (t : List Char), (∀ c ∈ t, c ≠ LF ∧ c ≠ NUL) → ∀ (n : Nat) (l k : Int), t.length ≤ n →
      skipLineCommentLoop n ⟨t ++ tail, l, k⟩ = ⟨tail, l, (positionFrom (l, k) t).2⟩ := by
  intro t
  induction t with
  | nil =>
    intro _ n l k _
    cases n with
    | zero => rfl
    | succ n =>
      rw [skipLineCommentLoop]
      have hc : ¬ ((Lexer.mk ([] ++ tail) l k).current ≠ LF
          ∧ (Lexer.mk ([] ++ tail) l k).current ≠ NUL) := by
        cases tail with
        | nil => simp [Lexer.current]
        | cons d ds =>
          rcases htail with h | h
          · simp at h
          · have hd : d = LF := by simpa using h
            simp [Lexer.current, hd]
      rw [if_neg hc]
      rfl
  | cons c cs ih =>
    intro ht n l k hn
    obtain ⟨m, rfl⟩ : ∃ m, n = m + 1 := ⟨n - 1, by simp at hn; omega⟩
    have hc := ht c (List.mem_cons_self _ _)
    rw [skipLineCommentLoop]
    have hcur : (Lexer.mk (c :: cs ++ tail) l k).current = c := rfl
    rw [if_pos (by rw [hcur]; exact hc)]
    have hadv : (Lexer.mk (c :: cs ++ tail) l k).advance
        = ⟨cs ++ tail, l, toInt32 (k + 1)⟩ := by
      rw [List.cons_append, Lexer.advance_cons]
      simp only [advancePos, if_neg hc.1]
    rw [hadv, ih (fun d hd => ht d (List.mem_cons_of_mem _ hd)) m l (toInt32 (k + 1))
      (by simpa using hn), positionFrom_cons, advancePos_of_ne_lf _ _ hc.1]

/-- A line comment is read up to, and not including, the newline that ends it
or the end of the input. -/
theorem skipLineComment_run (t tail : List Char) (l k : Int)
    (ht : ∀ c ∈ t, c ≠ LF ∧ c ≠ NUL) (htail : tail.head? = none ∨ tail.head? = some LF) :
    skipLineComment ⟨t ++ tail, l, k⟩ = ⟨tail, l, (positionFrom (l, k) t).2⟩ := by
  unfold skipLineComment
  exact skipLineCommentLoop_run tail htail t ht _ l k (by simp)

/-- The main loop at a line comment: nothing is pushed, and the loop goes on at
the end of the comment. -/
theorem tokenizeFrom_comment (t tail : List Char) (l k : Int)
    (ht : ∀ c ∈ t, c ≠ LF ∧ c ≠ NUL) (htail : tail.head? = none ∨ tail.head? = some LF) :
    tokenizeFrom ⟨'/' :: '/' :: t ++ tail, l, k⟩
      = tokenizeFrom ⟨tail, l, toInt32 (k + 2 + t.length)⟩ := by
  have ht2 : ∀ c ∈ '/' :: '/' :: t, c ≠ LF ∧ c ≠ NUL := by
    intro c hc
    rcases List.mem_cons.mp hc with rfl | hc
    · decide
    rcases List.mem_cons.mp hc with rfl | hc
    · decide
    exact ht c hc
  have hrun := skipLineComment_run ('/' :: '/' :: t) tail l k ht2 htail
  have hpos : (positionFrom (l, k) ('/' :: '/' :: t)).2 = toInt32 (k + 2 + t.length) := by
    rw [positionFrom_of_no_lf (l, k) _ (fun c hc => (ht2 c hc).1) (by simp)]
    simp only [List.length_cons, Nat.cast_add, Nat.cast_one]
    congr 1
    omega
  rw [hpos] at hrun
  have hstep := tokenizeFrom_step ⟨'/' :: '/' :: t ++ tail, l, k⟩
    ⟨tail, l, toInt32 (k + 2 + t.length)⟩ [] (fun n tokens => ?_)
    (by simp only [List.cons_append, List.length_cons, List.length_append]; omega)
  · rw [hstep, List.nil_append]
  · have hcur : (Lexer.mk ('/' :: '/' :: t ++ tail) l k).current = '/' := rfl
    have hpeek : (Lexer.mk ('/' :: '/' :: t ++ tail) l k).peek = '/' := rfl
    rw [tokenizeLoop_of_not_blank n _ tokens (by simp) (by rw [hcur]; decide)]
    have h1 : ('/' : Char) ≠ NUL := by decide
    have h2 : ('/' : Char) ≠ LF := by decide
    simp only [hcur, hpeek, if_neg h1, if_neg h2, and_self, if_true, List.append_nil]
    rw [← hrun]

/-- The main loop at a newline character. -/
theorem tokenizeFrom_newline (rest : List Char) (l k : Int) :
    tokenizeFrom ⟨LF :: rest, l, k⟩
      = ⟨.NEWLINE, "\\n", l, k⟩ :: tokenizeFrom ⟨rest, toInt32 (l + 1), 1⟩ := by
  refine tokenizeFrom_step ⟨LF :: rest, l, k⟩ ⟨rest, toInt32 (l + 1), 1⟩
    [⟨.NEWLINE, "\\n", l, k⟩]
    (fun n tokens => ?_) (by simp)
  have hcur : (Lexer.mk (LF :: rest) l k).current = LF := rfl
  rw [tokenizeLoop_of_not_blank n _ tokens (by simp) (by rw [hcur]; decide)]
  have h1 : LF ≠ NUL := by decide
  simp only [hcur, if_neg h1, if_true]
  rfl

/-! ### Text literals without an escaped quote -/

theorem String.append_escape_mk (value : String) (cs : List Char) :
    value ++ "\\n" ++ String.mk cs = value ++ String.mk (BACKSLASH :: 'n' :: cs) := by
  apply String.ext
  simp only [String.data_append, List.append_assoc]
  rfl

/-- The loop of `scanString` over a body that holds no quote and no NUL, and in
which every backslash is followed by `n`: the body is copied to the value
character for character, and the loop stops in front of the closing quote. -/
theorem scanStringLoop_body (tail : List Char) (n : Nat) :
    ∀ (b : List Char), b.length ≤ n → (∀ c ∈ b, c ≠ DQUOTE ∧ c ≠ NUL) →
      (∀ i, b[i]? = some BACKSLASH → b[i + 1]? = some 'n') →
      ∀ (fuel : Nat) (l k : Int) (value : String), b.length ≤ fuel →
        scanStringLoop fuel ⟨b ++ DQUOTE :: tail, l, k⟩ value
          = (⟨DQUOTE :: tail, (positionFrom (l, k) b).1, (positionFrom (l, k) b).2⟩,
              value ++ String.mk b) := by
  induction n with
  | zero =>
    intro b hb _ _ fuel l k value _
    have h0 : b = [] := List.length_eq_zero.mp (Nat.le_zero.mp hb)
    subst h0
    cases fuel with
    | zero => rw [scanStringLoop, String.append_mk_nil]; rfl
    | succ fuel =>
      rw [scanStringLoop]
      have hc : ¬ ((Lexer.mk ([] ++ DQUOTE :: tail) l k).current ≠ DQUOTE
          ∧ (Lexer.mk ([] ++ DQUOTE :: tail) l k).current ≠ NUL) := fun h => h.1 rfl
      rw [if_neg hc, String.append_mk_nil]
      rfl
  | succ n ih =>
    intro b hb hchars hesc fuel l k value hfuel
    cases b with
    | nil =>
      cases fuel with
      | zero => rw [scanStringLoop, String.append_mk_nil]; rfl
      | succ fuel =>
        rw [scanStringLoop]
        have hc : ¬ ((Lexer.mk ([] ++ DQUOTE :: tail) l k).current ≠ DQUOTE
            ∧ (Lexer.mk ([] ++ DQUOTE :: tail) l k).current ≠ NUL) := fun h => h.1 rfl
        rw [if_neg hc, String.append_mk_nil]
        rfl
    | cons c cs =>
      obtain ⟨m, rfl⟩ : ∃ m, fuel = m + 1 := ⟨fuel - 1, by simp at hfuel; omega⟩
      have hc := hchars c (List.mem_cons_self _ _)
      have hcs : ∀ d ∈ cs, d ≠ DQUOTE ∧ d ≠ NUL :=
        fun d hd => hchars d (List.mem_cons_of_mem _ hd)
      have hcur : (Lexer.mk (c :: cs ++ DQUOTE :: tail) l k).current = c := rfl
      have hadv : (Lexer.mk (c :: cs ++ DQUOTE :: tail) l k).advance
          = ⟨cs ++ DQUOTE :: tail, (advancePos (l, k) c).1, (advancePos (l, k) c).2⟩ :=
        Lexer.advance_cons _ _ _ _
      rw [scanStringLoop, if_pos (by rw [hcur]; exact hc)]
      by_cases hbs : c = BACKSLASH
      · subst hbs
        have h1 := hesc 0 (by simp)
        cases cs with
        | nil => simp at h1
        | cons d ds =>
          have hd : d = 'n' := by simpa using h1
          subst hd
          have hpeek : (Lexer.mk (BACKSLASH :: 'n' :: ds ++ DQUOTE :: tail) l k).peek = 'n' := rfl
          have hnq : ¬ ((Lexer.mk (BACKSLASH :: 'n' :: ds ++ DQUOTE :: tail) l k).current
                = BACKSLASH
              ∧ (Lexer.mk (BACKSLASH :: 'n' :: ds ++ DQUOTE :: tail) l k).peek = DQUOTE) := by
            rw [hpeek]
            exact fun h => absurd h.2 (by decide)
          rw [if_neg hnq, if_pos ⟨hcur, hpeek⟩, hadv]
          have hadv2 : (Lexer.mk ('n' :: ds ++ DQUOTE :: tail) (advancePos (l, k) BACKSLASH).1
                (advancePos (l, k) BACKSLASH).2).advance
              = ⟨ds ++ DQUOTE :: tail,
                  (advancePos (advancePos (l, k) BACKSLASH) 'n').1,
                  (advancePos (advancePos (l, k) BACKSLASH) 'n').2⟩ :=
            Lexer.advance_cons _ _ _ _
          rw [hadv2, ih ds (by simp at hb; omega)
            (fun e he => hcs e (List.mem_cons_of_mem _ he))
            (fun i hi => by simpa using hesc (i + 2) (by simpa using hi))
            m _ _ _ (by simp at hfuel; omega), String.append_escape_mk]
          rfl
      · have hn1 : ¬ ((Lexer.mk (c :: cs ++ DQUOTE :: tail) l k).current = BACKSLASH
              ∧ (Lexer.mk (c :: cs ++ DQUOTE :: tail) l k).peek = DQUOTE) := by
          rw [hcur]; exact fun h => hbs h.1
        have hn2 : ¬ ((Lexer.mk (c :: cs ++ DQUOTE :: tail) l k).current = BACKSLASH
              ∧ (Lexer.mk (c :: cs ++ DQUOTE :: tail) l k).peek = 'n') := by
          rw [hcur]; exact fun h => hbs h.1
        rw [if_neg hn1, if_neg hn2, hadv, hcur, ih cs (by simp at hb; omega) hcs
          (fun i hi => by simpa using hesc (i + 1) (by simpa using hi))
          m _ _ _ (by simp at hfuel; omega), String.push_append_mk]
        rfl

/-- The scan of a text literal whose body holds no quote and no NUL, and in
which every backslash is followed by `n`. -/
theorem scanString_body (b tail : List Char) (l k : Int)
    (hchars : ∀ c ∈ b, c ≠ DQUOTE ∧ c ≠ NUL)
    (hesc : ∀ i, b[i]? = some BACKSLASH → b[i + 1]? = some 'n') :
    scanString ⟨DQUOTE :: b ++ DQUOTE :: tail, l, k⟩
      = (⟨.STRING, String.mk b, l, k⟩,
          ⟨tail, (positionFrom (l, toInt32 (k + 1)) b).1,
            toInt32 ((positionFrom (l, toInt32 (k + 1)) b).2 + 1)⟩) := by
  have hq : DQUOTE ≠ LF := by decide
  have hadv : (Lexer.mk (DQUOTE :: b ++ DQUOTE :: tail) l k).advance
      = ⟨b ++ DQUOTE :: tail, l, toInt32 (k + 1)⟩ := by
    rw [List.cons_append, Lexer.advance_cons]
    simp only [advancePos, if_neg hq]
  unfold scanString
  simp only [hadv]
  rw [scanStringLoop_body tail b.length b (Nat.le_refl _) hchars hesc _ l (toInt32 (k + 1)) ""
    (by simp)]
  simp only [Lexer.current_cons, if_true, String.empty_append_mk]
  rw [Lexer.advance_cons]
  simp only [advancePos, if_neg hq]

/-! ### Lines and columns -/

theorem positionFrom_snoc (p : Int × Int) (pre : List Char) (c : Char) :
    positionFrom p (pre ++ [c]) = advancePos (positionFrom p pre) c := by
  simp [positionFrom, List.foldl_append]

theorem specLine_le (pre : List Char) : specLine pre ≤ 1 + pre.length := by
  unfold specLine
  have h := List.count_le_length LF pre
  omega

theorem specColumn_le (pre : List Char) : specColumn pre ≤ 1 + pre.length := by
  unfold specColumn
  have h := (List.takeWhile_sublist (fun c => decide (c ≠ LF)) (l := pre.reverse)).length_le
  rw [List.length_reverse] at h
  omega

theorem specLine_snoc (pre : List Char) (c : Char) :
    specLine (pre ++ [c]) = if c = LF then specLine pre + 1 else specLine pre := by
  unfold specLine
  rw [List.count_append]
  by_cases hc : c = LF
  · subst hc
    rw [if_pos rfl, List.count_singleton_self]
    omega
  · have hne : (c == LF) = false := by
      simp only [beq_eq_false_iff_ne, ne_eq]
      exact hc
    rw [if_neg hc, List.count_cons, List.count_nil, hne]
    simp

theorem specColumn_snoc (pre : List Char) (c : Char) :
    specColumn (pre ++ [c]) = if c = LF then 1 else specColumn pre + 1 := by
  unfold specColumn
  rw [List.reverse_append, List.reverse_singleton, List.singleton_append]
  by_cases hc : c = LF
  · subst hc
    rw [if_pos rfl, List.takeWhile_cons_of_neg (by simp)]
    rfl
  · rw [if_neg hc, List.takeWhile_cons_of_pos (by simpa using hc), List.length_cons]
    omega

/-- The line and column `advance()` keeps are those of the specification, as
long as the counters stay in the range of `int`: for a prefix of fewer than
2^31 - 1 characters. -/
theorem positionAfter_eq (pre : List Char) (h : pre.length + 1 < 2147483648) :
    positionAfter pre = ((specLine pre : Int), (specColumn pre : Int)) := by
  induction pre using List.reverseRecOn with
  | nil => rfl
  | append_singleton pre c ih =>
    have hlen : pre.length + 2 < 2147483648 := by
      simpa [List.length_append] using h
    have h1 := specLine_le pre
    have h2 := specColumn_le pre
    have e1 : toInt32 ((specLine pre : Int) + 1) = (specLine pre : Int) + 1 :=
      toInt32_of_range (by omega) (by omega)
    have e2 : toInt32 ((specColumn pre : Int) + 1) = (specColumn pre : Int) + 1 :=
      toInt32_of_range (by omega) (by omega)
    unfold positionAfter at *
    rw [positionFrom_snoc, ih (by omega), specLine_snoc, specColumn_snoc]
    unfold advancePos
    by_cases hc : c = LF
    · simp only [if_pos hc, e1, Nat.cast_add, Nat.cast_one]
    · simp only [if_neg hc, e2, Nat.cast_add, Nat.cast_one]

theorem positionLt.lt_trans {p q r : Int × Int} (h1 : positionLt p q) (h2 : positionLt q r) :
    positionLt p r := by
  unfold positionLt at *
  omega

/-- One character read from a position whose counters are positive and below
the largest `int`: the counters stay positive, grow by at most one, and the
position moves forward. -/
theorem advancePos_inRange (p : Int × Int) (c : Char) (h1 : 1 ≤ p.1) (h2 : 1 ≤ p.2)
    (h3 : p.1 + 1 < 2147483648) (h4 : p.2 + 1 < 2147483648) :
    1 ≤ (advancePos p c).1 ∧ 1 ≤ (advancePos p c).2 ∧ (advancePos p c).1 ≤ p.1 + 1
      ∧ (advancePos p c).2 ≤ p.2 + 1 ∧ positionLt p (advancePos p c) := by
  have e1 : toInt32 (p.1 + 1) = p.1 + 1 := toInt32_of_range (by omega) (by omega)
  have e2 : toInt32 (p.2 + 1) = p.2 + 1 := toInt32_of_range (by omega) (by omega)
  unfold positionLt advancePos
  by_cases hc : c = LF
  · simp only [if_pos hc, e1]
    omega
  · simp only [if_neg hc, e2]
    exact ⟨h1, by omega, by omega, le_refl _, Or.inr ⟨trivial, by omega⟩⟩

/-- A chunk read from a position from which the counters cannot leave the range
of `int`: the counters stay positive, grow by at most the length of the chunk,
and the position moves forward when the chunk is not empty. -/
theorem positionFrom_inRange (chunk : List Char) :
    ∀ p : Int × Int, 1 ≤ p.1 → 1 ≤ p.2 → p.1 + chunk.length < 2147483648 →
      p.2 + chunk.length < 2147483648 →
      1 ≤ (positionFrom p chunk).1 ∧ 1 ≤ (positionFrom p chunk).2
        ∧ (positionFrom p chunk).1 ≤ p.1 + chunk.length
        ∧ (positionFrom p chunk).2 ≤ p.2 + chunk.length
        ∧ (chunk ≠ [] → positionLt p (positionFrom p chunk)) := by
  induction chunk with
  | nil =>
    intro p h1 h2 _ _
    refine ⟨h1, h2, ?_, ?_, fun h => absurd rfl h⟩
    · simp [positionFrom]
    · simp [positionFrom]
  | cons c cs ih =>
    intro p h1 h2 h3 h4
    rw [List.length_cons, Nat.cast_add, Nat.cast_one] at h3 h4
    have hcs : (0 : Int) ≤ cs.length := Int.natCast_nonneg _
    obtain ⟨a1, a2, a3, a4, a5⟩ := advancePos_inRange p c h1 h2 (by omega) (by omega)
    obtain ⟨b1, b2, b3, b4, b5⟩ := ih (advancePos p c) a1 a2 (by omega) (by omega)
    rw [positionFrom_cons, List.length_cons, Nat.cast_add, Nat.cast_one]
    refine ⟨b1, b2, by omega, by omega, fun _ => ?_⟩
    cases cs with
    | nil => exact a5
    | cons d ds => exact a5.lt_trans (b5 (by simp))

/-- A scanner state reached by reading a chunk from a state in range is in
range, stands behind the first state when the chunk is not empty, and stands
behind every position the first state stands behind. -/
theorem Lexer.Reads.reads_inRange {a b : Lexer} {x : List Char} (h : a.Reads b x)
    (ha : a.InRange) :
    b.InRange ∧ (x ≠ [] → positionLt (a.line, a.column) (b.line, b.column))
      ∧ ∀ p : Int × Int, positionLt p (a.line, a.column) →
          positionLt p (b.line, b.column) := by
  obtain ⟨h1, h2, h3, h4⟩ := ha
  have hlen : (a.rest.length : Int) = x.length + b.rest.length := by
    rw [h.1, List.length_append, Nat.cast_add]
  have hb : (0 : Int) ≤ b.rest.length := Int.natCast_nonneg _
  obtain ⟨q1, q2, q3, q4, q5⟩ := positionFrom_inRange x (a.line, a.column) h1 h2
    (by simp only; omega) (by simp only; omega)
  rw [← h.2] at q1 q2 q3 q4 q5
  simp only at q1 q2 q3 q4
  refine ⟨⟨q1, q2, by omega, by omega⟩, q5, fun p hp => ?_⟩
  cases x with
  | nil =>
    have hsame : (b.line, b.column) = (a.line, a.column) := h.2
    rw [hsame]
    exact hp
  | cons c cs => exact hp.lt_trans (q5 (by simp))

/-- A scanner state at a position of a source of fewer than 2^31 - 1 characters
is in range. -/
theorem Lexer.At.at_inRange {source : List Char} {lx : Lexer} (h : Lexer.At source lx)
    (hlen : source.length + 1 < 2147483648) : lx.InRange := by
  obtain ⟨consumed, hs, hp⟩ := h
  have hl : (source.length : Int) = consumed.length + lx.rest.length := by
    rw [hs, List.length_append, Nat.cast_add]
  have hc : (0 : Int) ≤ consumed.length := Int.natCast_nonneg _
  have hr : (0 : Int) ≤ lx.rest.length := Int.natCast_nonneg _
  obtain ⟨q1, q2, q3, q4, _⟩ := positionFrom_inRange consumed (1, 1) (le_refl _) (le_refl _)
    (by simp only; omega) (by simp only; omega)
  unfold positionAfter at hp
  rw [hp] at q1 q2 q3 q4
  simp only at q1 q2 q3 q4
  exact ⟨q1, q2, by omega, by omega⟩

/-! ### The token pushed by one iteration -/

theorem ite_cases_of {α : Type} (P : α → Prop) {c : Prop} [Decidable c] {a b : α}
    (ha : c → P a) (hb : ¬ c → P b) : P (if c then a else b) := by
  split
  · exact ha ‹_›
  · exact hb ‹_›

theorem single_pushedAt (lx : Lexer) (t : TokenType) (s : String) (h : lx.current ≠ NUL)
    (hs : s.data = [lx.current]) (h1 : t ≠ .STRING) (h2 : t ≠ .NEWLINE) :
    PushedBy lx (single lx t s) := by
  refine ⟨rfl, rfl, ?_⟩
  unfold tokenStartsAt single
  simp only [if_neg h1, if_neg h2, hs]
  exact ⟨by simp, lx.rest.tail, Lexer.rest_of_current_ne_nul lx h⟩

theorem double_pushedAt (lx : Lexer) (two : TokenType) (s2 : String) (one : TokenType)
    (s1 : String) (h : lx.current ≠ NUL)
    (hs2 : s2.data = [lx.current, '=']) (hs1 : s1.data = [lx.current])
    (h1 : two ≠ .STRING) (h2 : two ≠ .NEWLINE) (h3 : one ≠ .STRING) (h4 : one ≠ .NEWLINE) :
    PushedBy lx (double lx two s2 one s1) := by
  unfold PushedBy double
  simp only
  split
  · rename_i he
    refine ⟨rfl, rfl, ?_⟩
    unfold tokenStartsAt
    simp only [if_neg h1, if_neg h2, hs2]
    refine ⟨by simp, lx.advance.rest.tail, ?_⟩
    have hne : lx.advance.current ≠ NUL := by rw [he]; decide
    have e1 := Lexer.rest_of_current_ne_nul lx h
    have e2 := Lexer.rest_of_current_ne_nul lx.advance hne
    have e3 : lx.advance.rest = lx.rest.tail := by
      unfold Lexer.advance
      split <;> rfl
    rw [e1, List.cons_append, List.cons_append, List.nil_append, ← he, ← e2, e3]
  · refine ⟨rfl, rfl, ?_⟩
    unfold tokenStartsAt
    simp only [if_neg h3, if_neg h4, hs1]
    exact ⟨by simp, lx.rest.tail, Lexer.rest_of_current_ne_nul lx h⟩

/-- The token of the operator switch carries the position of the current
character and has that character, or that character and `=`, as its lexeme. -/
theorem scanOperator_pushedAt (lx : Lexer) (h : lx.current ≠ NUL) :
    PushedAt lx lx.scanOperator.1 := by
  have key : PushedBy lx lx.scanOperator := by
    unfold Lexer.scanOperator
    repeat' first
      | with_reducible refine ite_cases_of (PushedBy lx) (fun _ => ?_) (fun _ => ?_)
      | with_reducible refine single_pushedAt lx _ _ h ?_ ?_ ?_
      | with_reducible refine double_pushedAt lx _ _ _ _ h ?_ ?_ ?_ ?_ ?_ ?_
    all_goals first
      | decide
      | rfl
      | rw [‹lx.current = _›]
  exact key

theorem scanNumber_pushedAt (lx : Lexer) (hd : lx.current.isDigit = true) :
    PushedAt lx lx.scanNumber.1 := by
  have hreads := scanNumber_reads lx
  have hlt := scanNumber_progress lx hd
  refine ⟨rfl, rfl, ?_⟩
  have hty : lx.scanNumber.1.type = .INTEGER := rfl
  unfold tokenStartsAt
  rw [hty]
  simp only [reduceCtorEq, if_false]
  refine ⟨fun he => ?_, _, hreads.1⟩
  have := hreads.length
  rw [he] at this
  simp at this
  omega

theorem scanIdentifier_type (lx : Lexer) :
    lx.scanIdentifier.1.type ≠ .STRING ∧ lx.scanIdentifier.1.type ≠ .NEWLINE := by
  obtain ⟨rest, l, k⟩ := lx
  rw [scanIdentifier_eq]
  cases hk : keywords (String.mk (rest.takeWhile isIdentifierChar)) with
  | none => exact ⟨fun h => by simp at h, fun h => by simp at h⟩
  | some t =>
    have hkind := keywords_kind hk
    constructor
    · intro h
      have h1 : t = .STRING := h
      rw [h1] at hkind
      exact absurd hkind (by decide)
    · intro h
      have h1 : t = .NEWLINE := h
      rw [h1] at hkind
      exact absurd hkind (by decide)

theorem scanIdentifier_pushedAt (lx : Lexer)
    (hd : lx.current.isAlpha = true ∨ lx.current = '_') :
    PushedAt lx lx.scanIdentifier.1 := by
  have hreads := scanIdentifier_reads lx
  have hlt := scanIdentifier_progress lx hd
  have hty := scanIdentifier_type lx
  have hline : lx.scanIdentifier.1.line = lx.line ∧ lx.scanIdentifier.1.column = lx.column := by
    obtain ⟨rest, l, k⟩ := lx
    rw [scanIdentifier_eq]
    exact ⟨rfl, rfl⟩
  refine ⟨hline.1, hline.2, ?_⟩
  unfold tokenStartsAt
  simp only [if_neg hty.1, if_neg hty.2]
  refine ⟨fun he => ?_, _, hreads.1⟩
  have := hreads.length
  rw [he] at this
  simp at this
  omega

/-- One iteration of the main loop that does not end it: the loop skips the
blanks, then reads at least one character, pushes nothing or one token that
stands where the reading began, and goes on in the state reached. -/
theorem tokenizeLoop_iteration (lx : Lexer) (h0 : lx.rest ≠ [])
    (h1 : lx.skipWhitespace.current ≠ NUL) :
    ∃ (pushed : List Token) (lx2 : Lexer) (chunk : List Char),
      chunk ≠ [] ∧ lx.skipWhitespace.Reads lx2 chunk
      ∧ (pushed = [] ∨ ∃ t, pushed = [t] ∧ PushedAt lx.skipWhitespace t)
      ∧ ∀ (n : Nat) (tokens : List Token),
          tokenizeLoop (n + 1) lx tokens = tokenizeLoop n lx2 (tokens ++ pushed) := by
  have hbody : ∀ (n : Nat) (tokens : List Token), tokenizeLoop (n + 1) lx tokens
      = tokenizeLoop (n + 1) lx.skipWhitespace tokens := by
    intro n tokens
    have hne : lx.skipWhitespace.rest ≠ [] := by
      intro he
      apply h1
      unfold Lexer.current
      rw [he]
    rw [tokenizeLoop.eq_2 lx tokens n, tokenizeLoop.eq_2 lx.skipWhitespace tokens n]
    simp only [if_neg h0, if_neg hne, skipWhitespace_idem]
  have hnb := skipWhitespace_exit lx
  generalize lx.skipWhitespace = lx1 at h1 hbody hnb
  have hne : lx1.rest ≠ [] := by
    intro he
    apply h1
    unfold Lexer.current
    rw [he]
  have hunfold := fun (n : Nat) (tokens : List Token) =>
    (hbody n tokens).trans (tokenizeLoop_of_not_blank n lx1 tokens hne hnb)
  by_cases h2 : lx1.current = LF
  · refine ⟨[⟨.NEWLINE, "\\n", lx1.line, lx1.column⟩], lx1.advance, [lx1.current], by simp,
      Lexer.Reads.reads_advance lx1 h1, Or.inr ⟨_, rfl, rfl, rfl, ?_⟩, fun n tokens => ?_⟩
    · unfold tokenStartsAt
      simp only [reduceCtorEq, if_false, if_true]
      rw [Lexer.rest_of_current_ne_nul lx1 h1, h2]
      rfl
    · rw [hunfold]
      simp only [if_neg h1, if_pos h2]
  by_cases h3 : lx1.current = '/' ∧ lx1.peek = '/'
  · obtain ⟨c, hc, hreads⟩ := skipLineComment_reads lx1 h3.1
    refine ⟨[], lx1.skipLineComment, c, hc, hreads, Or.inl rfl, fun n tokens => ?_⟩
    rw [hunfold]
    simp only [if_neg h1, if_neg h2, if_pos h3, List.append_nil]
  by_cases h4 : lx1.current = DQUOTE
  · obtain ⟨c, hc, hreads⟩ := scanString_reads lx1 h4
    refine ⟨[lx1.scanString.1], lx1.scanString.2, c, hc, hreads,
      Or.inr ⟨_, rfl, rfl, rfl, ?_⟩, fun n tokens => ?_⟩
    · unfold tokenStartsAt
      rw [scanString_type, if_pos rfl, Lexer.rest_of_current_ne_nul lx1 h1, h4]
      rfl
    · rw [hunfold]
      simp only [if_neg h1, if_neg h2, if_neg h3, if_pos h4]
  by_cases h5 : lx1.current.isDigit = true
  · have hreads := scanNumber_reads lx1
    have hlt := scanNumber_progress lx1 h5
    refine ⟨[lx1.scanNumber.1], lx1.scanNumber.2, _, ?_, hreads,
      Or.inr ⟨_, rfl, scanNumber_pushedAt lx1 h5⟩, fun n tokens => ?_⟩
    · intro he
      have := hreads.length
      rw [he] at this
      simp at this
      omega
    · rw [hunfold]
      simp only [if_neg h1, if_neg h2, if_neg h3, if_neg h4, if_pos h5]
  by_cases h6 : lx1.current.isAlpha = true ∨ lx1.current = '_'
  · have hreads := scanIdentifier_reads lx1
    have hlt := scanIdentifier_progress lx1 h6
    refine ⟨[lx1.scanIdentifier.1], lx1.scanIdentifier.2, _, ?_, hreads,
      Or.inr ⟨_, rfl, scanIdentifier_pushedAt lx1 h6⟩, fun n tokens => ?_⟩
    · intro he
      have := hreads.length
      rw [he] at this
      simp at this
      omega
    · rw [hunfold]
      simp only [if_neg h1, if_neg h2, if_neg h3, if_neg h4, if_neg h5, if_pos h6]
  · obtain ⟨c, hc, hreads⟩ := scanOperator_reads lx1 h1
    refine ⟨[lx1.scanOperator.1], lx1.scanOperator.2, c, hc, hreads,
      Or.inr ⟨_, rfl, scanOperator_pushedAt lx1 h1⟩, fun n tokens => ?_⟩
    rw [hunfold]
    simp only [if_neg h1, if_neg h2, if_neg h3, if_neg h4, if_neg h5, if_neg h6]

/-! ### Every token stands where the specification says -/

/-- The invariant of the main loop for the places of the tokens: every token
pushed is located in the source. -/
theorem tokenizeLoop_located (source : List Char) (n : Nat) :
    ∀ (lx : Lexer) (tokens : List Token), Lexer.At source lx →
      (∀ t ∈ tokens, Located source t) →
      ∀ t ∈ (tokenizeLoop n lx tokens).1, Located source t := by
  induction n with
  | zero =>
    intro lx tokens _ hloc
    rw [tokenizeLoop]
    exact hloc
  | succ n ih =>
    intro lx tokens hat hloc
    obtain ⟨ws, hws⟩ := skipWhitespace_reads lx
    have hat1 := hat.reads hws
    by_cases hstop : lx.rest = [] ∨ lx.skipWhitespace.current = NUL
    · have hres : tokenizeLoop (n + 1) lx tokens = (tokens, lx.skipWhitespace) := by
        rw [tokenizeLoop]
        by_cases h0 : lx.rest = []
        · have hsame : lx.skipWhitespace = lx := by
            unfold skipWhitespace; rw [h0]; rfl
          rw [if_pos h0, hsame]
        · have h1 : lx.skipWhitespace.current = NUL := hstop.resolve_left h0
          simp only [if_neg h0, if_pos h1]
      rw [hres]
      exact hloc
    · have h0 : lx.rest ≠ [] := fun h => hstop (Or.inl h)
      have h1 : lx.skipWhitespace.current ≠ NUL := fun h => hstop (Or.inr h)
      obtain ⟨pushed, lx2, chunk, hchunk, hreads, hpushed, hloop⟩ :=
        tokenizeLoop_iteration lx h0 h1
      rw [hloop]
      have hat2 := hat1.reads hreads
      rcases hpushed with rfl | ⟨t, rfl, hl, hk, hstart⟩
      · rw [List.append_nil]
        exact ih lx2 tokens hat2 hloc
      · refine ih lx2 (tokens ++ [t]) hat2 ?_
        intro u hu
        rcases List.mem_append.mp hu with hu | hu
        · exact hloc u hu
        · rw [List.mem_singleton.mp hu]
          obtain ⟨consumed, hs, hp⟩ := hat1
          exact ⟨consumed, _, hs, hstart, by rw [hp, hl, hk]⟩

/-- The invariant of the main loop for the order of the tokens, for a source of
fewer than 2^31 - 1 characters: the tokens stand in increasing order of
position, and the last of them stands before the position of the scanner. -/
theorem tokenizeLoop_ordered (source : List Char) (hlen : source.length + 1 < 2147483648)
    (n : Nat) :
    ∀ (lx : Lexer) (tokens : List Token), Lexer.At source lx →
      List.Chain' positionBefore tokens →
      (∀ t ∈ tokens.getLast?, positionLt (t.line, t.column) (lx.line, lx.column)) →
      List.Chain' positionBefore ((tokenizeLoop n lx tokens).1
          ++ [⟨.END_OF_FILE, "", (tokenizeLoop n lx tokens).2.line,
                (tokenizeLoop n lx tokens).2.column⟩]) := by
  induction n with
  | zero =>
    intro lx tokens _ hchain hlast
    rw [tokenizeLoop]
    refine List.Chain'.append hchain (List.chain'_singleton _) ?_
    intro x hx y hy
    simp only [List.head?_cons, Option.mem_def, Option.some.injEq] at hy
    subst hy
    exact hlast x hx
  | succ n ih =>
    intro lx tokens hat hchain hlast
    obtain ⟨ws, hws⟩ := skipWhitespace_reads lx
    have hat1 := hat.reads hws
    have hlast1 : ∀ t ∈ tokens.getLast?,
        positionLt (t.line, t.column) (lx.skipWhitespace.line, lx.skipWhitespace.column) :=
      fun t ht => (hws.reads_inRange (hat.at_inRange hlen)).2.2 _ (hlast t ht)
    by_cases hstop : lx.rest = [] ∨ lx.skipWhitespace.current = NUL
    · have hres : tokenizeLoop (n + 1) lx tokens = (tokens, lx.skipWhitespace) := by
        rw [tokenizeLoop]
        by_cases h0 : lx.rest = []
        · have hsame : lx.skipWhitespace = lx := by
            unfold skipWhitespace; rw [h0]; rfl
          rw [if_pos h0, hsame]
        · have h1 : lx.skipWhitespace.current = NUL := hstop.resolve_left h0
          simp only [if_neg h0, if_pos h1]
      rw [hres]
      refine List.Chain'.append hchain (List.chain'_singleton _) ?_
      intro x hx y hy
      simp only [List.head?_cons, Option.mem_def, Option.some.injEq] at hy
      subst hy
      exact hlast1 x hx
    · have h0 : lx.rest ≠ [] := fun h => hstop (Or.inl h)
      have h1 : lx.skipWhitespace.current ≠ NUL := fun h => hstop (Or.inr h)
      obtain ⟨pushed, lx2, chunk, hchunk, hreads, hpushed, hloop⟩ :=
        tokenizeLoop_iteration lx h0 h1
      rw [hloop]
      have hat2 := hat1.reads hreads
      have hlt := (hreads.reads_inRange (hat1.at_inRange hlen)).2.1 hchunk
      rcases hpushed with rfl | ⟨t, rfl, hl, hk, hstart⟩
      · rw [List.append_nil]
        exact ih lx2 tokens hat2 hchain
          (fun t ht => (hlast1 t ht).lt_trans hlt)
      · have hpos : (t.line, t.column) = (lx.skipWhitespace.line, lx.skipWhitespace.column) := by
          rw [hl, hk]
        refine ih lx2 (tokens ++ [t]) hat2 ?_ ?_
        · refine List.Chain'.append hchain (List.chain'_singleton _) ?_
          intro x hx y hy
          simp only [List.head?_cons, Option.mem_def, Option.some.injEq] at hy
          subst hy
          unfold positionBefore
          rw [hpos]
          exact hlast1 x hx
        · intro u hu
          rw [List.getLast?_append, List.getLast?_singleton] at hu
          have hu1 : t = u := Option.some.inj hu
          subst hu1
          rw [hpos]
          exact hlt

/-! ### A run of blanks longer than the range of `int` -/

theorem positionFrom_blanks (n : Nat) (hn : n ≠ 0) (p : Int × Int) :
    positionFrom p (List.replicate n ' ') = (p.1, toInt32 (p.2 + n)) := by
  have h := positionFrom_of_no_lf p (List.replicate n ' ')
    (fun c hc => by rw [List.eq_of_mem_replicate hc]; decide)
    (fun h => hn (by simpa using congrArg List.length h))
  rw [h, List.length_replicate]

theorem skipWhitespaceLoop_blanks (c : Char) (tail : List Char)
    (hc : ¬ (c = ' ' ∨ c = TAB ∨ c = CR)) :
    ∀ (n fuel : Nat) (l k : Int), n ≤ fuel →
      skipWhitespaceLoop fuel ⟨List.replicate n ' ' ++ c :: tail, l, k⟩
        = ⟨c :: tail, l, (positionFrom (l, k) (List.replicate n ' ')).2⟩ := by
  intro n
  induction n with
  | zero =>
    intro fuel l k _
    cases fuel with
    | zero => rfl
    | succ fuel =>
      rw [skipWhitespaceLoop]
      have hcur : (Lexer.mk (List.replicate 0 ' ' ++ c :: tail) l k).current = c := rfl
      rw [hcur, if_neg hc]
      rfl
  | succ n ih =>
    intro fuel l k hfuel
    obtain ⟨m, rfl⟩ : ∃ m, fuel = m + 1 := ⟨fuel - 1, by omega⟩
    have hb : (' ' : Char) ≠ LF := by decide
    rw [List.replicate_succ, List.cons_append, skipWhitespaceLoop]
    have hcur : (Lexer.mk (' ' :: (List.replicate n ' ' ++ c :: tail)) l k).current = ' ' := rfl
    rw [hcur, if_pos (Or.inl rfl), Lexer.advance_cons, positionFrom_cons,
      advancePos_of_ne_lf _ _ hb]
    exact ih m l (toInt32 (k + 1)) (by omega)

/-- The source of `n` blanks followed by the letter `x`: the identifier token
stands at the column the `int` counter holds after `n` increments, whatever
`n`. -/
theorem tokenize_blanks_identifier (n : Nat) (hn : n ≠ 0) :
    tokenize (List.replicate n ' ' ++ ['x'])
      = [⟨.IDENTIFIER, "x", 1, toInt32 (1 + n)⟩,
         ⟨.END_OF_FILE, "", 1, toInt32 (toInt32 (1 + n) + 1)⟩] := by
  have hws : (Lexer.mk (List.replicate n ' ' ++ ['x']) 1 1).skipWhitespace
      = ⟨['x'], 1, toInt32 (1 + n)⟩ := by
    unfold skipWhitespace
    rw [skipWhitespaceLoop_blanks 'x' [] (by decide) n _ 1 1
      (by simp only [List.length_append, List.length_replicate]; omega),
      positionFrom_blanks n hn]
  rw [tokenize_eq_tokenizeFrom, tokenizeFrom_skipWhitespace, hws]
  rfl

theorem specLine_blanks (n : Nat) : specLine (List.replicate n ' ') = 1 := by
  unfold specLine
  rw [List.count_replicate]
  rfl

theorem specColumn_blanks (n : Nat) : specColumn (List.replicate n ' ') = 1 + n := by
  unfold specColumn
  rw [List.reverse_replicate, List.takeWhile_eq_self_iff.mpr, List.length_replicate]
  intro c hc
  rw [List.eq_of_mem_replicate hc]
  decide

end ScannerSteps

/-! ## The keyword table -/

section Keywords

theorem keywords_of_mem : ∀ p ∈ keywordTable, keywords p.1 = some p.2 := by decide

theorem keywords_iff_mem (s : String) (t : TokenType) :
    keywords s = some t ↔ (s, t) ∈ keywordTable :=
  ⟨fun h => mem_of_lookup_eq_some h, fun h => keywords_of_mem (s, t) h⟩

theorem mem_spellings (s : String) (t : TokenType) :
    s ∈ spellings t ↔ (s, t) ∈ keywordTable := by
  unfold spellings
  simp only [List.mem_map, List.mem_filter, decide_eq_true_eq]
  constructor
  · rintro ⟨p, ⟨hp, ht⟩, hs⟩
    obtain ⟨a, b⟩ := p
    simp only at ht hs
    subst ht hs
    exact hp
  · intro h
    exact ⟨(s, t), ⟨h, rfl⟩, rfl⟩

end Keywords

/-! ## The parenthesis depth of the expression scan loop -/

section Depth

open CodeGenerator

theorem DepthKept.depth_nil (parts : List Part) (g : CodeGenerator) {d : Int} (hd : 0 ≤ d) :
    DepthKept parts d (parts, g) :=
  ⟨[], (List.append_nil _).symm, fun k => by simp [parenBalance, hd]⟩

theorem DepthKept.depth_step {parts : List Part} {d d1 : Int} {x : Part}
    {r : List Part × CodeGenerator} (hx : d1 = d + parenDelta x)
    (h : DepthKept (parts ++ [x]) d1 r) (hd : 0 ≤ d) : DepthKept parts d r := by
  obtain ⟨added, hadd, hbal⟩ := h
  refine ⟨x :: added, by rw [hadd, List.append_assoc]; rfl, fun k => ?_⟩
  cases k with
  | zero => simp [parenBalance, hd]
  | succ k =>
    have := hbal k
    simp only [List.take_succ_cons, parenBalance, List.map_cons, List.sum_cons] at this ⊢
    rw [hx] at this
    omega

theorem parenDelta_of_kind (code : String) {t : ExprType} (h : t ≠ .UNKNOWN) :
    parenDelta (code, t) = 0 := by
  unfold parenDelta
  rw [if_neg h]

theorem parenDelta_variable (code : String) (c : Bool) :
    parenDelta (code, if c = true then ExprType.STRING else ExprType.INT) = 0 := by
  cases c <;> exact parenDelta_of_kind _ (by decide)

/-- Entered at a depth that is not negative, the scan loop never lets the depth
become negative: it only appends parts, and the depth after each of them is not
negative. -/
theorem exprLoop_depth (n : Nat) :
    ∀ (g : CodeGenerator) (parts : List Part) (d : Int), 0 ≤ d →
      (exprLoop n g parts d).Holds (DepthKept parts d) := by
  induction n with
  | zero => exact fun _ _ _ _ => Result.Holds.diverge
  | succ n ih =>
    intro g parts d hd
    have hnil : DepthKept parts d (parts, g) := DepthKept.depth_nil parts g hd
    have hsame : ∀ (g1 : CodeGenerator) (x : Part), parenDelta x = 0 →
        (exprLoop n g1 (parts ++ [x]) d).Holds (DepthKept parts d) :=
      fun g1 x hx => (ih g1 _ d hd).mono
        (fun r h => DepthKept.depth_step (by rw [hx, Int.add_zero]) h hd)
    have hopen : ∀ g1 : CodeGenerator,
        (exprLoop n g1 (parts ++ [("(", .UNKNOWN)]) (d + 1)).Holds (DepthKept parts d) :=
      fun g1 => (ih g1 _ (d + 1) (by omega)).mono
        (fun r h => DepthKept.depth_step rfl h hd)
    rw [exprLoop.eq_2]
    by_cases h1 : g.check .END_OF_FILE = true
    · rw [if_pos h1]; exact Result.Holds.ok hnil
    rw [if_neg h1]
    by_cases h2 : d = 0 ∧ isStopToken g.current.type = true
    · simp only [if_pos h2]; exact Result.Holds.ok hnil
    simp only [if_neg h2]
    have hclose : g.current.type = .RPAREN → ∀ g1 : CodeGenerator,
        (exprLoop n g1 (parts ++ [(")", .UNKNOWN)]) (d - 1)).Holds (DepthKept parts d) := by
      intro hty g1
      have hd0 : d ≠ 0 := fun h0 => h2 ⟨h0, by rw [hty]; rfl⟩
      exact (ih g1 _ (d - 1) (by omega)).mono
        (fun r h => DepthKept.depth_step rfl h hd)
    split
    all_goals
      repeat' first
        | with_reducible exact Result.Holds.ok hnil
        | with_reducible exact hopen _
        | with_reducible exact hclose (by assumption) _
        | with_reducible exact hsame _ _ (parenDelta_of_kind _ (by decide))
        | with_reducible exact hsame _ _ (by decide)
        | with_reducible exact hsame _ _ (parenDelta_variable _ _)
        | with_reducible refine Result.Holds.bind (Result.Holds.trivial _) ?_
        | with_reducible refine Result.Holds.ite ?_ ?_
        | intro _ _

end Depth

/-! ## The token position only moves forward -/

section Forward

open CodeGenerator

theorem movesForward_relation : StatementRelation MovesForward where
  rel_refl := fun _ => ⟨[], rfl⟩
  rel_trans := fun a b c h1 h2 => by
    obtain ⟨x, hx⟩ := h1
    obtain ⟨y, hy⟩ := h2
    exact ⟨x ++ y, by rw [hx, hy, List.append_assoc]⟩
  rel_advance := fun g => by
    refine ⟨g.rest.take 1, ?_⟩
    show g.rest = g.rest.take 1 ++ g.rest.tail
    cases g.rest <;> rfl
  rel_emit := fun g code => by
    unfold CodeGenerator.emit
    split <;> exact ⟨[], rfl⟩
  rel_setVar := fun g _ _ _ _ h => by
    obtain ⟨c, hc⟩ := h
    refine ⟨g.rest.take 2 ++ c, ?_⟩
    have h0 : g.rest = g.rest.take 2 ++ g.rest.tail.tail := by
      cases g.rest with
      | nil => rfl
      | cons a as => cases as <;> rfl
    rw [List.append_assoc]
    exact h0.trans (congrArg (fun x => g.rest.take 2 ++ x) hc)
  rel_block := fun _ _ _ h => h
  rel_declare := fun _ _ => ⟨[], rfl⟩
  rel_function := fun g0 _ _ _ _ _ h0 h1 => by
    obtain ⟨c0, hc0⟩ := h0
    obtain ⟨c1, hc1⟩ := h1
    refine ⟨g0.rest.take 1 ++ (c0 ++ c1), ?_⟩
    have h0 : g0.rest = g0.rest.take 1 ++ g0.rest.tail := by
      cases g0.rest <;> rfl
    have h2 : g0.rest.tail = c0 ++ (c1 ++ _) := hc0.trans (congrArg (fun x => c0 ++ x) hc1)
    rw [List.append_assoc, List.append_assoc]
    exact h0.trans (congrArg (fun x => g0.rest.take 1 ++ x) h2)

end Forward

/-! ## The scanner in front of a NUL character -/

section ScannerNul

open Lexer

theorem Lexer.rest_ne_nil_of_current {lx : Lexer} (h : lx.current ≠ NUL) : lx.rest ≠ [] := by
  intro he
  apply h
  unfold Lexer.current
  rw [he]

theorem Lexer.current_withTail (t : List Char) (lx : Lexer) :
    (lx.withTail (NUL :: t)).current = lx.current := by
  obtain ⟨rest, l, k⟩ := lx
  cases rest <;> rfl

theorem Lexer.peek_withTail (t : List Char) (lx : Lexer) (h : lx.rest ≠ []) :
    (lx.withTail (NUL :: t)).peek = lx.peek := by
  obtain ⟨rest, l, k⟩ := lx
  match rest, h with
  | [_], _ => rfl
  | _ :: _ :: _, _ => rfl

theorem Lexer.advance_withTail (t : List Char) (lx : Lexer) (h : lx.rest ≠ []) :
    (lx.withTail (NUL :: t)).advance = lx.advance.withTail (NUL :: t) := by
  obtain ⟨rest, l, k⟩ := lx
  cases rest with
  | nil => exact absurd rfl h
  | cons c cs =>
    unfold Lexer.advance Lexer.withTail Lexer.current
    simp only [List.cons_append, List.tail_cons]
    split <;> rfl

theorem Lexer.advance_withTail_of_current (t : List Char) (lx : Lexer) (h : lx.current ≠ NUL) :
    (lx.withTail (NUL :: t)).advance = lx.advance.withTail (NUL :: t) :=
  Lexer.advance_withTail t lx (Lexer.rest_ne_nil_of_current h)

theorem Lexer.advance_rest_le (lx : Lexer) : lx.advance.rest.length ≤ lx.rest.length - 1 := by
  have e : lx.advance.rest = lx.rest.tail := by
    unfold Lexer.advance
    split <;> rfl
  rw [e, List.length_tail]

theorem skipWhitespaceLoop_withTail (t : List Char) (n : Nat) :
    ∀ (m : Nat) (lx : Lexer), lx.rest.length ≤ n → lx.rest.length ≤ m →
      skipWhitespaceLoop m (lx.withTail (NUL :: t))
        = (skipWhitespaceLoop n lx).withTail (NUL :: t) := by
  induction n with
  | zero =>
    intro m lx hn _
    have hc := Lexer.current_of_length_zero lx hn
    rw [skipWhitespaceLoop]
    cases m with
    | zero => rfl
    | succ m =>
      rw [skipWhitespaceLoop, Lexer.current_withTail, hc, if_neg (by decide)]
  | succ n ih =>
    intro m lx hn hm
    cases m with
    | zero =>
      have hc := Lexer.current_of_length_zero lx hm
      rw [skipWhitespaceLoop, skipWhitespaceLoop, hc, if_neg (by decide)]
    | succ m =>
      rw [skipWhitespaceLoop, skipWhitespaceLoop, Lexer.current_withTail]
      by_cases hb : lx.current = ' ' ∨ lx.current = TAB ∨ lx.current = CR
      · have hne : lx.current ≠ NUL := by
          rcases hb with h | h | h <;> rw [h] <;> decide
        have hl := Lexer.advance_rest_le lx
        rw [if_pos hb, if_pos hb, Lexer.advance_withTail_of_current t lx hne]
        exact ih m lx.advance (by omega) (by omega)
      · rw [if_neg hb, if_neg hb]

theorem skipWhitespace_withTail (t : List Char) (lx : Lexer) :
    (lx.withTail (NUL :: t)).skipWhitespace = lx.skipWhitespace.withTail (NUL :: t) := by
  unfold Lexer.skipWhitespace
  exact skipWhitespaceLoop_withTail t _ _ lx (Nat.le_refl _)
    (by simp [Lexer.withTail])

theorem skipLineCommentLoop_withTail (t : List Char) (n : Nat) :
    ∀ (m : Nat) (lx : Lexer), lx.rest.length ≤ n → lx.rest.length ≤ m →
      skipLineCommentLoop m (lx.withTail (NUL :: t))
        = (skipLineCommentLoop n lx).withTail (NUL :: t) := by
  induction n with
  | zero =>
    intro m lx hn _
    have hc := Lexer.current_of_length_zero lx hn
    rw [skipLineCommentLoop]
    cases m with
    | zero => rfl
    | succ m =>
      rw [skipLineCommentLoop, Lexer.current_withTail, hc, if_neg (fun h => h.2 rfl)]
  | succ n ih =>
    intro m lx hn hm
    cases m with
    | zero =>
      have hc := Lexer.current_of_length_zero lx hm
      rw [skipLineCommentLoop, skipLineCommentLoop, hc, if_neg (fun h => h.2 rfl)]
    | succ m =>
      rw [skipLineCommentLoop, skipLineCommentLoop, Lexer.current_withTail]
      by_cases hb : lx.current ≠ LF ∧ lx.current ≠ NUL
      · have hl := Lexer.advance_rest_le lx
        rw [if_pos hb, if_pos hb, Lexer.advance_withTail_of_current t lx hb.2]
        exact ih m lx.advance (by omega) (by omega)
      · rw [if_neg hb, if_neg hb]

theorem skipLineComment_withTail (t : List Char) (lx : Lexer) :
    (lx.withTail (NUL :: t)).skipLineComment = lx.skipLineComment.withTail (NUL :: t) := by
  unfold Lexer.skipLineComment
  exact skipLineCommentLoop_withTail t _ _ lx (Nat.le_refl _)
    (by simp [Lexer.withTail])

theorem scanStringLoop_withTail (t : List Char) (n : Nat) :
    ∀ (m : Nat) (lx : Lexer) (value : String), lx.rest.length ≤ n → lx.rest.length ≤ m →
      scanStringLoop m (lx.withTail (NUL :: t)) value
        = ((scanStringLoop n lx value).1.withTail (NUL :: t), (scanStringLoop n lx value).2) := by
  have hstop : ∀ lx : Lexer, lx.current = NUL →
      ¬ (lx.current ≠ DQUOTE ∧ lx.current ≠ NUL) :=
    fun lx hc h => h.2 hc
  induction n with
  | zero =>
    intro m lx value hn _
    have hc := Lexer.current_of_length_zero lx hn
    rw [scanStringLoop]
    cases m with
    | zero => rfl
    | succ m =>
      rw [scanStringLoop, Lexer.current_withTail, if_neg (hstop lx hc)]
  | succ n ih =>
    intro m lx value hn hm
    cases m with
    | zero =>
      have hc := Lexer.current_of_length_zero lx hm
      rw [scanStringLoop, scanStringLoop, if_neg (hstop lx hc)]
    | succ m =>
      rw [scanStringLoop, scanStringLoop, Lexer.current_withTail]
      by_cases hb : lx.current ≠ DQUOTE ∧ lx.current ≠ NUL
      · have hl := Lexer.advance_rest_le lx
        have hl2 := Lexer.advance_rest_le lx.advance
        have hpeek := Lexer.peek_withTail t lx (Lexer.rest_ne_nil_of_current hb.2)
        have hadv := Lexer.advance_withTail_of_current t lx hb.2
        rw [if_pos hb, if_pos hb, hpeek, hadv]
        by_cases h1 : lx.current = BACKSLASH ∧ lx.peek = DQUOTE
        · rw [if_pos h1, if_pos h1]
          exact ih m lx.advance _ (by omega) (by omega)
        rw [if_neg h1, if_neg h1]
        by_cases h2 : lx.current = BACKSLASH ∧ lx.peek = 'n'
        · rw [if_pos h2, if_pos h2]
          have hne : lx.advance.current ≠ NUL := by
            obtain ⟨rest, l, k⟩ := lx
            match rest, h2 with
            | [], h =>
              have h3 : NUL = 'n' := h.2
              exact absurd h3 (by decide)
            | [_], h =>
              have h3 : NUL = 'n' := h.2
              exact absurd h3 (by decide)
            | c :: d :: ds, h =>
              have hd : d = 'n' := h.2
              rw [Lexer.advance_cons, Lexer.current_cons, hd]
              decide
          rw [Lexer.advance_withTail_of_current t lx.advance hne]
          exact ih m lx.advance.advance _ (by omega) (by omega)
        rw [if_neg h2, if_neg h2]
        exact ih m lx.advance _ (by omega) (by omega)
      · rw [if_neg hb, if_neg hb]

theorem scanString_withTail (t : List Char) (lx : Lexer) (h : lx.current = DQUOTE) :
    (lx.withTail (NUL :: t)).scanString = scanWithTail (NUL :: t) lx.scanString := by
  have hne : lx.current ≠ NUL := by rw [h]; decide
  unfold Lexer.scanString scanWithTail
  simp only [Lexer.advance_withTail_of_current t lx hne]
  rw [scanStringLoop_withTail t lx.advance.rest.length _ lx.advance "" (Nat.le_refl _)
    (by simp [Lexer.withTail])]
  simp only [Lexer.current_withTail]
  split
  · rename_i hq
    have hq2 : (scanStringLoop lx.advance.rest.length lx.advance "").1.current ≠ NUL := by
      rw [hq]; decide
    rw [Lexer.advance_withTail_of_current t _ hq2]
    rfl
  · rfl

theorem List.takeWhile_append_stop {α : Type} (p : α → Bool) (x : α) (hx : p x = false)
    (b : List α) : ∀ a : List α, (a ++ x :: b).takeWhile p = a.takeWhile p := by
  intro a
  induction a with
  | nil => simp [List.takeWhile, hx]
  | cons c cs ih =>
    rw [List.cons_append, List.takeWhile_cons, List.takeWhile_cons, ih]

theorem List.dropWhile_append_stop {α : Type} (p : α → Bool) (x : α) (hx : p x = false)
    (b : List α) : ∀ a : List α, (a ++ x :: b).dropWhile p = a.dropWhile p ++ x :: b := by
  intro a
  induction a with
  | nil => simp [List.dropWhile, hx]
  | cons c cs ih =>
    rw [List.cons_append, List.dropWhile_cons, List.dropWhile_cons, ih]
    split <;> rfl

theorem scanNumber_withTail (t : List Char) (lx : Lexer) :
    (lx.withTail (NUL :: t)).scanNumber = scanWithTail (NUL :: t) lx.scanNumber := by
  obtain ⟨rest, l, k⟩ := lx
  have hx : Char.isDigit NUL = false := by decide
  unfold Lexer.withTail scanWithTail
  simp only [scanNumber_eq, List.takeWhile_append_stop Char.isDigit NUL hx,
    List.dropWhile_append_stop Char.isDigit NUL hx]
  rfl

theorem scanIdentifier_withTail (t : List Char) (lx : Lexer) :
    (lx.withTail (NUL :: t)).scanIdentifier = scanWithTail (NUL :: t) lx.scanIdentifier := by
  obtain ⟨rest, l, k⟩ := lx
  have hx : isIdentifierChar NUL = false := by decide
  unfold Lexer.withTail scanWithTail
  simp only [scanIdentifier_eq, List.takeWhile_append_stop isIdentifierChar NUL hx,
    List.dropWhile_append_stop isIdentifierChar NUL hx]
  rfl

theorem single_withTail (t : List Char) (lx : Lexer) (h : lx.current ≠ NUL)
    (ty : TokenType) (s : String) :
    Lexer.single (lx.withTail (NUL :: t)) ty s
      = scanWithTail (NUL :: t) (Lexer.single lx ty s) := by
  unfold Lexer.single scanWithTail
  rw [Lexer.advance_withTail_of_current t lx h]
  rfl

theorem double_withTail (t : List Char) (lx : Lexer) (h : lx.current ≠ NUL)
    (two : TokenType) (s2 : String)
    (one : TokenType) (s1 : String) :
    Lexer.double (lx.withTail (NUL :: t)) two s2 one s1
      = scanWithTail (NUL :: t) (Lexer.double lx two s2 one s1) := by
  unfold Lexer.double scanWithTail
  simp only [Lexer.advance_withTail_of_current t lx h, Lexer.current_withTail]
  split
  · rename_i he
    have hne : lx.advance.current ≠ NUL := by rw [he]; decide
    rw [Lexer.advance_withTail_of_current t lx.advance hne]
    rfl
  · rfl

theorem scanOperator_withTail (t : List Char) (lx : Lexer) (h : lx.current ≠ NUL) :
    (lx.withTail (NUL :: t)).scanOperator = scanWithTail (NUL :: t) lx.scanOperator := by
  unfold Lexer.scanOperator
  simp only [Lexer.current_withTail, single_withTail t lx h, double_withTail t lx h,
    apply_ite (scanWithTail (NUL :: t))]

/-- The main loop in front of an appended NUL: it pushes the same tokens and
ends in the same state, with the appended characters still unread. -/
theorem tokenizeLoop_withTail (t : List Char) (n : Nat) :
    ∀ (lx : Lexer) (tokens : List Token),
      tokenizeLoop n (lx.withTail (NUL :: t)) tokens
        = ((tokenizeLoop n lx tokens).1, (tokenizeLoop n lx tokens).2.withTail (NUL :: t)) := by
  induction n with
  | zero => intro lx tokens; rfl
  | succ n ih =>
    intro lx tokens
    have hE : (lx.withTail (NUL :: t)).rest ≠ [] := by simp [Lexer.withTail]
    rw [tokenizeLoop.eq_2 (lx.withTail (NUL :: t)) tokens n, tokenizeLoop.eq_2 lx tokens n]
    simp only [if_neg hE, skipWhitespace_withTail, Lexer.current_withTail]
    by_cases h0 : lx.rest = []
    · have hsame : lx.skipWhitespace = lx := by
        unfold Lexer.skipWhitespace; rw [h0]; rfl
      have hc : lx.current = NUL := by
        unfold Lexer.current; rw [h0]
      simp only [if_pos h0, hsame, if_pos hc]
    simp only [if_neg h0]
    generalize lx.skipWhitespace = lx1
    by_cases h1 : lx1.current = NUL
    · simp only [if_pos h1]
    simp only [if_neg h1]
    have hrest := Lexer.rest_ne_nil_of_current h1
    by_cases h2 : lx1.current = LF
    · simp only [if_pos h2, Lexer.advance_withTail t lx1 hrest]
      exact ih _ _
    simp only [if_neg h2, Lexer.peek_withTail t lx1 hrest]
    by_cases h3 : lx1.current = '/' ∧ lx1.peek = '/'
    · simp only [if_pos h3, skipLineComment_withTail]
      exact ih _ _
    simp only [if_neg h3]
    by_cases h4 : lx1.current = DQUOTE
    · simp only [if_pos h4, scanString_withTail t lx1 h4, scanWithTail]
      exact ih _ _
    simp only [if_neg h4]
    by_cases h5 : lx1.current.isDigit = true
    · simp only [if_pos h5, scanNumber_withTail, scanWithTail]
      exact ih _ _
    simp only [if_neg h5]
    by_cases h6 : lx1.current.isAlpha = true ∨ lx1.current = '_'
    · simp only [if_pos h6, scanIdentifier_withTail, scanWithTail]
      exact ih _ _
    simp only [if_neg h6, scanOperator_withTail t lx1 h1, scanWithTail]
    exact ih _ _

/-- Every character of the lexeme of a token other than a text literal or a
NEWLINE token is a character of the source. -/
theorem Located.lexeme_subset {source : List Char} {tok : Token} (h : Located source tok)
    (h1 : tok.type ≠ .STRING) (h2 : tok.type ≠ .NEWLINE) :
    ∀ c ∈ tok.value.data, c ∈ source := by
  obtain ⟨pre, post, hs, hstart, _⟩ := h
  unfold tokenStartsAt at hstart
  rw [if_neg h1, if_neg h2] at hstart
  obtain ⟨_, more, hpost⟩ := hstart
  intro c hc
  rw [hs, hpost]
  exact List.mem_append_right _ (List.mem_append_left _ hc)

end ScannerNul

/-! ## The kind of a name between declarations -/

section KindKeeping

open CodeGenerator

theorem declares_append (name : String) :
    ∀ a b : List Token, declares name (a ++ b) = false →
      declares name a = false ∧ declares name b = false := by
  intro a
  induction a with
  | nil => exact fun b h => ⟨rfl, h⟩
  | cons t ts ih =>
    intro b h
    have h1 := ih b (declares_tail name t _ h)
    refine ⟨?_, h1.2⟩
    cases ts with
    | nil => rfl
    | cons t2 ts2 =>
      simp only [List.cons_append, declares, Bool.or_eq_false_iff] at h ⊢
      exact ⟨h.1, h1.1⟩

theorem List.take_one_append_tail {α : Type} (l : List α) : l = l.take 1 ++ l.tail := by
  cases l <;> rfl

theorem List.take_two_append_tail {α : Type} (l : List α) : l = l.take 2 ++ l.tail.tail := by
  cases l with
  | nil => rfl
  | cons a as => cases as <;> rfl

theorem kindKept_relation (name : String) : StatementRelation (KindKept name) where
  rel_refl := fun _ => ⟨rfl, [], rfl, fun _ _ => rfl⟩
  rel_trans := fun a b c h1 h2 => by
    obtain ⟨l1, c1, e1, k1⟩ := h1
    obtain ⟨l2, c2, e2, k2⟩ := h2
    refine ⟨l2.trans l1, c1 ++ c2, by rw [e1, e2, List.append_assoc], fun heof hd => ?_⟩
    have hd2 := declares_append name c1 c2 hd
    exact (k2 (by rw [l1]; exact heof) hd2.2).trans (k1 heof hd2.1)
  rel_advance := fun g => ⟨rfl, g.rest.take 1, List.take_one_append_tail g.rest, fun _ _ => rfl⟩
  rel_emit := fun g code => by
    unfold CodeGenerator.emit
    split <;> exact ⟨rfl, [], rfl, fun _ _ => rfl⟩
  rel_setVar := fun g g1 t hvar heq h => by
    obtain ⟨l1, c, e, k⟩ := h
    refine ⟨l1, g.rest.take 2 ++ c, ?_, fun heof hd => ?_⟩
    · rw [List.append_assoc]
      exact (List.take_two_append_tail g.rest).trans (congrArg (fun x => g.rest.take 2 ++ x) e)
    · have hne : TokenType.END_OF_FILE ≠ TokenType.EQUAL := by decide
      cases hr : g.rest with
      | nil =>
        have : g.advance.advance.current = g.last := by simp [current, advance, hr]
        rw [this, heof] at heq
        exact absurd heq hne
      | cons t1 ts =>
        cases ts with
        | nil =>
          have : g.advance.advance.current = g.last := by simp [current, advance, hr]
          rw [this, heof] at heq
          exact absurd heq hne
        | cons t2 ts2 =>
          have ht1 : t1.type = .VAR := by simpa [current, hr] using hvar
          have hv : g.advance.current.value = t2.value := by simp [current, advance, hr]
          rw [hr] at hd
          simp only [List.take_succ_cons, List.take_zero, List.cons_append, List.nil_append,
            declares, Bool.or_eq_false_iff, ht1, true_and, decide_eq_false_iff_not] at hd
          have hc := declares_tail name t2 c hd.2
          simp only [setVarType, hv]
          rw [if_neg (fun hk => hd.1 hk.symm)]
          exact k heof hc
  rel_block := fun _ _ _ h => h
  rel_declare := fun _ _ => ⟨rfl, [], rfl, fun _ _ => rfl⟩
  rel_function := fun g0 g g1 _ _ _ h0 h1 => by
    obtain ⟨l0, c0, e0, k0⟩ := h0
    obtain ⟨l1, c1, e1, k1⟩ := h1
    refine ⟨l1.trans l0, g0.rest.take 1 ++ (c0 ++ c1), ?_, fun heof hd => ?_⟩
    · have h2 : g0.rest.tail = c0 ++ (c1 ++ g1.rest) :=
        e0.trans (congrArg (fun x => c0 ++ x) e1)
      rw [List.append_assoc, List.append_assoc]
      exact (List.take_one_append_tail g0.rest).trans
        (congrArg (fun x => g0.rest.take 1 ++ x) h2)
    · have hd1 := (declares_append name _ _ hd).2
      have hd2 := declares_append name _ _ hd1
      exact (k1 (by rw [l0]; exact heof) hd2.2).trans (k0 heof hd2.1)

attribute [local simp] Result.bind Result.map

end KindKeeping

/-! ## The statements of a function body -/

section BodySteps

open CodeGenerator

attribute [local simp] Result.bind Result.map

end BodySteps

/-! ## What is written to which buffer -/

section Buffers

open CodeGenerator

attribute [local simp] Result.bind Result.map

theorem functionsKept_relation : StatementRelation FunctionsKept where
  rel_refl := fun _ => ⟨rfl, [], rfl, fun _ h _ => ⟨h, rfl⟩⟩
  rel_trans := fun a b c h1 h2 => by
    obtain ⟨l1, c1, e1, k1⟩ := h1
    obtain ⟨l2, c2, e2, k2⟩ := h2
    refine ⟨l2.trans l1, c1 ++ c2, by rw [e1, e2, List.append_assoc], fun heof hmain hno => ?_⟩
    have hb := k1 heof hmain (fun t ht => hno t (List.mem_append_left _ ht))
    have hc := k2 (by rw [l1]; exact heof) hb.1 (fun t ht => hno t (List.mem_append_right _ ht))
    exact ⟨hc.1, hc.2.trans hb.2⟩
  rel_advance := fun g =>
    ⟨rfl, g.rest.take 1, List.take_one_append_tail g.rest, fun _ h _ => ⟨h, rfl⟩⟩
  rel_emit := fun g code => by
    refine ⟨?_, [], ?_, fun _ hmain _ => ?_⟩
    · unfold CodeGenerator.emit
      split <;> rfl
    · unfold CodeGenerator.emit
      split <;> rfl
    · unfold CodeGenerator.emit
      rw [hmain]
      exact ⟨rfl, rfl⟩
  rel_setVar := fun g g1 t _ _ h => by
    obtain ⟨l1, c, e, k⟩ := h
    refine ⟨l1, g.rest.take 2 ++ c, ?_, fun heof hmain hno => ?_⟩
    · rw [List.append_assoc]
      exact (List.take_two_append_tail g.rest).trans (congrArg (fun x => g.rest.take 2 ++ x) e)
    · exact k heof hmain (fun t ht => hno t (List.mem_append_right _ ht))
  rel_block := fun _ _ _ h => h
  rel_declare := fun _ _ => ⟨rfl, [], rfl, fun _ h _ => ⟨h, rfl⟩⟩
  rel_function := fun g0 g g1 _ _ hfun h0 h1 => by
    obtain ⟨l0, c0, e0, _⟩ := h0
    obtain ⟨l1, c1, e1, _⟩ := h1
    refine ⟨l1.trans l0, g0.rest.take 1 ++ (c0 ++ c1), ?_, fun heof _ hno => ?_⟩
    · have h2 : g0.rest.tail = c0 ++ (c1 ++ g1.rest) :=
        e0.trans (congrArg (fun x => c0 ++ x) e1)
      rw [List.append_assoc, List.append_assoc]
      exact (List.take_one_append_tail g0.rest).trans
        (congrArg (fun x => g0.rest.take 1 ++ x) h2)
    · exfalso
      have hne : TokenType.END_OF_FILE ≠ TokenType.FUNGSI := by decide
      cases hr : g0.rest with
      | nil =>
        have hcur : g0.current = g0.last := by simp [current, hr]
        rw [hcur, heof] at hfun
        exact hne hfun
      | cons t ts =>
        have ht : t.type = .FUNGSI := by simpa [current, hr] using hfun
        exact hno t (by rw [hr]; simp) ht

/-- The function buffer after a piece of translation that started with the
top-level statement buffer as target and read no token of kind FUNGSI. -/
theorem FunctionsKept.functions_kept {g g1 : CodeGenerator} (h : FunctionsKept g g1)
    (heof : g.last.type = .END_OF_FILE) (hmain : g.currentOutput = .main)
    (consumed : List Token) (hc : g.rest = consumed ++ g1.rest)
    (hno : ∀ t ∈ consumed, t.type ≠ .FUNGSI) :
    g1.functionsOutput = g.functionsOutput := by
  obtain ⟨_, c, e, k⟩ := h
  have hsame : consumed = c := List.append_cancel_right (hc.symm.trans e)
  exact (k heof hmain (hsame ▸ hno)).2

/-- A function declaration writes its signature, the text of its body and the
closing brace to the function buffer, and nothing to the top-level statement
buffer. -/
theorem generateFunctionDecl_buffers {fuel : Nat} {g g1 : CodeGenerator}
    (h : generateFunctionDecl fuel g = .ok g1) :
    g1.mainOutput = g.mainOutput
    ∧ ∃ (params : List String) (body : String),
        g1.functionsOutput
          = g.functionsOutput ++ functionSignature g.advance.current.value params ++ "\n"
              ++ body ++ "\x7d\n\n" := by
  cases fuel with
  | zero => simp [generateFunctionDecl] at h
  | succ m =>
    obtain ⟨params, rest5, g8, _, hbody, hg1⟩ := generateFunctionDecl_ok h
    obtain ⟨⟨body, hf⟩, _⟩ := (statement_extends _ m).2.1 _ (Extends.extends_refl _) g8 hbody
    obtain ⟨_, hmo⟩ := blockLoop_related keepsMain_relation hbody rfl
    refine ⟨?_, params, body, ?_⟩
    · rw [hg1]
      exact hmo
    · rw [hg1]
      show g8.functionsOutput ++ "\x7d\n\n" = _
      rw [hf]
      rfl

/-- With a function buffer that is not empty, the assembled document is not the
one the specification lays out: the comment line `// User-defined functions`
stands between the preamble and the function buffer. -/
theorem assemble_ne_specDocument (g : CodeGenerator) (h : g.functionsOutput.isEmpty = false) :
    assemble g ≠ specDocument g.functionsOutput g.mainOutput := by
  intro heq
  unfold assemble specDocument at heq
  simp only [h, Bool.not_false, if_true] at heq
  have h1 := String.append_left_cancel (String.append_right_cancel (String.append_right_cancel
    (String.append_right_cancel (String.append_right_cancel heq))))
  have h2 := congrArg String.length h1
  rw [String.length_append] at h2
  have h3 : ("// User-defined functions\n" : String).length = 26 := by decide
  omega

theorem init_tokenize (source : List Char) :
    (CodeGenerator.init (tokenize source)).currentOutput = .main
    ∧ (CodeGenerator.init (tokenize source)).last.type = .END_OF_FILE := by
  refine ⟨rfl, ?_⟩
  simp [CodeGenerator.init, tokenize]

end Buffers

/-! ## Fragments of a single blank -/

section BlankFragments

open CodeGenerator

theorem noBlankLexeme_advanceStable : AdvanceStable NoBlankLexeme := by
  intro g h t ht
  apply h t
  rcases List.mem_append.mp ht with ht | ht
  · exact List.mem_append_left _ (List.mem_of_mem_tail ht)
  · exact List.mem_append_right _ ht

theorem CodeGenerator.current_mem (g : CodeGenerator) : g.current ∈ g.rest ++ [g.last] := by
  unfold CodeGenerator.current
  cases g.rest with
  | nil => simp
  | cons t ts => simp

theorem String.append_paren_ne_blank (s : String) : s ++ ")" ≠ " " := by
  intro h
  have hd := congrArg String.data h
  rw [String.data_append] at hd
  have hl := congrArg List.getLast? hd
  simp at hl

/-- The fragments the scan loop pushes for the tokens of a state without blank
lexemes are never a single blank. -/
theorem exprLoop_noBlank (n : Nat) :
    ∀ (g : CodeGenerator) (parts : List Part) (d : Int), NoBlankLexeme g →
      (∀ p ∈ parts, p.1 ≠ " ") →
      (exprLoop n g parts d).Holds (fun r => ∀ p ∈ r.1, p.1 ≠ " ") := by
  induction n with
  | zero => exact fun _ _ _ _ _ => Result.Holds.diverge
  | succ n ih =>
    intro g parts d hg hparts
    have hP : AdvanceStable NoBlankLexeme := noBlankLexeme_advanceStable
    have hstep : ∀ (g1 : CodeGenerator) (x : Part) (d1 : Int), NoBlankLexeme g1 → x.1 ≠ " " →
        (exprLoop n g1 (parts ++ [x]) d1).Holds (fun r => ∀ p ∈ r.1, p.1 ≠ " ") :=
      fun g1 x d1 h1 hx => ih g1 _ d1 h1 (by
        intro p hp
        rcases List.mem_append.mp hp with hp | hp
        · exact hparts p hp
        · rw [List.mem_singleton.mp hp]; exact hx)
    have hint : g.current.type = .INTEGER → g.current.value ≠ " " :=
      fun h => hg _ g.current_mem (Or.inl h)
    have hid : g.current.type = .IDENTIFIER → g.current.value ≠ " " :=
      fun h => hg _ g.current_mem (Or.inr h)
    rw [exprLoop.eq_2]
    refine Result.Holds.ite (Result.Holds.ok hparts) ?_
    refine Result.Holds.ite (Result.Holds.ok hparts) ?_
    split
    all_goals
      repeat' first
        | with_reducible exact Result.Holds.ok hparts
        | with_reducible exact hstep _ _ _ (hP.step hg) (quoted_ne_blank _)
        | with_reducible exact hstep _ _ _ (hP.step hg) (hint (by assumption))
        | with_reducible exact hstep _ _ _ (hP.step hg) (hid (by assumption))
        | with_reducible exact hstep _ _ _ (hP.step hg) (by decide)
        | with_reducible exact hstep _ _ _ (by assumption) (String.append_paren_ne_blank _)
        | with_reducible exact hstep _ _ _ (by assumption) (by decide)
        | with_reducible refine hP.stable_bind_expect ?_ ?_
        | with_reducible refine Result.Holds.bind (generateTypedExpression_advances hP n ?_) ?_
        | with_reducible refine Result.Holds.bind (callArguments_advances hP n _ _ ?_) ?_
        | with_reducible refine Result.Holds.ite ?_ ?_
        | with_reducible exact hP.step (by assumption)
        | assumption
        | intro _ _

/-- No integer or identifier token of a scanned source has the lexeme that is a
single blank. -/
theorem tokenize_noBlank (source : List Char) (t : Token) (ht : t ∈ tokenize source)
    (hk : t.type = .INTEGER ∨ t.type = .IDENTIFIER) : t.value ≠ " " := by
  unfold tokenize at ht
  rcases List.mem_append.mp ht with h | h
  · have hshape := (tokenizeLoop_shape source source.length ⟨source, 1, 1⟩ []
      (Lexer.At.start source) (fun u hu => absurd hu (List.not_mem_nil u)) t h).1
    intro hv
    rcases hk with hk | hk
    · have hd := (hshape.2.2 hk).2.1
      rw [hv] at hd
      exact absurd (hd ' ' (by decide)) (by decide)
    · obtain ⟨⟨c, cs, hdata, hc, _⟩, _⟩ := hshape.1 hk
      rw [hv] at hdata
      have hc1 : c = ' ' := by
        have := congrArg List.head? hdata
        simpa using this.symm
      rw [hc1] at hc
      exact absurd hc (by decide)
  · rw [List.mem_singleton.mp h] at hk
    rcases hk with hk | hk <;> simp at hk

end BlankFragments

/-! ## Claims about the translator -/

section TranslatorClaims

open CodeGenerator

attribute [local simp] Result.bind Result.map

/-- C1 (defect of the code): for the source `var x = "a" + 1` the declaration
handler takes its string-literal shortcut, so the binding emitted for `x` is
`char* x = "a";` and not the call `__wear_concat_str_int("a", 1)`; the tokens
`+` and `1` are then skipped as statements.  The Type Table does record `x` as
Text.  The general branch of the same handler builds the call: `var x = 1 + "a"`
emits `char* x = __wear_concat_int_str(1, "a");`.  These are the outcomes for
every fuel from 8 on. -/
theorem C1_var_text_plus_int_emits_bare_literal (fuel : Nat) :
    (translate (fuel + 8) "var x = \"a\" + 1").map
        (fun g => (g.functionsOutput, g.mainOutput, g.varTypes "x"))
      = .ok ("", "    char* x = \"a\";\n", some ExprType.STRING)
    ∧ (translate (fuel + 8) "var x = 1 + \"a\"").map
        (fun g => (g.functionsOutput, g.mainOutput, g.varTypes "x"))
      = .ok ("", "    char* x = __wear_concat_int_str(1, \"a\");\n", some ExprType.STRING) :=
  ⟨Result.eq_of_le (Result.map_le _ (translate_fuel_le _ (Nat.le_add_left 8 fuel)))
      (by decide) (by simp),
   Result.eq_of_le (Result.map_le _ (translate_fuel_le _ (Nat.le_add_left 8 fuel)))
      (by decide) (by simp)⟩

/-- C2: for every expression `op₀ + op₁ + ... + opₙ` with n ≥ 1 whose operands
are text literals, integer literals or variable references, at least one of
kind Text, followed by a token that ends the expression,
`generateTypedExpression` returns kind Text and the code of the left fold of
the operands under the step of the specification: `__wear_concat(l, r)` for
Text/Text, `__wear_concat_str_int(l, r)` for Text/Integer,
`__wear_concat_int_str(l, r)` for Integer/Text, `(l + r)` for Integer/Integer,
the running kind becoming Text once either side is Text.  The token position is
left at the token that ended the expression. -/
theorem C2_concat_chain_left_fold (fuel : Nat) (g : CodeGenerator) (first : Token)
    (others : List (Token × Token)) (stop : Token) (more : List Token)
    (hfirst : isChainOperand first = true)
    (hothers : ∀ p ∈ others, p.1.type = .PLUS ∧ isChainOperand p.2 = true)
    (htwo : others ≠ [])
    (htext : (operandPart g first).2 = .STRING
      ∨ ∃ p ∈ others, (operandPart g p.2).2 = .STRING)
    (hstop : endsExpression stop.type = true)
    (hrest : g.rest = first :: chainTail others ++ stop :: more) :
    generateTypedExpression (fuel + 2 * others.length + 3) g
      = .ok (⟨(others.foldl (fun acc p => specChainStep acc (operandPart g p.2))
                (operandPart g first)).1, .STRING⟩,
             g.atTokens (stop :: more)) := by
  have hg : g = g.atTokens (first :: (chainTail others ++ stop :: more)) := by
    cases g; simp only [atTokens] at *; simp [hrest]
  have hnext : (g.atTokens (chainTail others ++ stop :: more)).current.type ≠ .LPAREN := by
    cases others with
    | nil => exact absurd rfl htwo
    | cons q qs =>
      have hq := (hothers q (List.mem_cons_self _ _)).1
      simp [chainTail, current, atTokens, hq]
  have hloop : exprLoop (fuel + 2 * others.length + 2) g [] 0
      = .ok (operandPart g first :: chainParts g others, g.atTokens (stop :: more)) := by
    conv_lhs => rw [hg]
    have hf : fuel + 2 * others.length + 2 = (fuel + 2 * others.length + 1) + 1 := by omega
    rw [hf, exprLoop_operand _ _ _ _ _ _ hfirst hnext,
      exprLoop_chainTail g stop more hstop others _ fuel hothers]
    rfl
  have hfuel : fuel + 2 * others.length + 3 = (fuel + 2 * others.length + 2) + 1 := by omega
  rw [hfuel, generateTypedExpression, hloop]
  have hany : (operandPart g first :: chainParts g others).any
      (fun p => decide (p.2 = ExprType.STRING)) = true := by
    rw [List.any_cons, chainParts_any_text]
    rcases htext with h | ⟨p, hp, h⟩
    · simp [h]
    · simp only [Bool.or_eq_true, List.any_eq_true]
      exact Or.inr ⟨p, hp, by simpa using h⟩
  have hplus : (operandPart g first :: chainParts g others).any
      (fun p => decide (p.1 = "+")) = true := by
    rw [List.any_cons, chainParts_any_plus g others htwo]
    simp
  have hlen : (operandPart g first :: chainParts g others).length ≥ 3 := by
    rw [List.length_cons, chainParts_length]
    have : others.length ≥ 1 := List.length_pos.mpr htwo
    omega
  have hfrag := operandPart_fragment g first hfirst
  have hfilter : (operandPart g first :: chainParts g others).filter
      (fun p => p.1 ≠ "+" ∧ p.1 ≠ " ")
        = operandPart g first :: others.map (fun p => operandPart g p.2) := by
    rw [List.filter_cons, chainParts_filter g others hothers]
    simp [hfrag.1, hfrag.2]
  simp only [Result.bind, finishTypedExpression, hany, hplus, hlen, and_self, if_true]
  unfold buildStringConcat
  simp only [hfilter]
  cases others with
  | nil => exact absurd rfl htwo
  | cons q qs =>
    simp only [List.map_cons]
    rw [← List.map_cons (fun p => operandPart g p.2) q qs,
      foldl_concatStep_eq_spec g (q :: qs) _ (operandPart_kind g first)]

/-- Witness for C2: the expression `"a" + "b" + 1 + "c"`. -/
theorem C2_concat_chain_witness :
    (generateTypedExpression 9 (CodeGenerator.init
        [⟨.STRING, "a", 1, 1⟩, ⟨.PLUS, "+", 1, 5⟩, ⟨.STRING, "b", 1, 7⟩, ⟨.PLUS, "+", 1, 11⟩,
         ⟨.INTEGER, "1", 1, 13⟩, ⟨.PLUS, "+", 1, 15⟩, ⟨.STRING, "c", 1, 17⟩,
         ⟨.END_OF_FILE, "", 1, 20⟩])).map (fun r => r.1)
      = .ok ⟨"__wear_concat(__wear_concat_str_int(__wear_concat(\"a\", \"b\"), 1), \"c\")",
          .STRING⟩ := by
  have h := C2_concat_chain_left_fold 0
    (CodeGenerator.init
        [⟨.STRING, "a", 1, 1⟩, ⟨.PLUS, "+", 1, 5⟩, ⟨.STRING, "b", 1, 7⟩, ⟨.PLUS, "+", 1, 11⟩,
         ⟨.INTEGER, "1", 1, 13⟩, ⟨.PLUS, "+", 1, 15⟩, ⟨.STRING, "c", 1, 17⟩,
         ⟨.END_OF_FILE, "", 1, 20⟩])
    ⟨.STRING, "a", 1, 1⟩
    [(⟨.PLUS, "+", 1, 5⟩, ⟨.STRING, "b", 1, 7⟩), (⟨.PLUS, "+", 1, 11⟩, ⟨.INTEGER, "1", 1, 13⟩),
     (⟨.PLUS, "+", 1, 15⟩, ⟨.STRING, "c", 1, 17⟩)]
    ⟨.END_OF_FILE, "", 1, 20⟩ [] (by decide) (by decide) (by decide) (Or.inl (by decide))
    (by decide) rfl
  have h9 : generateTypedExpression 9 _ = _ := h
  rw [h9]
  decide

/-- C3: for every generator state, the statement `cetak name`, where `name` is
an identifier followed by a token that ends the expression, is translated
without error; it emits the line `__wear_print_str(name);` when the Type Table
maps `name` to Text and the line `__wear_print_int(name);` in every other case,
an undeclared `name` included. -/
theorem C3_print_identifier (fuel : Nat) (g : CodeGenerator) (kw name next : Token)
    (more : List Token)
    (hkw : kw.type = .CETAK) (hname : name.type = .IDENTIFIER)
    (hnext : endsExpression next.type = true)
    (hrest : g.rest = kw :: name :: next :: more) :
    generateStatement (fuel + 4) g
      = .ok ((g.atTokens (next :: more)).emitLine
          (if g.varTypes name.value = some ExprType.STRING then
            "__wear_print_str(" ++ name.value ++ ");"
           else "__wear_print_int(" ++ name.value ++ ");")) := by
  have hne : next.type ≠ .LPAREN := by
    intro h; simp [endsExpression, isStopToken, h] at hnext
  have hstop : ∀ parts, exprLoop (fuel + 1) (g.atTokens (next :: more)) parts 0
      = .ok (parts, g.atTokens (next :: more)) :=
    fun parts => exprLoop_stop fuel _ parts (by simpa [current, atTokens] using hnext)
  have h1 : exprLoop (fuel + 2) g.advance [] 0
      = .ok ([(name.value,
          if g.varTypes name.value = some ExprType.STRING then .STRING else .INT)],
          g.atTokens (next :: more)) := by
    rw [exprLoop_variable _ _ _ _ (by simp [current, advance, hrest, hname])
      (by simp [current, advance, hrest, hne])]
    simpa [advance, hrest, atTokens, current] using hstop _
  rw [generateStatement]
  simp [skipNewlines, check, current, hrest, hkw, generatePrint, generateTypedExpression, h1,
    finishTypedExpression]
  split <;> simp [*]

/-- Witness for C3: an undeclared `z` is printed as an integer, an `s` recorded
as Text is printed as text. -/
theorem C3_print_identifier_witness :
    ((generateStatement 4 (CodeGenerator.init
        [⟨.CETAK, "cetak", 1, 1⟩, ⟨.IDENTIFIER, "z", 1, 7⟩, ⟨.END_OF_FILE, "", 1, 8⟩])).map
          (fun g => g.mainOutput) = .ok "    __wear_print_int(z);\n")
    ∧ ((generateStatement 4 ((CodeGenerator.init
        [⟨.CETAK, "print", 1, 1⟩, ⟨.IDENTIFIER, "s", 1, 7⟩, ⟨.NEWLINE, "\\n", 1, 8⟩]).setVarType
          "s" .STRING)).map
          (fun g => g.mainOutput) = .ok "    __wear_print_str(s);\n") := by
  constructor
  · rw [C3_print_identifier 0 _ ⟨.CETAK, "cetak", 1, 1⟩ ⟨.IDENTIFIER, "z", 1, 7⟩
      ⟨.END_OF_FILE, "", 1, 8⟩ [] rfl rfl rfl rfl]
    decide
  · rw [C3_print_identifier 0 _ ⟨.CETAK, "print", 1, 1⟩ ⟨.IDENTIFIER, "s", 1, 7⟩
      ⟨.NEWLINE, "\\n", 1, 8⟩ [] rfl rfl rfl rfl]
    decide

/-- C4: translating `jika (x > 0 { cetak x }` stops with a syntax error at
line 1, column 13, the position of the open brace, for every fuel from 8 on,
so no output document is produced.  More generally, when the token at which
the condition expression of a conditional or of a loop ends is not `)`, the
handler stops with a syntax error at the line and column of that token; this
holds for `generateIf` (also when it is re-entered for an else-if) and
`generateWhile`, and for a statement that starts with either keyword. -/
theorem C4_missing_close_paren_after_condition :
    (∀ fuel : Nat, compile (fuel + 8) "jika (x > 0 \x7b cetak x \x7d"
        = .exit 1 13 "Expected ')' after condition")
    ∧ (∀ (fuel : Nat) (g g1 : CodeGenerator) (e : ExprResult),
        g.advance.current.type = .LPAREN →
        generateTypedExpression fuel g.advance.advance = .ok (e, g1) →
        g1.current.type ≠ .RPAREN →
        generateIf (fuel + 1) g
            = .exit g1.current.line g1.current.column "Expected ')' after condition"
          ∧ generateWhile (fuel + 1) g
            = .exit g1.current.line g1.current.column "Expected ')' after condition"
          ∧ ((g.current.type = .JIKA ∨ g.current.type = .SELAMA) →
              generateStatement (fuel + 2) g
                = .exit g1.current.line g1.current.column "Expected ')' after condition")) := by
  constructor
  · intro fuel
    exact Result.eq_of_le (compile_fuel_le _ (Nat.le_add_left 8 fuel))
      (by set_option maxRecDepth 2048 in decide) (by simp)
  · intro fuel g g1 e hlp hexpr hnext
    have hif : generateIf (fuel + 1) g
        = .exit g1.current.line g1.current.column "Expected ')' after condition" := by
      rw [generateIf]
      simp [expect, matchToken, check, hlp, generateExpression, hexpr, hnext]
    have hwhile : generateWhile (fuel + 1) g
        = .exit g1.current.line g1.current.column "Expected ')' after condition" := by
      rw [generateWhile]
      simp [expect, matchToken, check, hlp, generateExpression, hexpr, hnext]
    refine ⟨hif, hwhile, fun hkw => ?_⟩
    have hnl : g.current.type ≠ .NEWLINE := by
      rcases hkw with h | h <;> simp [h]
    have hsk : skipNewlines (fuel + 1) g = .ok g := by
      rw [skipNewlines]; simp [check, hnl]
    rw [generateStatement, hsk]
    rcases hkw with h | h
    · simp only [Result.bind, check, h]
      simpa using hif
    · simp only [Result.bind, check, h]
      simpa using hwhile

/-- Witness for C4: the general part at the tokens of `selama (x > 0 {`. -/
theorem C4_missing_close_paren_witness :
    generateStatement 7 (CodeGenerator.init
        [⟨.SELAMA, "selama", 1, 1⟩, ⟨.LPAREN, "(", 1, 8⟩, ⟨.IDENTIFIER, "x", 1, 9⟩,
         ⟨.GREATER, ">", 1, 11⟩, ⟨.INTEGER, "0", 1, 13⟩, ⟨.LBRACE, "\x7b", 1, 15⟩,
         ⟨.END_OF_FILE, "", 1, 16⟩])
      = .exit 1 15 "Expected ')' after condition" := by
  have h := (C4_missing_close_paren_after_condition.2 5
    (CodeGenerator.init
        [⟨.SELAMA, "selama", 1, 1⟩, ⟨.LPAREN, "(", 1, 8⟩, ⟨.IDENTIFIER, "x", 1, 9⟩,
         ⟨.GREATER, ">", 1, 11⟩, ⟨.INTEGER, "0", 1, 13⟩, ⟨.LBRACE, "\x7b", 1, 15⟩,
         ⟨.END_OF_FILE, "", 1, 16⟩])
    ((CodeGenerator.init
        [⟨.SELAMA, "selama", 1, 1⟩, ⟨.LPAREN, "(", 1, 8⟩, ⟨.IDENTIFIER, "x", 1, 9⟩,
         ⟨.GREATER, ">", 1, 11⟩, ⟨.INTEGER, "0", 1, 13⟩, ⟨.LBRACE, "\x7b", 1, 15⟩,
         ⟨.END_OF_FILE, "", 1, 16⟩]).atTokens
      [⟨.LBRACE, "\x7b", 1, 15⟩, ⟨.END_OF_FILE, "", 1, 16⟩])
    ⟨"x>0", .INT⟩ rfl rfl (by decide)).2.2 (Or.inr rfl)
  exact h

/-- C5 (defect of the code): `generate` does not terminate on every token
sequence.  For the source consisting of one close brace the top-level loop calls
`generateStatement`, which returns at once without consuming the brace, so the
loop never ends; for `fungsi f(1) { }` the parameter loop neither consumes the
integer literal nor stops.  In both cases no fuel yields an outcome. -/
theorem C5_generate_diverges :
    (∀ fuel : Nat, compile fuel "\x7d" = .diverge)
    ∧ (∀ fuel : Nat, generateStatement (fuel + 2)
          (CodeGenerator.init (tokenize "\x7d".data))
        = .ok (CodeGenerator.init (tokenize "\x7d".data)))
    ∧ (∀ fuel : Nat, compile fuel "fungsi f(1) \x7b \x7d" = .diverge) := by
  refine ⟨?_, ?_, ?_⟩
  · intro fuel
    unfold compile generate
    rw [tokenize_stray_brace, topLevelLoop_at_rbrace _ _ (by rfl)]
    rfl
  · intro fuel
    rw [tokenize_stray_brace]
    exact generateStatement_at_rbrace fuel _ (by rfl)
  · intro fuel
    unfold compile generate
    rw [tokenize_fungsi_literal_parameter]
    have hp : ∀ n g, g.current.type = .INTEGER → parameterLoop n g [] = .diverge :=
      fun n g h => parameterLoop_stuck n g (by simp [h]) (by simp [h]) (by simp [h])
    have hs : ∀ n, generateStatement n (CodeGenerator.init
        [⟨.FUNGSI, "fungsi", 1, 1⟩, ⟨.IDENTIFIER, "f", 1, 8⟩, ⟨.LPAREN, "(", 1, 9⟩,
         ⟨.INTEGER, "1", 1, 10⟩, ⟨.RPAREN, ")", 1, 11⟩, ⟨.LBRACE, "\x7b", 1, 13⟩,
         ⟨.RBRACE, "\x7d", 1, 15⟩, ⟨.END_OF_FILE, "", 1, 16⟩]) = .diverge := by
      intro n
      rcases n with _ | _ | n
      · rfl
      · rfl
      · rw [generateStatement, skipNewlines]
        simp [CodeGenerator.init, generateFunctionDecl, expect, matchToken, check, current,
          advance, hp]
    rcases fuel with _ | n
    · rfl
    · rw [topLevelLoop, hs]
      rfl

/-- C6 (the claim fails): the program `fungsi f() { kembalikan 1 }` followed by
the line `cetak 2` is translated successfully, and its output document is not
the header comment line, the runtime preamble, the function buffer, the first
line of `main`, the statement buffer, `return 0;` and the closing brace: the
comment line `// User-defined functions` stands between the preamble and the
function buffer. -/
theorem C6_comment_line_precedes_functions :
    ∃ g, translate 20 "fungsi f() \x7b kembalikan 1 \x7d\ncetak 2" = .ok g
      ∧ g.functionsOutput = "int f() \x7b\n    return 1;\n\x7d\n\n"
      ∧ g.mainOutput = "    __wear_print_int(2);\n"
      ∧ compile 20 "fungsi f() \x7b kembalikan 1 \x7d\ncetak 2" = .ok (assemble g)
      ∧ assemble g = "/* Generated by WeaR Lang Stage-0 Compiler */\n"
          ++ WEAR_RUNTIME
          ++ "// User-defined functions\n" ++ "int f() \x7b\n    return 1;\n\x7d\n\n"
          ++ "int main(int argc, char* argv[]) \x7b\n"
          ++ "    __wear_print_int(2);\n"
          ++ "\n    return 0;\n"
          ++ "\x7d\n"
      ∧ assemble g ≠ specDocument g.functionsOutput g.mainOutput := by
  obtain ⟨g, hg⟩ := Result.exists_of_isOk
    (by decide : (translate 20 "fungsi f() \x7b kembalikan 1 \x7d\ncetak 2").isOk = true)
  have hb : (translate 20 "fungsi f() \x7b kembalikan 1 \x7d\ncetak 2").map
      (fun g => (g.functionsOutput, g.mainOutput))
      = .ok ("int f() \x7b\n    return 1;\n\x7d\n\n", "    __wear_print_int(2);\n") := by
    decide
  rw [hg] at hb
  have hb2 := Result.ok.inj hb
  have hF : g.functionsOutput = "int f() \x7b\n    return 1;\n\x7d\n\n" :=
    congrArg Prod.fst hb2
  have hM : g.mainOutput = "    __wear_print_int(2);\n" := congrArg Prod.snd hb2
  have he : g.functionsOutput.isEmpty = false := by rw [hF]; decide
  refine ⟨g, hg, hF, hM, compile_eq_of_translate _ _ g hg, ?_, assemble_ne_specDocument g he⟩
  unfold assemble
  simp only [he, Bool.not_false, if_true]
  rw [hF, hM, String.append_assoc3 _ "// User-defined functions\n" _]

/-- C6 (amended): for every successfully translated program the output document
is, in this order: the header comment line, the runtime preamble
`WEAR_RUNTIME`, then, only when the function buffer is not empty, the comment
line `// User-defined functions` and the function buffer, then the line
`int main(int argc, char* argv[]) {`, the top-level statement buffer, a blank
line, `return 0;` and the closing brace.  The two buffers are the
concatenations, in source order, of what each top-level statement appended to
them (`TopLevelRun`).  Every function declaration that returns, at top level or
nested in a block, has appended its signature line, the text of its body and
the closing brace to the function buffer and nothing to the top-level statement
buffer; while the function buffer is the emission target, no statement and no
block touches the top-level statement buffer.  While the top-level statement
buffer is the emission target, it still is after every statement, and, the
token sequence being closed by the end-of-file token, a statement or run of the
top-level loop that has read no keyword `fungsi` leaves the function buffer as
it was.  The translation of a scanned source starts with the top-level
statement buffer as target and the end-of-file token as closing token. -/
theorem C6_output_document_layout :
    (∀ (fuel : Nat) (tokens : List Token) (doc : String),
      generate fuel tokens = .ok doc →
      ∃ (frags : List (String × String)) (g : CodeGenerator),
        topLevelLoop fuel (CodeGenerator.init tokens) = .ok g
        ∧ TopLevelRun (CodeGenerator.init tokens) frags g
        ∧ g.functionsOutput = concatAll (frags.map Prod.fst)
        ∧ g.mainOutput = concatAll (frags.map Prod.snd)
        ∧ doc = "/* Generated by WeaR Lang Stage-0 Compiler */\n"
            ++ WEAR_RUNTIME
            ++ (if !g.functionsOutput.isEmpty then
                  "// User-defined functions\n" ++ g.functionsOutput
                else "")
            ++ "int main(int argc, char* argv[]) \x7b\n"
            ++ g.mainOutput
            ++ "\n    return 0;\n"
            ++ "\x7d\n")
    ∧ (∀ (fuel : Nat) (g g1 : CodeGenerator),
        generateFunctionDecl fuel g = .ok g1 →
        g1.mainOutput = g.mainOutput
        ∧ ∃ (params : List String) (body : String),
            g1.functionsOutput
              = g.functionsOutput ++ functionSignature g.advance.current.value params ++ "\n"
                  ++ body ++ "\x7d\n\n")
    ∧ (∀ (fuel : Nat) (g g1 : CodeGenerator),
        g.currentOutput = .functions →
        (generateStatement fuel g = .ok g1 ∨ blockLoop fuel g = .ok g1) →
        g1.currentOutput = .functions ∧ g1.mainOutput = g.mainOutput)
    ∧ (∀ (fuel : Nat) (g g1 : CodeGenerator),
        g.currentOutput = .main →
        (generateStatement fuel g = .ok g1 ∨ topLevelLoop fuel g = .ok g1) →
        g1.currentOutput = .main ∧ g1.last = g.last
        ∧ (g.last.type = .END_OF_FILE →
            ∀ consumed : List Token, g.rest = consumed ++ g1.rest →
              (∀ t ∈ consumed, t.type ≠ .FUNGSI) →
              g1.functionsOutput = g.functionsOutput))
    ∧ (∀ source : List Char,
        (CodeGenerator.init (tokenize source)).currentOutput = .main
        ∧ (CodeGenerator.init (tokenize source)).last.type = .END_OF_FILE) := by
  refine ⟨?_, ?_, ?_, ?_, init_tokenize⟩
  · intro fuel tokens doc h
    unfold generate at h
    cases hg : topLevelLoop fuel (CodeGenerator.init tokens) with
    | ok g =>
      rw [hg] at h
      obtain ⟨frags, hrun, hF, hM⟩ := topLevelLoop_run fuel _ g hg
      have hd : doc = assemble g := by
        simp only [Result.bind] at h
        exact (Result.ok.inj h).symm
      refine ⟨frags, g, rfl, hrun, ?_, ?_, ?_⟩
      · rw [hF]; exact String.empty_append_left _
      · rw [hM]; exact String.empty_append_left _
      · rw [hd]; rfl
    | exit l c m => rw [hg] at h; simp [Result.bind] at h
    | diverge => rw [hg] at h; simp [Result.bind] at h
  · intro fuel g g1 h
    exact generateFunctionDecl_buffers h
  · intro fuel g g1 hfun h
    rcases h with h | h
    · exact generateStatement_related keepsMain_relation h hfun
    · exact blockLoop_related keepsMain_relation h hfun
  · intro fuel g g1 hmain h
    have hlayout : KeepsLayout g g1 := by
      rcases h with h | h
      · exact generateStatement_related keepsLayout_relation h
      · exact topLevelLoop_related keepsLayout_relation fuel g g1 h
    have hkept : FunctionsKept g g1 := by
      rcases h with h | h
      · exact generateStatement_related functionsKept_relation h
      · exact topLevelLoop_related functionsKept_relation fuel g g1 h
    exact ⟨hlayout.1.trans hmain, hkept.1,
      fun heof consumed hc hno => hkept.functions_kept heof hmain consumed hc hno⟩

/-- Witness for C6 (amended): the program `fungsi f() { kembalikan 1 }` followed
by the line `cetak 2`; the function text is in the function buffer, the print
call in the top-level buffer. -/
theorem C6_output_document_witness :
    ∃ (doc : String) (frags : List (String × String)) (g : CodeGenerator),
      compile 20 "fungsi f() \x7b kembalikan 1 \x7d\ncetak 2" = .ok doc
      ∧ TopLevelRun
          (CodeGenerator.init (tokenize "fungsi f() \x7b kembalikan 1 \x7d\ncetak 2".data))
          frags g
      ∧ g.functionsOutput = "int f() \x7b\n    return 1;\n\x7d\n\n"
      ∧ g.mainOutput = "    __wear_print_int(2);\n"
      ∧ doc = "/* Generated by WeaR Lang Stage-0 Compiler */\n"
          ++ WEAR_RUNTIME
          ++ "// User-defined functions\n" ++ "int f() \x7b\n    return 1;\n\x7d\n\n"
          ++ "int main(int argc, char* argv[]) \x7b\n"
          ++ "    __wear_print_int(2);\n"
          ++ "\n    return 0;\n"
          ++ "\x7d\n" := by
  have hok : (compile 20 "fungsi f() \x7b kembalikan 1 \x7d\ncetak 2").isOk = true := by
    decide
  obtain ⟨doc, hdoc⟩ := Result.exists_of_isOk hok
  obtain ⟨frags, g, hg, hrun, _, _, hd⟩ := C6_output_document_layout.1 20 _ doc hdoc
  have hb : (translate 20 "fungsi f() \x7b kembalikan 1 \x7d\ncetak 2").map
      (fun g => (g.functionsOutput, g.mainOutput))
      = .ok ("int f() \x7b\n    return 1;\n\x7d\n\n", "    __wear_print_int(2);\n") := by
    decide
  unfold translate at hb
  rw [hg] at hb
  have hb2 := Result.ok.inj hb
  have hF : g.functionsOutput = "int f() \x7b\n    return 1;\n\x7d\n\n" :=
    congrArg Prod.fst hb2
  have hM : g.mainOutput = "    __wear_print_int(2);\n" := congrArg Prod.snd hb2
  refine ⟨doc, frags, g, hdoc, hrun, hF, hM, ?_⟩
  rw [hd, hF, hM]
  have he : (!("int f() \x7b\n    return 1;\n\x7d\n\n" : String).isEmpty) = true := by decide
  rw [he, if_pos rfl, String.append_assoc3 _ "// User-defined functions\n" _]

/-- C7 (defect of the code): the escape `\"` does not continue the text
literal.  The scanner skips the backslash, appends a quote to the value and then
meets the quote character itself, which closes the literal: the source
`"a\"b"` yields the text token `a"`, the identifier `b`, an empty text token and
end of file, instead of one text token `a"b`.  The same holds for every text
`p` free of quotes, backslashes and NUL in place of `a`: the text token has the
value `p"` and the scanner goes on with the characters after the escape. -/
theorem C7_escaped_quote_closes_literal :
    tokenize [DQUOTE, 'a', BACKSLASH, DQUOTE, 'b', DQUOTE]
      = [⟨.STRING, "a\"", 1, 1⟩, ⟨.IDENTIFIER, "b", 1, 5⟩, ⟨.STRING, "", 1, 6⟩,
         ⟨.END_OF_FILE, "", 1, 7⟩]
    ∧ ∀ (p rest : List Char) (l k : Int),
        (∀ c ∈ p, c ≠ DQUOTE ∧ c ≠ BACKSLASH ∧ c ≠ NUL) →
        (Lexer.scanString ⟨DQUOTE :: (p ++ BACKSLASH :: DQUOTE :: rest), l, k⟩).1
            = ⟨.STRING, String.mk (p ++ [DQUOTE]), l, k⟩
          ∧ (Lexer.scanString ⟨DQUOTE :: (p ++ BACKSLASH :: DQUOTE :: rest), l, k⟩).2.rest
            = rest := by
  refine ⟨by decide, ?_⟩
  intro p rest l k hp
  have hadv : (Lexer.mk (DQUOTE :: (p ++ BACKSLASH :: DQUOTE :: rest)) l k).advance
      = ⟨p ++ BACKSLASH :: DQUOTE :: rest, (advancePos (l, k) DQUOTE).1,
          (advancePos (l, k) DQUOTE).2⟩ :=
    Lexer.advance_cons _ _ _ _
  obtain ⟨l1, k1, h1⟩ := scanStringLoop_escaped_quote p hp
    (p ++ BACKSLASH :: DQUOTE :: rest).length (advancePos (l, k) DQUOTE).1
    (advancePos (l, k) DQUOTE).2 rest "" (by simp)
  unfold Lexer.scanString
  simp only [hadv, h1, Lexer.current_cons, if_true]
  rw [String.empty_append_mk]
  exact ⟨rfl, rfl⟩

/-- C8 (defect of the code): the two spellings of a keyword are not
interchangeable and the spelling is emitted.  The declaration handler takes the
lexeme of the token after `var` as the variable name without checking its kind,
so `var cetak = 1` emits `int cetak = 1;`, `var print = 1` emits
`int print = 1;`, and the two output documents differ. -/
theorem C8_keyword_spelling_reaches_output (fuel : Nat) :
    (translate (fuel + 5) "var cetak = 1").map (fun g => g.mainOutput)
        = .ok "    int cetak = 1;\n"
    ∧ (translate (fuel + 5) "var print = 1").map (fun g => g.mainOutput)
        = .ok "    int print = 1;\n"
    ∧ (tokenize "var cetak = 1".data).map (fun t => t.type)
        = (tokenize "var print = 1".data).map (fun t => t.type)
    ∧ compile (fuel + 5) "var cetak = 1" ≠ compile (fuel + 5) "var print = 1" := by
  have h1 : (translate (fuel + 5) "var cetak = 1").map (fun g => g.mainOutput)
      = .ok "    int cetak = 1;\n" :=
    Result.eq_of_le (Result.map_le _ (translate_fuel_le _ (Nat.le_add_left 5 fuel)))
      (by decide) (by simp)
  have h2 : (translate (fuel + 5) "var print = 1").map (fun g => g.mainOutput)
      = .ok "    int print = 1;\n" :=
    Result.eq_of_le (Result.map_le _ (translate_fuel_le _ (Nat.le_add_left 5 fuel)))
      (by decide) (by simp)
  refine ⟨h1, h2, by decide, ?_⟩
  have f1 : (translate (fuel + 5) "var cetak = 1").map (fun g => g.functionsOutput) = .ok "" :=
    Result.eq_of_le (Result.map_le _ (translate_fuel_le _ (Nat.le_add_left 5 fuel)))
      (by decide) (by simp)
  have f2 : (translate (fuel + 5) "var print = 1").map (fun g => g.functionsOutput) = .ok "" :=
    Result.eq_of_le (Result.map_le _ (translate_fuel_le _ (Nat.le_add_left 5 fuel)))
      (by decide) (by simp)
  obtain ⟨g1, hg1, hm1⟩ := Result.exists_of_map_eq_ok h1
  obtain ⟨g2, hg2, hm2⟩ := Result.exists_of_map_eq_ok h2
  rw [hg1] at f1
  rw [hg2] at f2
  rw [compile_eq_of_translate _ _ _ hg1, compile_eq_of_translate _ _ _ hg2]
  intro h
  refine assemble_ne_of_main_ne g1 g2 ?_ ?_ (Result.ok.inj h)
  · have e1 : g1.functionsOutput = "" := Result.ok.inj f1
    have e2 : g2.functionsOutput = "" := Result.ok.inj f2
    rw [e1, e2]
  · rw [hm1, hm2]
    decide

/-- C11: translating `var y = 1 + 2` emits the line `int y = 1+2;` and records
`y` as Integer, for every fuel from 9 on.  In general, for every statement
`var name = e` whose expression `e` is scanned into parts none of which is of
kind Text, the statement is translated without error, the line emitted is
`int name = ` followed by the fragments of the parts joined in order and `;`,
the state is otherwise the entry state moved to the token that ended the
expression, and the Type Table maps `name` to Integer afterwards. -/
theorem C11_integer_declaration :
    (∀ fuel : Nat, (translate (fuel + 9) "var y = 1 + 2").map
        (fun g => (g.functionsOutput, g.mainOutput, g.varTypes "y"))
      = .ok ("", "    int y = 1+2;\n", some ExprType.INT))
    ∧ (∀ (fuel : Nat) (g g1 : CodeGenerator) (kw name eq : Token) (rest : List Token)
        (parts : List Part),
        kw.type = .VAR → eq.type = .EQUAL →
        g.rest = kw :: name :: eq :: rest →
        exprLoop fuel (g.atTokens rest) [] 0 = .ok (parts, g1) →
        (∀ p ∈ parts, p.2 ≠ ExprType.STRING) →
        ∃ g2, generateStatement (fuel + 2) g = .ok g2
          ∧ g2 = ((g.atTokens g1.rest).emitLine
              ("int " ++ name.value ++ " = " ++ parts.foldl (fun result p => result ++ p.1) ""
                ++ ";")).setVarType name.value .INT
          ∧ g2.varTypes name.value = some ExprType.INT) := by
  constructor
  · intro fuel
    exact Result.eq_of_le (Result.map_le _ (translate_fuel_le _ (Nat.le_add_left 9 fuel)))
      (by decide) (by simp)
  · intro fuel g g1 kw name eq rest parts hkw heq hrest hexpr hint
    have hfirst : ¬ ((g.atTokens rest).current.type = .STRING
        ∨ (g.atTokens rest).current.type = .BACA_FILE) := by
      intro h
      obtain ⟨p, hp, hs⟩ := exprLoop_text_first fuel _ [] 0 h _ hexpr
      exact hint p hp hs
    have hframe : g1 = g.atTokens g1.rest := (exprLoop_frame hexpr).trans rfl
    have hc0 : g.current.type = .VAR := by simp [current, hrest, hkw]
    have hc1 : g.advance.current = name := by simp [current, advance, hrest]
    have hc2 : g.advance.advance.current.type = .EQUAL := by simp [current, advance, hrest, heq]
    have h3 : g.advance.advance.advance = g.atTokens rest := by
      simp [advance, atTokens, hrest]
    have hs : (g.atTokens rest).current.type ≠ .STRING := fun h => hfirst (Or.inl h)
    have hb : (g.atTokens rest).current.type ≠ .BACA_FILE := fun h => hfirst (Or.inr h)
    refine ⟨_, ?_, rfl, by simp [setVarType]⟩
    have hsk : skipNewlines (fuel + 1) g = .ok g := by
      rw [skipNewlines]; simp [check, hc0]
    have hvd : generateVarDecl (fuel + 1) g = .ok ((g1.emitLine
        ("int " ++ name.value ++ " = " ++ parts.foldl (fun result p => result ++ p.1) ""
          ++ ";")).setVarType name.value .INT) := by
      unfold generateVarDecl
      simp [expect, matchToken, check, hc1, hc2, h3, hs, hb, generateTypedExpression, hexpr,
        finishTypedExpression_no_text parts hint]
    rw [generateStatement, hsk, ← hframe]
    simp [check, hc0, hvd]

/-- Witness for C11: the declaration `var n = 7 * (k - 1)`. -/
theorem C11_integer_declaration_witness :
    (generateStatement 10 (CodeGenerator.init
        [⟨.VAR, "var", 1, 1⟩, ⟨.IDENTIFIER, "n", 1, 5⟩, ⟨.EQUAL, "=", 1, 7⟩,
         ⟨.INTEGER, "7", 1, 9⟩, ⟨.STAR, "*", 1, 11⟩, ⟨.LPAREN, "(", 1, 13⟩,
         ⟨.IDENTIFIER, "k", 1, 14⟩, ⟨.MINUS, "-", 1, 16⟩, ⟨.INTEGER, "1", 1, 18⟩,
         ⟨.RPAREN, ")", 1, 19⟩, ⟨.END_OF_FILE, "", 1, 20⟩])).map
          (fun g => (g.mainOutput, g.varTypes "n"))
      = .ok ("    int n = 7*(k-1);\n", some ExprType.INT) := by
  obtain ⟨g2, h, hg2, _⟩ := C11_integer_declaration.2 8
    (CodeGenerator.init
        [⟨.VAR, "var", 1, 1⟩, ⟨.IDENTIFIER, "n", 1, 5⟩, ⟨.EQUAL, "=", 1, 7⟩,
         ⟨.INTEGER, "7", 1, 9⟩, ⟨.STAR, "*", 1, 11⟩, ⟨.LPAREN, "(", 1, 13⟩,
         ⟨.IDENTIFIER, "k", 1, 14⟩, ⟨.MINUS, "-", 1, 16⟩, ⟨.INTEGER, "1", 1, 18⟩,
         ⟨.RPAREN, ")", 1, 19⟩, ⟨.END_OF_FILE, "", 1, 20⟩])
    ((CodeGenerator.init
        [⟨.VAR, "var", 1, 1⟩, ⟨.IDENTIFIER, "n", 1, 5⟩, ⟨.EQUAL, "=", 1, 7⟩,
         ⟨.INTEGER, "7", 1, 9⟩, ⟨.STAR, "*", 1, 11⟩, ⟨.LPAREN, "(", 1, 13⟩,
         ⟨.IDENTIFIER, "k", 1, 14⟩, ⟨.MINUS, "-", 1, 16⟩, ⟨.INTEGER, "1", 1, 18⟩,
         ⟨.RPAREN, ")", 1, 19⟩, ⟨.END_OF_FILE, "", 1, 20⟩]).atTokens
      [⟨.END_OF_FILE, "", 1, 20⟩])
    ⟨.VAR, "var", 1, 1⟩ ⟨.IDENTIFIER, "n", 1, 5⟩ ⟨.EQUAL, "=", 1, 7⟩
    [⟨.INTEGER, "7", 1, 9⟩, ⟨.STAR, "*", 1, 11⟩, ⟨.LPAREN, "(", 1, 13⟩,
     ⟨.IDENTIFIER, "k", 1, 14⟩, ⟨.MINUS, "-", 1, 16⟩, ⟨.INTEGER, "1", 1, 18⟩,
     ⟨.RPAREN, ")", 1, 19⟩, ⟨.END_OF_FILE, "", 1, 20⟩]
    [("7", .INT), ("*", .UNKNOWN), ("(", .UNKNOWN), ("k", .INT), ("-", .UNKNOWN), ("1", .INT),
     (")", .UNKNOWN)]
    rfl rfl rfl rfl (by decide)
  have h10 : generateStatement 10 _ = _ := h
  rw [h10, hg2]
  decide

/-- C12: when the scan loop of the expression translator stands at the trigger
token of a builtin, followed by `(`, the arguments of its fixed arity, each
translated by `generateTypedExpression`, and `)`, it pushes exactly one part
and goes on behind the close parenthesis.  The part is the runtime call with
the code of the arguments spliced in, of the fixed kind of the builtin:
`__wear_read_file(a)` Text, `__wear_strlen(a)` Integer, `__wear_is_quote(a)`
Integer, `__wear_is_newline(a)` Integer, `__wear_char_at(a, b)` Text,
`__wear_streq(a, b)` Integer, `__wear_quote_char()` Text and
`__wear_newline_char()` Text.  The kinds of the arguments play no part. -/
theorem C12_builtin_calls :
    (∀ entry ∈ specUnaryBuiltins,
      ∀ (fuel : Nat) (g g1 : CodeGenerator) (parts : List Part) (d : Int) (a : ExprResult),
        g.current.type = entry.1 → g.advance.current.type = .LPAREN →
        generateTypedExpression fuel g.advance.advance = .ok (a, g1) →
        g1.current.type = .RPAREN →
        exprLoop (fuel + 1) g parts d
          = exprLoop fuel g1.advance (parts ++ [(entry.2.1 ++ a.code ++ ")", entry.2.2)]) d)
    ∧ (∀ entry ∈ specBinaryBuiltins,
      ∀ (fuel : Nat) (g g1 g2 : CodeGenerator) (parts : List Part) (d : Int)
        (a b : ExprResult),
        g.current.type = entry.1 → g.advance.current.type = .LPAREN →
        generateTypedExpression fuel g.advance.advance = .ok (a, g1) →
        g1.current.type = .COMMA →
        generateTypedExpression fuel g1.advance = .ok (b, g2) →
        g2.current.type = .RPAREN →
        exprLoop (fuel + 1) g parts d
          = exprLoop fuel g2.advance
              (parts ++ [(entry.2.1 ++ a.code ++ ", " ++ b.code ++ ")", entry.2.2)]) d)
    ∧ (∀ entry ∈ specNullaryBuiltins,
      ∀ (fuel : Nat) (g : CodeGenerator) (parts : List Part) (d : Int),
        g.current.type = entry.1 → g.advance.current.type = .LPAREN →
        g.advance.advance.current.type = .RPAREN →
        exprLoop (fuel + 1) g parts d
          = exprLoop fuel g.advance.advance.advance (parts ++ [(entry.2.1, entry.2.2)]) d) := by
  refine ⟨?_, ?_, ?_⟩
  · intro entry hentry fuel g g1 parts d a hkind hlp harg hrp
    simp only [specUnaryBuiltins, List.mem_cons, List.mem_singleton, List.not_mem_nil,
      or_false] at hentry
    rcases hentry with rfl | rfl | rfl | rfl <;>
      · rw [exprLoop.eq_2]
        simp [check, isStopToken, hkind, expect, matchToken, hlp, harg, hrp]
  · intro entry hentry fuel g g1 g2 parts d a b hkind hlp ha hcomma hb hrp
    simp only [specBinaryBuiltins, List.mem_cons, List.mem_singleton, List.not_mem_nil,
      or_false] at hentry
    rcases hentry with rfl | rfl <;>
      · rw [exprLoop.eq_2]
        simp [check, isStopToken, hkind, expect, matchToken, hlp, ha, hcomma, hb, hrp]
  · intro entry hentry fuel g parts d hkind hlp hrp
    simp only [specNullaryBuiltins, List.mem_cons, List.mem_singleton, List.not_mem_nil,
      or_false] at hentry
    rcases hentry with rfl | rfl <;>
      · rw [exprLoop.eq_2]
        simp [check, isStopToken, hkind, expect, matchToken, hlp, hrp]

/-- Witness for C12: the expression `sama("a", 1)` compares a text and an
integer; it is one part of kind Integer, so the expression is of kind Integer. -/
theorem C12_builtin_calls_witness :
    (generateTypedExpression 6 (CodeGenerator.init
        [⟨.SAMA, "sama", 1, 1⟩, ⟨.LPAREN, "(", 1, 5⟩, ⟨.STRING, "a", 1, 6⟩,
         ⟨.COMMA, ",", 1, 9⟩, ⟨.INTEGER, "1", 1, 11⟩, ⟨.RPAREN, ")", 1, 12⟩,
         ⟨.END_OF_FILE, "", 1, 13⟩])).map (fun r => r.1)
      = .ok ⟨"__wear_streq(\"a\", 1)", .INT⟩ := by
  have h := C12_builtin_calls.2.1 (.SAMA, "__wear_streq(", .INT) (by decide) 4
    (CodeGenerator.init
        [⟨.SAMA, "sama", 1, 1⟩, ⟨.LPAREN, "(", 1, 5⟩, ⟨.STRING, "a", 1, 6⟩,
         ⟨.COMMA, ",", 1, 9⟩, ⟨.INTEGER, "1", 1, 11⟩, ⟨.RPAREN, ")", 1, 12⟩,
         ⟨.END_OF_FILE, "", 1, 13⟩])
    ((CodeGenerator.init
        [⟨.SAMA, "sama", 1, 1⟩, ⟨.LPAREN, "(", 1, 5⟩, ⟨.STRING, "a", 1, 6⟩,
         ⟨.COMMA, ",", 1, 9⟩, ⟨.INTEGER, "1", 1, 11⟩, ⟨.RPAREN, ")", 1, 12⟩,
         ⟨.END_OF_FILE, "", 1, 13⟩]).atTokens
      [⟨.COMMA, ",", 1, 9⟩, ⟨.INTEGER, "1", 1, 11⟩, ⟨.RPAREN, ")", 1, 12⟩,
       ⟨.END_OF_FILE, "", 1, 13⟩])
    ((CodeGenerator.init
        [⟨.SAMA, "sama", 1, 1⟩, ⟨.LPAREN, "(", 1, 5⟩, ⟨.STRING, "a", 1, 6⟩,
         ⟨.COMMA, ",", 1, 9⟩, ⟨.INTEGER, "1", 1, 11⟩, ⟨.RPAREN, ")", 1, 12⟩,
         ⟨.END_OF_FILE, "", 1, 13⟩]).atTokens
      [⟨.RPAREN, ")", 1, 12⟩, ⟨.END_OF_FILE, "", 1, 13⟩])
    [] 0 ⟨"\"a\"", .STRING⟩ ⟨"1", .INT⟩ rfl rfl rfl rfl rfl rfl
  have h5 : exprLoop 5 _ [] 0 = _ := h
  rw [generateTypedExpression, h5]
  decide

/-- C13: for every state, whatever its Type Table and its set of declared
functions, an identifier `f` followed by `(`, a well-formed comma-separated
argument list and `)` is scanned into the single part `f(a1, ..., an)` of kind
Integer, whatever the kinds of the arguments.  Hence, when the token after the
call ends the expression, the statement `cetak f(...)` emits
`__wear_print_int(f(...));`, and `var v = f(...)` emits `int v = f(...);` and
records `v` as Integer. -/
theorem C13_call_is_integer (fuel : Nat) (g g1 : CodeGenerator) (f lp : Token)
    (rest : List Token) (codes : List String)
    (hf : f.type = .IDENTIFIER) (hlp : lp.type = .LPAREN)
    (hrest : g.rest = f :: lp :: rest)
    (hargs : WellFormedArguments fuel (g.atTokens rest) codes g1) :
    (∀ (parts : List Part) (d : Int),
      exprLoop (fuel + codes.length + 2) g parts d
        = exprLoop (fuel + codes.length + 1) g1.advance
            (parts ++ [(f.value ++ "(" ++ joinArguments codes ++ ")", .INT)]) d)
    ∧ (endsExpression g1.advance.current.type = true →
        (∀ kw : Token, kw.type = .CETAK →
          generateStatement (fuel + codes.length + 4) (g.atTokens (kw :: g.rest))
            = .ok (g1.advance.emitLine
                ("__wear_print_int(" ++ (f.value ++ "(" ++ joinArguments codes ++ ")") ++ ");")))
        ∧ (∀ kw v eq : Token, kw.type = .VAR → eq.type = .EQUAL →
          generateStatement (fuel + codes.length + 4) (g.atTokens (kw :: v :: eq :: g.rest))
            = .ok ((g1.advance.emitLine
                ("int " ++ v.value ++ " = " ++ (f.value ++ "(" ++ joinArguments codes ++ ")")
                  ++ ";")).setVarType v.value .INT))) := by
  obtain ⟨hcall, hclose⟩ := callArguments_wellFormed hargs (f.value ++ "(")
  have hloop : ∀ (parts : List Part) (d : Int),
      exprLoop (fuel + codes.length + 2) g parts d
        = exprLoop (fuel + codes.length + 1) g1.advance
            (parts ++ [(f.value ++ "(" ++ joinArguments codes ++ ")", .INT)]) d := by
    intro parts d
    have hc0 : g.current = f := by simp [current, hrest]
    have hc1 : g.advance.current.type = .LPAREN := by simp [current, advance, hrest, hlp]
    have h2 : g.advance.advance = g.atTokens rest := by simp [advance, atTokens, hrest]
    rw [exprLoop.eq_2]
    simp [check, isStopToken, hc0, hf, hc1, expect, matchToken, h2, hcall, hclose]
  refine ⟨hloop, fun hstop => ?_⟩
  have hexpr : generateTypedExpression (fuel + codes.length + 3) g
      = .ok (⟨f.value ++ "(" ++ joinArguments codes ++ ")", .INT⟩, g1.advance) := by
    rw [generateTypedExpression, hloop, exprLoop_stop _ _ _ hstop]
    simp [finishTypedExpression, String.empty_append_left]
  have hgs : g.atTokens g.rest = g := rfl
  refine ⟨?_, ?_⟩
  · intro kw hkw
    have hc0 : (g.atTokens (kw :: g.rest)).current.type = .CETAK := by
      simp [current, atTokens, hkw]
    have hsk : skipNewlines (fuel + codes.length + 3) (g.atTokens (kw :: g.rest))
        = .ok (g.atTokens (kw :: g.rest)) := by
      rw [skipNewlines]; simp [check, hc0]
    have hadv : (g.atTokens (kw :: g.rest)).advance = g := rfl
    rw [generateStatement, hsk]
    simp [check, hc0, generatePrint, hadv, hexpr]
  · intro kw v eq hkw heq
    have hc0 : (g.atTokens (kw :: v :: eq :: g.rest)).current.type = .VAR := by
      simp [current, atTokens, hkw]
    have hsk : skipNewlines (fuel + codes.length + 3) (g.atTokens (kw :: v :: eq :: g.rest))
        = .ok (g.atTokens (kw :: v :: eq :: g.rest)) := by
      rw [skipNewlines]; simp [check, hc0]
    have hc1 : (g.atTokens (kw :: v :: eq :: g.rest)).advance.current = v := rfl
    have hc2 : (g.atTokens (kw :: v :: eq :: g.rest)).advance.advance.current.type = .EQUAL :=
      heq
    have h3 : (g.atTokens (kw :: v :: eq :: g.rest)).advance.advance.advance = g := rfl
    have hcf : g.current.type = .IDENTIFIER := by simp [current, hrest, hf]
    rw [generateStatement, hsk]
    simp [check, hc0, generateVarDecl, expect, matchToken, hc1, hc2, h3, hcf, hexpr]

/-- Witness for C13: `cetak f("a", 1)` prints the call as an integer although
its first argument is a text literal. -/
theorem C13_call_is_integer_witness :
    (generateStatement 9 (CodeGenerator.init
        [⟨.CETAK, "cetak", 1, 1⟩, ⟨.IDENTIFIER, "f", 1, 7⟩, ⟨.LPAREN, "(", 1, 8⟩,
         ⟨.STRING, "a", 1, 9⟩, ⟨.COMMA, ",", 1, 12⟩, ⟨.INTEGER, "1", 1, 14⟩,
         ⟨.RPAREN, ")", 1, 15⟩, ⟨.END_OF_FILE, "", 1, 16⟩])).map (fun g => g.mainOutput)
      = .ok "    __wear_print_int(f(\"a\", 1));\n" := by
  have h := ((C13_call_is_integer 3
    (CodeGenerator.init
        [⟨.IDENTIFIER, "f", 1, 7⟩, ⟨.LPAREN, "(", 1, 8⟩,
         ⟨.STRING, "a", 1, 9⟩, ⟨.COMMA, ",", 1, 12⟩, ⟨.INTEGER, "1", 1, 14⟩,
         ⟨.RPAREN, ")", 1, 15⟩, ⟨.END_OF_FILE, "", 1, 16⟩])
    ((CodeGenerator.init
        [⟨.IDENTIFIER, "f", 1, 7⟩, ⟨.LPAREN, "(", 1, 8⟩,
         ⟨.STRING, "a", 1, 9⟩, ⟨.COMMA, ",", 1, 12⟩, ⟨.INTEGER, "1", 1, 14⟩,
         ⟨.RPAREN, ")", 1, 15⟩, ⟨.END_OF_FILE, "", 1, 16⟩]).atTokens
      [⟨.RPAREN, ")", 1, 15⟩, ⟨.END_OF_FILE, "", 1, 16⟩])
    ⟨.IDENTIFIER, "f", 1, 7⟩ ⟨.LPAREN, "(", 1, 8⟩
    [⟨.STRING, "a", 1, 9⟩, ⟨.COMMA, ",", 1, 12⟩, ⟨.INTEGER, "1", 1, 14⟩,
     ⟨.RPAREN, ")", 1, 15⟩, ⟨.END_OF_FILE, "", 1, 16⟩]
    ["\"a\"", "1"] rfl rfl rfl
    (Or.inr ⟨by decide, by decide,
      ArgumentsRun.cons _ _ _ ⟨"\"a\"", .STRING⟩ ["1"] rfl rfl
        (ArgumentsRun.single _ _ ⟨"1", .INT⟩ rfl rfl)⟩)).2 rfl).1 ⟨.CETAK, "cetak", 1, 1⟩ rfl
  exact Eq.trans (congrArg (Result.map fun g => g.mainOutput) h) (by decide)

/-- C15: for every state, whatever its Type Table, the statement `name = expr`,
where `name` is an identifier and the expression after `=` is translated by
`generateTypedExpression` into the code `c` of either kind, is translated
without error; it emits the line `name = c;` and leaves the Type Table as it
was, so that a name absent from the table stays absent and a recorded kind is
kept even when the kind of the expression differs from it. -/
theorem C15_assignment_keeps_table (fuel : Nat) (g g1 : CodeGenerator) (name eq : Token)
    (rest : List Token) (e : ExprResult)
    (hname : name.type = .IDENTIFIER) (heq : eq.type = .EQUAL)
    (hrest : g.rest = name :: eq :: rest)
    (hexpr : generateTypedExpression fuel (g.atTokens rest) = .ok (e, g1)) :
    generateStatement (fuel + 1) g
        = .ok ((g.atTokens g1.rest).emitLine (name.value ++ " = " ++ e.code ++ ";"))
      ∧ ((g.atTokens g1.rest).emitLine (name.value ++ " = " ++ e.code ++ ";")).varTypes
        = g.varTypes := by
  have hframe : g1 = g.atTokens g1.rest := (generateTypedExpression_frame hexpr).trans rfl
  refine ⟨?_, ?_⟩
  · cases fuel with
    | zero => simp [generateTypedExpression] at hexpr
    | succ n =>
      have hc0 : g.current = name := by simp [current, hrest]
      have hsk : skipNewlines (n + 1) g = .ok g := by
        rw [skipNewlines]; simp [check, hc0, hname]
      have hc1 : g.advance.current.type = .EQUAL := by simp [current, advance, hrest, heq]
      have h2 : g.advance.advance = g.atTokens rest := by simp [advance, atTokens, hrest]
      rw [generateStatement, hsk, ← hframe]
      simp [check, hc0, hname, matchToken, hc1, h2, hexpr]
  · unfold emitLine CodeGenerator.emit
    split <;> rfl

/-- Witness for C15: with `x` recorded as Integer, `x = "a" + 1` assigns the
concatenation call and `x` stays Integer. -/
theorem C15_assignment_witness :
    (generateStatement 6 ((CodeGenerator.init
        [⟨.IDENTIFIER, "x", 1, 1⟩, ⟨.EQUAL, "=", 1, 3⟩, ⟨.STRING, "a", 1, 5⟩,
         ⟨.PLUS, "+", 1, 9⟩, ⟨.INTEGER, "1", 1, 11⟩,
         ⟨.END_OF_FILE, "", 1, 12⟩]).setVarType "x" .INT)).map
          (fun g => (g.mainOutput, g.varTypes "x", g.varTypes "y"))
      = .ok ("    x = __wear_concat_str_int(\"a\", 1);\n", some ExprType.INT, none) := by
  have h := (C15_assignment_keeps_table 5 ((CodeGenerator.init
        [⟨.IDENTIFIER, "x", 1, 1⟩, ⟨.EQUAL, "=", 1, 3⟩, ⟨.STRING, "a", 1, 5⟩,
         ⟨.PLUS, "+", 1, 9⟩, ⟨.INTEGER, "1", 1, 11⟩,
         ⟨.END_OF_FILE, "", 1, 12⟩]).setVarType "x" .INT)
    (((CodeGenerator.init
        [⟨.IDENTIFIER, "x", 1, 1⟩, ⟨.EQUAL, "=", 1, 3⟩, ⟨.STRING, "a", 1, 5⟩,
         ⟨.PLUS, "+", 1, 9⟩, ⟨.INTEGER, "1", 1, 11⟩,
         ⟨.END_OF_FILE, "", 1, 12⟩]).setVarType "x" .INT).atTokens
      [⟨.END_OF_FILE, "", 1, 12⟩])
    ⟨.IDENTIFIER, "x", 1, 1⟩ ⟨.EQUAL, "=", 1, 3⟩
    [⟨.STRING, "a", 1, 5⟩, ⟨.PLUS, "+", 1, 9⟩, ⟨.INTEGER, "1", 1, 11⟩,
     ⟨.END_OF_FILE, "", 1, 12⟩]
    ⟨"__wear_concat_str_int(\"a\", 1)", .STRING⟩ rfl rfl rfl rfl).1
  exact Eq.trans (congrArg (Result.map fun g => (g.mainOutput, g.varTypes "x", g.varTypes "y"))
    h) (by decide)

/-- C17: for every function declaration `fungsi name(p1, ..., pn) { body }`
that is translated successfully while the emission target is the top-level
statement buffer, the body is run from a state with the function buffer as
target and indent level 1, and the function buffer ends up extended by the
signature `int name(char* p1, ..., char* pn) {`, a newline, the text `body` the
statements of the body emitted, and `}` followed by a blank line.  The
top-level statement buffer is unchanged, the indent level is restored, and the
emission target is the top-level statement buffer again, so that whatever is
emitted next is appended there and not to the function buffer. -/
theorem C17_function_declaration (fuel : Nat) (g g1 : CodeGenerator)
    (kw name lp rp : Token) (ps more : List Token)
    (hkw : kw.type = .FUNGSI)
    (hps : isParameterList ps = true) (hrp : rp.type = .RPAREN)
    (hrest : g.rest = kw :: name :: lp :: (ps ++ rp :: more))
    (htop : g.currentOutput = .main)
    (h : generateStatement fuel g = .ok g1) :
    ∃ (g7 g8 : CodeGenerator) (body : String),
      g7.rest = more.tail ∧ g7.currentOutput = .functions ∧ g7.indentLevel = 1
      ∧ g7.functionsOutput
        = g.functionsOutput ++ functionSignature name.value (parameterNames ps) ++ "\n"
      ∧ blockLoop (fuel - 2) g7 = .ok g8
      ∧ g8.functionsOutput = g7.functionsOutput ++ body
      ∧ g1.functionsOutput
        = g.functionsOutput ++ functionSignature name.value (parameterNames ps) ++ "\n"
            ++ body ++ "\x7d\n\n"
      ∧ g1.mainOutput = g.mainOutput
      ∧ g1.currentOutput = .main
      ∧ g1.indentLevel = g.indentLevel
      ∧ ∀ code : String, (g1.emit code).mainOutput = g1.mainOutput ++ code
          ∧ (g1.emit code).functionsOutput = g1.functionsOutput := by
  have hc0 : g.current.type = .FUNGSI := by simp [current, hrest, hkw]
  have hc1 : g.advance.current = name := by simp [current, advance, hrest]
  rcases fuel with _ | _ | m
  · simp [generateStatement] at h
  · simp [generateStatement, skipNewlines, check, hc0, generateFunctionDecl] at h
  · have hsk : skipNewlines (m + 1) g = .ok g := by
      rw [skipNewlines]; simp [check, hc0]
    rw [generateStatement, hsk] at h
    simp only [Result.bind, check, hc0] at h
    have hdecl : generateFunctionDecl (m + 1) g = .ok g1 := by simpa using h
    obtain ⟨params, rest5, g8, hpl, hbody, hg1⟩ := generateFunctionDecl_ok hdecl
    rw [hc1] at hpl hbody
    have hstart : ({ g.advance.advance with
        declaredFunctions := insertDeclared name.value g.declaredFunctions }).advance
        = ({ g with declaredFunctions := insertDeclared name.value g.declaredFunctions }).atTokens
            (ps ++ rp :: more) := by
      simp [advance, atTokens, hrest]
    rw [hstart] at hpl
    have hwf := parameterLoop_wellFormed
      ({ g with declaredFunctions := insertDeclared name.value g.declaredFunctions })
      rp more hrp ps hps 0
    have huniq := Result.ok_unique (fun n => parameterLoop_fuel_step n _ _) hpl hwf
    have hparams : params = parameterNames ps := congrArg Prod.fst huniq
    have hrest5 : rest5 = rp :: more := by
      have h0 := congrArg (fun r => r.2.rest) huniq
      exact h0
    subst hparams hrest5
    obtain ⟨⟨body, hf⟩, _⟩ := (statement_extends _ m).2.1 _ (Extends.extends_refl _) g8 hbody
    obtain ⟨hco, hmo⟩ := blockLoop_related keepsMain_relation hbody rfl
    refine ⟨_, g8, body, ?_, ?_, ?_, ?_, hbody, hf, ?_, ?_, ?_, ?_, ?_⟩
    · rfl
    · rfl
    · rfl
    · rfl
    · rw [hg1]
      show g8.functionsOutput ++ "\x7d\n\n" = _
      rw [hf]
      rfl
    · rw [hg1]
      exact hmo
    · rw [hg1]
      exact htop
    · rw [hg1]
      rfl
    · intro code
      have hmain : g1.currentOutput = .main := by rw [hg1]; exact htop
      unfold CodeGenerator.emit
      rw [hmain]
      exact ⟨rfl, rfl⟩

/-- Witness for C17: the declaration `fungsi add(a, b) { kembalikan a + b }` at
top level, with the signature `int add(char* a, char* b) {`. -/
theorem C17_function_declaration_witness :
    functionSignature "add" (parameterNames
        [⟨.IDENTIFIER, "a", 1, 12⟩, ⟨.COMMA, ",", 1, 13⟩, ⟨.IDENTIFIER, "b", 1, 15⟩])
      = "int add(char* a, char* b) \x7b"
    ∧ ∃ (g1 : CodeGenerator) (body : String),
      generateStatement 9 (CodeGenerator.init
        (tokenize "fungsi add(a, b) \x7b kembalikan a + b \x7d".data)) = .ok g1
      ∧ g1.functionsOutput
        = "" ++ functionSignature "add" (parameterNames
            [⟨.IDENTIFIER, "a", 1, 12⟩, ⟨.COMMA, ",", 1, 13⟩, ⟨.IDENTIFIER, "b", 1, 15⟩])
          ++ "\n" ++ body ++ "\x7d\n\n"
      ∧ g1.mainOutput = "" ∧ g1.currentOutput = .main := by
  refine ⟨by decide, ?_⟩
  obtain ⟨g1, h1⟩ := Result.exists_of_isOk
    (by decide : (generateStatement 9 (CodeGenerator.init
        (tokenize "fungsi add(a, b) \x7b kembalikan a + b \x7d".data))).isOk = true)
  obtain ⟨g7, g8, body, _, _, _, _, _, _, hf, hm, hc, _, _⟩ :=
    C17_function_declaration 9 _ g1 ⟨.FUNGSI, "fungsi", 1, 1⟩ ⟨.IDENTIFIER, "add", 1, 8⟩
      ⟨.LPAREN, "(", 1, 11⟩ ⟨.RPAREN, ")", 1, 16⟩
      [⟨.IDENTIFIER, "a", 1, 12⟩, ⟨.COMMA, ",", 1, 13⟩, ⟨.IDENTIFIER, "b", 1, 15⟩]
      [⟨.LBRACE, "\x7b", 1, 18⟩, ⟨.KEMBALIKAN, "kembalikan", 1, 20⟩,
       ⟨.IDENTIFIER, "a", 1, 31⟩, ⟨.PLUS, "+", 1, 33⟩, ⟨.IDENTIFIER, "b", 1, 35⟩,
       ⟨.RBRACE, "\x7d", 1, 37⟩, ⟨.END_OF_FILE, "", 1, 38⟩]
      rfl (by decide) rfl (by decide) rfl h1
  exact ⟨g1, body, h1, hf, hm, hc⟩

/-- C18: when the statements of a block end at end of file instead of at a
close brace, the handler of the block stops with a syntax error at the position
of the end-of-file token: `Expected '}' to end while body` for a loop,
`Expected '}' to end if body` for a conditional, `Expected '}' to end else body`
for an else branch, `Expected '}' to end function body` for a function
declaration.  The error of a statement is the outcome of the block loop and of
the top-level loop around it, so no output document is returned: the sources
`selama (x) { cetak 1`, `jika (x) { cetak 1`, `jika (x) { } lainnya { cetak 1`
and `fungsi f() { cetak 1` all fail, for every fuel from 10 on. -/
theorem C18_unclosed_block_is_an_error :
    (∀ fuel : Nat,
      compile (fuel + 10) "selama (x) \x7b cetak 1" = .exit 1 21 "Expected '\x7d' to end while body"
      ∧ compile (fuel + 10) "jika (x) \x7b cetak 1" = .exit 1 19 "Expected '\x7d' to end if body"
      ∧ compile (fuel + 10) "jika (x) \x7b \x7d lainnya \x7b cetak 1"
          = .exit 1 31 "Expected '\x7d' to end else body"
      ∧ compile (fuel + 10) "fungsi f() \x7b cetak 1"
          = .exit 1 21 "Expected '\x7d' to end function body")
    ∧ (∀ (fuel : Nat) (g g2 g6 : CodeGenerator) (e : ExprResult),
        g.advance.current.type = .LPAREN →
        generateTypedExpression fuel g.advance.advance = .ok (e, g2) →
        g2.current.type = .RPAREN → g2.advance.current.type = .LBRACE →
        blockLoop fuel (blockEntry (g2.advance.emitLine ("while (" ++ e.code ++ ") \x7b")))
          = .ok g6 →
        g6.current.type = .END_OF_FILE →
        generateWhile (fuel + 1) g
          = .exit g6.current.line g6.current.column "Expected '\x7d' to end while body")
    ∧ (∀ (fuel : Nat) (g g2 g6 : CodeGenerator) (e : ExprResult),
        g.advance.current.type = .LPAREN →
        generateTypedExpression fuel g.advance.advance = .ok (e, g2) →
        g2.current.type = .RPAREN → g2.advance.current.type = .LBRACE →
        blockLoop fuel (blockEntry (g2.advance.emitLine ("if (" ++ e.code ++ ") \x7b")))
          = .ok g6 →
        g6.current.type = .END_OF_FILE →
        generateIf (fuel + 1) g
          = .exit g6.current.line g6.current.column "Expected '\x7d' to end if body")
    ∧ (∀ (fuel : Nat) (g g2 g6 g14 : CodeGenerator) (e : ExprResult),
        g.advance.current.type = .LPAREN →
        generateTypedExpression fuel g.advance.advance = .ok (e, g2) →
        g2.current.type = .RPAREN → g2.advance.current.type = .LBRACE →
        blockLoop fuel (blockEntry (g2.advance.emitLine ("if (" ++ e.code ++ ") \x7b")))
          = .ok g6 →
        g6.current.type = .RBRACE →
        (blockExit g6).current.type = .LAINNYA →
        (blockExit g6).advance.current.type = .LBRACE →
        blockLoop fuel
            (blockEntry ((((blockExit g6).emitLine "\x7d").advance).emitLine "else \x7b"))
          = .ok g14 →
        g14.current.type = .END_OF_FILE →
        generateIf (fuel + 1) g
          = .exit g14.current.line g14.current.column "Expected '\x7d' to end else body")
    ∧ (∀ (fuel : Nat) (g g5 g8 : CodeGenerator) (params : List String),
        g.advance.advance.current.type = .LPAREN →
        parameterLoop fuel
            (declareFunction g.advance.advance g.advance.current.value).advance []
          = .ok (params, g5) →
        g5.current.type = .RPAREN → g5.advance.current.type = .LBRACE →
        blockLoop fuel
            (functionEntry g5.advance
              (functionSignature g.advance.current.value params)).advance = .ok g8 →
        g8.current.type = .END_OF_FILE →
        generateFunctionDecl (fuel + 1) g
          = .exit g8.current.line g8.current.column "Expected '\x7d' to end function body")
    ∧ (∀ (fuel : Nat) (g : CodeGenerator) (line column : Int) (message : String),
        generateStatement fuel g = .exit line column message →
        g.current.type ≠ .END_OF_FILE →
        topLevelLoop (fuel + 1) g = .exit line column message
          ∧ (g.current.type ≠ .RBRACE →
              blockLoop (fuel + 1) g = .exit line column message)) := by
  refine ⟨?_, ?_, ?_, ?_, ?_, ?_⟩
  · intro fuel
    refine ⟨?_, ?_, ?_, ?_⟩ <;>
      exact Result.eq_of_le (compile_fuel_le _ (Nat.le_add_left 10 fuel))
        (by set_option maxRecDepth 2048 in decide) (by simp)
  · intro fuel g g2 g6 e hlp hexpr hrp hlb hbody hend
    rw [generateWhile.eq_2, expect_of_current _ hlp]
    simp only [Result.bind, generateExpression, hexpr]
    rw [expect_of_current _ hrp]
    exact block_unclosed fuel _ g6 _ _ _ (by simpa using hlb) hbody hend
  · intro fuel g g2 g6 e hlp hexpr hrp hlb hbody hend
    rw [generateIf.eq_2, expect_of_current _ hlp]
    simp only [Result.bind, generateExpression, hexpr]
    rw [expect_of_current _ hrp]
    exact block_unclosed fuel _ g6 _ _ _ (by simpa using hlb) hbody hend
  · intro fuel g g2 g6 g14 e hlp hexpr hrp hlb hbody hclose helse hlb2 hbody2 hend
    rw [generateIf.eq_2, expect_of_current _ hlp]
    simp only [Result.bind, generateExpression, hexpr]
    rw [expect_of_current _ hrp]
    refine (block_closed fuel _ g6 _ _ _ (by simpa using hlb) hbody hclose).trans ?_
    have hnj : (blockExit g6).advance.current.type ≠ .JIKA := by
      rw [hlb2]; decide
    simp only [check, emitLine_current, emitLine_advance_current, helse, hnj, decide_True,
      decide_False, if_true, Bool.false_eq_true, if_false]
    exact block_unclosed fuel _ g14 _ _ _ (by simpa using hlb2) hbody2 hend
  · intro fuel g g5 g8 params hlp hpl hrp hlb hbody hend
    have hlp2 : (declareFunction g.advance.advance g.advance.current.value).current.type
        = .LPAREN := hlp
    have h6 : (functionEntry g5.advance
        (functionSignature g.advance.current.value params)).current.type = .LBRACE := hlb
    rw [generateFunctionDecl_eq, expect_of_current _ hlp2]
    simp only [Result.bind, hpl]
    rw [expect_of_current _ hrp]
    simp only []
    rw [expect_of_current _ h6]
    simp only [hbody]
    rw [expect_of_ne _ (by rw [hend]; decide)]
  · intro fuel g line column message h hne
    have hc : g.check .END_OF_FILE = false := by simp [check, hne]
    refine ⟨?_, fun hrb => ?_⟩
    · rw [topLevelLoop.eq_2]
      simp [hc, h]
    · have hc2 : g.check .RBRACE = false := by simp [check, hrb]
      rw [blockLoop.eq_2]
      simp [hc, hc2, h]

/-- Witness for C18: the loop handler on the tokens of `selama (x) { cetak 1`. -/
theorem C18_unclosed_block_witness :
    generateWhile 7 (CodeGenerator.init
        [⟨.SELAMA, "selama", 1, 1⟩, ⟨.LPAREN, "(", 1, 8⟩, ⟨.IDENTIFIER, "x", 1, 9⟩,
         ⟨.RPAREN, ")", 1, 10⟩, ⟨.LBRACE, "\x7b", 1, 12⟩, ⟨.CETAK, "cetak", 1, 14⟩,
         ⟨.INTEGER, "1", 1, 20⟩, ⟨.END_OF_FILE, "", 1, 21⟩])
      = .exit 1 21 "Expected '\x7d' to end while body" :=
  C18_unclosed_block_is_an_error.2.1 6
    (CodeGenerator.init
        [⟨.SELAMA, "selama", 1, 1⟩, ⟨.LPAREN, "(", 1, 8⟩, ⟨.IDENTIFIER, "x", 1, 9⟩,
         ⟨.RPAREN, ")", 1, 10⟩, ⟨.LBRACE, "\x7b", 1, 12⟩, ⟨.CETAK, "cetak", 1, 14⟩,
         ⟨.INTEGER, "1", 1, 20⟩, ⟨.END_OF_FILE, "", 1, 21⟩])
    ((CodeGenerator.init
        [⟨.SELAMA, "selama", 1, 1⟩, ⟨.LPAREN, "(", 1, 8⟩, ⟨.IDENTIFIER, "x", 1, 9⟩,
         ⟨.RPAREN, ")", 1, 10⟩, ⟨.LBRACE, "\x7b", 1, 12⟩, ⟨.CETAK, "cetak", 1, 14⟩,
         ⟨.INTEGER, "1", 1, 20⟩, ⟨.END_OF_FILE, "", 1, 21⟩]).atTokens
      [⟨.RPAREN, ")", 1, 10⟩, ⟨.LBRACE, "\x7b", 1, 12⟩, ⟨.CETAK, "cetak", 1, 14⟩,
       ⟨.INTEGER, "1", 1, 20⟩, ⟨.END_OF_FILE, "", 1, 21⟩])
    (((blockEntry (((CodeGenerator.init
        [⟨.SELAMA, "selama", 1, 1⟩, ⟨.LPAREN, "(", 1, 8⟩, ⟨.IDENTIFIER, "x", 1, 9⟩,
         ⟨.RPAREN, ")", 1, 10⟩, ⟨.LBRACE, "\x7b", 1, 12⟩, ⟨.CETAK, "cetak", 1, 14⟩,
         ⟨.INTEGER, "1", 1, 20⟩, ⟨.END_OF_FILE, "", 1, 21⟩]).atTokens
      [⟨.LBRACE, "\x7b", 1, 12⟩, ⟨.CETAK, "cetak", 1, 14⟩,
       ⟨.INTEGER, "1", 1, 20⟩, ⟨.END_OF_FILE, "", 1, 21⟩]).emitLine "while (x) \x7b")).atTokens
      [⟨.END_OF_FILE, "", 1, 21⟩]).emitLine "__wear_print_int(1);")
    ⟨"x", .INT⟩ rfl rfl rfl rfl rfl rfl

/-- C19: for every n ≥ 0, a conditional chain `jika (c0) { B0 } lainnya jika
(c1) { B1 } ... lainnya jika (cn) { Bn } lainnya { E }` whose conditions and
bodies are translated without error is itself translated without error, with
fuel that grows by one per link.  The text appended to the current buffer is
the line `if (c0) {`, the text of B0, the line `}`, then for each i in 1..n the
indentation and `else ` followed by the line `if (ci) {`, the text of Bi and
the line `}`, and at the end the line `else {`, the text of E and the line `}`:
every block opened is closed by its own `}` line, at the indentation of the
chain, and the text of each body stands once, in source order, between the
braces of its own branch.  The emission target and the indent level are the
same behind the chain as in front of it. -/
theorem C19_conditional_chain (fuel n : Nat) (g : CodeGenerator) (text : String)
    (h : IfChain fuel g.indent n g text) :
    ∃ g1, generateIf (fuel + n + 1) g = .ok g1
      ∧ (g.current.type = .JIKA → generateStatement (fuel + n + 2) g = .ok g1)
      ∧ g1.currentBuffer = g.currentBuffer ++ text
      ∧ g1.currentOutput = g.currentOutput ∧ g1.indentLevel = g.indentLevel := by
  obtain ⟨g1, h1, h2, h3, h4⟩ := ifChain_translates h rfl
  refine ⟨g1, h1, fun hkw => ?_, h2, h3, h4⟩
  have hsk : skipNewlines (fuel + n + 1) g = .ok g := by
    rw [skipNewlines]; simp [check, hkw]
  rw [generateStatement, hsk]
  simp only [Result.bind, check, hkw]
  simpa using h1

/-- Witness for C19: the chain with one else-if link
`jika (a) { cetak 1 } lainnya jika (b) { cetak 2 } lainnya { cetak 3 }`. -/
theorem C19_conditional_chain_witness :
    tokenize
        "jika (a) \x7b cetak 1 \x7d lainnya jika (b) \x7b cetak 2 \x7d lainnya \x7b cetak 3 \x7d".data
      = conditionalChainExample
    ∧ ∃ g1, generateIf 8 (CodeGenerator.init conditionalChainExample) = .ok g1
      ∧ g1.currentBuffer
        = "    if (a) \x7b\n        __wear_print_int(1);\n    \x7d\n    else     if (b) \x7b\n        __wear_print_int(2);\n    \x7d\n    else \x7b\n        __wear_print_int(3);\n    \x7d\n"
      ∧ g1.currentOutput = .main := by
  refine ⟨by decide, ?_⟩
  obtain ⟨g1, h1, _, h2, h3, _⟩ := C19_conditional_chain 6 1
    (CodeGenerator.init conditionalChainExample) _
    (IfChain.more 0 _ _ _ _ "        __wear_print_int(1);\n" _ rfl rfl rfl rfl rfl (by decide)
      rfl rfl rfl
      (IfChain.last _ _ _ _ _ "        __wear_print_int(2);\n" "        __wear_print_int(3);\n"
        rfl rfl rfl rfl rfl (by decide) rfl rfl rfl rfl (by decide) rfl))
  exact ⟨g1, h1, h2.trans (by decide), h3⟩

/-- C20: for every state and every condition that `generateTypedExpression`
translates into the code `c`, stopping at `)`, the loop `selama (c) { }` with
nothing between its braces is translated without error.  The state returned is
the entry state moved behind the close brace after emitting the line
`while (c) {` and the line `}`: the current buffer gains exactly these two
lines, both at the indentation of the entry state and with nothing between
them, and the Type Table is unchanged. -/
theorem C20_empty_loop (fuel : Nat) (g g2 : CodeGenerator) (kw lp rp lb rb : Token)
    (rest more : List Token) (c : ExprResult)
    (hkw : kw.type = .SELAMA) (hlp : lp.type = .LPAREN) (hrp : rp.type = .RPAREN)
    (hlb : lb.type = .LBRACE) (hrb : rb.type = .RBRACE)
    (hrest : g.rest = kw :: lp :: rest)
    (hc : generateTypedExpression fuel (g.atTokens rest) = .ok (c, g2))
    (hstop : g2.rest = rp :: lb :: rb :: more) :
    generateStatement (fuel + 2) g
        = .ok (((g.atTokens more).emitLine ("while (" ++ c.code ++ ") \x7b")).emitLine "\x7d")
      ∧ (((g.atTokens more).emitLine ("while (" ++ c.code ++ ") \x7b")).emitLine "\x7d").varTypes
        = g.varTypes
      ∧ (((g.atTokens more).emitLine
            ("while (" ++ c.code ++ ") \x7b")).emitLine "\x7d").currentBuffer
        = g.currentBuffer ++ indentedLine g.indent ("while (" ++ c.code ++ ") \x7b")
            ++ indentedLine g.indent "\x7d" := by
  refine ⟨?_, by simp [atTokens], ?_⟩
  · cases fuel with
    | zero => simp [generateTypedExpression] at hc
    | succ m =>
      have hframe : g2 = g.atTokens (rp :: lb :: rb :: more) := by
        have h0 := generateTypedExpression_frame hc
        rw [hstop] at h0
        exact h0
      subst hframe
      have hc0 : g.current.type = .SELAMA := by simp [current, hrest, hkw]
      have hsk : skipNewlines (m + 2) g = .ok g := by
        rw [skipNewlines]; simp [check, hc0]
      have hc1 : g.advance.current.type = .LPAREN := by simp [current, advance, hrest, hlp]
      have h2 : g.advance.advance = g.atTokens rest := by simp [advance, atTokens, hrest]
      have hbody : blockLoop (m + 1)
          (blockEntry ((g.atTokens (rp :: lb :: rb :: more)).advance.emitLine
            ("while (" ++ c.code ++ ") \x7b")))
          = .ok (blockEntry ((g.atTokens (rp :: lb :: rb :: more)).advance.emitLine
            ("while (" ++ c.code ++ ") \x7b"))) := by
        rw [blockLoop.eq_2]
        have hcur : (blockEntry ((g.atTokens (rp :: lb :: rb :: more)).advance.emitLine
            ("while (" ++ c.code ++ ") \x7b"))).current.type = .RBRACE := by
          show ((g.atTokens (rp :: lb :: rb :: more)).advance.emitLine _).advance.current.type = _
          rw [emitLine_advance_current]
          exact hrb
        simp [check, hcur]
      rw [generateStatement, hsk]
      simp only [Result.bind, check, hc0]
      rw [if_neg (by simp)]
      rw [generateWhile.eq_2, expect_of_current _ hc1]
      simp only [Result.bind, generateExpression, h2, hc]
      rw [expect_of_current _ (by simp [current, atTokens, hrp])]
      refine (block_closed (m + 1) _ _ _ _ _ ?_ hbody ?_).trans ?_
      · rw [emitLine_current]
        exact hlb
      · show ((g.atTokens (rp :: lb :: rb :: more)).advance.emitLine _).advance.current.type = _
        rw [emitLine_advance_current]
        exact hrb
      · rw [blockExit_blockEntry, emitLine_advance, emitLine_advance]
        rfl
  · rw [CodeGenerator.currentBuffer_emitLine, CodeGenerator.currentBuffer_emitLine,
      CodeGenerator.emitLine_indent]
    rfl

/-- Witness for C20: the loop `selama (x < 3) { }` at top level. -/
theorem C20_empty_loop_witness :
    (generateStatement 7 (CodeGenerator.init
        [⟨.SELAMA, "selama", 1, 1⟩, ⟨.LPAREN, "(", 1, 8⟩, ⟨.IDENTIFIER, "x", 1, 9⟩,
         ⟨.LESS, "<", 1, 11⟩, ⟨.INTEGER, "3", 1, 13⟩, ⟨.RPAREN, ")", 1, 14⟩,
         ⟨.LBRACE, "\x7b", 1, 16⟩, ⟨.RBRACE, "\x7d", 1, 18⟩, ⟨.END_OF_FILE, "", 1, 19⟩])).map
          (fun g => (g.functionsOutput, g.mainOutput))
      = .ok ("", "    while (x<3) \x7b\n    \x7d\n") := by
  have h := (C20_empty_loop 5
    (CodeGenerator.init
        [⟨.SELAMA, "selama", 1, 1⟩, ⟨.LPAREN, "(", 1, 8⟩, ⟨.IDENTIFIER, "x", 1, 9⟩,
         ⟨.LESS, "<", 1, 11⟩, ⟨.INTEGER, "3", 1, 13⟩, ⟨.RPAREN, ")", 1, 14⟩,
         ⟨.LBRACE, "\x7b", 1, 16⟩, ⟨.RBRACE, "\x7d", 1, 18⟩, ⟨.END_OF_FILE, "", 1, 19⟩])
    ((CodeGenerator.init
        [⟨.SELAMA, "selama", 1, 1⟩, ⟨.LPAREN, "(", 1, 8⟩, ⟨.IDENTIFIER, "x", 1, 9⟩,
         ⟨.LESS, "<", 1, 11⟩, ⟨.INTEGER, "3", 1, 13⟩, ⟨.RPAREN, ")", 1, 14⟩,
         ⟨.LBRACE, "\x7b", 1, 16⟩, ⟨.RBRACE, "\x7d", 1, 18⟩, ⟨.END_OF_FILE, "", 1, 19⟩]).atTokens
      [⟨.RPAREN, ")", 1, 14⟩, ⟨.LBRACE, "\x7b", 1, 16⟩, ⟨.RBRACE, "\x7d", 1, 18⟩,
       ⟨.END_OF_FILE, "", 1, 19⟩])
    ⟨.SELAMA, "selama", 1, 1⟩ ⟨.LPAREN, "(", 1, 8⟩ ⟨.RPAREN, ")", 1, 14⟩
    ⟨.LBRACE, "\x7b", 1, 16⟩ ⟨.RBRACE, "\x7d", 1, 18⟩
    [⟨.IDENTIFIER, "x", 1, 9⟩, ⟨.LESS, "<", 1, 11⟩, ⟨.INTEGER, "3", 1, 13⟩,
     ⟨.RPAREN, ")", 1, 14⟩, ⟨.LBRACE, "\x7b", 1, 16⟩, ⟨.RBRACE, "\x7d", 1, 18⟩,
     ⟨.END_OF_FILE, "", 1, 19⟩]
    [⟨.END_OF_FILE, "", 1, 19⟩] ⟨"x<3", .INT⟩ rfl rfl rfl rfl rfl rfl rfl rfl).1
  exact Eq.trans (congrArg (Result.map fun g => (g.functionsOutput, g.mainOutput)) h)
    (by decide)

/-- C26 (the claim fails): a close brace matches no row of the statement
dispatch, yet `generateStatement` does not skip it: with the tokens `}`,
`cetak`, `1` ahead it returns without error and without emitting anything, and
the close brace is still the current token. -/
theorem C26_close_brace_is_not_skipped :
    specDispatchKind .RBRACE = false
    ∧ (generateStatement 3 (CodeGenerator.init
        [⟨.RBRACE, "\x7d", 1, 1⟩, ⟨.CETAK, "cetak", 1, 3⟩, ⟨.INTEGER, "1", 1, 9⟩,
         ⟨.END_OF_FILE, "", 1, 10⟩])).map (fun g => (g.rest, g.functionsOutput, g.mainOutput))
      = .ok ([⟨.RBRACE, "\x7d", 1, 1⟩, ⟨.CETAK, "cetak", 1, 3⟩, ⟨.INTEGER, "1", 1, 9⟩,
          ⟨.END_OF_FILE, "", 1, 10⟩], "", "") := by
  refine ⟨by decide, by decide⟩

/-- C26 (amended): let blank lines be followed by a token whose kind matches no
row of the statement dispatch.  When the token is neither a close brace nor the
end-of-file token, `generateStatement` skips it: it returns without error the
entry state moved behind that one token, so nothing is emitted to either buffer
and the Type Table is unchanged; this covers UNKNOWN tokens, semicolons,
operators, literals, parentheses, brackets, commas, open braces, `lainnya` and
the builtin keywords.  At a close brace and at the end-of-file token it returns
without error the entry state moved to that token, which is not consumed. -/
theorem C26_unhandled_token_is_skipped (fuel : Nat) (g : CodeGenerator) (nls : List Token)
    (tok : Token) (more : List Token)
    (hnls : ∀ t ∈ nls, t.type = .NEWLINE)
    (hrest : g.rest = nls ++ tok :: more)
    (hkind : specDispatchKind tok.type = false) (hnl : tok.type ≠ .NEWLINE) :
    (tok.type ≠ .RBRACE → tok.type ≠ .END_OF_FILE →
        generateStatement (fuel + nls.length + 2) g = .ok (g.atTokens more))
    ∧ (tok.type = .RBRACE ∨ tok.type = .END_OF_FILE →
        generateStatement (fuel + nls.length + 2) g = .ok (g.atTokens (tok :: more))) := by
  have hg : g = g.atTokens (nls ++ tok :: more) := by
    cases g; simp only [atTokens] at *; simp [hrest]
  have hsk : skipNewlines (fuel + nls.length + 1) g = .ok (g.atTokens (tok :: more)) := by
    conv_lhs => rw [hg]
    exact skipNewlines_run g tok more hnl nls fuel hnls
  have hcur : (g.atTokens (tok :: more)).current = tok := rfl
  have hadv : (g.atTokens (tok :: more)).advance = g.atTokens more := rfl
  constructor
  · intro h1 h2
    rw [generateStatement, hsk]
    simp only [Result.bind, check, hcur, hadv]
    clear hsk hg hrest hnls hcur hadv
    generalize tok.type = kind at hkind hnl h1 h2 ⊢
    cases kind <;> simp [specDispatchKind] at hkind hnl h1 h2 ⊢
  · intro h
    rw [generateStatement, hsk]
    simp only [Result.bind, check, hcur]
    rcases h with h | h <;> simp [h]

/-- Witness for C26 (amended): after two blank lines the semicolon of `; cetak 1`
is skipped. -/
theorem C26_unhandled_token_witness :
    (generateStatement 4 (CodeGenerator.init
        [⟨.NEWLINE, "\\n", 1, 1⟩, ⟨.NEWLINE, "\\n", 2, 1⟩, ⟨.SEMICOLON, ";", 3, 1⟩,
         ⟨.CETAK, "cetak", 3, 3⟩, ⟨.INTEGER, "1", 3, 9⟩, ⟨.END_OF_FILE, "", 3, 10⟩])).map
          (fun g => (g.rest, g.functionsOutput, g.mainOutput))
      = .ok ([⟨.CETAK, "cetak", 3, 3⟩, ⟨.INTEGER, "1", 3, 9⟩, ⟨.END_OF_FILE, "", 3, 10⟩],
          "", "") := by
  have h := (C26_unhandled_token_is_skipped 0 (CodeGenerator.init
        [⟨.NEWLINE, "\\n", 1, 1⟩, ⟨.NEWLINE, "\\n", 2, 1⟩, ⟨.SEMICOLON, ";", 3, 1⟩,
         ⟨.CETAK, "cetak", 3, 3⟩, ⟨.INTEGER, "1", 3, 9⟩, ⟨.END_OF_FILE, "", 3, 10⟩])
    [⟨.NEWLINE, "\\n", 1, 1⟩, ⟨.NEWLINE, "\\n", 2, 1⟩] ⟨.SEMICOLON, ";", 3, 1⟩
    [⟨.CETAK, "cetak", 3, 3⟩, ⟨.INTEGER, "1", 3, 9⟩, ⟨.END_OF_FILE, "", 3, 10⟩]
    (by decide) rfl rfl (by decide)).1 (by decide) (by decide)
  exact Eq.trans (congrArg (Result.map fun g => (g.rest, g.functionsOutput, g.mainOutput)) h)
    (by decide)

/-- C28 (defect of the code): the chain construction removes only the `+`
fragments.  In `cetak "a" + 1 - 2` the expression takes the concatenation path
with the part list `"a"`, `+`, `1`, `-`, `2`, and the fragment `-` of kind
Unknown is folded as the right operand of a parenthesised addition; in
`cetak ("a" + "b")` the fragments `(` and `)` are folded as operands.  The
statements emitted are given for every fuel from 9 on. -/
theorem C28_operator_fragment_is_folded (fuel : Nat) :
    (generateTypedExpression (fuel + 7)
        (CodeGenerator.init (tokenize "\"a\" + 1 - 2".data))).map (fun r => r.1)
      = .ok ⟨"__wear_concat_str_int((__wear_concat_str_int(\"a\", 1) + -), 2)", .STRING⟩
    ∧ concatOperands [("\"a\"", .STRING), ("+", .UNKNOWN), ("1", .INT), ("-", .UNKNOWN),
          ("2", .INT)]
        = [("\"a\"", .STRING), ("1", .INT), ("-", .UNKNOWN), ("2", .INT)]
    ∧ (translate (fuel + 9) "cetak \"a\" + 1 - 2").map (fun g => g.mainOutput)
      = .ok ("    __wear_print_str(__wear_concat_str_int((__wear_concat_str_int(\"a\", 1)"
          ++ " + -), 2));\n")
    ∧ (translate (fuel + 9) "cetak (\"a\" + \"b\")").map (fun g => g.mainOutput)
      = .ok "    __wear_print_str((__wear_concat((( + \"a\"), \"b\") + )));\n" :=
  ⟨Result.eq_of_le (Result.map_le _ (generateTypedExpression_fuel_le (Nat.le_add_left 7 fuel) _))
      (by decide) (by simp),
   by decide,
   Result.eq_of_le (Result.map_le _ (translate_fuel_le _ (Nat.le_add_left 9 fuel)))
      (by decide) (by simp),
   Result.eq_of_le (Result.map_le _ (translate_fuel_le _ (Nat.le_add_left 9 fuel)))
      (by decide) (by simp)⟩

/-- C29: when the scan loop of `generateTypedExpression` returns a part list
that does not satisfy all three of: contains a Text part, contains a `+`
fragment, has three or more parts, then `generateTypedExpression` returns the
concatenation of the part fragments in their order, with nothing between them,
and the kind Text if some part has kind Text and Integer otherwise. -/
theorem C29_plain_expression (fuel : Nat) (g g1 : CodeGenerator) (parts : List Part)
    (hloop : exprLoop fuel g [] 0 = .ok (parts, g1))
    (hplain : ¬ specTakesConcatPath parts) :
    ∀ more : Nat, generateTypedExpression (fuel + 1 + more) g
      = .ok (⟨concatAll (parts.map Prod.fst), specPlainKind parts⟩, g1) := by
  intro more
  refine Result.ok_of_le (generateTypedExpression_fuel_le (Nat.le_add_right _ more) g) ?_
  rw [generateTypedExpression, hloop]
  have hcond : ¬ ((parts.any fun p => p.2 = .STRING) = true
      ∧ (parts.any fun p => p.1 = "+") = true ∧ parts.length ≥ 3) := by
    intro h
    apply hplain
    simpa [specTakesConcatPath] using h
  have hkind : (if (parts.any fun p => decide (p.2 = .STRING)) = true
      then ExprType.STRING else .INT) = specPlainKind parts := by
    have hiff : (parts.any fun p => decide (p.2 = .STRING)) = true
        ↔ ∃ p ∈ parts, p.2 = ExprType.STRING := by
      rw [List.any_eq_true]
      exact ⟨fun ⟨p, hp, h⟩ => ⟨p, hp, of_decide_eq_true h⟩,
        fun ⟨p, hp, h⟩ => ⟨p, hp, decide_eq_true h⟩⟩
    unfold specPlainKind
    by_cases hs : ∃ p ∈ parts, p.2 = ExprType.STRING
    · rw [if_pos hs, if_pos (hiff.2 hs)]
    · rw [if_neg hs, if_neg (fun h => hs (hiff.1 h))]
  simp only [Result.bind, finishTypedExpression]
  rw [if_neg hcond, finishTypedExpression_fold, hkind, String.empty_append_left]

/-- Witness for C29: the expression `1 + 2` has no Text part, and its code is
`1+2` with kind Integer; the empty expression has the empty code and kind
Integer. -/
theorem C29_plain_expression_witness :
    (generateTypedExpression 5 (CodeGenerator.init
        [⟨.INTEGER, "1", 1, 1⟩, ⟨.PLUS, "+", 1, 3⟩, ⟨.INTEGER, "2", 1, 5⟩,
         ⟨.END_OF_FILE, "", 1, 6⟩])).map (fun r => r.1)
      = .ok ⟨"1+2", .INT⟩
    ∧ (generateTypedExpression 2 (CodeGenerator.init
        [⟨.NEWLINE, "\\n", 1, 1⟩, ⟨.END_OF_FILE, "", 2, 1⟩])).map (fun r => r.1)
      = .ok ⟨"", .INT⟩ := by
  have h := C29_plain_expression 4 (CodeGenerator.init
        [⟨.INTEGER, "1", 1, 1⟩, ⟨.PLUS, "+", 1, 3⟩, ⟨.INTEGER, "2", 1, 5⟩,
         ⟨.END_OF_FILE, "", 1, 6⟩]) _ [("1", .INT), ("+", .UNKNOWN), ("2", .INT)]
    rfl (by simp [specTakesConcatPath]) 0
  have h0 := C29_plain_expression 1 (CodeGenerator.init
        [⟨.NEWLINE, "\\n", 1, 1⟩, ⟨.END_OF_FILE, "", 2, 1⟩]) _ []
    rfl (by simp [specTakesConcatPath]) 0
  exact ⟨Eq.trans (congrArg (Result.map fun r => r.1) h) (by decide),
    Eq.trans (congrArg (Result.map fun r => r.1) h0) (by decide)⟩

/-- C30: `buildStringConcat` takes as operands the parts whose fragment is
neither `+` nor a single blank.  If no operand remains the result is the empty
text literal `""` with kind Text; if exactly one operand remains the result is
that operand's fragment and kind unchanged.  The part lists the function is
given are those the scan loop of `generateTypedExpression` collects, started
with no part outside parentheses, from the tokens of a scanned source: no
fragment of such a list is a single blank, so its operands are exactly the
parts left after removing the `+` fragments, and the two cases hold for it in
these terms.  The generator states of a translation keep to the tokens of the
scanned source: the initial state holds them, and every statement, block, run
of the top-level loop and expression leaves a state whose tokens are among
those of the state it started from. -/
theorem C30_few_operands :
    (∀ parts : List Part,
      (concatOperands parts = [] → buildStringConcat parts = ⟨"\"\"", .STRING⟩)
      ∧ (∀ p, concatOperands parts = [p] → buildStringConcat parts = ⟨p.1, p.2⟩)
      ∧ ((∀ p ∈ parts, p.1 ≠ " ") →
          concatOperands parts = parts.filter fun p => p.1 ≠ "+"))
    ∧ (∀ (source : List Char) (fuel : Nat) (g g1 : CodeGenerator) (parts : List Part),
        (∀ t ∈ g.rest ++ [g.last], t ∈ tokenize source) →
        exprLoop fuel g [] 0 = .ok (parts, g1) →
        (∀ p ∈ parts, p.1 ≠ " ")
        ∧ ((parts.filter fun p => p.1 ≠ "+") = [] →
            buildStringConcat parts = ⟨"\"\"", .STRING⟩)
        ∧ (∀ p, (parts.filter fun p => p.1 ≠ "+") = [p] →
            buildStringConcat parts = ⟨p.1, p.2⟩))
    ∧ (∀ source : List Char,
        ∀ t ∈ (CodeGenerator.init (tokenize source)).rest
            ++ [(CodeGenerator.init (tokenize source)).last], t ∈ tokenize source)
    ∧ (∀ (fuel : Nat) (g g1 : CodeGenerator),
        (generateStatement fuel g = .ok g1 ∨ blockLoop fuel g = .ok g1
          ∨ topLevelLoop fuel g = .ok g1) →
        ∀ t ∈ g1.rest ++ [g1.last], t ∈ g.rest ++ [g.last])
    ∧ (∀ (fuel : Nat) (g g1 : CodeGenerator) (e : ExprResult),
        generateTypedExpression fuel g = .ok (e, g1) →
        ∀ t ∈ g1.rest ++ [g1.last], t ∈ g.rest ++ [g.last]) := by
  have hgen : ∀ parts : List Part,
      (concatOperands parts = [] → buildStringConcat parts = ⟨"\"\"", .STRING⟩)
      ∧ (∀ p, concatOperands parts = [p] → buildStringConcat parts = ⟨p.1, p.2⟩)
      ∧ ((∀ p ∈ parts, p.1 ≠ " ") →
          concatOperands parts = parts.filter fun p => p.1 ≠ "+") := by
    intro parts
    refine ⟨?_, ?_, ?_⟩
    · intro h
      have h0 : (parts.filter fun p => p.1 ≠ "+" ∧ p.1 ≠ " ") = [] := h
      simp only [buildStringConcat, h0]
    · intro p h
      have h0 : (parts.filter fun p => p.1 ≠ "+" ∧ p.1 ≠ " ") = [p] := h
      simp only [buildStringConcat, h0]
    · intro h
      apply List.filter_congr
      intro p hp
      simp [h p hp]
  refine ⟨hgen, ?_, ?_, ?_, ?_⟩
  · intro source fuel g g1 parts hg h
    have hclean : NoBlankLexeme g := fun t ht hk => tokenize_noBlank source t (hg t ht) hk
    have hparts : ∀ p ∈ parts, p.1 ≠ " " :=
      exprLoop_noBlank fuel g [] 0 hclean (fun p hp => absurd hp (List.not_mem_nil p))
        (parts, g1) h
    have hops := (hgen parts).2.2 hparts
    refine ⟨hparts, fun h0 => (hgen parts).1 (hops.trans h0),
      fun p hp => (hgen parts).2.1 p (hops.trans hp)⟩
  · intro source t ht
    rcases List.mem_append.mp ht with ht | ht
    · exact ht
    · rw [List.mem_singleton.mp ht]
      simp [CodeGenerator.init, tokenize]
  · intro fuel g g1 h t ht
    have hrel : KindKept "" g g1 := by
      rcases h with h | h | h
      · exact generateStatement_related (kindKept_relation "") h
      · exact blockLoop_related (kindKept_relation "") h
      · exact topLevelLoop_related (kindKept_relation "") fuel g g1 h
    obtain ⟨hl, c, hc, _⟩ := hrel
    rw [hc]
    rcases List.mem_append.mp ht with ht | ht
    · exact List.mem_append_left _ (List.mem_append_right _ ht)
    · rw [hl] at ht
      exact List.mem_append_right _ ht
  · intro fuel g g1 e h t ht
    have hP : AdvanceStable (fun g2 : CodeGenerator =>
        ∀ t ∈ g2.rest ++ [g2.last], t ∈ g.rest ++ [g.last]) := by
      intro g2 h2 u hu
      apply h2 u
      rcases List.mem_append.mp hu with hu | hu
      · exact List.mem_append_left _ (List.mem_of_mem_tail hu)
      · exact List.mem_append_right _ hu
    exact generateTypedExpression_advances hP fuel (fun u hu => hu) (e, g1) h t ht

/-- Witness for C30: the expression `"a" + +` of a scanned source gives the
parts `"a"`, `+`, `+`; one operand remains, and the result is its fragment and
kind. -/
theorem C30_few_operands_witness :
    ∃ r, exprLoop 5 (CodeGenerator.init (tokenize "\"a\" + +".data)) [] 0 = .ok r
      ∧ r.1 = [("\"a\"", .STRING), ("+", .UNKNOWN), ("+", .UNKNOWN)]
      ∧ buildStringConcat r.1 = ⟨"\"a\"", .STRING⟩ := by
  obtain ⟨r, hr⟩ := Result.exists_of_isOk
    (by decide : (exprLoop 5 (CodeGenerator.init (tokenize "\"a\" + +".data)) [] 0).isOk = true)
  have hmap : (exprLoop 5 (CodeGenerator.init (tokenize "\"a\" + +".data)) [] 0).map
      (fun r => r.1) = .ok [("\"a\"", .STRING), ("+", .UNKNOWN), ("+", .UNKNOWN)] := by
    decide
  rw [hr] at hmap
  have hparts : r.1 = [("\"a\"", .STRING), ("+", .UNKNOWN), ("+", .UNKNOWN)] :=
    Result.ok.inj hmap
  refine ⟨r, hr, hparts, ?_⟩
  exact (C30_few_operands.2.1 "\"a\" + +".data 5 _ r.2 r.1
    (C30_few_operands.2.2.1 "\"a\" + +".data) hr).2.2 ("\"a\"", .STRING)
    (by rw [hparts]; decide)

/-- C32 (defect of the code): the declaration handler takes the lexeme of the
token after `var` as the variable name without looking at its kind.  For every
spelling `k` of the keyword table the source `var k = 1` is scanned with `k` as
a keyword token, and its translation emits the binding `int k = 1;` and records
`k` in the Type Table as Integer.  These are the outcomes for every fuel from 5
on. -/
theorem C32_keyword_named_variable :
    ∀ p ∈ keywordTable,
      (tokenize ("var " ++ p.1 ++ " = 1").data).map (fun t => t.type)
        = [.VAR, p.2, .EQUAL, .INTEGER, .END_OF_FILE]
      ∧ ∀ fuel : Nat,
        (translate (fuel + 5) ("var " ++ p.1 ++ " = 1")).map
            (fun g => (g.mainOutput, g.varTypes p.1))
          = .ok ("    int " ++ p.1 ++ " = 1;\n", some ExprType.INT) := by
  have h1 : ∀ p ∈ keywordTable,
      (tokenize ("var " ++ p.1 ++ " = 1").data).map (fun t => t.type)
        = [.VAR, p.2, .EQUAL, .INTEGER, .END_OF_FILE] := by decide
  have h2 : ∀ p ∈ keywordTable,
      (translate 5 ("var " ++ p.1 ++ " = 1")).map (fun g => (g.mainOutput, g.varTypes p.1))
        = .ok ("    int " ++ p.1 ++ " = 1;\n", some ExprType.INT) := by decide
  intro p hp
  exact ⟨h1 p hp, fun fuel =>
    Result.eq_of_le (Result.map_le _ (translate_fuel_le _ (Nat.le_add_left 5 fuel)))
      (h2 p hp) (by simp)⟩

/-- Witness for C32: the source `var cetak = 1`. -/
theorem C32_keyword_named_variable_witness :
    (translate 5 "var cetak = 1").map (fun g => (g.mainOutput, g.varTypes "cetak"))
      = .ok ("    int cetak = 1;\n", some ExprType.INT) :=
  (C32_keyword_named_variable ("cetak", .CETAK) (by decide)).2 0

/-- C33: the parameter loop of a function declaration returns the state it was
entered in, moved to a later token, so the Type Table is unchanged; the body of
a function declaration is translated from the Type Table the declaration was
entered with.  A reference to an identifier that the Type Table does not record
as Text, and that is not followed by `(`, is given kind Integer.  For
`fungsi f(p) { cetak p }` the signature binds `char* p`, the body prints
`p` as an integer, and `p` is not recorded; this is the outcome for every fuel
from 8 on. -/
theorem C33_parameters_not_recorded :
    (∀ (fuel : Nat) (g g1 : CodeGenerator) (params names : List String),
        parameterLoop fuel g params = .ok (names, g1) →
          g1 = g.atTokens g1.rest ∧ g1.varTypes = g.varTypes)
    ∧ (∀ (fuel : Nat) (g g1 : CodeGenerator), generateFunctionDecl (fuel + 1) g = .ok g1 →
        ∃ entry leave : CodeGenerator, blockLoop fuel entry = .ok leave
          ∧ entry.varTypes = g.varTypes ∧ g1.varTypes = leave.varTypes)
    ∧ (∀ (fuel : Nat) (g : CodeGenerator) (parts : List Part) (d : Int),
        g.current.type = .IDENTIFIER → g.advance.current.type ≠ .LPAREN →
        g.varTypes g.current.value ≠ some .STRING →
          exprLoop (fuel + 1) g parts d
            = exprLoop fuel g.advance (parts ++ [(g.current.value, .INT)]) d)
    ∧ ∀ fuel : Nat,
        (translate (fuel + 8) "fungsi f(p) \x7b cetak p \x7d").map
            (fun g => (g.functionsOutput, g.mainOutput, g.varTypes "p"))
          = .ok ("int f(char* p) \x7b\n    __wear_print_int(p);\n\x7d\n\n", "", none) := by
  refine ⟨?_, ?_, ?_, ?_⟩
  · intro fuel g g1 params names h
    have hframe := parameterLoop_frame h
    exact ⟨hframe, by rw [hframe]; rfl⟩
  · intro fuel g g1 h
    obtain ⟨params, rest5, g8, _, hbody, hexit⟩ := generateFunctionDecl_ok h
    exact ⟨_, g8, hbody, rfl, by rw [hexit]; rfl⟩
  · intro fuel g parts d hid hnext hkind
    rw [exprLoop_variable fuel g parts d hid hnext, if_neg hkind]
  · intro fuel
    exact Result.eq_of_le (Result.map_le _ (translate_fuel_le _ (Nat.le_add_left 8 fuel)))
      (by decide) (by simp)

/-- Witness for C33: the parameter list `p, q` read by the parameter loop from
the initial state, whose Type Table is empty. -/
theorem C33_parameters_witness :
    ∃ g1 : CodeGenerator,
      parameterLoop 3 (CodeGenerator.init
          [⟨.IDENTIFIER, "p", 1, 10⟩, ⟨.COMMA, ",", 1, 11⟩, ⟨.IDENTIFIER, "q", 1, 13⟩,
           ⟨.RPAREN, ")", 1, 14⟩, ⟨.END_OF_FILE, "", 1, 15⟩]) [] = .ok (["p", "q"], g1)
      ∧ g1.varTypes "p" = none ∧ g1.varTypes "q" = none :=
  ⟨_, rfl,
    congrFun (C33_parameters_not_recorded.1 3 (CodeGenerator.init
          [⟨.IDENTIFIER, "p", 1, 10⟩, ⟨.COMMA, ",", 1, 11⟩, ⟨.IDENTIFIER, "q", 1, 13⟩,
           ⟨.RPAREN, ")", 1, 14⟩, ⟨.END_OF_FILE, "", 1, 15⟩]) _ [] ["p", "q"] rfl).2 "p",
    congrFun (C33_parameters_not_recorded.1 3 (CodeGenerator.init
          [⟨.IDENTIFIER, "p", 1, 10⟩, ⟨.COMMA, ",", 1, 11⟩, ⟨.IDENTIFIER, "q", 1, 13⟩,
           ⟨.RPAREN, ")", 1, 14⟩, ⟨.END_OF_FILE, "", 1, 15⟩]) _ [] ["p", "q"] rfl).2 "q"⟩

/-- C34: every statement that translates without error leaves the indent level
and the emission target as they were when `generateStatement` was called, and
the tokens still to be read afterwards are a suffix of the tokens that were
still to be read before: the token position has not moved backwards.  This
holds for every generator state and every statement, with nested loops,
conditionals with else chains and function declarations included. -/
theorem C34_statement_restores_layout (fuel : Nat) (g g1 : CodeGenerator)
    (h : generateStatement fuel g = .ok g1) :
    g1.indentLevel = g.indentLevel ∧ g1.currentOutput = g.currentOutput
      ∧ ∃ consumed, g.rest = consumed ++ g1.rest := by
  have hlayout : KeepsLayout g g1 := generateStatement_related keepsLayout_relation h
  have hforward : MovesForward g g1 := generateStatement_related movesForward_relation h
  exact ⟨hlayout.2, hlayout.1, hforward⟩

/-- Witness for C34: a function declaration whose body is a loop, and a loop
whose body is a conditional, each followed by a print statement that is left
unread. -/
theorem C34_statement_restores_layout_witness :
    (∃ g1 : CodeGenerator,
      generateStatement 10 (CodeGenerator.init (tokenize
        "fungsi f(a) \x7b selama (a) \x7b cetak 1 \x7d \x7d\ncetak 3".data)) = .ok g1
      ∧ g1.indentLevel = 1 ∧ g1.currentOutput = .main
      ∧ ∃ consumed, tokenize
          "fungsi f(a) \x7b selama (a) \x7b cetak 1 \x7d \x7d\ncetak 3".data
            = consumed ++ g1.rest)
    ∧ ∃ g1 : CodeGenerator,
      generateStatement 10 (CodeGenerator.init (tokenize
        "selama (a) \x7b jika (a) \x7b cetak 1 \x7d \x7d\ncetak 3".data)) = .ok g1
      ∧ g1.indentLevel = 1 ∧ g1.currentOutput = .main
      ∧ ∃ consumed, tokenize
          "selama (a) \x7b jika (a) \x7b cetak 1 \x7d \x7d\ncetak 3".data
            = consumed ++ g1.rest := by
  have hok1 : (generateStatement 10 (CodeGenerator.init (tokenize
        "fungsi f(a) \x7b selama (a) \x7b cetak 1 \x7d \x7d\ncetak 3".data))).isOk = true := by
    decide
  have hok2 : (generateStatement 10 (CodeGenerator.init (tokenize
        "selama (a) \x7b jika (a) \x7b cetak 1 \x7d \x7d\ncetak 3".data))).isOk = true := by
    decide
  obtain ⟨g1, h1⟩ := Result.exists_of_isOk hok1
  obtain ⟨g2, h2⟩ := Result.exists_of_isOk hok2
  exact ⟨⟨g1, h1, C34_statement_restores_layout 10 _ g1 h1⟩,
    ⟨g2, h2, C34_statement_restores_layout 10 _ g2 h2⟩⟩

/-- C35: entered at a depth that is not negative, the scan loop of
`generateTypedExpression` keeps the depth non-negative: it only appends parts,
and the entry depth plus the depth changes of the parts appended so far (`+1`
for each `(` fragment, `-1` for each `)` fragment) is never negative.  A `)` at
depth zero ends the expression and is not consumed.  Nothing checks that the
depth is back at zero at the end: `cetak (1 + 2` followed by a newline
translates without error, the expression ends at depth 1, and the statement
emitted is `__wear_print_int((1+2);`, for every fuel from 8 on. -/
theorem C35_parenthesis_depth :
    (∀ (fuel : Nat) (g g1 : CodeGenerator) (parts0 parts : List Part) (d : Int), 0 ≤ d →
        exprLoop fuel g parts0 d = .ok (parts, g1) →
          ∃ added, parts = parts0 ++ added ∧ ∀ k, 0 ≤ d + parenBalance (added.take k))
    ∧ (∀ (fuel : Nat) (g : CodeGenerator) (parts : List Part), g.current.type = .RPAREN →
        exprLoop (fuel + 1) g parts 0 = .ok (parts, g)
          ∧ generateTypedExpression (fuel + 2) g = .ok (⟨"", .INT⟩, g))
    ∧ (exprLoop 5 (CodeGenerator.init (tokenize "(1 + 2\n".data)) [] 0).map
          (fun r => (r.1, parenBalance r.1))
        = .ok ([("(", .UNKNOWN), ("1", .INT), ("+", .UNKNOWN), ("2", .INT)], 1)
    ∧ ∀ fuel : Nat,
        (translate (fuel + 8) "cetak (1 + 2\n").map (fun g => g.mainOutput)
          = .ok "    __wear_print_int((1+2);\n" := by
  refine ⟨?_, ?_, by decide, ?_⟩
  · intro fuel g g1 parts0 parts d hd h
    exact exprLoop_depth fuel g parts0 d hd (parts, g1) h
  · intro fuel g parts hty
    have hstop : ∀ (n : Nat) (ps : List Part), exprLoop (n + 1) g ps 0 = .ok (ps, g) :=
      fun n ps => exprLoop_stop n g ps (by rw [hty]; rfl)
    refine ⟨hstop fuel parts, ?_⟩
    rw [generateTypedExpression, hstop fuel []]
    rfl
  · intro fuel
    exact Result.eq_of_le (Result.map_le _ (translate_fuel_le _ (Nat.le_add_left 8 fuel)))
      (by decide) (by simp)

/-- Witness for C35: in `(1 + 2)) + 3` the second `)` stands at depth zero and
ends the expression; the parts read up to it keep the depth non-negative. -/
theorem C35_parenthesis_depth_witness :
    ∃ added : List Part,
      [("(", ExprType.UNKNOWN), ("1", .INT), ("+", .UNKNOWN), ("2", .INT), (")", .UNKNOWN)]
          = [] ++ added
        ∧ ∀ k, 0 ≤ (0 : Int) + parenBalance (added.take k) :=
  C35_parenthesis_depth.1 7 (CodeGenerator.init (tokenize "(1 + 2)) + 3".data)) _ []
    [("(", .UNKNOWN), ("1", .INT), ("+", .UNKNOWN), ("2", .INT), (")", .UNKNOWN)] 0
    (le_refl _) rfl

end TranslatorClaims


/-! ## Claims about the scanner -/

section ScannerClaims

open Lexer

/-- C9: for every source text, `tokenize` returns a sequence that ends with one
token of kind END_OF_FILE and has no other token of that kind; in particular
the sequence is not empty.  The bound on the main loop is adequate: more
iterations than the length of the source change nothing. -/
theorem C9_tokenize_ends_with_single_eof (source : List Char) :
    (∃ (tokens : List Token) (eof : Token),
        tokenize source = tokens ++ [eof] ∧ eof.type = .END_OF_FILE
          ∧ ∀ t ∈ tokens, t.type ≠ .END_OF_FILE)
    ∧ ∀ k : Nat, tokenizeLoop (source.length + k) ⟨source, 1, 1⟩ []
        = tokenizeLoop source.length ⟨source, 1, 1⟩ [] := by
  refine ⟨⟨_, _, rfl, rfl, fun t ht => ?_⟩, fun k => tokenizeLoop_fuel_add ⟨source, 1, 1⟩ [] k⟩
  exact (tokenizeLoop_shape source source.length ⟨source, 1, 1⟩ [] (Lexer.At.start source)
    (fun u hu => absurd hu (List.not_mem_nil u)) t ht).2

/-- C10: for every source text and every token `tokenize` returns: an
IDENTIFIER token has a non-empty lexeme that starts with a letter or underscore,
consists of letters, digits and underscores only, and is not a key of the
keyword table; a token of a keyword kind has a lexeme the keyword table maps to
that kind; an INTEGER token has a lexeme that is a non-empty run of decimal
digits, stands in the source at the token's line and column, and is followed
there by no further digit. -/
theorem C10_lexeme_shapes (source : List Char) (t : Token) (ht : t ∈ tokenize source) :
    (t.type = .IDENTIFIER →
        (∃ c cs, t.value.data = c :: cs ∧ (c.isAlpha = true ∨ c = '_')
          ∧ ∀ d ∈ c :: cs, d.isAlpha = true ∨ d.isDigit = true ∨ d = '_')
        ∧ keywords t.value = none)
    ∧ (isKeywordKind t.type = true → keywords t.value = some t.type)
    ∧ (t.type = .INTEGER →
        t.value.data ≠ [] ∧ (∀ d ∈ t.value.data, d.isDigit = true)
        ∧ ∃ pre post, source = pre ++ t.value.data ++ post
            ∧ positionAfter pre = (t.line, t.column)
            ∧ ∀ c, post.head? = some c → c.isDigit = false) := by
  unfold tokenize at ht
  rcases List.mem_append.mp ht with h | h
  · exact (tokenizeLoop_shape source source.length ⟨source, 1, 1⟩ [] (Lexer.At.start source)
      (fun u hu => absurd hu (List.not_mem_nil u)) t h).1
  · rw [List.mem_singleton.mp h]
    exact LexemeShape.of_other source _ rfl (by simp) (by simp)

/-- Witness for C10: the integer token of the source `ab 12+x`. -/
theorem C10_lexeme_shapes_witness :
    ⟨.INTEGER, "12", 1, 4⟩ ∈ tokenize "ab 12+x".data
    ∧ ∃ pre post, "ab 12+x".data = pre ++ "12".data ++ post
        ∧ positionAfter pre = (1, 4)
        ∧ ∀ c, post.head? = some c → c.isDigit = false := by
  have hmem : (⟨.INTEGER, "12", 1, 4⟩ : Token) ∈ tokenize "ab 12+x".data := by decide
  exact ⟨hmem, ((C10_lexeme_shapes "ab 12+x".data ⟨.INTEGER, "12", 1, 4⟩ hmem).2.2 rfl).2.2⟩

/-- C21: let `c` be one of `=`, `<`, `>`, `!`.  When the main loop of `tokenize`
stands at `c` directly followed by `=`, it pushes the one token of the
two-character operator (EQUAL_EQUAL, LESS_EQUAL, GREATER_EQUAL, NOT_EQUAL) and
goes on behind the two characters; when `c` is followed by another character
or by the end of the input, it pushes the token of the single character (EQUAL,
LESS, GREATER, and UNKNOWN with lexeme `!`) and goes on behind `c`.  The column
behind the characters is the `int` the increments of `advance()` give: one or
two more than the column of `c`, as long as that is below 2^31.  A source that
consists of exactly one of `==`, `!=`, `<=`, `>=` gives that one token and
the end-of-file token. -/
theorem C21_comparison_operators :
    (∀ (c : Char) (two one : TokenType) (s2 s1 : String),
      (c, (two, s2), (one, s1)) ∈ specComparisonOperators →
      ∀ (rest : List Char) (l k : Int),
        tokenizeFrom ⟨c :: '=' :: rest, l, k⟩
            = ⟨two, s2, l, k⟩ :: tokenizeFrom ⟨rest, l, toInt32 (k + 2)⟩
        ∧ (rest.head? ≠ some '=' →
            tokenizeFrom ⟨c :: rest, l, k⟩
              = ⟨one, s1, l, k⟩ :: tokenizeFrom ⟨rest, l, toInt32 (k + 1)⟩))
    ∧ tokenize "==".data = [⟨.EQUAL_EQUAL, "==", 1, 1⟩, ⟨.END_OF_FILE, "", 1, 3⟩]
    ∧ tokenize "!=".data = [⟨.NOT_EQUAL, "!=", 1, 1⟩, ⟨.END_OF_FILE, "", 1, 3⟩]
    ∧ tokenize "<=".data = [⟨.LESS_EQUAL, "<=", 1, 1⟩, ⟨.END_OF_FILE, "", 1, 3⟩]
    ∧ tokenize ">=".data = [⟨.GREATER_EQUAL, ">=", 1, 1⟩, ⟨.END_OF_FILE, "", 1, 3⟩]
    ∧ ∀ k : Int, -2147483648 ≤ k → k + 2 < 2147483648 →
        toInt32 (k + 1) = k + 1 ∧ toInt32 (k + 2) = k + 2 := by
  refine ⟨?_, by decide, by decide, by decide, by decide,
    fun k h1 h2 => ⟨toInt32_of_range (by omega) (by omega),
      toInt32_of_range (by omega) (by omega)⟩⟩
  intro c two one s2 s1 hmem rest l k
  obtain ⟨hb, hnul, hlf, hsl, hq, hd, ha, hu⟩ := specComparisonOperators_char c two one s2 s1 hmem
  constructor
  · rw [tokenizeFrom_operator c _ l k hb hnul hlf hsl hq hd ha hu,
      scanOperator_comparison c two one s2 s1 hmem, double_cons_eq c rest l k hlf]
    rfl
  · intro hrest
    rw [tokenizeFrom_operator c _ l k hb hnul hlf hsl hq hd ha hu,
      scanOperator_comparison c two one s2 s1 hmem, double_cons_other c rest l k hlf hrest]
    rfl

/-- Witness for C21: in the source `!x =x` the `!` is followed by `x`, and the
scanner pushes UNKNOWN with lexeme `!` at line 1, column 1. -/
theorem C21_comparison_operators_witness :
    tokenize "!x =x".data
      = ⟨.UNKNOWN, "!", 1, 1⟩ :: tokenizeFrom ⟨"x =x".data, 1, 2⟩ :=
  ((C21_comparison_operators.1 '!' .NOT_EQUAL .UNKNOWN "!=" "!" (by decide)
    "x =x".data 1 1).2 (by decide))

/-- C22: let `t` hold no newline and no NUL character.  Tokenizing `//`, `t`, a
newline and `rest` yields the same sequence of token kinds and lexemes as
tokenizing the newline and `rest`: both are the NEWLINE token followed by the
tokens of `rest` scanned from line 2, column 1, and they differ only in the
column of that NEWLINE token, which behind the comment is the `int` that 3 plus
the length of `t` gives: that number itself as long as it is below 2^31.
Tokenizing `//` followed by `t` alone yields only the end-of-file token. -/
theorem C22_line_comment (t rest : List Char) (ht : ∀ c ∈ t, c ≠ LF ∧ c ≠ NUL) :
    (tokenize ('/' :: '/' :: t ++ LF :: rest)).map (fun u => (u.type, u.value))
      = (tokenize (LF :: rest)).map (fun u => (u.type, u.value))
    ∧ tokenize ('/' :: '/' :: t ++ LF :: rest)
      = ⟨.NEWLINE, "\\n", 1, toInt32 (3 + t.length)⟩ :: tokenizeFrom ⟨rest, 2, 1⟩
    ∧ tokenize (LF :: rest) = ⟨.NEWLINE, "\\n", 1, 1⟩ :: tokenizeFrom ⟨rest, 2, 1⟩
    ∧ tokenize ('/' :: '/' :: t) = [⟨.END_OF_FILE, "", 1, toInt32 (3 + t.length)⟩]
    ∧ (t.length + 3 < 2 ^ 31 → toInt32 (3 + t.length) = 3 + t.length) := by
  have e2 : toInt32 (1 + 1) = 2 := by decide
  have e3 : (1 : Int) + 2 = 3 := by decide
  have h1 : tokenize ('/' :: '/' :: t ++ LF :: rest)
      = ⟨.NEWLINE, "\\n", 1, toInt32 (3 + t.length)⟩ :: tokenizeFrom ⟨rest, 2, 1⟩ := by
    rw [tokenize_eq_tokenizeFrom, tokenizeFrom_comment t (LF :: rest) 1 1 ht (Or.inr rfl),
      tokenizeFrom_newline, e2, e3]
  have h2 : tokenize (LF :: rest) = ⟨.NEWLINE, "\\n", 1, 1⟩ :: tokenizeFrom ⟨rest, 2, 1⟩ := by
    rw [tokenize_eq_tokenizeFrom, tokenizeFrom_newline, e2]
  refine ⟨?_, h1, h2, ?_, fun hlen => toInt32_of_range (by omega) (by omega)⟩
  · rw [h1, h2, List.map_cons, List.map_cons]
  · have h3 := tokenizeFrom_comment t [] 1 1 ht (Or.inl rfl)
    rw [List.append_nil] at h3
    rw [tokenize_eq_tokenizeFrom, h3, tokenizeFrom_nil, e3]

/-- Witness for C22: the comment ` hello` in front of the line `cetak 1`. -/
theorem C22_line_comment_witness :
    (tokenize "// hello\ncetak 1".data).map (fun u => (u.type, u.value))
      = [(.NEWLINE, "\\n"), (.CETAK, "cetak"), (.INTEGER, "1"), (.END_OF_FILE, "")] :=
  ((C22_line_comment " hello".data "cetak 1".data (by decide)).1).trans (by decide)

/-- C23 (the claim fails): the body that consists of the one character NUL holds
no double quote and no backslash, yet the STRING token of the literal has the
empty value: the scan of the literal stops at the NUL, and so does the main
loop. -/
theorem C23_nul_ends_text_literal :
    (∀ c ∈ [NUL], c ≠ DQUOTE)
    ∧ (∀ i, [NUL][i]? = some BACKSLASH → [NUL][i + 1]? = some 'n')
    ∧ tokenize (DQUOTE :: [NUL] ++ [DQUOTE])
        = [⟨.STRING, "", 1, 1⟩, ⟨.END_OF_FILE, "", 1, 2⟩]
    ∧ String.mk [NUL] ≠ "" := by
  refine ⟨by decide, ?_, by decide, by decide⟩
  intro i hi
  cases i with
  | zero => exact absurd hi (by decide)
  | succ i => simp at hi

/-- C23 (amended): let the body `b` hold no double quote and no NUL character,
and let every backslash of `b` be followed by `n`.  At the literal `"b"` the
main loop of `tokenize` pushes one STRING token whose value is `b` character
for character (an escape `\n` stays the two characters backslash and `n`), at
the position of the opening quote, and goes on behind the closing quote, at the
line and column the increments of `advance()` give as `int`; an increment adds
one as long as the result is below 2^31.  The source that is just the literal
gives that token and the end-of-file token. -/
theorem C23_text_literal_value (b : List Char)
    (hquote : ∀ c ∈ b, c ≠ DQUOTE) (hnul : ∀ c ∈ b, c ≠ NUL)
    (hesc : ∀ i, b[i]? = some BACKSLASH → b[i + 1]? = some 'n') :
    (∀ (rest : List Char) (l k : Int),
      tokenizeFrom ⟨DQUOTE :: b ++ DQUOTE :: rest, l, k⟩
        = ⟨.STRING, String.mk b, l, k⟩
          :: tokenizeFrom ⟨rest, (positionFrom (l, toInt32 (k + 1)) b).1,
              toInt32 ((positionFrom (l, toInt32 (k + 1)) b).2 + 1)⟩)
    ∧ tokenize (DQUOTE :: b ++ [DQUOTE])
        = [⟨.STRING, String.mk b, 1, 1⟩,
           ⟨.END_OF_FILE, "", (positionFrom (1, 2) b).1,
             toInt32 ((positionFrom (1, 2) b).2 + 1)⟩]
    ∧ ∀ k : Int, -2147483648 ≤ k → k + 1 < 2147483648 → toInt32 (k + 1) = k + 1 := by
  have hchars : ∀ c ∈ b, c ≠ DQUOTE ∧ c ≠ NUL := fun c hc => ⟨hquote c hc, hnul c hc⟩
  have hgen : ∀ (rest : List Char) (l k : Int),
      tokenizeFrom ⟨DQUOTE :: b ++ DQUOTE :: rest, l, k⟩
        = ⟨.STRING, String.mk b, l, k⟩
          :: tokenizeFrom ⟨rest, (positionFrom (l, toInt32 (k + 1)) b).1,
              toInt32 ((positionFrom (l, toInt32 (k + 1)) b).2 + 1)⟩ := by
    intro rest l k
    have hscan := scanString_body b rest l k hchars hesc
    have hcur : (Lexer.mk (DQUOTE :: b ++ DQUOTE :: rest) l k).current = DQUOTE := rfl
    refine tokenizeFrom_step _ _ [⟨.STRING, String.mk b, l, k⟩] (fun n tokens => ?_)
      (by simp only [List.cons_append, List.length_cons, List.length_append]; omega)
    rw [tokenizeLoop_of_not_blank n _ tokens (by simp) (by rw [hcur]; decide)]
    have h1 : DQUOTE ≠ NUL := by decide
    have h2 : DQUOTE ≠ LF := by decide
    have h3 : ¬ (DQUOTE = '/' ∧ (Lexer.mk (DQUOTE :: b ++ DQUOTE :: rest) l k).peek = '/') :=
      fun h => absurd h.1 (by decide)
    simp only [hcur, if_neg h1, if_neg h2, if_neg h3, if_true, hscan]
  refine ⟨hgen, ?_, fun k h1 h2 => toInt32_of_range (by omega) (by omega)⟩
  have e2 : toInt32 (1 + 1) = 2 := by decide
  rw [tokenize_eq_tokenizeFrom, hgen [] 1 1, tokenizeFrom_nil, e2]

/-- Witness for C23 (amended): the literal `"a\nb c"` of the source text, with
the escape kept as backslash and `n`. -/
theorem C23_text_literal_witness :
    tokenize "\"a\\nb c\"".data
      = [⟨.STRING, "a\\nb c", 1, 1⟩, ⟨.END_OF_FILE, "", 1, 9⟩] := by
  have h := (C23_text_literal_value "a\\nb c".data (by decide) (by decide) (by
    intro i hi
    have hlt : i < 6 := by
      by_contra hge
      have : "a\\nb c".data[i]? = none := List.getElem?_eq_none (by simp at hge ⊢; omega)
      rw [this] at hi
      exact absurd hi (by simp)
    interval_cases i <;> first | rfl | exact absurd hi (by decide))).2.1
  exact h.trans (by decide)

/-- C24 (the claim fails): the NUL character is none of the characters the
claim excludes, yet the scanner makes no UNKNOWN token of it.  The main loop
ends at a NUL: the source that holds just a NUL gives only the end-of-file
token, and in the source `a`, NUL, `b` nothing behind the NUL is scanned. -/
theorem C24_nul_gives_no_token :
    specUnrecognized NUL = true
    ∧ tokenize [NUL] = [⟨.END_OF_FILE, "", 1, 1⟩]
    ∧ tokenize ['a', NUL, 'b'] = [⟨.IDENTIFIER, "a", 1, 1⟩, ⟨.END_OF_FILE, "", 1, 2⟩] := by
  decide

/-- C24 (amended): `tokenize` is total, and its main loop ends by its own exit
test within the bound of one iteration per character.  For every character `c`
other than NUL that is not a space, tab, carriage return, newline, double
quote, decimal digit, letter, underscore or one of the operator and delimiter
characters: when the main loop stands at `c`, it pushes a token of kind UNKNOWN
whose lexeme is the one character `c`, at the line and column of `c`, and goes
on with the character after `c`, the `int` column incremented: one more as long
as that is below 2^31. -/
theorem C24_unrecognized_character :
    (∀ source : List Char,
      (tokenizeLoop source.length ⟨source, 1, 1⟩ []).2.current = NUL
      ∧ ∀ more : Nat, tokenizeLoop (source.length + more) ⟨source, 1, 1⟩ []
          = tokenizeLoop source.length ⟨source, 1, 1⟩ [])
    ∧ (∀ (c : Char), specUnrecognized c = true → c ≠ NUL →
        ∀ (rest : List Char) (l k : Int),
          tokenizeFrom ⟨c :: rest, l, k⟩
            = ⟨.UNKNOWN, String.singleton c, l, k⟩
              :: tokenizeFrom ⟨rest, l, toInt32 (k + 1)⟩)
    ∧ ∀ k : Int, -2147483648 ≤ k → k + 1 < 2147483648 → toInt32 (k + 1) = k + 1 := by
  refine ⟨fun source => ⟨tokenizeLoop_exit _ _ _ (Nat.le_refl _),
    fun more => tokenizeLoop_fuel_add ⟨source, 1, 1⟩ [] more⟩, ?_,
    fun k h1 h2 => toInt32_of_range (by omega) (by omega)⟩
  intro c hc hnul rest l k
  simp only [specUnrecognized, decide_eq_true_eq] at hc
  obtain ⟨h1, h2, h3, h4, h5, h6, h7, h8, h9⟩ := hc
  have hsl : c ≠ '/' := fun h => h9 (by rw [h]; decide)
  rw [tokenizeFrom_operator c rest l k ⟨h1, h2, h3⟩ hnul h4 hsl h5 h6 h7 h8,
    scanOperator_unrecognized c rest l k h9 h4]
  rfl

/-- Witness for C24 (amended): the character `@` of the source `@ b`. -/
theorem C24_unrecognized_character_witness :
    tokenize "@ b".data = ⟨.UNKNOWN, "@", 1, 1⟩ :: tokenizeFrom ⟨" b".data, 1, 2⟩ :=
  C24_unrecognized_character.2.1 '@' (by decide) (by decide) " b".data 1 1

/-- C25: the scanner counts line and column in the 32-bit `int` of `advance()`.
For every source text of fewer than 2^31 - 1 characters, every token `tokenize`
returns other than the end-of-file token stands at a place of the source,
`source = pre ++ post` with `post` beginning with the token's first character,
such that the token's line is 1 plus the number of newline characters in `pre`
and its column is 1 plus the number of characters of `pre` behind its last
newline (or behind the start of the source); and the positions of consecutive
tokens, the end-of-file token included, are strictly increasing in
lexicographic order of line and column.  For the source of 2^31 blanks followed
by `x` the column counter has wrapped: the identifier `x` is reported at line 1,
column -2147483647, where the claimed column is 2^31 + 1, and no place of the
source has that line and column. -/
theorem C25_token_positions_in_int_range :
    (∀ source : List Char, source.length + 1 < 2 ^ 31 →
      (∀ t ∈ tokenize source, t.type ≠ .END_OF_FILE →
        ∃ pre post, source = pre ++ post ∧ tokenStartsAt t post
          ∧ t.line = (specLine pre : Int) ∧ t.column = (specColumn pre : Int))
      ∧ List.Chain' positionBefore (tokenize source))
    ∧ (tokenize (List.replicate (2 ^ 31) ' ' ++ ['x'])
          = [⟨.IDENTIFIER, "x", 1, -2147483647⟩, ⟨.END_OF_FILE, "", 1, -2147483646⟩]
      ∧ specLine (List.replicate (2 ^ 31) ' ') = 1
      ∧ specColumn (List.replicate (2 ^ 31) ' ') = 2 ^ 31 + 1
      ∧ ¬ ∃ pre post, List.replicate (2 ^ 31) ' ' ++ ['x'] = pre ++ post
          ∧ tokenStartsAt ⟨.IDENTIFIER, "x", 1, -2147483647⟩ post
          ∧ (1 : Int) = (specLine pre : Int)
          ∧ (-2147483647 : Int) = (specColumn pre : Int)) := by
  constructor
  · intro source hlen
    have hlen1 : source.length + 1 < 2147483648 := hlen
    have hloc := tokenizeLoop_located source source.length ⟨source, 1, 1⟩ []
      (Lexer.At.start source) (fun t ht => absurd ht (List.not_mem_nil t))
    have hord := tokenizeLoop_ordered source hlen1 source.length ⟨source, 1, 1⟩ []
      (Lexer.At.start source) List.chain'_nil (fun t ht => by simp at ht)
    refine ⟨fun t ht hne => ?_, hord⟩
    unfold tokenize at ht
    rcases List.mem_append.mp ht with ht | ht
    · obtain ⟨pre, post, hs, hstart, hp⟩ := hloc t ht
      have hpre : pre.length + 1 < 2147483648 := by
        have h := congrArg List.length hs
        rw [List.length_append] at h
        omega
      rw [positionAfter_eq pre hpre] at hp
      exact ⟨pre, post, hs, hstart, (congrArg Prod.fst hp).symm, (congrArg Prod.snd hp).symm⟩
    · rw [List.mem_singleton.mp ht] at hne
      exact absurd rfl hne
  · have hpow : (2 ^ 31 : Nat) ≠ 0 := by decide
    have hcol : toInt32 (1 + ((2 ^ 31 : Nat) : Int)) = -2147483647 := by
      unfold toInt32
      norm_num
    have hcol1 : toInt32 (-2147483647 + 1) = -2147483646 := by decide
    refine ⟨?_, specLine_blanks _, ?_, ?_⟩
    · rw [tokenize_blanks_identifier (2 ^ 31) hpow, hcol, hcol1]
    · rw [specColumn_blanks]
      omega
    · rintro ⟨pre, post, _, _, _, h⟩
      have h0 : (0 : Int) ≤ (specColumn pre : Int) := Int.natCast_nonneg _
      omega

/-- Witness for C25: in the four-line source below the text literal spans two
lines and a comment follows it; the literal stands at line 2, column 3, the
identifier `y` at line 4, column 2. -/
theorem C25_token_positions_witness :
    (∃ pre post, "x\n  \"a\nb\" // c\n y".data = pre ++ post
      ∧ tokenStartsAt ⟨.STRING, "a\nb", 2, 3⟩ post
      ∧ (2 : Int) = (specLine pre : Int) ∧ (3 : Int) = (specColumn pre : Int))
    ∧ (∃ pre post, "x\n  \"a\nb\" // c\n y".data = pre ++ post
      ∧ tokenStartsAt ⟨.IDENTIFIER, "y", 4, 2⟩ post
      ∧ (4 : Int) = (specLine pre : Int) ∧ (2 : Int) = (specColumn pre : Int)) :=
  ⟨(C25_token_positions_in_int_range.1 "x\n  \"a\nb\" // c\n y".data (by decide)).1
      ⟨.STRING, "a\nb", 2, 3⟩ (by decide) (by decide),
   (C25_token_positions_in_int_range.1 "x\n  \"a\nb\" // c\n y".data (by decide)).1
      ⟨.IDENTIFIER, "y", 4, 2⟩ (by decide) (by decide)⟩

/-- C31 (the claim fails): VAR is one of the sixteen keyword kinds, and the
keyword table maps exactly one spelling to it, `var`: any two spellings of the
kind VAR are equal. -/
theorem C31_var_has_one_spelling :
    .VAR ∈ specKeywordKinds
    ∧ spellings .VAR = ["var"]
    ∧ ∀ a b : String, keywords a = some .VAR → keywords b = some .VAR → a = b := by
  refine ⟨by decide, by decide, fun a b ha hb => ?_⟩
  have h1 : ∀ s, keywords s = some .VAR → s = "var" := by
    intro s hs
    have hm := (mem_spellings s .VAR).2 ((keywords_iff_mem s .VAR).1 hs)
    have hv : spellings .VAR = ["var"] := by decide
    rw [hv] at hm
    exact List.mem_singleton.mp hm
  rw [h1 a ha, h1 b hb]

/-- C31 (amended): the keyword table maps a spelling to a kind exactly when the
spelling is listed for the kind below.  Each of the ten kinds CETAK, SELAMA,
JIKA, LAINNYA, FUNGSI, KEMBALIKAN, BACA_FILE, TULIS_FILE, SAMA, PANJANG has two
distinct spellings, a localized one and an English alias; each of the six kinds
VAR, CHAR_AT, IS_QUOTE, QUOTE_CHAR, IS_NEWLINE, NEWLINE_CHAR has one spelling.
A source that consists of a spelling of the table is scanned as one token of
the kind the table gives it. -/
theorem C31_keyword_spellings :
    (∀ (s : String) (t : TokenType), keywords s = some t ↔ s ∈ spellings t)
    ∧ spellings .CETAK = ["cetak", "print"]
    ∧ spellings .SELAMA = ["selama", "while"]
    ∧ spellings .JIKA = ["jika", "if"]
    ∧ spellings .LAINNYA = ["lainnya", "else"]
    ∧ spellings .FUNGSI = ["fungsi", "function"]
    ∧ spellings .KEMBALIKAN = ["kembalikan", "return"]
    ∧ spellings .BACA_FILE = ["baca_file", "read_file"]
    ∧ spellings .TULIS_FILE = ["tulis_file", "write_file"]
    ∧ spellings .SAMA = ["sama", "streq"]
    ∧ spellings .PANJANG = ["panjang", "strlen"]
    ∧ spellings .VAR = ["var"]
    ∧ spellings .CHAR_AT = ["char_at"]
    ∧ spellings .IS_QUOTE = ["is_quote"]
    ∧ spellings .QUOTE_CHAR = ["quote_char"]
    ∧ spellings .IS_NEWLINE = ["is_newline"]
    ∧ spellings .NEWLINE_CHAR = ["newline_char"]
    ∧ (∀ t, t ∉ specKeywordKinds → spellings t = [])
    ∧ ∀ p ∈ keywordTable,
        tokenize p.1.data = [⟨p.2, p.1, 1, 1⟩, ⟨.END_OF_FILE, "", 1, 1 + p.1.length⟩] := by
  have hother : ∀ t, t ∉ specKeywordKinds → spellings t = [] := by
    intro t ht
    cases t <;> first | rfl | exact absurd (by decide) ht
  have hscan : ∀ p ∈ keywordTable,
      tokenize p.1.data = [⟨p.2, p.1, 1, 1⟩, ⟨.END_OF_FILE, "", 1, 1 + p.1.length⟩] := by
    decide
  refine ⟨fun s t => (keywords_iff_mem s t).trans (mem_spellings s t).symm, ?_⟩
  repeat' apply And.intro
  all_goals first
    | exact hother
    | exact hscan
    | decide

/-- Witness for C31 (amended): `print` is a spelling of the kind CETAK, and
`cetak` is no spelling of the kind VAR. -/
theorem C31_keyword_spellings_witness :
    keywords "print" = some .CETAK ∧ keywords "cetak" ≠ some .VAR :=
  ⟨(C31_keyword_spellings.1 "print" .CETAK).2 (by decide),
   fun h => absurd ((C31_keyword_spellings.1 "cetak" .VAR).1 h) (by decide)⟩

/-- C36: tokenizing a source `s` followed by a NUL character and any text `t`
returns exactly the token sequence of `s` alone: the same kinds, lexemes, lines
and columns, the end-of-file token included, wherever the NUL falls.  Hence
the tokens of any source are those of its part in front of the first NUL
character.  When `s` holds no NUL character, no UNKNOWN token of the result has
a NUL in its lexeme. -/
theorem C36_scan_stops_at_nul (s t : List Char) :
    tokenize (s ++ NUL :: t) = tokenize s
    ∧ tokenize (s ++ NUL :: t) = tokenize ((s ++ NUL :: t).takeWhile fun c => c ≠ NUL)
    ∧ (NUL ∉ s → ∀ tok ∈ tokenize (s ++ NUL :: t), tok.type = .UNKNOWN →
        NUL ∉ tok.value.data) := by
  have key : ∀ (a b : List Char), tokenize (a ++ NUL :: b) = tokenize a := by
    intro a b
    have h := tokenizeLoop_withTail b (a ++ NUL :: b).length ⟨a, 1, 1⟩ []
    have hfuel : tokenizeLoop (a ++ NUL :: b).length ⟨a, 1, 1⟩ []
        = tokenizeLoop a.length ⟨a, 1, 1⟩ [] := by
      rw [List.length_append]
      exact tokenizeLoop_fuel_add ⟨a, 1, 1⟩ [] _
    rw [hfuel] at h
    unfold tokenize
    have h0 : tokenizeLoop (a ++ NUL :: b).length ⟨a ++ NUL :: b, 1, 1⟩ []
        = ((tokenizeLoop a.length ⟨a, 1, 1⟩ []).1,
           (tokenizeLoop a.length ⟨a, 1, 1⟩ []).2.withTail (NUL :: b)) := h
    simp only [h0]
    rfl
  refine ⟨key s t, ?_, ?_⟩
  · have hsplit : ∀ (a : List Char), (∃ b, a = (a.takeWhile fun c => c ≠ NUL) ++ NUL :: b)
        ∨ a = a.takeWhile fun c => c ≠ NUL := by
      intro a
      induction a with
      | nil => exact Or.inr rfl
      | cons c cs ih =>
        by_cases hc : c = NUL
        · exact Or.inl ⟨cs, by simp [List.takeWhile, hc]⟩
        · rcases ih with ⟨b, hb⟩ | hb
          · exact Or.inl ⟨b, by
              rw [List.takeWhile_cons_of_pos (by simpa using hc), List.cons_append, ← hb]⟩
          · exact Or.inr (by rw [List.takeWhile_cons_of_pos (by simpa using hc), ← hb])
    rcases hsplit (s ++ NUL :: t) with ⟨b, hb⟩ | hb
    · exact (congrArg tokenize hb).trans (key _ b)
    · exact congrArg tokenize hb
  · intro hs tok htok hty hmem
    rw [key s t] at htok
    unfold tokenize at htok
    rcases List.mem_append.mp htok with h | h
    · have hloc := tokenizeLoop_located s s.length ⟨s, 1, 1⟩ [] (Lexer.At.start s)
        (fun u hu => absurd hu (List.not_mem_nil u)) tok h
      exact hs (hloc.lexeme_subset (by rw [hty]; decide) (by rw [hty]; decide) NUL hmem)
    · rw [List.mem_singleton.mp h] at hty
      have hne : TokenType.END_OF_FILE ≠ TokenType.UNKNOWN := by decide
      exact absurd hty hne

/-- Witness for C36: a NUL inside an unterminated text literal; the source
`a "b` holds no NUL character. -/
theorem C36_scan_stops_at_nul_witness :
    tokenize ("a \"b".data ++ NUL :: "c\" d".data)
      = [⟨.IDENTIFIER, "a", 1, 1⟩, ⟨.STRING, "b", 1, 3⟩, ⟨.END_OF_FILE, "", 1, 5⟩]
    ∧ ∀ tok ∈ tokenize ("a \"b".data ++ NUL :: "c\" d".data), tok.type = .UNKNOWN →
        NUL ∉ tok.value.data :=
  ⟨(C36_scan_stops_at_nul "a \"b".data "c\" d".data).1.trans (by decide),
   (C36_scan_stops_at_nul "a \"b".data "c\" d".data).2.2 (by decide)⟩

end ScannerClaims

/-! ## Claims about the runtime library -/

section RuntimeClaims

/-- C27 (defect of the code): `__wear_char_at` compares the index with
`(int)strlen(s)`.  For every text shorter than 2^31 characters, and `malloc`
returning a block, the call returns the one-character text of the character at
`index` when `0 ≤ index < length(s)`, and the empty text otherwise.  For a text
of 2^31 characters the converted length is negative, and the call returns the
empty text for the index 0, which is inside the text. -/
theorem C27_char_at_compares_with_int_length :
    (∀ (s : List Char) (index : Int), (∀ c ∈ s, c ≠ NUL) → s.length < 2 ^ 31 →
      __wear_char_at true s index
        = .ok (if 0 ≤ index ∧ index < (s.length : Int) then [s.getD index.toNat NUL] else []))
    ∧ ((0 : Int) ≤ 0 ∧ (0 : Int) < ((List.replicate (2 ^ 31) 'a').length : Int)
      ∧ __wear_char_at true (List.replicate (2 ^ 31) 'a') 0 = .ok []) := by
  constructor
  · intro s index hs hlen
    have hconv : toInt32 (s.length : Int) = (s.length : Int) := by
      unfold toInt32
      have h1 : ((s.length : Int) + 2 ^ 31) % 2 ^ 32 = (s.length : Int) + 2 ^ 31 := by
        apply Int.emod_eq_of_lt <;> omega
      rw [h1]
      omega
    unfold __wear_char_at
    rw [hconv]
    simp only [Bool.true_eq_false, if_false, ge_iff_le]
    by_cases hin : 0 ≤ index ∧ index < (s.length : Int)
    · rw [if_pos hin, if_pos hin]
      have hidx : index.toNat < s.length := by omega
      have hc : s.getD index.toNat NUL ≠ NUL := by
        rw [List.getD_eq_getElem s NUL hidx]
        exact hs _ (List.getElem_mem _)
      generalize s.getD index.toNat NUL = c at hc
      simp [cText, List.takeWhile, hc]
    · rw [if_neg hin, if_neg hin]
      rfl
  · refine ⟨le_refl _, ?_, ?_⟩
    · rw [List.length_replicate]
      norm_num
    · unfold __wear_char_at
      rw [List.length_replicate]
      have hneg : ¬ ((0 : Int) ≥ 0 ∧ (0 : Int) < toInt32 ((2 ^ 31 : Nat) : Int)) := by
        unfold toInt32
        norm_num
      simp only [Bool.true_eq_false, if_false]
      rw [if_neg hneg]
      rfl

/-- Witness for C27: the character at index 1 of `abc`, and the indexes 3 and -1
outside it. -/
theorem C27_char_at_witness :
    __wear_char_at true "abc".data 1 = .ok ['b']
    ∧ __wear_char_at true "abc".data 3 = .ok []
    ∧ __wear_char_at true "abc".data (-1) = .ok [] :=
  ⟨(C27_char_at_compares_with_int_length.1 "abc".data 1 (by decide) (by decide)).trans rfl,
   (C27_char_at_compares_with_int_length.1 "abc".data 3 (by decide) (by decide)).trans rfl,
   (C27_char_at_compares_with_int_length.1 "abc".data (-1) (by decide) (by decide)).trans rfl⟩

end RuntimeClaims

end WeaR
